import Mathlib

/-!
# creality2mqtt: a shallow embedding of the bridge core

The Go packages `internal/types`, `internal/mapper`, `internal/mqttclient` and
`internal/discovery` are translated function by function.  Package-level mutable
variables (`printerStatusCache`, `discoverMessages`) and the fields of
`mqttclient.Client` become explicit state that every operation receives and returns;
`time.Now()` becomes an explicit argument; a call of the broker library's
`client.Publish` becomes an element of the returned list of transmitted messages.

The functions of the standard library that these packages call (`strconv.ParseInt`,
`strconv.ParseFloat`, the `%.3f` and `%v` formats of package `fmt`, `json.Unmarshal` into a
`map[string]any`, `strings.TrimSpace`, `filepath.Base`, the case functions of package
`unicode`) are modelled from their documented behaviour.  A `float64` is an exact dyadic
value and every rounding is computed exactly (to nearest, ties to even).  The case tables of
`unicode` for the characters above U+007F are a parameter of the functions that use them.
A byte slice that holds JSON is represented by its text.
-/

namespace Creality

/-! ## Go runtime values -/

/-- Lower bound of `int64`. -/
def minInt64 : Int := -9223372036854775808

/-- Upper bound of `int64`. -/
def maxInt64 : Int := 9223372036854775807

/-- Two's-complement reduction of an integer to the `int64` range. -/
def wrapInt64 (v : Int) : Int := (v + 9223372036854775808) % 18446744073709551616 - 9223372036854775808

/-- An IEEE-754 binary floating point value; a finite value is `(-1)^neg * mant * 2^exp`. -/
inductive F64 where
  | finite (neg : Bool) (mant : Nat) (exp : Int)
  | inf (neg : Bool)
  | nan
  deriving Repr, DecidableEq

/-- The integer part (rounded toward zero) of a finite value; `none` for NaN and infinities. -/
def F64.trunc : F64 → Option Int
  | .finite neg mant exp =>
      let mag : Nat := if 0 ≤ exp then mant * 2 ^ exp.toNat else mant / 2 ^ (-exp).toNat
      some (if neg then -(mag : Int) else (mag : Int))
  | .inf _ => none
  | .nan => none

/-- Go conversion `int64(v)` of a `float64`: the fraction is discarded; when the value does not
fit (or is NaN or infinite) the result is implementation-specific, and the amd64 result
(the "integer indefinite" value `-2^63`) is used. -/
def F64.toInt64 (v : F64) : Int :=
  match v.trunc with
  | some n => if minInt64 ≤ n ∧ n ≤ maxInt64 then n else minInt64
  | none => minInt64

/-- A dynamically typed Go value (`any`) as it occurs in a snapshot `map[string]any`. -/
inductive Value where
  | float64 (v : F64)
  | float32 (v : F64)
  | int (v : Int)
  | int32 (v : Int)
  | int64 (v : Int)
  | string (s : String)
  | bool (b : Bool)
  | null
  | object (fields : List (String × Value))
  | array (items : List Value)

/-- A snapshot `map[string]any`, as a list of bindings; a key is looked up at its first binding. -/
abbrev Snapshot := List (String × Value)

/-- Map index expression `raw, ok := msg[key]`. -/
def Snapshot.get : Snapshot → String → Option Value
  | [], _ => none
  | (k, v) :: rest, key => if k = key then some v else Snapshot.get rest key

/-! ## Package strconv -/

/-- The value of a decimal digit character. -/
def digitVal (c : Char) : Option Nat :=
  if '0' ≤ c ∧ c ≤ '9' then some (c.toNat - '0'.toNat) else none

/-- Reads a non-empty run of decimal digits (base 10, no underscores), most significant first. -/
def parseDigits : List Char → Option Nat
  | [] => none
  | cs => cs.foldl (fun acc c => match acc, digitVal c with
      | some n, some d => some (n * 10 + d)
      | _, _ => none) (some 0)

/-- Go `strconv.ParseInt(s, 10, 64)`; `none` stands for a non-nil error (syntax or range). -/
def ParseInt (s : String) : Option Int :=
  match s.data with
  | [] => none
  | '+' :: rest =>
      match parseDigits rest with
      | some n => if (n : Int) ≤ maxInt64 then some (n : Int) else none
      | none => none
  | '-' :: rest =>
      match parseDigits rest with
      | some n => if -(n : Int) ≥ minInt64 then some (-(n : Int)) else none
      | none => none
  | cs =>
      match parseDigits cs with
      | some n => if (n : Int) ≤ maxInt64 then some (n : Int) else none
      | none => none

/-- Go `strconv.FormatInt(n, 10)`. -/
def FormatInt (n : Int) : String :=
  match n with
  | Int.ofNat m => Nat.repr m
  | Int.negSucc m => "-" ++ Nat.repr (m + 1)

namespace mapper

/-- Go `getInt` of `internal/mapper/job.go`: normalises numeric-ish values to `int64`;
`none` stands for the result `(0, false)`. -/
def getInt (msg : Snapshot) (key : String) : Option Int :=
  match msg.get key with
  | none => none
  | some raw =>
      match raw with
      | .float64 v => some v.toInt64
      | .int v => some (wrapInt64 v)
      | .int32 v => some (wrapInt64 v)
      | .int64 v => some (wrapInt64 v)
      | .string v => ParseInt v
      | _ => none

/-- Go `derivePrinterStatus` of `internal/mapper/state.go`. -/
def derivePrinterStatus (msg : Snapshot) : String :=
  if (match getInt msg "printProgress" with
      | some progress => decide (progress > 0) &&
          (match getInt msg "leftTime" with
           | some left => decide (left > 0)
           | none => false)
      | none => false) then "active"
  else if (match getInt msg "printJobTime" with
      | some left => decide (left > 0)
      | none => false) then "active"
  else if (match getInt msg "printLeftTime" with
      | some left => decide (left > 0)
      | none => false) then "active"
  else if (match getInt msg "layer" with
      | some left => decide (left > 0)
      | none => false) then "active"
  else if (match getInt msg "gcodeState" with
      | some state => decide (state > 0)
      | none => false) then "active"
  else "idle"

/-- One heuristic of `derivePrinterStatus` other than the first: the field coerces with
`getInt` and is greater than zero. -/
def signal (msg : Snapshot) (key : String) : Prop :=
  ∃ v, getInt msg key = some v ∧ v > 0

/-! ### job.go -/

/-- Go `unicode.IsSpace`: the Latin-1 white space and the characters of category Z. -/
def isSpace (c : Char) : Bool :=
  c = '\t' || c = '\n' || c.toNat = 0x0B || c.toNat = 0x0C || c = '\r' || c = ' ' ||
  c.toNat = 0x85 || c.toNat = 0xA0 || c.toNat = 0x1680 ||
  (0x2000 ≤ c.toNat && c.toNat ≤ 0x200A) ||
  c.toNat = 0x2028 || c.toNat = 0x2029 || c.toNat = 0x202F || c.toNat = 0x205F ||
  c.toNat = 0x3000

/-- Go `strings.TrimSpace`, on the characters of the string. -/
def TrimSpace (cs : List Char) : List Char :=
  ((cs.dropWhile isSpace).reverse.dropWhile isSpace).reverse

/-- Go `filepath.Base` for the Unix separator: trailing slashes are stripped, the text after
the last remaining slash is kept, the empty path gives "." and a path of slashes gives "/". -/
def filepathBase (path : List Char) : List Char :=
  if path = [] then ['.']
  else
    let stripped := (path.reverse.dropWhile (fun c => c = '/')).reverse
    let last := (stripped.reverse.takeWhile (fun c => c ≠ '/')).reverse
    if last = [] then ['/'] else last

/-- Go `simplifyFileName` of `internal/mapper/job.go`. -/
def simplifyFileName (full : String) : String :=
  let trimmed := TrimSpace full.data
  if trimmed = [] then String.mk trimmed
  else
    let normalised := trimmed.map (fun c => if c = '\\' then '/' else c)
    String.mk (filepathBase normalised)

end mapper

namespace types

/-- Go `types.MqttMessage`: a single MQTT publish operation. -/
structure MqttMessage where
  Topic : String
  Payload : String
  Retain : Bool
  deriving Repr, DecidableEq

end types

open types

namespace mapper

/-- Go `BuildJobMessages` of `internal/mapper/job.go`.  The result slice `out` is written as
the concatenation, in source order, of what each `append` statement contributes: the
unconditional printing message, then one optional message per guarded `append`. -/
def BuildJobMessages (msg : Snapshot) (baseTopic : String) : List MqttMessage :=
  let progress := getInt msg "printProgress"
  let left := getInt msg "printLeftTime"
  let jobTime := getInt msg "printJobTime"
  let layer := getInt msg "layer"
  let totalLayer := getInt msg "TotalLayer"
  let printing : Bool :=
    match progress, left with
    | some p, some l => decide (p > 0) && decide (l > 0)
    | _, _ => false
  let printingPayload := if printing then "true" else "false"
  [{ Topic := baseTopic ++ "/printing", Payload := printingPayload, Retain := false }]
  ++ (match progress with
      | some p => [{ Topic := baseTopic ++ "/job/progress", Payload := FormatInt p, Retain := false }]
      | none => [])
  ++ (match left with
      | some l => [{ Topic := baseTopic ++ "/job/left_time", Payload := FormatInt l, Retain := false }]
      | none => [])
  ++ (match jobTime with
      | some j => [{ Topic := baseTopic ++ "/job/job_time", Payload := FormatInt j, Retain := false }]
      | none => [])
  ++ (match layer with
      | some l => [{ Topic := baseTopic ++ "/job/layer/current", Payload := FormatInt l, Retain := false }]
      | none => [])
  ++ (match totalLayer with
      | some t =>
          if t > 0 then
            [{ Topic := baseTopic ++ "/job/layer/total", Payload := FormatInt t, Retain := false }]
          else []
      | none => [])
  ++ (match msg.get "printFileName" with
      | some (.string s) =>
          if s ≠ "" then
            [{ Topic := baseTopic ++ "/job/file_name", Payload := simplifyFileName s, Retain := false }]
          else []
      | _ => [])
  ++ (match getInt msg "feedState" with
      | some f => [{ Topic := baseTopic ++ "/feed_state", Payload := FormatInt f, Retain := false }]
      | none => [])

end mapper

/-! ## Package time -/

/-! A Go `time.Time` is an integer: the nanoseconds since the zero time (1 January of year 1,
UTC), so the zero `Time` is `0`.  A `time.Duration` is an integer number of nanoseconds. -/

/-- Go `t.IsZero()`. -/
def Time.IsZero (t : Int) : Bool := decide (t = 0)

/-- Go `t.Sub(u)`: the duration `t - u` in nanoseconds, saturating at the bounds of `int64`. -/
def Time.Sub (t u : Int) : Int :=
  if t - u > maxInt64 then maxInt64
  else if t - u < minInt64 then minInt64
  else t - u

namespace mapper

/-! ### state.go -/

/-- Go package variable `printerStatusCache` (without its mutex). -/
structure PrinterStatusCache where
  lastStatus : String
  lastPublished : Int
  lastUpdate : Int
  deriving Repr, DecidableEq

/-- The zero value of `printerStatusCache` at process start. -/
def PrinterStatusCache.initial : PrinterStatusCache :=
  { lastStatus := "", lastPublished := 0, lastUpdate := 0 }

/-- Go `statusUpdateInterval = 10 * time.Second`, in nanoseconds. -/
def statusUpdateInterval : Int := 10 * 1000000000

/-- Go `getRateLimitedPrinterStatus` of `internal/mapper/state.go`, with the cache and the
reading of `time.Now()` explicit.  Returns `(status, shouldPublish)` and the new cache. -/
def getRateLimitedPrinterStatus (cache : PrinterStatusCache) (now : Int) (msg : Snapshot) :
    (String × Bool) × PrinterStatusCache :=
  let currentStatus := derivePrinterStatus msg
  let cache : PrinterStatusCache :=
    if currentStatus = "active" then { cache with lastUpdate := now } else cache
  let currentStatus :=
    if currentStatus = "idle" ∧ ¬ Time.IsZero cache.lastUpdate then
      if Time.Sub now cache.lastUpdate < statusUpdateInterval then
        if cache.lastStatus = "active" then "active" else currentStatus
      else currentStatus
    else currentStatus
  let shouldPublish : Bool :=
    if currentStatus ≠ cache.lastStatus then true
    else if Time.Sub now cache.lastPublished ≥ statusUpdateInterval then true
    else false
  let cache : PrinterStatusCache :=
    if shouldPublish then { cache with lastStatus := currentStatus, lastPublished := now } else cache
  ((currentStatus, shouldPublish), cache)

/-- Go `BuildStateMessages` of `internal/mapper/state.go`, with the cache and the clock
explicit; `out` is the concatenation of what the two guarded `append` statements contribute. -/
def BuildStateMessages (cache : PrinterStatusCache) (now : Int) (msg : Snapshot)
    (baseTopic : String) : List MqttMessage × PrinterStatusCache :=
  let r := getRateLimitedPrinterStatus cache now msg
  let status := r.1.1
  let shouldPublish := r.1.2
  ((if shouldPublish then
      [{ Topic := baseTopic ++ "/printer_status", Payload := status, Retain := false }]
    else [])
   ++ (match getInt msg "tfCard" with
       | some tf =>
           let tfPayload := if tf = 1 then "true" else "false"
           [{ Topic := baseTopic ++ "/tf_card_present", Payload := tfPayload, Retain := false }]
       | none => []),
   r.2)

/-- A run of `getRateLimitedPrinterStatus` over successive calls, each with its clock reading
and snapshot; returns the results in call order and the final cache. -/
def runStatus : PrinterStatusCache → List (Int × Snapshot) → List (String × Bool) × PrinterStatusCache
  | cache, [] => ([], cache)
  | cache, (now, msg) :: rest =>
      let r := getRateLimitedPrinterStatus cache now msg
      let rs := runStatus r.2 rest
      (r.1 :: rs.1, rs.2)

end mapper

/-! ## Package mqttclient -/

/-- A Go `map[string]V`: the value bound to each key, if any. -/
abbrev GoMap (V : Type) := String → Option V

/-- The empty map `make(map[string]V)`. -/
def GoMap.empty {V : Type} : GoMap V := fun _ => none

/-- Map assignment `m[key] = v`. -/
def GoMap.set {V : Type} (m : GoMap V) (key : String) (v : V) : GoMap V :=
  fun k => if k = key then some v else m k

/-- Go `delete(m, key)`. -/
def GoMap.delete {V : Type} (m : GoMap V) (key : String) : GoMap V :=
  fun k => if k = key then none else m k

/-- Index expression `m[key]` on a `map[string]time.Time`: the zero `Time` when the key is
absent. -/
def GoMap.index (m : GoMap Int) (key : String) : Int := (m key).getD 0

namespace mqttclient

/-- Go `mqttclient.Client` (without its mutex): `clientIsConnected` is the answer of the
broker library's `client.IsConnected()`. -/
structure Client where
  clientIsConnected : Bool
  minInterval : Int
  lastPublished : GoMap Int
  lastPayload : GoMap String
  testBypassConnection : Bool

/-- Go `(*Client).Publish` of `internal/mqttclient/client.go`, with the reading of
`time.Now()` explicit.  Returns the messages handed to the broker library's
`client.Publish(topic, 0, retain, payload)` (the transmissions) and the new client state. -/
def Client.Publish (c : Client) (now : Int) (topic payload : String) (retain : Bool) :
    List MqttMessage × Client :=
  let connected := c.testBypassConnection || c.clientIsConnected
  if ¬ connected then ([], c)
  else if retain ∨ c.minInterval ≤ 0 then
    ([{ Topic := topic, Payload := payload, Retain := retain }], c)
  else
    let last : Int := c.lastPublished.index topic
    let elapsed := Time.Sub now last
    if elapsed < c.minInterval then
      ([], { c with lastPayload := c.lastPayload.set topic payload })
    else
      match c.lastPayload topic with
      | some pending =>
          if pending ≠ "" then
            ([{ Topic := topic, Payload := pending, Retain := retain }],
              { c with lastPayload := c.lastPayload.delete topic,
                       lastPublished := c.lastPublished.set topic now })
          else
            ([{ Topic := topic, Payload := payload, Retain := retain }],
              { c with lastPublished := c.lastPublished.set topic now })
      | none =>
          ([{ Topic := topic, Payload := payload, Retain := retain }],
            { c with lastPublished := c.lastPublished.set topic now })

/-- The client that Go `New` returns once the broker connection is up: no rate limiting,
empty throttle tables. -/
def New : Client :=
  { clientIsConnected := true, minInterval := 0, lastPublished := GoMap.empty,
    lastPayload := GoMap.empty, testBypassConnection := false }

/-- Go `(*Client).SetMinInterval`. -/
def Client.SetMinInterval (c : Client) (d : Int) : Client := { c with minInterval := d }

/-- Go `(*Client).SetTestBypassConnection`. -/
def Client.SetTestBypassConnection (c : Client) (b : Bool) : Client :=
  { c with testBypassConnection := b }

/-- A clock reading of the year 2026, in nanoseconds since the zero time. -/
def clock2026 : Int := 63900000000000000000

/-- Go `time.Second`. -/
def Second : Int := 1000000000

/-- Go `time.Millisecond`. -/
def Millisecond : Int := 1000000

/-- The client of the test case "second message within interval", throttled to one second:
it has sent "first message" on test/ratelimited and, 10 ms later, been handed `p`. -/
def deferredClient (p : String) : Client :=
  (((New.SetMinInterval Second).Publish clock2026 "test/ratelimited" "first message"
    false).2.Publish (clock2026 + 10 * Millisecond) "test/ratelimited" p false).2

/-- One call of `Publish`: clock reading, topic, payload, retain flag. -/
structure Call where
  now : Int
  topic : String
  payload : String
  retain : Bool

/-- Successive calls of `Publish`; returns, per call and in call order, the messages that
call transmitted, and the final client state. -/
def Client.run : Client → List Call → List (List MqttMessage) × Client
  | c, [] => ([], c)
  | c, call :: rest =>
      let r := c.Publish call.now call.topic call.payload call.retain
      let rs := Client.run r.2 rest
      (r.1 :: rs.1, rs.2)

end mqttclient

/-! ## Package encoding/json (the part `json.Marshal` uses for these structs) -/

namespace json

/-- The lower-case hexadecimal digit of a value below sixteen. -/
def hexDigit (n : Nat) : Char := "0123456789abcdef".data.getD n '0'

/-- How `json.Marshal` writes one character of a string (HTML escaping on, as `Marshal`
has it): quote and backslash are escaped, `\b \f \n \r \t` get their short forms (Go 1.22 and
later), other control characters and `< > &` are written as a `\u00XX` escape, the line and
paragraph separators U+2028 and U+2029 as their `\u` escapes, every other character as
itself. -/
def escapeChar (c : Char) : List Char :=
  if c.toNat = 34 then [Char.ofNat 92, Char.ofNat 34]
  else if c.toNat = 92 then [Char.ofNat 92, Char.ofNat 92]
  else if c.toNat = 8 then [Char.ofNat 92, 'b']
  else if c.toNat = 12 then [Char.ofNat 92, 'f']
  else if c.toNat = 10 then [Char.ofNat 92, 'n']
  else if c.toNat = 13 then [Char.ofNat 92, 'r']
  else if c.toNat = 9 then [Char.ofNat 92, 't']
  else if c.toNat < 32 ∨ c = '<' ∨ c = '>' ∨ c = '&' then
    [Char.ofNat 92, 'u', '0', '0', hexDigit (c.toNat / 16), hexDigit (c.toNat % 16)]
  else if c.toNat = 0x2028 then [Char.ofNat 92, 'u', '2', '0', '2', '8']
  else if c.toNat = 0x2029 then [Char.ofNat 92, 'u', '2', '0', '2', '9']
  else [c]

/-- The JSON encoding of a Go string. -/
def string (s : String) : String :=
  String.mk ([Char.ofNat 34] ++ (s.data.map escapeChar).flatten ++ [Char.ofNat 34])

/-- A struct field that is always written: `"name":value`. -/
def field (name value : String) : Option String :=
  some (string name ++ ":" ++ value)

/-- A string field tagged `omitempty`: left out when the string is empty. -/
def omitempty (name value : String) : Option String :=
  if value = "" then none else some (string name ++ ":" ++ string value)

/-- A JSON object of the fields that are written, in declaration order. -/
def object (fields : List (Option String)) : String :=
  "\x7b" ++ ",".intercalate (fields.filterMap id) ++ "\x7d"

/-- A JSON array. -/
def array (items : List String) : String :=
  "[" ++ ",".intercalate items ++ "]"

end json

namespace types

/-- Go `types.TopicBuilder`. -/
structure TopicBuilder where
  BaseTopic : String
  DiscoveryPrefix : String

/-- Go `types.NewTopicBuilder`. -/
def NewTopicBuilder (baseTopic discoveryPrefix : String) : TopicBuilder :=
  { BaseTopic := baseTopic, DiscoveryPrefix := discoveryPrefix }

/-- Go `(*TopicBuilder).Availability`. -/
def TopicBuilder.Availability (tb : TopicBuilder) : String := tb.BaseTopic ++ "/status"

/-- Go `(*TopicBuilder).HAStatus`. -/
def TopicBuilder.HAStatus (tb : TopicBuilder) : String := tb.DiscoveryPrefix ++ "/status"

/-- Go `(*TopicBuilder).LightState`. -/
def TopicBuilder.LightState (tb : TopicBuilder) : String := tb.BaseTopic ++ "/light_sw"

/-- Go `(*TopicBuilder).LightCommand`. -/
def TopicBuilder.LightCommand (tb : TopicBuilder) : String := tb.BaseTopic ++ "/light_sw/set"

/-- Go `(*TopicBuilder).CameraStreamURL`. -/
def TopicBuilder.CameraStreamURL (tb : TopicBuilder) : String :=
  tb.BaseTopic ++ "/camera_stream_url"

/-- Go `(*TopicBuilder).Discovery`. -/
def TopicBuilder.Discovery (tb : TopicBuilder) (component deviceID entityID : String) : String :=
  tb.DiscoveryPrefix ++ "/" ++ component ++ "/" ++ deviceID ++ "/" ++ entityID ++ "/config"

/-- Go `(*TopicBuilder).Data`. -/
def TopicBuilder.Data (tb : TopicBuilder) (subtopic : String) : String :=
  tb.BaseTopic ++ "/" ++ subtopic

end types

namespace discovery

/-- Go `discovery.Config`. -/
structure Config where
  DiscoveryPrefix : String
  BaseTopic : String
  DeviceID : String
  DeviceName : String
  DeviceModel : String
  PrinterIP : String
  deriving Repr, DecidableEq

/-- Go `discovery.Device`. -/
structure Device where
  Identifiers : List String
  Name : String
  Manufacturer : String
  Model : String

/-- Go `discovery.SensorConfig`. -/
structure SensorConfig where
  Name : String
  UniqueID : String
  StateTopic : String
  AvailabilityTopic : String := ""
  PayloadAvailable : String := ""
  PayloadNotAvail : String := ""
  UnitOfMeasurement : String := ""
  DeviceClass : String := ""
  StateClass : String := ""
  Icon : String := ""
  Device : Device

/-- Go `discovery.BinarySensorConfig`. -/
structure BinarySensorConfig where
  Name : String
  UniqueID : String
  StateTopic : String
  AvailabilityTopic : String := ""
  PayloadAvailable : String := ""
  PayloadNotAvail : String := ""
  PayloadOn : String
  PayloadOff : String
  DeviceClass : String := ""
  Icon : String := ""
  Device : Device

/-- Go `discovery.SwitchConfig`. -/
structure SwitchConfig where
  Name : String
  UniqueID : String
  StateTopic : String
  CommandTopic : String
  AvailabilityTopic : String
  PayloadAvailable : String
  PayloadNotAvail : String
  PayloadOn : String
  PayloadOff : String
  StateOn : String
  StateOff : String
  Icon : String := ""
  Device : Device

/-- The output of `json.Marshal` for a `*Device`, by its struct tags. -/
def Device.marshal (d : Device) : String :=
  json.object [
    json.field "identifiers" (json.array (d.Identifiers.map json.string)),
    json.field "name" (json.string d.Name),
    json.field "mf" (json.string d.Manufacturer),
    json.field "mdl" (json.string d.Model)]

/-- The output of `json.Marshal` for a `SensorConfig`, by its struct tags. -/
def SensorConfig.marshal (c : SensorConfig) : String :=
  json.object [
    json.field "name" (json.string c.Name),
    json.field "unique_id" (json.string c.UniqueID),
    json.field "state_topic" (json.string c.StateTopic),
    json.omitempty "availability_topic" c.AvailabilityTopic,
    json.omitempty "payload_available" c.PayloadAvailable,
    json.omitempty "payload_not_available" c.PayloadNotAvail,
    json.omitempty "unit_of_measurement" c.UnitOfMeasurement,
    json.omitempty "device_class" c.DeviceClass,
    json.omitempty "state_class" c.StateClass,
    json.omitempty "icon" c.Icon,
    json.field "device" c.Device.marshal]

/-- The output of `json.Marshal` for a `BinarySensorConfig`, by its struct tags. -/
def BinarySensorConfig.marshal (c : BinarySensorConfig) : String :=
  json.object [
    json.field "name" (json.string c.Name),
    json.field "unique_id" (json.string c.UniqueID),
    json.field "state_topic" (json.string c.StateTopic),
    json.omitempty "availability_topic" c.AvailabilityTopic,
    json.omitempty "payload_available" c.PayloadAvailable,
    json.omitempty "payload_not_available" c.PayloadNotAvail,
    json.field "payload_on" (json.string c.PayloadOn),
    json.field "payload_off" (json.string c.PayloadOff),
    json.omitempty "device_class" c.DeviceClass,
    json.omitempty "icon" c.Icon,
    json.field "device" c.Device.marshal]

/-- The output of `json.Marshal` for a `SwitchConfig`, by its struct tags. -/
def SwitchConfig.marshal (c : SwitchConfig) : String :=
  json.object [
    json.field "name" (json.string c.Name),
    json.field "unique_id" (json.string c.UniqueID),
    json.field "state_topic" (json.string c.StateTopic),
    json.field "command_topic" (json.string c.CommandTopic),
    json.field "availability_topic" (json.string c.AvailabilityTopic),
    json.field "payload_available" (json.string c.PayloadAvailable),
    json.field "payload_not_available" (json.string c.PayloadNotAvail),
    json.field "payload_on" (json.string c.PayloadOn),
    json.field "payload_off" (json.string c.PayloadOff),
    json.field "state_on" (json.string c.StateOn),
    json.field "state_off" (json.string c.StateOff),
    json.omitempty "icon" c.Icon,
    json.field "device" c.Device.marshal]

/-- Go `BuildTemperatureSensors` of `internal/discovery/sensors.go`. -/
def BuildTemperatureSensors (cfg : Config) (device : Device) (availTopic : String) :
    List MqttMessage :=
  let tempSensors : List (String × String × String) := [
    ("Nozzle Temperature", cfg.BaseTopic ++ "/temperature/nozzle/current", "nozzle_temp_current"),
    ("Nozzle Target Temperature", cfg.BaseTopic ++ "/temperature/nozzle/target", "nozzle_temp_target"),
    ("Bed Temperature", cfg.BaseTopic ++ "/temperature/bed0/current", "bed_temp_current"),
    ("Bed Target Temperature", cfg.BaseTopic ++ "/temperature/bed0/target", "bed_temp_target")]
  tempSensors.map (fun ts =>
    let configTopic := cfg.DiscoveryPrefix ++ "/sensor/" ++ cfg.DeviceID ++ "/" ++ ts.2.2 ++ "/config"
    let config : SensorConfig := {
      Name := ts.1
      UniqueID := cfg.DeviceID ++ "_" ++ ts.2.2
      StateTopic := ts.2.1
      AvailabilityTopic := availTopic
      PayloadAvailable := "online"
      PayloadNotAvail := "offline"
      UnitOfMeasurement := "°C"
      DeviceClass := "temperature"
      StateClass := "measurement"
      Icon := "mdi:thermometer"
      Device := device }
    { Topic := configTopic, Payload := config.marshal, Retain := true })

/-- Go `BuildFeedStateSensor` of `internal/discovery/sensors.go`. -/
def BuildFeedStateSensor (cfg : Config) (device : Device) (availTopic : String) :
    List MqttMessage :=
  let configTopic := cfg.DiscoveryPrefix ++ "/sensor/" ++ cfg.DeviceID ++ "/feed_state/config"
  let config : SensorConfig := {
    Name := "Feed State"
    UniqueID := cfg.DeviceID ++ "_feed_state"
    StateTopic := cfg.BaseTopic ++ "/feed_state"
    AvailabilityTopic := availTopic
    PayloadAvailable := "online"
    PayloadNotAvail := "offline"
    Icon := "mdi:printer-3d-nozzle"
    Device := device }
  [{ Topic := configTopic, Payload := config.marshal, Retain := true }]

/-- Go `BuildStatusSensor` of `internal/discovery/sensors.go`. -/
def BuildStatusSensor (cfg : Config) (device : Device) (availTopic : String) :
    List MqttMessage :=
  let configTopic := cfg.DiscoveryPrefix ++ "/sensor/" ++ cfg.DeviceID ++ "/printer_status/config"
  let config : SensorConfig := {
    Name := "Printer Status"
    UniqueID := cfg.DeviceID ++ "_printer_status"
    StateTopic := cfg.BaseTopic ++ "/printer_status"
    AvailabilityTopic := availTopic
    PayloadAvailable := "online"
    PayloadNotAvail := "offline"
    Icon := "mdi:printer-3d"
    Device := device }
  [{ Topic := configTopic, Payload := config.marshal, Retain := true }]

/-- Go `BuildFanSensors` of `internal/discovery/sensors.go`. -/
def BuildFanSensors (cfg : Config) (device : Device) (availTopic : String) :
    List MqttMessage :=
  let fanSensors : List (String × String × String × String) := [
    ("Model Fan Speed", cfg.BaseTopic ++ "/model_fan_pct", "model_fan_pct", "mdi:fan"),
    ("Auxiliary Fan Speed", cfg.BaseTopic ++ "/auxiliary_fan_pct", "auxiliary_fan_pct", "mdi:fan"),
    ("Case Fan Speed", cfg.BaseTopic ++ "/case_fan_pct", "case_fan_pct", "mdi:fan")]
  fanSensors.map (fun fs =>
    let configTopic := cfg.DiscoveryPrefix ++ "/sensor/" ++ cfg.DeviceID ++ "/" ++ fs.2.2.1 ++ "/config"
    let config : SensorConfig := {
      Name := fs.1
      UniqueID := cfg.DeviceID ++ "_" ++ fs.2.2.1
      StateTopic := fs.2.1
      AvailabilityTopic := availTopic
      PayloadAvailable := "online"
      PayloadNotAvail := "offline"
      UnitOfMeasurement := "%"
      Icon := fs.2.2.2
      StateClass := "measurement"
      Device := device }
    { Topic := configTopic, Payload := config.marshal, Retain := true })

/-- Go `BuildProgressSensor` of `internal/discovery/sensors.go`. -/
def BuildProgressSensor (cfg : Config) (device : Device) (availTopic : String) :
    List MqttMessage :=
  let progressTopic := cfg.DiscoveryPrefix ++ "/sensor/" ++ cfg.DeviceID ++ "/print_progress/config"
  let progressConfig : SensorConfig := {
    Name := "Print Progress"
    UniqueID := cfg.DeviceID ++ "_print_progress"
    StateTopic := cfg.BaseTopic ++ "/job/progress"
    AvailabilityTopic := availTopic
    PayloadAvailable := "online"
    PayloadNotAvail := "offline"
    UnitOfMeasurement := "%"
    Icon := "mdi:percent"
    StateClass := "measurement"
    Device := device }
  [{ Topic := progressTopic, Payload := progressConfig.marshal, Retain := true }]

/-- Go `BuildPrintingSensor` of `internal/discovery/binary_sensors.go`. -/
def BuildPrintingSensor (cfg : Config) (device : Device) (availTopic : String) :
    List MqttMessage :=
  let printingTopic := cfg.DiscoveryPrefix ++ "/binary_sensor/" ++ cfg.DeviceID ++ "/printing/config"
  let printingConfig : BinarySensorConfig := {
    Name := "Printing"
    UniqueID := cfg.DeviceID ++ "_printing"
    StateTopic := cfg.BaseTopic ++ "/printing"
    AvailabilityTopic := availTopic
    PayloadAvailable := "online"
    PayloadNotAvail := "offline"
    PayloadOn := "true"
    PayloadOff := "false"
    Icon := "mdi:printer-3d"
    Device := device }
  [{ Topic := printingTopic, Payload := printingConfig.marshal, Retain := true }]

/-- Go `BuildPartFanSensor` of `internal/discovery/binary_sensors.go`. -/
def BuildPartFanSensor (cfg : Config) (device : Device) (availTopic : String) :
    List MqttMessage :=
  let partFanTopic := cfg.DiscoveryPrefix ++ "/binary_sensor/" ++ cfg.DeviceID ++ "/part_fan/config"
  let partFanConfig : BinarySensorConfig := {
    Name := "Part Cooling Fan"
    UniqueID := cfg.DeviceID ++ "_part_fan"
    StateTopic := cfg.BaseTopic ++ "/fan"
    AvailabilityTopic := availTopic
    PayloadAvailable := "online"
    PayloadNotAvail := "offline"
    PayloadOn := "1"
    PayloadOff := "0"
    Icon := "mdi:fan"
    Device := device }
  [{ Topic := partFanTopic, Payload := partFanConfig.marshal, Retain := true }]

/-- Go `BuildLightSwitch` of `internal/discovery/switches.go`. -/
def BuildLightSwitch (cfg : Config) (device : Device) (availTopic : String) :
    List MqttMessage :=
  let topics := NewTopicBuilder cfg.BaseTopic cfg.DiscoveryPrefix
  let switchTopic := topics.Discovery "switch" cfg.DeviceID "light"
  let switchConfig : SwitchConfig := {
    Name := "Light"
    UniqueID := cfg.DeviceID ++ "_light"
    StateTopic := topics.LightState
    CommandTopic := topics.LightCommand
    AvailabilityTopic := availTopic
    PayloadAvailable := "online"
    PayloadNotAvail := "offline"
    PayloadOn := "1"
    PayloadOff := "0"
    StateOn := "1"
    StateOff := "0"
    Icon := "mdi:lightbulb"
    Device := device }
  [{ Topic := switchTopic, Payload := switchConfig.marshal, Retain := true }]

/-- Go `BuildCameraSensors` of `internal/discovery/camera.go`. -/
def BuildCameraSensors (cfg : Config) (device : Device) (availTopic : String) :
    List MqttMessage :=
  if cfg.PrinterIP = "" then []
  else
    let topics := NewTopicBuilder cfg.BaseTopic cfg.DiscoveryPrefix
    let streamURL := "http://" ++ cfg.PrinterIP ++ ":8080/?action=stream"
    let streamURLTopic := topics.Discovery "sensor" cfg.DeviceID "camera_stream_url"
    let streamConfig : SensorConfig := {
      Name := "Camera Stream URL"
      UniqueID := cfg.DeviceID ++ "_camera_stream_url"
      StateTopic := topics.CameraStreamURL
      AvailabilityTopic := availTopic
      PayloadAvailable := "online"
      PayloadNotAvail := "offline"
      Icon := "mdi:video"
      Device := device }
    let videoTopic := cfg.DiscoveryPrefix ++ "/binary_sensor/" ++ cfg.DeviceID ++ "/video_stream/config"
    let videoConfig : BinarySensorConfig := {
      Name := "Camera Stream Active"
      UniqueID := cfg.DeviceID ++ "_video_stream"
      StateTopic := cfg.BaseTopic ++ "/video"
      AvailabilityTopic := availTopic
      PayloadAvailable := "online"
      PayloadNotAvail := "offline"
      PayloadOn := "1"
      PayloadOff := "0"
      Icon := "mdi:video"
      Device := device }
    [ { Topic := streamURLTopic, Payload := streamConfig.marshal, Retain := true },
      { Topic := topics.CameraStreamURL, Payload := streamURL, Retain := true },
      { Topic := videoTopic, Payload := videoConfig.marshal, Retain := true } ]

/-- Go `GenerateDiscoveryMessages` of `internal/discovery/discovery.go`.  The package variable
`discoverMessages`, to which every call appends, is explicit: the function receives its
current value and returns the slice it hands back, which is also the variable's new value. -/
def GenerateDiscoveryMessages (discoverMessages : List MqttMessage) (cfg : Config) :
    List MqttMessage × List MqttMessage :=
  let device : Device := {
    Identifiers := [cfg.DeviceID]
    Name := cfg.DeviceName
    Manufacturer := "Creality"
    Model := cfg.DeviceModel }
  let topics := NewTopicBuilder cfg.BaseTopic cfg.DiscoveryPrefix
  let availTopic := topics.Availability
  let discoverMessages := discoverMessages ++ BuildTemperatureSensors cfg device availTopic
  let discoverMessages := discoverMessages ++ BuildStatusSensor cfg device availTopic
  let discoverMessages := discoverMessages ++ BuildFanSensors cfg device availTopic
  let discoverMessages := discoverMessages ++ BuildProgressSensor cfg device availTopic
  let discoverMessages := discoverMessages ++ BuildFeedStateSensor cfg device availTopic
  let discoverMessages := discoverMessages ++ BuildPrintingSensor cfg device availTopic
  let discoverMessages := discoverMessages ++ BuildPartFanSensor cfg device availTopic
  let discoverMessages := discoverMessages ++ BuildLightSwitch cfg device availTopic
  let discoverMessages := discoverMessages ++ BuildCameraSensors cfg device availTopic
  (discoverMessages, discoverMessages)

/-- The configuration of `TestGenerateDiscoveryMessages`. -/
def testConfig : Config := {
  DiscoveryPrefix := "homeassistant"
  BaseTopic := "printer/test"
  DeviceID := "dev1"
  DeviceName := "Test Printer"
  DeviceModel := "K1 SE"
  PrinterIP := "192.168.1.10" }

end discovery

/-! ## Definitions used to state properties of the job mapping -/

namespace mapper

/-- The five counter topics of the job mapping: progress, time left, job time, current layer
and feed state. -/
def isCounterTopic (baseTopic : String) (m : MqttMessage) : Bool :=
  decide (m.Topic = baseTopic ++ "/job/progress") ||
  decide (m.Topic = baseTopic ++ "/job/left_time") ||
  decide (m.Topic = baseTopic ++ "/job/job_time") ||
  decide (m.Topic = baseTopic ++ "/job/layer/current") ||
  decide (m.Topic = baseTopic ++ "/feed_state")

/-- The last non-empty segment of a path split at every '/', if there is one. -/
def lastNonEmptySegment (path : List Char) : Option (List Char) :=
  ((path.splitOn '/').filter (fun seg => seg ≠ [])).getLast?

end mapper

/-- The finite value of `v` is the integer `n`: with the sign applied,
`mant * 2^exp = n`, written without negative powers. -/
def F64.IsInteger (v : F64) (n : Int) : Prop :=
  match v with
  | .finite neg mant exp =>
      (if neg then -(mant : Int) else (mant : Int)) * 2 ^ exp.toNat = n * 2 ^ (-exp).toNat
  | _ => False

/-- The digit-reading step of `parseDigits`. -/
def digitStep (acc : Option Nat) (c : Char) : Option Nat :=
  match acc, digitVal c with
  | some n, some d => some (n * 10 + d)
  | _, _ => none

/-! ## Package unicode and key normalisation (mapper.go) -/

/-- The case tables of Go's `unicode` package for the characters above U+007F, which are not
reproduced here: a function that needs them takes them as a parameter. -/
structure UnicodeCase where
  isUpper : Char → Bool
  isLower : Char → Bool
  toLower : Char → Char

/-- Case tables under which no character above U+007F has a case. -/
def UnicodeCase.caseless : UnicodeCase :=
  { isUpper := fun _ => false, isLower := fun _ => false, toLower := fun c => c }

namespace unicode

/-- Go `unicode.IsUpper`: 'A' to 'Z' among the ASCII characters. -/
def IsUpper (u : UnicodeCase) (r : Char) : Bool :=
  if r.toNat < 128 then decide ('A' ≤ r ∧ r ≤ 'Z') else u.isUpper r

/-- Go `unicode.IsLower`: 'a' to 'z' among the ASCII characters. -/
def IsLower (u : UnicodeCase) (r : Char) : Bool :=
  if r.toNat < 128 then decide ('a' ≤ r ∧ r ≤ 'z') else u.isLower r

/-- Go `unicode.ToLower`: 'A' to 'Z' are moved to 'a' to 'z', other ASCII characters stay. -/
def ToLower (u : UnicodeCase) (r : Char) : Char :=
  if r.toNat < 128 then (if 'A' ≤ r ∧ r ≤ 'Z' then Char.ofNat (r.toNat + 32) else r)
  else u.toLower r

end unicode

namespace mapper

/-- The loop of `normaliseKey` over the runes of the key; `prev` is `runes[i-1]`, absent at
`i = 0`. -/
def normaliseKeyLoop (u : UnicodeCase) : Option Char → List Char → List Char
  | _, [] => []
  | prev, r :: rest =>
      (match prev with
        | some p => if unicode.IsUpper u r && unicode.IsLower u p then ['_'] else []
        | none => [])
      ++ [unicode.ToLower u r] ++ normaliseKeyLoop u (some r) rest

/-- Go `normaliseKey` of `internal/mapper/mapper.go`. -/
def normaliseKey (u : UnicodeCase) (key : String) : String :=
  let trimmed := TrimSpace key.data
  let replaced := trimmed.map (fun c => if c = ' ' then '_' else c)
  String.mk (normaliseKeyLoop u none replaced)

/-- What the words of the specification say `normaliseKey` does: trim the surrounding white
space, replace every space by '_', then write every character in lower case, with one '_'
in front of it when it is an uppercase letter that directly follows a lowercase letter. -/
def normaliseKeySpec (u : UnicodeCase) (key : String) : String :=
  let trimmed := TrimSpace key.data
  let replaced := trimmed.map (fun c => if c = ' ' then '_' else c)
  String.mk
    ((List.zipWith
      (fun (before : Option Char) (r : Char) =>
        (if (match before with
              | some p => unicode.IsUpper u r && unicode.IsLower u p
              | none => false) then ['_'] else []) ++ [unicode.ToLower u r])
      (none :: replaced.map some) replaced).flatten)

end mapper

/-! ## Binary floating point: rounding, parsing and formatting (packages strconv and fmt) -/

/-- The integer nearest to `num / den`, the even one at a tie (`den` positive). -/
def roundHalfEven (num den : Nat) : Nat :=
  let q := num / den
  let r := num % den
  if 2 * r > den ∨ (2 * r = den ∧ q % 2 = 1) then q + 1 else q

/-- Whether `num / den ≥ 2 ^ e`. -/
def geTwoPow (num den : Nat) (e : Int) : Bool :=
  if 0 ≤ e then decide (den * 2 ^ e.toNat ≤ num) else decide (den ≤ num * 2 ^ (-e).toNat)

/-- The number of binary digits of `n`, by halving at most `fuel` times. -/
def bitLengthAux : Nat → Nat → Nat
  | 0, _ => 0
  | fuel + 1, n => if n = 0 then 0 else bitLengthAux fuel (n / 2) + 1

/-- The number of binary digits of `n` (zero for zero). -/
def bitLength (n : Nat) : Nat := bitLengthAux n n

/-- The integer part of the binary logarithm of `num / den` (both positive). -/
def floorLog2 (num den : Nat) : Int :=
  let l : Int := (bitLength num : Int) - (bitLength den : Int)
  if geTwoPow num den l then l else l - 1

/-- IEEE-754 rounding to nearest, ties to even, of the fraction `num / den` with sign `neg`, to
the binary format with `mantBits` bits of mantissa whose unit in the last place is never below
`2 ^ minExp` nor above `2 ^ maxExp`; `none` when the rounded value is too large for the
format. -/
def F64.roundTo (mantBits : Nat) (minExp maxExp : Int) (neg : Bool) (num den : Nat) :
    Option F64 :=
  if num = 0 then some (.finite neg 0 0)
  else
    let e : Int := max (floorLog2 num den - ((mantBits : Int) - 1)) minExp
    let m : Nat :=
      if 0 ≤ e then roundHalfEven num (den * 2 ^ e.toNat)
      else roundHalfEven (num * 2 ^ (-e).toNat) den
    let e' : Int := if m = 2 ^ mantBits then e + 1 else e
    let m' : Nat := if m = 2 ^ mantBits then 2 ^ (mantBits - 1) else m
    if e' > maxExp then none else some (.finite neg m' e')

/-- Rounding to `float64`; `none` on overflow. -/
def F64.round64 (neg : Bool) (num den : Nat) : Option F64 :=
  F64.roundTo 53 (-1074) 971 neg num den

/-- Go conversion `float64(v)` of an integer. -/
def F64.ofInt (v : Int) : F64 :=
  match F64.round64 (decide (v < 0)) v.natAbs 1 with
  | some f => f
  | none => .inf (decide (v < 0))

/-- The decimal text of `n`, padded with zeros on the left to at least `width` characters. -/
def padZeros (width n : Nat) : List Char :=
  let ds := Nat.toDigits 10 n
  List.replicate (width - ds.length) '0' ++ ds

/-- Go `strconv.FormatFloat(v, 'f', prec, 64)`, which is also `fmt.Sprintf("%.<prec>f", v)`:
the value rounded to `prec` decimals (nearest, ties to even on the exact binary value), with
the sign of the float; NaN and the infinities are written "NaN", "+Inf" and "-Inf". -/
def FormatFixed (prec : Nat) (v : F64) : String :=
  match v with
  | .nan => "NaN"
  | .inf false => "+Inf"
  | .inf true => "-Inf"
  | .finite neg mant exp =>
      let scaled : Nat :=
        if 0 ≤ exp then mant * 10 ^ prec * 2 ^ exp.toNat
        else roundHalfEven (mant * 10 ^ prec) (2 ^ (-exp).toNat)
      String.mk ((if neg then ['-'] else []) ++ Nat.toDigits 10 (scaled / 10 ^ prec) ++
        (if prec = 0 then [] else '.' :: padZeros prec (scaled % 10 ^ prec)))

/-- The shortest decimal that identifies a positive binary floating point value: the digits
(without trailing zeros) and the position `dp` of the decimal point, the value written being
`0.d₁d₂… × 10 ^ dp`. -/
structure Decimal where
  digits : List Char
  dp : Int
  deriving Repr, DecidableEq

/-- Whether `a / b < 10 ^ k`. -/
def ltTenPow (a b : Nat) (k : Int) : Bool :=
  if 0 ≤ k then decide (a < b * 10 ^ k.toNat) else decide (a * 10 ^ (-k).toNat < b)

/-- The least `dp`, searched upwards from `start` in at most `fuel` steps, with
`a / b < 10 ^ dp`. -/
def decimalPoint : Nat → Nat → Nat → Int → Int
  | 0, _, _, dp => dp
  | fuel + 1, a, b, dp => if ltTenPow a b dp then dp else decimalPoint fuel a b (dp + 1)

/-- Removes the trailing zeros of a digit text. -/
def stripTrailingZeros (ds : List Char) : List Char :=
  (ds.reverse.dropWhile (fun c => c = '0')).reverse

/-- The search for the shortest decimal, trying `n`, `n + 1`, … digits (at most `fuel` lengths).
The value is `v / d`, the values that round to it lie between `lo / d` and `hi / d` (bounds
included when `incl`), and `dp0` is its decimal point.  With `n` digits the two candidates are
the multiples of `10 ^ (dp0 - n)` around the value; the first length with a candidate inside the
bounds wins, and of two candidates the nearer one (the even one at a tie). -/
def shortestSearch : Nat → Nat → Nat → Nat → Nat → Nat → Bool → Int → Decimal
  | 0, _, v, _, _, d, _, dp0 => { digits := Nat.toDigits 10 (v / d), dp := dp0 }
  | fuel + 1, n, v, lo, hi, d, incl, dp0 =>
      let k : Int := dp0 - (n : Int)
      let sn : Nat := if 0 ≤ k then 1 else 10 ^ (-k).toNat
      let sd : Nat := if 0 ≤ k then 10 ^ k.toNat else 1
      let a : Nat := (v * sn) / (d * sd)
      let b : Nat := a + 1
      let inside (c : Nat) : Bool :=
        if incl then decide (lo * sn ≤ c * d * sd ∧ c * d * sd ≤ hi * sn)
        else decide (lo * sn < c * d * sd ∧ c * d * sd < hi * sn)
      let da : Nat := v * sn - a * d * sd
      let db : Nat := b * d * sd - v * sn
      let pick (c : Nat) : Decimal :=
        let ds := Nat.toDigits 10 c
        { digits := stripTrailingZeros ds, dp := k + (ds.length : Int) }
      if inside a && inside b then
        (if da < db ∨ (da = db ∧ a % 2 = 0) then pick a else pick b)
      else if inside a then pick a
      else if inside b then pick b
      else shortestSearch fuel (n + 1) v lo hi d incl dp0

/-- The shortest decimal of the positive value `mant * 2 ^ exp` of a format with `mantBits`
bits of mantissa and least exponent `minExp` (`mant` normalised to `mantBits` bits unless
`exp = minExp`). -/
def shortestDecimal (mantBits : Nat) (minExp : Int) (mant : Nat) (exp : Int) : Decimal :=
  let e2 : Int := exp - 2
  let p : Nat := if 0 ≤ e2 then 2 ^ e2.toNat else 1
  let d : Nat := if 0 ≤ e2 then 1 else 2 ^ (-e2).toNat
  let v : Nat := 4 * mant * p
  let hi : Nat := (4 * mant + 2) * p
  let lo : Nat := (if mant = 2 ^ (mantBits - 1) ∧ exp > minExp then 4 * mant - 1 else 4 * mant - 2) * p
  let est : Int := (floorLog2 v d) * 30103 / 100000 - 1
  let dp0 := decimalPoint 5 v d est
  shortestSearch 17 1 v lo hi d (decide (mant % 2 = 0)) dp0

/-- The digit of a decimal at position `i`, '0' outside the digits. -/
def Decimal.digitAt (dec : Decimal) (i : Int) : Char :=
  if 0 ≤ i then dec.digits.getD i.toNat '0' else '0'

/-- Go `%e` layout of the shortest decimal: `d.ddde±xx`. -/
def Decimal.fmtE (dec : Decimal) : List Char :=
  let exp : Int := dec.dp - 1
  let first := dec.digits.headD '0'
  let restDigits := dec.digits.tail
  let expDigits := Nat.toDigits 10 exp.natAbs
  [first] ++ (if restDigits = [] then [] else '.' :: restDigits) ++ ['e'] ++
    [if exp < 0 then '-' else '+'] ++ (if expDigits.length < 2 then '0' :: expDigits else expDigits)

/-- Go `%f` layout of the shortest decimal, with as many decimals as it has digits after the
point. -/
def Decimal.fmtF (dec : Decimal) : List Char :=
  let nd : Int := dec.digits.length
  let prec : Nat := (nd - dec.dp).toNat
  (if 0 < dec.dp then (List.range dec.dp.toNat).map (fun i => dec.digitAt (i : Int)) else ['0']) ++
  (if prec = 0 then [] else '.' :: (List.range prec).map (fun i => dec.digitAt (dec.dp + (i : Int))))

/-- The canonical form of a value in the format with `mantBits` bits of mantissa: the mantissa
normalised, zero written with exponent zero; a value outside the format is rounded into it. -/
def F64.canonical (mantBits : Nat) (minExp maxExp : Int) (v : F64) : F64 :=
  match v with
  | .finite neg mant exp =>
      let num : Nat := if 0 ≤ exp then mant * 2 ^ exp.toNat else mant
      let den : Nat := if 0 ≤ exp then 1 else 2 ^ (-exp).toNat
      match F64.roundTo mantBits minExp maxExp neg num den with
      | some (.finite n 0 _) => .finite n 0 0
      | some f => f
      | none => .inf neg
  | other => other

/-- Go `strconv.FormatFloat(v, 'g', -1, bits)`, which is how package `fmt` writes a float under
`%v`: the shortest decimal that reads back as the same float, in the `%e` layout when its
decimal exponent is below -4 or at least 6, in the `%f` layout otherwise; zero is "0" or "-0";
NaN and the infinities are "NaN", "+Inf" and "-Inf". -/
def FormatShortest (mantBits : Nat) (minExp maxExp : Int) (v : F64) : String :=
  match F64.canonical mantBits minExp maxExp v with
  | .nan => "NaN"
  | .inf false => "+Inf"
  | .inf true => "-Inf"
  | .finite neg mant exp =>
      let sign : List Char := if neg then ['-'] else []
      if mant = 0 then String.mk (sign ++ ['0'])
      else
        let dec := shortestDecimal mantBits minExp mant exp
        let exp10 : Int := dec.dp - 1
        if exp10 < -4 ∨ exp10 ≥ 6 then String.mk (sign ++ dec.fmtE)
        else String.mk (sign ++ dec.fmtF)

/-! ### strconv.ParseFloat -/

/-- Go `commonPrefixLenIgnoreCase(s, pre)` of strconv (`pre` is in lower case): how many
leading characters of `s` match `pre`, upper-case ASCII letters of `s` counting as lower-case. -/
def commonPrefixLenIgnoreCase : List Char → List Char → Nat
  | c :: s, p :: pre =>
      let lowered : Nat := if 'A' ≤ c ∧ c ≤ 'Z' then c.toNat + 32 else c.toNat
      if lowered = p.toNat then commonPrefixLenIgnoreCase s pre + 1 else 0
  | _, _ => 0

/-- The infinity branch of Go `special`: "inf" or "infinity" in any case at the start of `s`. -/
def specialInf (neg : Bool) (s : List Char) : Option (F64 × List Char) :=
  let n := commonPrefixLenIgnoreCase s "infinity".data
  let n := if 3 < n ∧ n < 8 then 3 else n
  if n = 3 ∨ n = 8 then some (.inf neg, s.drop n) else none

/-- Go `special` of strconv: the value and the unread rest when `s` starts with a (possibly
signed) infinity or with "nan", in any case. -/
def special (s : List Char) : Option (F64 × List Char) :=
  match s with
  | [] => none
  | c :: rest =>
      if c = '+' ∨ c = '-' then specialInf (decide (c = '-')) rest
      else if c = 'i' ∨ c = 'I' then specialInf false s
      else if c = 'n' ∨ c = 'N' then
        (if commonPrefixLenIgnoreCase s "nan".data = 3 then some (.nan, s.drop 3) else none)
      else none

/-- The value of a digit in base 10 or, with `hex`, in base 16. -/
def mantissaDigit (hex : Bool) (c : Char) : Option Nat :=
  if '0' ≤ c ∧ c ≤ '9' then some (c.toNat - '0'.toNat)
  else if hex ∧ 97 ≤ (c.toNat ||| 32) ∧ (c.toNat ||| 32) ≤ 102 then some ((c.toNat ||| 32) - 97 + 10)
  else none

/-- What the mantissa loop of Go `readFloat` has seen. -/
structure Mantissa where
  value : Nat
  frac : Nat
  sawdot : Bool
  sawdigits : Bool
  underscores : Bool

/-- The mantissa loop of Go `readFloat`: digits, at most one point, underscores; returns the
number the digits spell, how many of them follow the point, and the unread rest. -/
def readMantissa (hex : Bool) : List Char → Mantissa → Mantissa × List Char
  | [], st => (st, [])
  | c :: cs, st =>
      if c = '_' then readMantissa hex cs { st with underscores := true }
      else if c = '.' then
        (if st.sawdot then (st, c :: cs) else readMantissa hex cs { st with sawdot := true })
      else
        match mantissaDigit hex c with
        | some d =>
            readMantissa hex cs
              { st with sawdigits := true,
                        value := st.value * (if hex then 16 else 10) + d,
                        frac := if st.sawdot then st.frac + 1 else st.frac }
        | none => (st, c :: cs)

/-- The exponent digits of Go `readFloat`: digits and underscores; the number stops growing
once it has reached 10000. -/
def readExponent : List Char → Nat → Bool → Nat × Bool × List Char
  | [], e, us => (e, us, [])
  | c :: cs, e, us =>
      if c = '_' then readExponent cs e true
      else if '0' ≤ c ∧ c ≤ '9' then
        readExponent cs (if e < 10000 then e * 10 + (c.toNat - '0'.toNat) else e) us
      else (e, us, c :: cs)

/-- The number loop of Go `underscoreOK`; `saw` is '0' after a digit, '_' after an underscore,
'!' after anything else and '^' at the start. -/
def underscoreLoop (hex : Bool) : List Char → Char → Bool
  | [], saw => saw ≠ '_'
  | c :: cs, saw =>
      if ('0' ≤ c ∧ c ≤ '9') ∨ (hex ∧ 97 ≤ (c.toNat ||| 32) ∧ (c.toNat ||| 32) ≤ 102) then
        underscoreLoop hex cs '0'
      else if c = '_' then (if saw ≠ '0' then false else underscoreLoop hex cs '_')
      else if saw = '_' then false
      else underscoreLoop hex cs '!'

/-- Go `underscoreOK` of strconv: underscores only between digits or between a base prefix and a
digit. -/
def underscoreOK (s : List Char) : Bool :=
  let s := match s with
    | c :: rest => if c = '-' ∨ c = '+' then rest else s
    | [] => s
  match s with
  | c0 :: c1 :: rest =>
      if c0 = '0' ∧ ((c1.toNat ||| 32) = 98 ∨ (c1.toNat ||| 32) = 111 ∨ (c1.toNat ||| 32) = 120) then
        underscoreLoop (decide ((c1.toNat ||| 32) = 120)) rest '0'
      else underscoreLoop false s '^'
  | _ => underscoreLoop false s '^'

/-- The syntax of a float as Go `readFloat` reads it off the whole text: sign, base, the number
the mantissa digits spell, the count of digits after the point, and the signed exponent; `none`
when the text is not a float from its first to its last character. -/
structure FloatText where
  neg : Bool
  hex : Bool
  mant : Nat
  frac : Nat
  exp : Int

/-- Go `readFloat` of strconv, required to read the whole text. -/
def readFloat (s : List Char) : Option FloatText :=
  match s with
  | [] => none
  | c :: afterSign =>
    let neg := decide (c = '-')
    let body := if c = '+' ∨ c = '-' then afterSign else s
    let hex : Bool :=
      match body with
      | c0 :: c1 :: _ :: _ => decide (c0 = '0' ∧ (c1.toNat ||| 32) = 120)
      | _ => false
    let digits := if hex then body.drop 2 else body
    let r := readMantissa hex digits
      { value := 0, frac := 0, sawdot := false, sawdigits := false, underscores := false }
    let st := r.1
    if ¬ st.sawdigits then none
    else
      match r.2 with
      | [] =>
          if hex then none
          else if st.underscores ∧ ¬ underscoreOK s then none
          else some { neg := neg, hex := hex, mant := st.value, frac := st.frac, exp := 0 }
      | x :: afterE =>
          if (x.toNat ||| 32) = (if hex then 112 else 101) then
            match afterE with
            | [] => none
            | y :: afterY =>
                let eneg := decide (y = '-')
                let expDigits := if y = '+' ∨ y = '-' then afterY else afterE
                match expDigits with
                | [] => none
                | z :: _ =>
                    if ¬ ('0' ≤ z ∧ z ≤ '9') then none
                    else
                      let e := readExponent expDigits 0 st.underscores
                      if e.2.2 ≠ [] then none
                      else if e.2.1 ∧ ¬ underscoreOK s then none
                      else some { neg := neg, hex := hex, mant := st.value, frac := st.frac,
                                  exp := if eneg then -(e.1 : Int) else (e.1 : Int) }
          else none

/-- Go `strconv.ParseFloat(s, 64)`; `none` stands for a non-nil error (syntax, or a value out of
the range of `float64`).  The float is the one nearest to the exact value of the text. -/
def ParseFloat (s : String) : Option F64 :=
  match special s.data with
  | some (v, rest) => if rest = [] then some v else none
  | none =>
      match readFloat s.data with
      | none => none
      | some t =>
          if t.mant = 0 then some (.finite t.neg 0 0)
          else
            let shift : Int := if t.hex then t.exp - 4 * (t.frac : Int) else t.exp - (t.frac : Int)
            let base : Nat := if t.hex then 2 else 10
            let num : Nat := if 0 ≤ shift then t.mant * base ^ shift.toNat else t.mant
            let den : Nat := if 0 ≤ shift then 1 else base ^ (-shift).toNat
            F64.round64 t.neg num den


namespace mapper

/-! ### temps.go -/

/-- Go `getFloat` of `internal/mapper/temps.go`: normalises numeric-ish values to `float64`;
`none` stands for the result `(0, false)`. -/
def getFloat (msg : Snapshot) (key : String) : Option F64 :=
  match msg.get key with
  | none => none
  | some raw =>
      match raw with
      | .float64 v => some v
      | .int v => some (F64.ofInt v)
      | .int32 v => some (F64.ofInt v)
      | .int64 v => some (F64.ofInt v)
      | .string v => ParseFloat v
      | _ => none

/-- Go `BuildTempMessages` of `internal/mapper/temps.go`; `out` is the concatenation of what
the five guarded `append` statements contribute. -/
def BuildTempMessages (msg : Snapshot) (baseTopic : String) : List MqttMessage :=
  (match getFloat msg "nozzleTemp" with
    | some v =>
        [{ Topic := baseTopic ++ "/temperature/nozzle/current", Payload := FormatFixed 3 v,
           Retain := false }]
    | none => [])
  ++ (match getFloat msg "targetNozzleTemp" with
    | some v =>
        [{ Topic := baseTopic ++ "/temperature/nozzle/target", Payload := FormatFixed 3 v,
           Retain := false }]
    | none => [])
  ++ (match getFloat msg "bedTemp0" with
    | some v =>
        [{ Topic := baseTopic ++ "/temperature/bed0/current", Payload := FormatFixed 3 v,
           Retain := false }]
    | none => [])
  ++ (match getFloat msg "targetBedTemp0" with
    | some v =>
        [{ Topic := baseTopic ++ "/temperature/bed0/target", Payload := FormatFixed 3 v,
           Retain := false }]
    | none => [])
  ++ (match getFloat msg "boxTemp" with
    | some v =>
        [{ Topic := baseTopic ++ "/temperature/box/current", Payload := FormatFixed 3 v,
           Retain := false }]
    | none => [])

end mapper

/-! ## Package fmt -/

namespace fmt

/-- Inserts a printed map entry at its place in the order of the keys. -/
def insertByKey (kv : String × String) : List (String × String) → List (String × String)
  | [] => [kv]
  | x :: xs => if kv.1 < x.1 then kv :: x :: xs else x :: insertByKey kv xs

/-- Sorts printed map entries by key, as package `fmt` does before it prints a map. -/
def sortByKey (l : List (String × String)) : List (String × String) :=
  l.foldr insertByKey []

mutual

/-- Go `fmt.Sprint(v)` of one operand: a float in its shortest form, an integer in base 10, a
string as it is, a boolean as "true" or "false", nil as "<nil>", a map as `map[k:v k:v]` with
the keys in order, a slice as `[v v]`. -/
def Sprint : Value → String
  | .float64 v => FormatShortest 53 (-1074) 971 v
  | .float32 v => FormatShortest 24 (-149) 104 v
  | .int v => FormatInt v
  | .int32 v => FormatInt v
  | .int64 v => FormatInt v
  | .string s => s
  | .bool b => if b then "true" else "false"
  | .null => "<nil>"
  | .object fields =>
      "map[" ++ " ".intercalate ((sortByKey (SprintFields fields)).map (fun kv => kv.1 ++ ":" ++ kv.2))
        ++ "]"
  | .array items => "[" ++ " ".intercalate (SprintItems items) ++ "]"

/-- The entries of a map, each value printed. -/
def SprintFields : List (String × Value) → List (String × String)
  | [] => []
  | (k, v) :: rest => (k, Sprint v) :: SprintFields rest

/-- The elements of a slice, each printed. -/
def SprintItems : List Value → List String
  | [] => []
  | v :: rest => Sprint v :: SprintItems rest

end

end fmt

namespace mapper

/-! ### mapper.go, noisykeys.go, box.go -/

/-- Go `coerceValue` of `internal/mapper/mapper.go`. -/
def coerceValue (v : Value) : Value :=
  match v with
  | .string val =>
      match ParseFloat val with
      | some f => .string (FormatFixed 3 f)
      | none => .string val
  | other => other

/-- Membership in the Go map `noisyKeys` of `internal/mapper/noisykeys.go`. -/
def noisyKeys (key : String) : Bool :=
  decide (key ∈ ["videoElapseFrame", "videoElapseInterval", "video", "video1"])

/-- Go `toInt` of `internal/mapper/box.go`. -/
def toInt (v : Value) : Int :=
  match v with
  | .int x => wrapInt64 x
  | .int32 x => wrapInt64 x
  | .int64 x => wrapInt64 x
  | .float32 x => x.toInt64
  | .float64 x => x.toInt64
  | _ => 0

/-- Go `BuildCFSBoxMessages` of `internal/mapper/box.go`; `out` is the concatenation of what
the three guarded `append` statements contribute. -/
def BuildCFSBoxMessages (msg : Snapshot) (baseTopic : String) : List MqttMessage :=
  match msg.get "boxState" with
  | none => []
  | some raw =>
      match raw with
      | .object m =>
          match Snapshot.get m "id" with
          | none => []
          | some idAny =>
              let id := toInt idAny
              let boxPrefix := baseTopic ++ "/cfs/" ++ FormatInt id
              (match Snapshot.get m "humidity" with
                | some humAny =>
                    [{ Topic := boxPrefix ++ "/humidity", Payload := fmt.Sprint (coerceValue humAny),
                       Retain := false }]
                | none => [])
              ++ (match Snapshot.get m "temp" with
                | some tAny =>
                    [{ Topic := boxPrefix ++ "/temperature", Payload := fmt.Sprint (coerceValue tAny),
                       Retain := false }]
                | none => [])
              ++ (match Snapshot.get m "state" with
                | some sAny =>
                    [{ Topic := boxPrefix ++ "/state", Payload := FormatInt (toInt sAny),
                       Retain := false }]
                | none => [])
      | _ => []

/-- Whether a value is a `map[string]any` or a `[]any`, the two types that the type switch of
`MapMessageToMqtt` skips. -/
def isNested (v : Value) : Bool :=
  match v with
  | .object _ => true
  | .array _ => true
  | _ => false

/-- The topic names, below the base topic, that stand for the keys of the denylist. -/
def noisyTopicNames : List String :=
  ["video", "video1", "video_elapse_frame", "video_elapse_interval"]

/-- The first loop of Go `MapMessageToMqtt` (the generic scalar to topic mapping), over the
bindings of the snapshot in the order the runtime ranges over them. -/
def genericMessages (u : UnicodeCase) (baseTopic : String) : Snapshot → List MqttMessage
  | [] => []
  | (key, raw) :: rest =>
      if noisyKeys key then genericMessages u baseTopic rest
      else
        let norm := normaliseKey u key
        match raw with
        | .object _ => genericMessages u baseTopic rest
        | .array _ => genericMessages u baseTopic rest
        | _ =>
            { Topic := baseTopic ++ "/" ++ norm, Payload := fmt.Sprint (coerceValue raw),
              Retain := false } :: genericMessages u baseTopic rest

/-- Go `MapMessageToMqtt` of `internal/mapper/mapper.go`, with the status cache and the clock of
`BuildStateMessages` explicit; returns the messages and the cache afterwards. -/
def MapMessageToMqtt (u : UnicodeCase) (cache : PrinterStatusCache) (now : Int) (msg : Snapshot)
    (baseTopic : String) : List MqttMessage × PrinterStatusCache :=
  let state := BuildStateMessages cache now msg baseTopic
  (genericMessages u baseTopic msg
    ++ BuildTempMessages msg baseTopic
    ++ BuildJobMessages msg baseTopic
    ++ state.1
    ++ BuildCFSBoxMessages msg baseTopic,
   state.2)

end mapper

/-! ## Package encoding/json: decoding into `map[string]any` -/

namespace json

/-- The white space of JSON. -/
def isWhite (c : Char) : Bool := c = ' ' || c = '\t' || c = '\r' || c = '\n'

/-- Drops leading white space. -/
def skipWhite (s : List Char) : List Char := s.dropWhile isWhite

/-- The value of a hexadecimal digit of either case. -/
def hexVal (c : Char) : Option Nat :=
  if '0' ≤ c ∧ c ≤ '9' then some (c.toNat - '0'.toNat)
  else if 'a' ≤ c ∧ c ≤ 'f' then some (c.toNat - 'a'.toNat + 10)
  else if 'A' ≤ c ∧ c ≤ 'F' then some (c.toNat - 'A'.toNat + 10)
  else none

/-- Go `getu4`: the number four hexadecimal digits spell. -/
def getu4 (a b c d : Char) : Option Nat :=
  match hexVal a, hexVal b, hexVal c, hexVal d with
  | some w, some x, some y, some z => some (((w * 16 + x) * 16 + y) * 16 + z)
  | _, _, _, _ => none

/-- The character of a one-letter escape. -/
def simpleEscape (c : Char) : Option Char :=
  if c = '\x22' then some '\x22'
  else if c = '\\' then some '\\'
  else if c = '/' then some '/'
  else if c = 'b' then some (Char.ofNat 8)
  else if c = 'f' then some (Char.ofNat 12)
  else if c = 'n' then some '\n'
  else if c = 'r' then some '\r'
  else if c = 't' then some '\t'
  else none

/-- The replacement character U+FFFD. -/
def replacementChar : Char := Char.ofNat 0xFFFD

/-- What a pending first half of a surrogate pair becomes when no second half follows. -/
def flushPending (pending : Option Nat) : List Char :=
  match pending with
  | some _ => [replacementChar]
  | none => []

/-- Puts characters in front of the text of a result. -/
def prepend (cs : List Char) (r : Option (List Char × List Char)) : Option (List Char × List Char) :=
  match r with
  | some (text, rest) => some (cs ++ text, rest)
  | none => none

/-- Reads a string literal after its opening quote (Go `unquote` on what the scanner accepts):
returns the text and what follows the closing quote.  `pending` is the first half of a
surrogate pair read by the escape just before.  A control character, an unknown escape and a
missing closing quote are errors; half a surrogate pair alone becomes U+FFFD. -/
def unquote : Option Nat → List Char → Option (List Char × List Char)
  | _, [] => none
  | pending, c :: rest =>
      if c = '\x22' then some (flushPending pending, rest)
      else if c = '\\' then
        match rest with
        | [] => none
        | e :: rest1 =>
            if e = 'u' then
              match rest1 with
              | a :: b :: c4 :: d :: rest2 =>
                  match getu4 a b c4 d with
                  | none => none
                  | some r =>
                      let low := decide (0xDC00 ≤ r ∧ r < 0xE000)
                      let high := decide (0xD800 ≤ r ∧ r < 0xDC00)
                      match pending with
                      | some h =>
                          if low then
                            prepend [Char.ofNat (0x10000 + (h - 0xD800) * 0x400 + (r - 0xDC00))]
                              (unquote none rest2)
                          else if high then prepend [replacementChar] (unquote (some r) rest2)
                          else prepend [replacementChar, Char.ofNat r] (unquote none rest2)
                      | none =>
                          if high then unquote (some r) rest2
                          else if low then prepend [replacementChar] (unquote none rest2)
                          else prepend [Char.ofNat r] (unquote none rest2)
              | _ => none
            else
              match simpleEscape e with
              | some ch => prepend (flushPending pending ++ [ch]) (unquote none rest1)
              | none => none
      else if c.toNat < 0x20 then none
      else prepend (flushPending pending ++ [c]) (unquote none rest)

/-- Splits off the leading decimal digits. -/
def spanDigits (s : List Char) : List Char × List Char :=
  s.span (fun c => decide ('0' ≤ c ∧ c ≤ '9'))

/-- Reads a number literal of the JSON grammar (an optional minus sign, an integer part without
superfluous leading zero, an optional fraction, an optional exponent): its text and the rest. -/
def scanNumber (s : List Char) : Option (List Char × List Char) :=
  let sign : List Char := match s with
    | '-' :: _ => ['-']
    | _ => []
  let s1 := s.drop sign.length
  let intPart : Option (List Char × List Char) :=
    match s1 with
    | [] => none
    | c :: r => if c = '0' then some (['0'], r)
                else if '1' ≤ c ∧ c ≤ '9' then some (spanDigits s1)
                else none
  match intPart with
  | none => none
  | some (ds, s2) =>
      let frac : Option (List Char × List Char) :=
        match s2 with
        | '.' :: r =>
            let p := spanDigits r
            if p.1 = [] then none else some ('.' :: p.1, p.2)
        | _ => some ([], s2)
      match frac with
      | none => none
      | some (fs, s3) =>
          let exp : Option (List Char × List Char) :=
            match s3 with
            | e :: r =>
                if e = 'e' ∨ e = 'E' then
                  let sg : List Char := match r with
                    | '+' :: _ => ['+']
                    | '-' :: _ => ['-']
                    | _ => []
                  let p := spanDigits (r.drop sg.length)
                  if p.1 = [] then none else some (e :: sg ++ p.1, p.2)
                else some ([], s3)
            | [] => some ([], s3)
          match exp with
          | none => none
          | some (es, s4) => some (sign ++ ds ++ fs ++ es, s4)

/-- Go map assignment `m[k] = v` on a list of bindings: an existing binding of the key gets the
new value, a new key is added at the end. -/
def setField : List (String × Value) → String → Value → List (String × Value)
  | [], k, v => [(k, v)]
  | (k0, v0) :: rest, k, v => if k0 = k then (k, v) :: rest else (k0, v0) :: setField rest k v

/-- The greatest nesting of objects and arrays the Go decoder accepts. -/
def maxNestingDepth : Nat := 10000

mutual

/-- Reads one JSON value the way Go decodes into `any`: an object becomes a `map[string]any`, an
array a `[]any`, a number a `float64` (an error when `strconv.ParseFloat` rejects it), a string
a `string`, `true` and `false` a `bool`, `null` nil.  The text starts at the value; `depth` is
the number of objects and arrays around it; every call uses one unit of `fuel`. -/
def decodeValue : Nat → Nat → List Char → Option (Value × List Char)
  | 0, _, _ => none
  | fuel + 1, depth, s =>
      match s with
      | [] => none
      | c :: rest =>
          if c = '\x7b' then
            (if depth + 1 > maxNestingDepth then none
             else
              match skipWhite rest with
              | '\x7d' :: rest1 => some (.object [], rest1)
              | rest1 => decodeMembers fuel (depth + 1) rest1 [])
          else if c = '[' then
            (if depth + 1 > maxNestingDepth then none
             else
              match skipWhite rest with
              | ']' :: rest1 => some (.array [], rest1)
              | rest1 => decodeElements fuel (depth + 1) rest1 [])
          else if c = '\x22' then
            match unquote none rest with
            | some (text, rest1) => some (.string (String.mk text), rest1)
            | none => none
          else if c = 't' then
            (if rest.take 3 = ['r', 'u', 'e'] then some (.bool true, rest.drop 3) else none)
          else if c = 'f' then
            (if rest.take 4 = ['a', 'l', 's', 'e'] then some (.bool false, rest.drop 4) else none)
          else if c = 'n' then
            (if rest.take 3 = ['u', 'l', 'l'] then some (.null, rest.drop 3) else none)
          else
            match scanNumber s with
            | some (text, rest1) =>
                (match ParseFloat (String.mk text) with
                 | some f => some (.float64 f, rest1)
                 | none => none)
            | none => none

/-- Reads the members of an object from the first key on, up to the closing brace; `acc` holds
the members read so far. -/
def decodeMembers : Nat → Nat → List Char → List (String × Value) → Option (Value × List Char)
  | 0, _, _, _ => none
  | fuel + 1, depth, s, acc =>
      match s with
      | '\x22' :: rest =>
          match unquote none rest with
          | none => none
          | some (key, rest1) =>
              match skipWhite rest1 with
              | ':' :: rest2 =>
                  match decodeValue fuel depth (skipWhite rest2) with
                  | none => none
                  | some (v, rest3) =>
                      match skipWhite rest3 with
                      | ',' :: rest4 =>
                          decodeMembers fuel depth (skipWhite rest4) (setField acc (String.mk key) v)
                      | '\x7d' :: rest4 => some (.object (setField acc (String.mk key) v), rest4)
                      | _ => none
              | _ => none
      | _ => none

/-- Reads the elements of an array from the first element on, up to the closing bracket; `acc`
holds the elements read so far. -/
def decodeElements : Nat → Nat → List Char → List Value → Option (Value × List Char)
  | 0, _, _, _ => none
  | fuel + 1, depth, s, acc =>
      match decodeValue fuel depth s with
      | none => none
      | some (v, rest) =>
          match skipWhite rest with
          | ',' :: rest1 => decodeElements fuel depth (skipWhite rest1) (acc ++ [v])
          | ']' :: rest1 => some (.array (acc ++ [v]), rest1)
          | _ => none

end

/-- Go `json.Unmarshal(data, &msg)` for a nil `msg` of type `map[string]any`, on the text of
`data`: `none` stands for a non-nil error.  The whole text must be one JSON value, with white
space around it at most; an object gives the map of its members (of a repeated key the last
value), `null` leaves `msg` nil (which reads as the empty map), any other value is an error. -/
def Unmarshal (data : List Char) : Option Snapshot :=
  match decodeValue (data.length + 1) 0 (skipWhite data) with
  | none => none
  | some (v, rest) =>
      if skipWhite rest ≠ [] then none
      else
        match v with
        | .object fields => some fields
        | .null => some []
        | _ => none

end json

namespace mapper

/-- Go `DecodeAndMap` of `internal/mapper/mapper.go`, on the text of `data`, with the status
cache and the clock explicit; the first component is `none` when an error is returned. -/
def DecodeAndMap (u : UnicodeCase) (cache : PrinterStatusCache) (now : Int) (data : String)
    (baseTopic : String) : Option (List MqttMessage) × PrinterStatusCache :=
  match json.Unmarshal data.data with
  | none => (none, cache)
  | some msg =>
      let r := MapMessageToMqtt u cache now msg baseTopic
      (some r.1, r.2)

end mapper

/-! ## Package discovery: CFS boxes, cleanup and device identity -/

namespace discovery

open types mapper

/-- Go `BuildCFSBoxSensors` of `internal/discovery/cfs.go`. -/
def BuildCFSBoxSensors (cfg : Config) (device : Device) (availTopic : String) (id : Int) :
    List MqttMessage :=
  let humUID := "cfs_" ++ FormatInt id ++ "_humidity"
  let humCfgTopic := cfg.DiscoveryPrefix ++ "/sensor/" ++ cfg.DeviceID ++ "/" ++ humUID ++ "/config"
  let humCfg : SensorConfig := {
    Name := "CFS " ++ FormatInt id ++ " Humidity"
    UniqueID := cfg.DeviceID ++ "_" ++ humUID
    StateTopic := cfg.BaseTopic ++ "/cfs/" ++ FormatInt id ++ "/humidity"
    AvailabilityTopic := availTopic
    PayloadAvailable := "online"
    PayloadNotAvail := "offline"
    UnitOfMeasurement := "%"
    DeviceClass := "humidity"
    StateClass := "measurement"
    Icon := "mdi:water-percent"
    Device := device }
  let tempUID := "cfs_" ++ FormatInt id ++ "_temperature"
  let tempCfgTopic := cfg.DiscoveryPrefix ++ "/sensor/" ++ cfg.DeviceID ++ "/" ++ tempUID ++ "/config"
  let tempCfg : SensorConfig := {
    Name := "CFS " ++ FormatInt id ++ " Temperature"
    UniqueID := cfg.DeviceID ++ "_" ++ tempUID
    StateTopic := cfg.BaseTopic ++ "/cfs/" ++ FormatInt id ++ "/temperature"
    AvailabilityTopic := availTopic
    PayloadAvailable := "online"
    PayloadNotAvail := "offline"
    UnitOfMeasurement := "°C"
    DeviceClass := "temperature"
    StateClass := "measurement"
    Icon := "mdi:thermometer"
    Device := device }
  [ { Topic := humCfgTopic, Payload := humCfg.marshal, Retain := true },
    { Topic := tempCfgTopic, Payload := tempCfg.marshal, Retain := true } ]

/-- The slice `oldSensors` of `CleanupOldEntities`. -/
def oldSensors : List String :=
  ["printer_online", "old_temp_sensor", "camera_stream", "camera_stream_url", "last_seen"]

/-- The slice `oldBinarySensors` of `CleanupOldEntities`. -/
def oldBinarySensors : List String :=
  ["light", "online", "connected", "camera_stream", "printer_connected", "printer_connected_2"]

/-- The slice `oldCameras` of `CleanupOldEntities`, which has no element. -/
def oldCameras : List String := []

/-- Go `CleanupOldEntities` of `internal/discovery/cleanup.go`: what the three loops append, in
order. -/
def CleanupOldEntities (cfg : Config) : List MqttMessage :=
  oldSensors.map (fun sensorID =>
    { Topic := cfg.DiscoveryPrefix ++ "/sensor/" ++ cfg.DeviceID ++ "/" ++ sensorID ++ "/config",
      Payload := "", Retain := true })
  ++ oldBinarySensors.map (fun sensorID =>
    { Topic := cfg.DiscoveryPrefix ++ "/binary_sensor/" ++ cfg.DeviceID ++ "/" ++ sensorID ++ "/config",
      Payload := "", Retain := true })
  ++ oldCameras.map (fun cameraID =>
    { Topic := cfg.DiscoveryPrefix ++ "/camera/" ++ cfg.DeviceID ++ "/" ++ cameraID ++ "/config",
      Payload := "", Retain := true })

/-- The type assertion `v, ok := msg[key].(string)`; `none` when the key is absent or its value
is not a string. -/
def stringAt (msg : Snapshot) (key : String) : Option String :=
  match msg.get key with
  | some (.string v) => some v
  | _ => none

/-- One of the three identity fields of `ExtractDeviceInfo` before the fallback: the string
under the camelCase key, or else, when that is absent or empty, the string under the snake_case
key, or else the empty string. -/
def identityField (msg : Snapshot) (camel snake : String) : String :=
  let first := match stringAt msg camel with
    | some v => v
    | none => ""
  match stringAt msg snake with
  | some v => if first = "" then v else first
  | none => first

/-- Go `ExtractDeviceInfo` of `internal/discovery/device.go`; returns the device id, the device
name and the device model. -/
def ExtractDeviceInfo (u : UnicodeCase) (msg : Snapshot) : String × String × String :=
  let deviceName := identityField msg "deviceName" "device_name"
  let deviceModel := identityField msg "deviceModel" "device_model"
  let deviceID := identityField msg "deviceId" "device_id"
  let deviceID := if deviceID = "" then "creality_printer" else deviceID
  let deviceName := if deviceName = "" then "Creality Printer" else deviceName
  let deviceModel := if deviceModel = "" then "K1/K1 SE/K1 Max" else deviceModel
  let lowered := deviceID.data.map (unicode.ToLower u)
  let noSpace := lowered.map (fun c => if c = ' ' then '_' else c)
  let noHyphen := noSpace.map (fun c => if c = '-' then '_' else c)
  (String.mk noHyphen, deviceName, deviceModel)

/-- The component and the entity id of the thirteen descriptors that
`GenerateDiscoveryMessages` builds whatever the printer address is, in the order in which it
builds them. -/
def catalogEntities : List (String × String) :=
  [("sensor", "nozzle_temp_current"), ("sensor", "nozzle_temp_target"),
   ("sensor", "bed_temp_current"), ("sensor", "bed_temp_target"),
   ("sensor", "printer_status"),
   ("sensor", "model_fan_pct"), ("sensor", "auxiliary_fan_pct"), ("sensor", "case_fan_pct"),
   ("sensor", "print_progress"), ("sensor", "feed_state"),
   ("binary_sensor", "printing"), ("binary_sensor", "part_fan"),
   ("switch", "light")]

/-- The component and the entity id of the two descriptors that `BuildCameraSensors` builds. -/
def cameraEntities : List (String × String) :=
  [("sensor", "camera_stream_url"), ("binary_sensor", "video_stream")]

/-- The discovery topic `prefix/component/deviceId/entityId/config` of a component and an entity
id under a configuration, as `TopicBuilder.Discovery` builds it. -/
def Config.discoveryTopic (cfg : Config) (ce : String × String) : String :=
  (NewTopicBuilder cfg.BaseTopic cfg.DiscoveryPrefix).Discovery ce.1 cfg.DeviceID ce.2

/-- What the specification says of the descriptor of an entity, with the names of the device
block as the code writes them: the message is on the discovery topic of the entity, and its
payload is a JSON object that starts with the fields name, unique_id (the device id, "_" and the
entity id) and state_topic, has the fields availability_topic (base/status), payload_available
("online") and payload_not_available ("offline"), and ends with the field device, an object
with the fields identifiers (the device id alone), name, mf ("Creality") and mdl. -/
def IsDescriptor (cfg : Config) (ce : String × String) (m : MqttMessage) : Prop :=
  m.Topic = cfg.discoveryTopic ce ∧
  ∃ (name stateTopic : String) (fields : List (Option String)),
    m.Payload = json.object fields ∧
    fields.take 3 =
      [json.field "name" (json.string name),
       json.field "unique_id" (json.string (cfg.DeviceID ++ "_" ++ ce.2)),
       json.field "state_topic" (json.string stateTopic)] ∧
    json.field "availability_topic" (json.string (cfg.BaseTopic ++ "/status")) ∈ fields ∧
    json.field "payload_available" (json.string "online") ∈ fields ∧
    json.field "payload_not_available" (json.string "offline") ∈ fields ∧
    fields.getLast? = some (json.field "device" (json.object [
      json.field "identifiers" (json.array [json.string cfg.DeviceID]),
      json.field "name" (json.string cfg.DeviceName),
      json.field "mf" (json.string "Creality"),
      json.field "mdl" (json.string cfg.DeviceModel)]))

end discovery

/-! ## Package main (cmd/creality2mqtt): the cleanup command and the snapshot handler -/

namespace cmd

open types mapper discovery

/-- The slice `components` of the cleanup command. -/
def components : List String := ["sensor", "binary_sensor", "switch", "camera"]

/-- The slice `entityIDs` of the cleanup command. -/
def entityIDs : List String :=
  ["nozzle_temp_current", "nozzle_temp_target", "bed_temp_current", "bed_temp_target",
   "printer_status",
   "model_fan_pct", "auxiliary_fan_pct", "case_fan_pct",
   "print_progress", "feed_state", "last_seen",
   "camera_stream_url", "video_stream",
   "printing", "light", "part_fan",
   "light",
   "printer_online", "printer_connected", "printer_connected_2", "online", "camera_stream",
   "camera", "old_temp_sensor"]

/-- The publications of `cleanupCmd.RunE` of `cmd/creality2mqtt/cleanup.go` once the broker is
connected, in the order of the two loops: an empty retained payload for every component and
every entity id; `none` when the device id is empty (the command returns an error and
publishes nothing). -/
def cleanupCmd (discoveryPrefix deviceID : String) : Option (List MqttMessage) :=
  if deviceID = "" then none
  else
    some ((components.map (fun component =>
      entityIDs.map (fun entityID =>
        { Topic := discoveryPrefix ++ "/" ++ component ++ "/" ++ deviceID ++ "/" ++ entityID ++ "/config",
          Payload := "", Retain := true }))).flatten)

/-- The command-line variables that the snapshot handler of `run.go` reads.  `printerIP` is
the value the handler computes from the WebSocket URL: the part of its host before the first
colon, or the empty string when the URL does not parse. -/
structure Flags where
  baseTopic : String
  discoveryPrefix : String
  deviceName : String
  printerIP : String

/-- The variables that the snapshot handler of `run.go` reads and writes: the `sync.Once`, the
discovery configuration and messages, the set of box ids whose descriptors were published, and
the package variables of `discovery` and `mapper` that the functions it calls use. -/
structure HandlerState where
  discoveryOnce : Bool
  discoCfg : Option Config
  discoveryMsgs : List MqttMessage
  publishedCFS : Int → Bool
  discoverMessages : List MqttMessage
  printerStatusCache : PrinterStatusCache

/-- The state of the handler when the bridge starts. -/
def HandlerState.initial : HandlerState :=
  { discoveryOnce := false, discoCfg := none, discoveryMsgs := [],
    publishedCFS := fun _ => false, discoverMessages := [],
    printerStatusCache := PrinterStatusCache.initial }

/-- The calls of `mqttClient.Publish` that one run of the handler makes, by the block of the
handler that makes them: the block under `discoveryOnce.Do`, the block for the CFS boxes, and
the loop over the mapped messages. -/
structure Published where
  discovery : List MqttMessage
  cfs : List MqttMessage
  mapped : List MqttMessage

/-- The calls of one run of the handler in the order they are made. -/
def Published.calls (p : Published) : List MqttMessage := p.discovery ++ p.cfs ++ p.mapped

/-- The closure `publishDiscovery` of `run.go`: the calls it makes. -/
def publishDiscovery (discoCfg : Option Config) (discoveryMsgs : List MqttMessage) :
    List MqttMessage :=
  if discoCfg.isSome ∧ discoveryMsgs.length > 0 then discoveryMsgs else []

/-- The function given to `discoveryOnce.Do` in the handler: the calls it makes and the state
afterwards. -/
def establishIdentity (u : UnicodeCase) (flags : Flags) (st : HandlerState) (rawMsg : Snapshot) :
    List MqttMessage × HandlerState :=
  let info := ExtractDeviceInfo u rawMsg
  let deviceID := info.1
  let devName := if flags.deviceName ≠ "" then flags.deviceName else info.2.1
  let deviceModel := info.2.2
  let cfg : Config := {
    DiscoveryPrefix := flags.discoveryPrefix
    BaseTopic := flags.baseTopic
    DeviceID := deviceID
    DeviceName := devName
    DeviceModel := deviceModel
    PrinterIP := flags.printerIP }
  let cleanupMsgs := CleanupOldEntities cfg
  let generated := GenerateDiscoveryMessages st.discoverMessages cfg
  (cleanupMsgs ++ publishDiscovery (some cfg) generated.1,
   { st with discoveryOnce := true, discoCfg := some cfg, discoveryMsgs := generated.1,
             discoverMessages := generated.2 })

/-- The type switch of the handler on the id of a box: a `float64` is converted to `int`, an
`int` is taken as it is, anything else leaves `id` at 0. -/
def boxID (idAny : Value) : Int :=
  match idAny with
  | .float64 v => v.toInt64
  | .int v => wrapInt64 v
  | _ => 0

/-- The block of the handler for the CFS boxes ("dynamic discovery for CFS box sensors when
seen"): the calls it makes and the set `publishedCFS` afterwards. -/
def publishCFS (discoCfg : Option Config) (publishedCFS : Int → Bool) (rawMsg : Snapshot) :
    List MqttMessage × (Int → Bool) :=
  match discoCfg with
  | none => ([], publishedCFS)
  | some cfg =>
      match rawMsg.get "boxState" with
      | some (.object bs) =>
          match Snapshot.get bs "id" with
          | some idAny =>
              let id := boxID idAny
              if id > 0 then
                if !publishedCFS id then
                  let device : Device := {
                    Identifiers := [cfg.DeviceID]
                    Name := cfg.DeviceName
                    Manufacturer := "Creality"
                    Model := cfg.DeviceModel }
                  let topics := NewTopicBuilder cfg.BaseTopic cfg.DiscoveryPrefix
                  let availTopic := topics.Availability
                  (BuildCFSBoxSensors cfg device availTopic id,
                   fun k => if k = id then true else publishedCFS k)
                else ([], publishedCFS)
              else ([], publishedCFS)
          | none => ([], publishedCFS)
      | _ => ([], publishedCFS)

/-- The snapshot handler of `run.go` (the closure `handler`), on the text of `data`, with the
clock of the mapper explicit: the calls of `mqttClient.Publish` it makes and the state
afterwards. -/
def handler (u : UnicodeCase) (flags : Flags) (st : HandlerState) (now : Int) (data : String) :
    Published × HandlerState :=
  let decoded : (List MqttMessage × List MqttMessage) × HandlerState :=
    match json.Unmarshal data.data with
    | some rawMsg =>
        let once := if st.discoveryOnce then ([], st) else establishIdentity u flags st rawMsg
        let cfs := publishCFS once.2.discoCfg once.2.publishedCFS rawMsg
        ((once.1, cfs.1), { once.2 with publishedCFS := cfs.2 })
    | none => (([], []), st)
  let mapped := DecodeAndMap u decoded.2.printerStatusCache now data flags.baseTopic
  ({ discovery := decoded.1.1, cfs := decoded.1.2, mapped := mapped.1.getD [] },
   { decoded.2 with printerStatusCache := mapped.2 })

/-- Successive runs of the handler, each with its clock reading and its data: the calls of each
run, in order, and the state at the end. -/
def runHandler (u : UnicodeCase) (flags : Flags) :
    HandlerState → List (Int × String) → List Published × HandlerState
  | st, [] => ([], st)
  | st, (now, data) :: rest =>
      let r := handler u flags st now data
      let rs := runHandler u flags r.2 rest
      (r.1 :: rs.1, rs.2)

/-- The box id that the handler reads in the text of a snapshot: the id under `boxState`, when
the text decodes, `boxState` is an object and has an `id`. -/
def revealedBoxID (data : String) : Option Int :=
  match json.Unmarshal data.data with
  | some rawMsg =>
      match rawMsg.get "boxState" with
      | some (.object bs) =>
          match Snapshot.get bs "id" with
          | some idAny => some (boxID idAny)
          | none => none
      | _ => none
  | none => none

/-- Keeps the first `true` of a list of flags and clears the later ones. -/
def firstOnly : List Bool → List Bool
  | [] => []
  | true :: rest => true :: rest.map (fun _ => false)
  | false :: rest => false :: firstOnly rest

/-- The `Device` that the handler and `GenerateDiscoveryMessages` build from a configuration. -/
def deviceOf (cfg : Config) : Device :=
  { Identifiers := [cfg.DeviceID], Name := cfg.DeviceName, Manufacturer := "Creality",
    Model := cfg.DeviceModel }

end cmd

/-! ## Package wsclient: the connection loop -/

namespace wsclient

/-- The two error values of package `context`. -/
inductive ContextError where
  | Canceled
  | DeadlineExceeded
  deriving Repr, DecidableEq

/-- An `error` as `Run` tells errors apart: it compares with `context.Canceled` and
`context.DeadlineExceeded`; any other error is only logged. -/
inductive Error where
  | context (e : ContextError)
  | other (text : String)
  deriving Repr, DecidableEq

/-- What one pass of the `for` loop of `Run` meets: the result of `runOnce` (`none` for nil)
and, for the `select` that follows an error, `none` when `time.After(c.retryDelay)` fires first
or the value of `ctx.Err()` when `ctx.Done()` is ready first. -/
structure Attempt where
  result : Option Error
  ctxDone : Option ContextError

/-- What `Run` has done when it returns or when the attempts given to it are used up: the
number of calls of `runOnce`, the number of retry delays waited for, the warnings logged, and
the error returned (`none` while `Run` is still in its loop). -/
structure Outcome where
  calls : Nat
  delays : Nat
  warnings : List String
  returned : Option Error
  deriving Repr, DecidableEq

/-- The `for` loop of Go `(*Client).Run`, over the attempts it meets. -/
def retryLoop : List Attempt → Outcome → Outcome
  | [], o => o
  | a :: rest, o =>
      match a.result with
      | none => retryLoop rest { o with calls := o.calls + 1 }
      | some _ =>
          match a.ctxDone with
          | none =>
              retryLoop rest
                { o with calls := o.calls + 1, delays := o.delays + 1,
                         warnings := o.warnings ++ ["WebSocket connection lost"] }
          | some e =>
              { o with calls := o.calls + 1,
                       warnings := o.warnings ++ ["WebSocket connection lost"],
                       returned := some (.context e) }

/-- Go `(*Client).Run` of `internal/wsclient/client.go`: `first` is the result of the initial
call of `runOnce`, `later` what the passes of the loop meet. -/
def Client.Run (first : Option Error) (later : List Attempt) : Outcome :=
  match first with
  | some err =>
      if err = .context .Canceled ∨ err = .context .DeadlineExceeded then
        { calls := 1, delays := 0, warnings := [], returned := some err }
      else
        retryLoop later
          { calls := 1, delays := 0,
            warnings := ["Initial WebSocket connection failed, retrying"], returned := none }
  | none => retryLoop later { calls := 1, delays := 0, warnings := [], returned := none }

/-- Go `(*Client).SendMessage`: the text messages written on the connection; without a
connection (`c.conn == nil`) the call returns an error and writes nothing. -/
def Client.SendMessage (connected : Bool) (data : String) : List String :=
  if connected then [data] else []

end wsclient

namespace discovery

open types mapper

/-- What the words say of an identity field of `ExtractDeviceInfo`: the string under the
camelCase key when there is one and it is not empty, else the string under the snake_case key
when there is one and it is not empty, else the fallback. -/
def chosenField (msg : Snapshot) (camel snake fallback : String) : String :=
  let a := (stringAt msg camel).getD ""
  let b := (stringAt msg snake).getD ""
  if a ≠ "" then a else if b ≠ "" then b else fallback

end discovery

namespace cmd

/-- The closure subscribed to the light command topic in `run.go`, up to its call of
`ws.SendMessage`: the argument of that call, or `none` when the handler returns without
making it. -/
def lightCommand (payload : String) : Option String :=
  let lightValue : Option Int :=
    if payload = "ON" ∨ payload = "1" then some 1
    else if payload = "OFF" ∨ payload = "0" then some 0
    else none
  match lightValue with
  | none => none
  | some v =>
      some ("\x7b\"method\":\"set\",\"params\":\x7b\"lightSw\":" ++ FormatInt v ++ "\x7d\x7d")

/-- The light command closure of `run.go`: the text messages it writes on the WebSocket
connection, given whether the session has a connection. -/
def lightHandler (connected : Bool) (payload : String) : List String :=
  match lightCommand payload with
  | none => []
  | some wsCmd => wsclient.Client.SendMessage connected wsCmd

end cmd

end Creality

/-! # Theorems -/

namespace Creality

open types mapper

/-- Appending to a common front part is injective. -/
theorem string_append_right_inj (a b c : String) : a ++ b = a ++ c ↔ b = c := by
  constructor
  · intro h
    have h2 := congrArg String.data h
    simp only [String.data_append] at h2
    exact String.ext (List.append_cancel_left h2)
  · intro h; rw [h]

/-- The test `v, ok := getInt(..); ok && v > 0` succeeds exactly on a positive signal. -/
theorem positive_test_iff (o : Option Int) :
    (match o with
      | some v => decide (v > 0)
      | none => false) = true ↔ ∃ v, o = some v ∧ v > 0 := by
  cases o <;> simp

/-- The nested test on progress and time left succeeds exactly when both are positive. -/
theorem positive_pair_test_iff (o₁ o₂ : Option Int) :
    (match o₁ with
      | some p => decide (p > 0) &&
          (match o₂ with
           | some l => decide (l > 0)
           | none => false)
      | none => false) = true ↔ (∃ v, o₁ = some v ∧ v > 0) ∧ (∃ v, o₂ = some v ∧ v > 0) := by
  cases o₁ <;> cases o₂ <;> simp

/-- The classification of `derivePrinterStatus` as a disjunction of its heuristics. -/
theorem derivePrinterStatus_eq_active_iff (msg : Snapshot) :
    derivePrinterStatus msg = "active" ↔
      ((signal msg "printProgress" ∧ signal msg "leftTime") ∨ signal msg "printJobTime" ∨
        signal msg "printLeftTime" ∨ signal msg "layer" ∨ signal msg "gcodeState") := by
  unfold derivePrinterStatus signal
  rw [← positive_pair_test_iff, ← positive_test_iff (getInt msg "printJobTime"),
    ← positive_test_iff (getInt msg "printLeftTime"), ← positive_test_iff (getInt msg "layer"),
    ← positive_test_iff (getInt msg "gcodeState")]
  split_ifs <;> first | (simp [*]; done) | (simp [*]; decide)

/-- The status is one of the two values. -/
theorem derivePrinterStatus_cases (msg : Snapshot) :
    derivePrinterStatus msg = "active" ∨ derivePrinterStatus msg = "idle" := by
  unfold derivePrinterStatus
  split_ifs <;> simp

/-- C10: `derivePrinterStatus` answers "active" exactly when one of its heuristics is positive
(progress and leftTime both positive, or printJobTime, printLeftTime, layer or gcodeState
positive, each read with `getInt`), and "idle" exactly otherwise; the empty snapshot and
snapshots whose fields are non-numeric strings are idle. -/
theorem C10_derivePrinterStatus_active_iff (msg : Snapshot) :
    (derivePrinterStatus msg = "active" ↔
      ((signal msg "printProgress" ∧ signal msg "leftTime") ∨ signal msg "printJobTime" ∨
        signal msg "printLeftTime" ∨ signal msg "layer" ∨ signal msg "gcodeState")) ∧
    (derivePrinterStatus msg = "idle" ↔
      ¬ ((signal msg "printProgress" ∧ signal msg "leftTime") ∨ signal msg "printJobTime" ∨
        signal msg "printLeftTime" ∨ signal msg "layer" ∨ signal msg "gcodeState")) ∧
    derivePrinterStatus [] = "idle" ∧
    derivePrinterStatus [("printProgress", .string "half"), ("leftTime", .string "soon"),
      ("printJobTime", .string "1h"), ("printLeftTime", .string ""), ("layer", .string "3.5"),
      ("gcodeState", .string "printing")] = "idle" := by
  refine ⟨derivePrinterStatus_eq_active_iff msg, ?_, by decide, by decide⟩
  rw [← derivePrinterStatus_eq_active_iff]
  rcases derivePrinterStatus_cases msg with h | h <;> rw [h] <;> decide

/-- C9: `BuildJobMessages` always starts with one non-retained message on base/printing; no
other message of the result is on that topic; its payload is "true" exactly when
printProgress and printLeftTime both coerce with `getInt` and are both positive, and "false"
exactly otherwise. -/
theorem C9_printing_first_and_once (msg : Snapshot) (baseTopic : String) :
    ∃ payload rest,
      BuildJobMessages msg baseTopic =
        { Topic := baseTopic ++ "/printing", Payload := payload, Retain := false } :: rest ∧
      (∀ m ∈ rest, m.Topic ≠ baseTopic ++ "/printing") ∧
      (payload = "true" ↔ (signal msg "printProgress" ∧ signal msg "printLeftTime")) ∧
      (payload = "false" ↔ ¬ (signal msg "printProgress" ∧ signal msg "printLeftTime")) := by
  unfold BuildJobMessages
  simp only [List.append_assoc, List.singleton_append]
  refine ⟨_, _, rfl, ?_, ?_, ?_⟩
  · intro m hm
    simp only [List.append_eq, List.mem_append] at hm
    rcases hm with h | h | h | h | h | h | h <;> (repeat' split at h) <;> simp at h <;>
      (rw [h]; simp [string_append_right_inj])
  · unfold signal
    cases getInt msg "printProgress" <;> cases getInt msg "printLeftTime" <;> simp
  · unfold signal
    cases getInt msg "printProgress" <;> cases getInt msg "printLeftTime" <;> simp

/-- Against the emission window, the saturating `Sub` compares like the plain difference. -/
theorem sub_lt_interval_iff (t u : Int) :
    Time.Sub t u < statusUpdateInterval ↔ t - u < statusUpdateInterval := by
  unfold Time.Sub statusUpdateInterval maxInt64 minInt64
  split_ifs <;> omega

/-- After every call the cached `lastStatus` is the status the call returned. -/
theorem getRateLimitedPrinterStatus_lastStatus (cache : PrinterStatusCache) (now : Int)
    (msg : Snapshot) :
    (getRateLimitedPrinterStatus cache now msg).2.lastStatus =
      (getRateLimitedPrinterStatus cache now msg).1.1 := by
  unfold getRateLimitedPrinterStatus
  simp only []
  split_ifs <;> simp_all

/-- A call whose snapshot is active returns "active" and records the time of the call. -/
theorem getRateLimitedPrinterStatus_active (cache : PrinterStatusCache) (now : Int)
    (msg : Snapshot) (h : derivePrinterStatus msg = "active") :
    (getRateLimitedPrinterStatus cache now msg).1.1 = "active" ∧
      (getRateLimitedPrinterStatus cache now msg).2.lastUpdate = now := by
  unfold getRateLimitedPrinterStatus
  simp only [h]
  split_ifs <;> simp_all

/-- A call whose snapshot is idle keeps the time of the last active signal, and holds the
status "active" exactly while that signal is younger than the interval and the cached status
is "active". -/
theorem getRateLimitedPrinterStatus_idle (cache : PrinterStatusCache) (now : Int)
    (msg : Snapshot) (h : derivePrinterStatus msg = "idle") (hz : cache.lastUpdate ≠ 0) :
    (getRateLimitedPrinterStatus cache now msg).1.1 =
        (if now - cache.lastUpdate < statusUpdateInterval ∧ cache.lastStatus = "active"
          then "active" else "idle") ∧
      (getRateLimitedPrinterStatus cache now msg).2.lastUpdate = cache.lastUpdate := by
  unfold getRateLimitedPrinterStatus
  simp only [h, Time.IsZero, sub_lt_interval_iff]
  split_ifs <;> simp_all

/-- The hysteresis invariant along a run of idle snapshots: while the cache remembers an
active signal at time `T` and its status is "active" as long as the clock is inside the
window, every call returns "active" inside the window and "idle" from its end on. -/
theorem runStatus_idle_hold (T : Int) (hT : T ≠ 0) :
    ∀ (later : List (Int × Snapshot)) (cache : PrinterStatusCache) (prev : Int),
      cache.lastUpdate = T →
      (prev - T < statusUpdateInterval → cache.lastStatus = "active") →
      (∀ c ∈ later, derivePrinterStatus c.2 = "idle") →
      List.Chain (fun a b : Int => a ≤ b) prev (later.map Prod.fst) →
      (runStatus cache later).1.map Prod.fst =
        later.map (fun c => if c.1 - T < statusUpdateInterval then "active" else "idle") := by
  intro later
  induction later with
  | nil => intro cache prev _ _ _ _; rfl
  | cons c rest ih =>
    intro cache prev hupd hstat hidle hchain
    obtain ⟨now, snap⟩ := c
    simp only [List.map_cons, List.chain_cons] at hchain
    obtain ⟨hle, hchain⟩ := hchain
    have hsnap : derivePrinterStatus snap = "idle" := hidle (now, snap) (List.mem_cons_self _ _)
    have hz : cache.lastUpdate ≠ 0 := by rw [hupd]; exact hT
    obtain ⟨hret, hkeep⟩ := getRateLimitedPrinterStatus_idle cache now snap hsnap hz
    have hlast := getRateLimitedPrinterStatus_lastStatus cache now snap
    rw [hupd] at hret hkeep
    have hval : (getRateLimitedPrinterStatus cache now snap).1.1 =
        (if now - T < statusUpdateInterval then "active" else "idle") := by
      rw [hret]
      by_cases hin : now - T < statusUpdateInterval
      · have hprev : prev - T < statusUpdateInterval := by omega
        simp [hin, hstat hprev]
      · simp [hin]
    have hnext : now - T < statusUpdateInterval →
        (getRateLimitedPrinterStatus cache now snap).2.lastStatus = "active" := by
      intro hin
      rw [hlast, hval, if_pos hin]
    have htail := ih (getRateLimitedPrinterStatus cache now snap).2 now hkeep hnext
      (fun c hc => hidle c (List.mem_cons_of_mem _ hc)) hchain
    simp only [runStatus, List.map_cons, hval, htail]

/-- C7: hysteresis.  A call at time `T` (not the zero time) whose snapshot is classified active
returns "active"; of the later calls, made at non-decreasing times and all with snapshots that
carry no positive signal, every one made less than 10 s after `T` returns "active" and every
one made 10 s or more after `T` returns "idle". -/
theorem C7_hysteresis_window (cache : PrinterStatusCache) (T : Int) (msg : Snapshot)
    (later : List (Int × Snapshot)) (hT : T ≠ 0)
    (hactive : derivePrinterStatus msg = "active")
    (hidle : ∀ c ∈ later, derivePrinterStatus c.2 = "idle")
    (hclock : List.Chain (fun a b : Int => a ≤ b) T (later.map Prod.fst)) :
    (getRateLimitedPrinterStatus cache T msg).1.1 = "active" ∧
    (runStatus (getRateLimitedPrinterStatus cache T msg).2 later).1.map Prod.fst =
      later.map (fun c => if c.1 - T < 10 * 1000000000 then "active" else "idle") := by
  obtain ⟨hret, hupd⟩ := getRateLimitedPrinterStatus_active cache T msg hactive
  refine ⟨hret, ?_⟩
  have hstat : T - T < statusUpdateInterval →
      (getRateLimitedPrinterStatus cache T msg).2.lastStatus = "active" := by
    intro _
    rw [getRateLimitedPrinterStatus_lastStatus, hret]
  exact runStatus_idle_hold T hT later _ T hupd hstat hidle hclock

/-- C7 at a concrete run: from the initial cache, an active snapshot (gcodeState 1) at a clock
reading `T`, then two idle snapshots 5 s and 10 s later: the results are "active", then
"active" (held), then "idle". -/
theorem C7_hysteresis_window_witness :
    (getRateLimitedPrinterStatus PrinterStatusCache.initial 63900000000000000000
        [("gcodeState", .int 1)]).1.1 = "active" ∧
    (runStatus (getRateLimitedPrinterStatus PrinterStatusCache.initial 63900000000000000000
        [("gcodeState", .int 1)]).2
        [(63900000005000000000, []), (63900000010000000000, [("tfCard", .int 1)])]).1.map
        Prod.fst = ["active", "idle"] :=
  C7_hysteresis_window PrinterStatusCache.initial 63900000000000000000 [("gcodeState", .int 1)]
    [(63900000005000000000, []), (63900000010000000000, [("tfCard", .int 1)])]
    (by decide) (by decide) (by decide) (by simp)

/-- C8: `getRateLimitedPrinterStatus` reports shouldPublish exactly when the returned status
differs from the cached `lastStatus` or at least 10 s have passed since the cached
`lastPublished`; when it does, `lastStatus` and `lastPublished` become the returned status and
the current time, otherwise both stay; and `BuildStateMessages` emits the base/printer_status
message (once, non-retained, carrying the returned status) exactly when shouldPublish is true. -/
theorem C8_status_emission (cache : PrinterStatusCache) (now : Int) (msg : Snapshot)
    (baseTopic : String) :
    ((getRateLimitedPrinterStatus cache now msg).1.2 = true ↔
      ((getRateLimitedPrinterStatus cache now msg).1.1 ≠ cache.lastStatus ∨
        Time.Sub now cache.lastPublished ≥ 10 * 1000000000)) ∧
    ((getRateLimitedPrinterStatus cache now msg).1.2 = true →
      (getRateLimitedPrinterStatus cache now msg).2.lastStatus =
          (getRateLimitedPrinterStatus cache now msg).1.1 ∧
        (getRateLimitedPrinterStatus cache now msg).2.lastPublished = now) ∧
    ((getRateLimitedPrinterStatus cache now msg).1.2 = false →
      (getRateLimitedPrinterStatus cache now msg).2.lastStatus = cache.lastStatus ∧
        (getRateLimitedPrinterStatus cache now msg).2.lastPublished = cache.lastPublished) ∧
    (BuildStateMessages cache now msg baseTopic).1.filter
        (fun m => decide (m.Topic = baseTopic ++ "/printer_status")) =
      (if (getRateLimitedPrinterStatus cache now msg).1.2 = true then
        [{ Topic := baseTopic ++ "/printer_status",
           Payload := (getRateLimitedPrinterStatus cache now msg).1.1, Retain := false }]
      else []) ∧
    (BuildStateMessages cache now msg baseTopic).2 = (getRateLimitedPrinterStatus cache now msg).2 := by
  refine ⟨?_, ?_, ?_, ?_, rfl⟩
  · unfold getRateLimitedPrinterStatus statusUpdateInterval
    simp only []
    split_ifs <;> simp_all
  · unfold getRateLimitedPrinterStatus
    simp only []
    split_ifs <;> simp_all
  · unfold getRateLimitedPrinterStatus
    simp only []
    split_ifs <;> simp_all
  · unfold BuildStateMessages
    simp only [List.filter_append]
    cases getInt msg "tfCard" <;>
      cases (getRateLimitedPrinterStatus cache now msg).1.2 <;>
      simp [string_append_right_inj]

/-! ## The publish gateway -/

open mqttclient

/-- C6: for a connected client, `Publish` with retain set, or with a minimum interval of zero
or less, transmits exactly the one message of the call (its topic, payload and retain flag)
and leaves the client state, with `lastPublished` and `lastPayload`, as it was. -/
theorem C6_retained_or_unthrottled_bypass (c : Client) (now : Int) (topic payload : String)
    (retain : Bool) (hconn : (c.testBypassConnection || c.clientIsConnected) = true)
    (hbypass : retain = true ∨ c.minInterval ≤ 0) :
    (c.Publish now topic payload retain).1 =
        [{ Topic := topic, Payload := payload, Retain := retain }] ∧
      (c.Publish now topic payload retain).2.lastPublished = c.lastPublished ∧
      (c.Publish now topic payload retain).2.lastPayload = c.lastPayload := by
  unfold Client.Publish
  simp [hconn, hbypass]

/-- C6 at a concrete input: a retained availability message on a client throttled to one
second, whose table says the topic was sent at the same instant and holds a pending payload. -/
theorem C6_retained_or_unthrottled_bypass_witness :
    (({ clientIsConnected := true, minInterval := 1000000000,
        lastPublished := GoMap.empty.set "p/k1/status" 63900000000000000000,
        lastPayload := GoMap.empty.set "p/k1/status" "stale",
        testBypassConnection := false } : Client).Publish
        63900000000000000000 "p/k1/status" "online" true).1 =
      [{ Topic := "p/k1/status", Payload := "online", Retain := true }] :=
  (C6_retained_or_unthrottled_bypass
    { clientIsConnected := true, minInterval := 1000000000,
      lastPublished := GoMap.empty.set "p/k1/status" 63900000000000000000,
      lastPayload := GoMap.empty.set "p/k1/status" "stale",
      testBypassConnection := false }
    63900000000000000000 "p/k1/status" "online" true (by decide) (Or.inl rfl)).1

/-- C4: for a connected client with a positive minimum interval, a non-retained `Publish` made
while less than the interval has passed since `lastPublished[topic]` transmits nothing, stores
the payload as the pending payload of the topic, and leaves `lastPublished` and the pending
payload of every other topic unchanged. -/
theorem C4_inside_window_defers (c : Client) (now : Int) (topic payload : String)
    (hconn : (c.testBypassConnection || c.clientIsConnected) = true)
    (hW : 0 < c.minInterval)
    (hin : Time.Sub now (c.lastPublished.index topic) < c.minInterval) :
    (c.Publish now topic payload false).1 = [] ∧
      (c.Publish now topic payload false).2.lastPayload topic = some payload ∧
      (c.Publish now topic payload false).2.lastPublished = c.lastPublished ∧
      (∀ other, other ≠ topic →
        (c.Publish now topic payload false).2.lastPayload other = c.lastPayload other) := by
  have hW2 : ¬ c.minInterval ≤ 0 := not_le.mpr hW
  unfold Client.Publish
  simp only [hconn, hW2, hin]
  simp only [not_true_eq_false, Bool.false_eq_true, false_or, if_false, if_true, true_and]
  exact ⟨by simp [GoMap.set], fun other hne => by simp [GoMap.set, hne]⟩

/-- C4 at a concrete input, the test case "second message within interval": on a client
throttled to one second that has just sent on the topic, a publish 10 ms later is deferred. -/
theorem C4_inside_window_defers_witness :
    ((((New.SetMinInterval Second).Publish clock2026 "test/ratelimited" "first message"
        false).2).Publish (clock2026 + 10 * Millisecond) "test/ratelimited" "second message"
        false).1 = [] ∧
    ((((New.SetMinInterval Second).Publish clock2026 "test/ratelimited" "first message"
        false).2).Publish (clock2026 + 10 * Millisecond) "test/ratelimited" "second message"
        false).2.lastPayload "test/ratelimited" = some "second message" :=
  have h := C4_inside_window_defers
    ((New.SetMinInterval Second).Publish clock2026 "test/ratelimited" "first message" false).2
    (clock2026 + 10 * Millisecond) "test/ratelimited" "second message"
    (by decide) (by decide) (by decide)
  ⟨h.1, h.2.1⟩

/-- Inside the throttle window `Publish` only stores the payload. -/
theorem Publish_inside_window (c : Client) (now : Int) (topic payload : String)
    (hconn : (c.testBypassConnection || c.clientIsConnected) = true)
    (hW : 0 < c.minInterval)
    (hin : Time.Sub now (c.lastPublished.index topic) < c.minInterval) :
    c.Publish now topic payload false =
      ([], { c with lastPayload := c.lastPayload.set topic payload }) := by
  have hW2 : ¬ c.minInterval ≤ 0 := not_le.mpr hW
  unfold Client.Publish
  simp [hconn, hW2, hin]

/-- Outside the window a stored non-empty pending payload is sent and removed. -/
theorem Publish_window_open_pending (c : Client) (now : Int) (topic payload pending : String)
    (hconn : (c.testBypassConnection || c.clientIsConnected) = true)
    (hW : 0 < c.minInterval)
    (hout : Time.Sub now (c.lastPublished.index topic) ≥ c.minInterval)
    (hpend : c.lastPayload topic = some pending) (hne : pending ≠ "") :
    c.Publish now topic payload false =
      ([{ Topic := topic, Payload := pending, Retain := false }],
        { c with lastPayload := c.lastPayload.delete topic,
                 lastPublished := c.lastPublished.set topic now }) := by
  have hW2 : ¬ c.minInterval ≤ 0 := not_le.mpr hW
  have hout2 : ¬ Time.Sub now (c.lastPublished.index topic) < c.minInterval := not_lt.mpr hout
  unfold Client.Publish
  simp [hconn, hW2, hout2, hpend, hne]

/-- Outside the window, with no pending payload or an empty one, the call's payload is sent. -/
theorem Publish_window_open_plain (c : Client) (now : Int) (topic payload : String)
    (hconn : (c.testBypassConnection || c.clientIsConnected) = true)
    (hW : 0 < c.minInterval)
    (hout : Time.Sub now (c.lastPublished.index topic) ≥ c.minInterval)
    (hpend : c.lastPayload topic = none ∨ c.lastPayload topic = some "") :
    c.Publish now topic payload false =
      ([{ Topic := topic, Payload := payload, Retain := false }],
        { c with lastPublished := c.lastPublished.set topic now }) := by
  have hW2 : ¬ c.minInterval ≤ 0 := not_le.mpr hW
  have hout2 : ¬ Time.Sub now (c.lastPublished.index topic) < c.minInterval := not_lt.mpr hout
  unfold Client.Publish
  rcases hpend with hpend | hpend <;> simp [hconn, hW2, hout2, hpend]

/-- C3, as the code has it: for a connected client with a positive minimum interval, a
non-retained `Publish` made when at least the interval has passed since `lastPublished[topic]`
transmits a stored non-empty pending payload (not the call's own) and removes its entry;
transmits the call's own payload, leaving `lastPayload` as it is, when no pending payload is
stored or the stored one is the empty string; in every case it transmits exactly one message
and sets `lastPublished[topic]` to the current time. -/
theorem C3_window_open_sends_pending (c : Client) (now : Int) (topic payload : String)
    (hconn : (c.testBypassConnection || c.clientIsConnected) = true)
    (hW : 0 < c.minInterval)
    (hout : Time.Sub now (c.lastPublished.index topic) ≥ c.minInterval) :
    (∀ pending, c.lastPayload topic = some pending → pending ≠ "" →
      (c.Publish now topic payload false).1 =
          [{ Topic := topic, Payload := pending, Retain := false }] ∧
        (c.Publish now topic payload false).2.lastPayload topic = none) ∧
    ((c.lastPayload topic = none ∨ c.lastPayload topic = some "") →
      (c.Publish now topic payload false).1 =
          [{ Topic := topic, Payload := payload, Retain := false }] ∧
        (c.Publish now topic payload false).2.lastPayload = c.lastPayload) ∧
    (c.Publish now topic payload false).1.length = 1 ∧
    (c.Publish now topic payload false).2.lastPublished.index topic = now := by
  refine ⟨?_, ?_, ?_, ?_⟩
  · intro pending hpend hne
    rw [Publish_window_open_pending c now topic payload pending hconn hW hout hpend hne]
    simp [GoMap.delete]
  · intro hpend
    rw [Publish_window_open_plain c now topic payload hconn hW hout hpend]
    simp
  · cases hpend : c.lastPayload topic with
    | none =>
      rw [Publish_window_open_plain c now topic payload hconn hW hout (Or.inl hpend)]
      rfl
    | some pending =>
      by_cases hne : pending = ""
      · rw [Publish_window_open_plain c now topic payload hconn hW hout
          (Or.inr (by rw [hpend, hne]))]
        rfl
      · rw [Publish_window_open_pending c now topic payload pending hconn hW hout hpend hne]
        rfl
  · cases hpend : c.lastPayload topic with
    | none =>
      rw [Publish_window_open_plain c now topic payload hconn hW hout (Or.inl hpend)]
      simp [GoMap.index, GoMap.set]
    | some pending =>
      by_cases hne : pending = ""
      · rw [Publish_window_open_plain c now topic payload hconn hW hout
          (Or.inr (by rw [hpend, hne]))]
        simp [GoMap.index, GoMap.set]
      · rw [Publish_window_open_pending c now topic payload pending hconn hW hout hpend hne]
        simp [GoMap.index, GoMap.set]

/-- C3 at a concrete input: after "first message" was sent and "second message" deferred, a
publish of "third message" one second after the send transmits "second message" and clears
the pending entry. -/
theorem C3_window_open_sends_pending_witness :
    ((deferredClient "second message").Publish (clock2026 + Second) "test/ratelimited"
        "third message" false).1 =
      [{ Topic := "test/ratelimited", Payload := "second message", Retain := false }] ∧
    ((deferredClient "second message").Publish (clock2026 + Second) "test/ratelimited"
        "third message" false).2.lastPayload "test/ratelimited" = none :=
  (C3_window_open_sends_pending (deferredClient "second message") (clock2026 + Second)
    "test/ratelimited" "third message" (by decide) (by decide) (by decide)).1
    "second message" (by decide) (by decide)

/-- C3 as stated fails when the stored pending payload is the empty string: the client is
connected, its interval is positive, the interval has passed and the pending payload "" is
stored for the topic, yet the call's own payload is transmitted and the entry stays. -/
theorem C3_counterexample_empty_pending :
    ((deferredClient "").testBypassConnection || (deferredClient "").clientIsConnected) = true ∧
    0 < (deferredClient "").minInterval ∧
    Time.Sub (clock2026 + Second) ((deferredClient "").lastPublished.index "test/ratelimited") ≥
      (deferredClient "").minInterval ∧
    (deferredClient "").lastPayload "test/ratelimited" = some "" ∧
    ((deferredClient "").Publish (clock2026 + Second) "test/ratelimited" "third message"
        false).1 =
      [{ Topic := "test/ratelimited", Payload := "third message", Retain := false }] ∧
    ((deferredClient "").Publish (clock2026 + Second) "test/ratelimited" "third message"
        false).2.lastPayload "test/ratelimited" = some "" := by
  decide

/-- The saturating `Sub` is monotone in the later time. -/
theorem sub_mono_left (t ε u : Int) (hε : 0 ≤ ε) : Time.Sub t u ≤ Time.Sub (t + ε) u := by
  unfold Time.Sub maxInt64 minInt64
  split_ifs <;> omega

/-- A non-negative delay measured from the same instant is at most the delay. -/
theorem sub_self_add_le (t ε : Int) (hε : 0 ≤ ε) : Time.Sub (t + ε) t ≤ ε := by
  unfold Time.Sub maxInt64 minInt64
  split_ifs <;> omega

/-- C2, as the code has it.  For a connected client with minimum interval W > 0, a topic,
payloads p1 ≠ p2 with p2 non-empty, submitted non-retained at t0 and t0+ε (0 ≤ ε < W), then one
further `Publish` (any payload p3) at t2:
* if the topic's window is still closed at t0+ε and open at t2 (both measured from
  `lastPublished[topic]`), the three calls transmit nothing, nothing, and p2: no message
  carries p1 and p2 is sent exactly once;
* if the window is open at t0 and no non-empty pending payload is stored, p1 is transmitted at
  once, p2 is deferred, and the poll at t2, at least W after t0, transmits p2 exactly once. -/
theorem C2_coalescing (c : Client) (t0 ε t2 : Int) (topic p1 p2 p3 : String)
    (hconn : (c.testBypassConnection || c.clientIsConnected) = true)
    (hW : 0 < c.minInterval) (hε : 0 ≤ ε) (hεW : ε < c.minInterval)
    (hp : p1 ≠ p2) (hp2 : p2 ≠ "") :
    (Time.Sub (t0 + ε) (c.lastPublished.index topic) < c.minInterval →
      Time.Sub t2 (c.lastPublished.index topic) ≥ c.minInterval →
        (c.run [⟨t0, topic, p1, false⟩, ⟨t0 + ε, topic, p2, false⟩, ⟨t2, topic, p3, false⟩]).1 =
            [[], [], [{ Topic := topic, Payload := p2, Retain := false }]] ∧
          ∀ m ∈ (c.run [⟨t0, topic, p1, false⟩, ⟨t0 + ε, topic, p2, false⟩,
              ⟨t2, topic, p3, false⟩]).1.flatten, m.Payload ≠ p1) ∧
    (Time.Sub t0 (c.lastPublished.index topic) ≥ c.minInterval →
      (c.lastPayload topic = none ∨ c.lastPayload topic = some "") →
      Time.Sub t2 t0 ≥ c.minInterval →
        (c.run [⟨t0, topic, p1, false⟩, ⟨t0 + ε, topic, p2, false⟩, ⟨t2, topic, p3, false⟩]).1 =
          [[{ Topic := topic, Payload := p1, Retain := false }], [],
            [{ Topic := topic, Payload := p2, Retain := false }]]) := by
  constructor
  · intro hclosed hopen
    have hclosed0 : Time.Sub t0 (c.lastPublished.index topic) < c.minInterval :=
      lt_of_le_of_lt (sub_mono_left t0 ε _ hε) hclosed
    have h1 := Publish_inside_window c t0 topic p1 hconn hW hclosed0
    have h2 := Publish_inside_window { c with lastPayload := c.lastPayload.set topic p1 }
      (t0 + ε) topic p2 hconn hW hclosed
    have h3 := Publish_window_open_pending
      { c with lastPayload := (c.lastPayload.set topic p1).set topic p2 }
      t2 topic p3 p2 hconn hW hopen (by simp [GoMap.set]) hp2
    have hrun : (c.run [⟨t0, topic, p1, false⟩, ⟨t0 + ε, topic, p2, false⟩,
        ⟨t2, topic, p3, false⟩]).1 =
        [[], [], [{ Topic := topic, Payload := p2, Retain := false }]] := by
      simp only [Client.run, h1, h2, h3]
    refine ⟨hrun, ?_⟩
    rw [hrun]
    intro m hm
    simp at hm
    rw [hm]
    exact fun h => hp h.symm
  · intro hopen hpend hpoll
    have h1 := Publish_window_open_plain c t0 topic p1 hconn hW hopen hpend
    have h2 := Publish_inside_window { c with lastPublished := c.lastPublished.set topic t0 }
      (t0 + ε) topic p2 hconn hW
      (by
        have : ({ c with lastPublished := c.lastPublished.set topic t0 } :
            Client).lastPublished.index topic = t0 := by simp [GoMap.index, GoMap.set]
        rw [this]
        exact lt_of_le_of_lt (sub_self_add_le t0 ε hε) hεW)
    have h3 := Publish_window_open_pending
      { c with lastPublished := c.lastPublished.set topic t0,
               lastPayload := c.lastPayload.set topic p2 }
      t2 topic p3 p2 hconn hW
      (by
        have : ({ c with lastPublished := c.lastPublished.set topic t0,
                         lastPayload := c.lastPayload.set topic p2 } :
            Client).lastPublished.index topic = t0 := by simp [GoMap.index, GoMap.set]
        rw [this]
        exact hpoll)
      (by simp [GoMap.set]) hp2
    simp only [Client.run, h1, h2, h3]

/-- C2 at concrete inputs.  First part: on the client that sent on test/ratelimited at the clock
reading and holds a deferred payload, submissions 100 ms and 300 ms later and a poll one second
after the send transmit only the second submission.  Second part: on a fresh client throttled to
one second the first submission is transmitted at once and the second at the poll. -/
theorem C2_coalescing_witness :
    ((deferredClient "x").run
        [⟨clock2026 + 100 * Millisecond, "test/ratelimited", "219.900", false⟩,
         ⟨clock2026 + 100 * Millisecond + 200 * Millisecond, "test/ratelimited", "220.100", false⟩,
         ⟨clock2026 + Second, "test/ratelimited", "220.300", false⟩]).1 =
      [[], [], [{ Topic := "test/ratelimited", Payload := "220.100", Retain := false }]] ∧
    ((New.SetMinInterval Second).run
        [⟨clock2026, "p/k1/nozzle_temp", "219.900", false⟩,
         ⟨clock2026 + 500 * Millisecond, "p/k1/nozzle_temp", "220.100", false⟩,
         ⟨clock2026 + Second, "p/k1/nozzle_temp", "220.300", false⟩]).1 =
      [[{ Topic := "p/k1/nozzle_temp", Payload := "219.900", Retain := false }], [],
        [{ Topic := "p/k1/nozzle_temp", Payload := "220.100", Retain := false }]] :=
  ⟨((C2_coalescing (deferredClient "x") (clock2026 + 100 * Millisecond) (200 * Millisecond)
      (clock2026 + Second) "test/ratelimited" "219.900" "220.100" "220.300"
      (by decide) (by decide) (by decide) (by decide) (by decide) (by decide)).1
      (by decide) (by decide)).1,
   (C2_coalescing (New.SetMinInterval Second) clock2026 (500 * Millisecond)
      (clock2026 + Second) "p/k1/nozzle_temp" "219.900" "220.100" "220.300"
      (by decide) (by decide) (by decide) (by decide) (by decide) (by decide)).2
      (by decide) (by decide) (by decide)⟩

/-- C2 as stated fails on a fresh throttle table: the client is connected, W is one second,
p1 = "219.900" is submitted at t0, p2 = "220.100" half a second later and the topic is polled
one second after t0; p1 is transmitted, by the first call. -/
theorem C2_counterexample_first_is_sent :
    ((New.SetMinInterval Second).testBypassConnection ||
      (New.SetMinInterval Second).clientIsConnected) = true ∧
    0 < (New.SetMinInterval Second).minInterval ∧
    500 * Millisecond < (New.SetMinInterval Second).minInterval ∧
    ((New.SetMinInterval Second).run
        [⟨clock2026, "p/k1/bed_temp0", "219.900", false⟩,
         ⟨clock2026 + 500 * Millisecond, "p/k1/bed_temp0", "220.100", false⟩,
         ⟨clock2026 + Second, "p/k1/bed_temp0", "220.300", false⟩]).1.flatten =
      [{ Topic := "p/k1/bed_temp0", Payload := "219.900", Retain := false },
       { Topic := "p/k1/bed_temp0", Payload := "220.100", Retain := false }] := by
  decide

/-- C5 (counterexample). On a fresh client throttled to one second, "active" is sent on the
status topic, "active" again is deferred 400 ms later, and the call with "idle" one second
after the send transmits the deferred "active", not its own payload, the most recent one;
"idle" is not kept as pending either. -/
theorem C5_transmits_stale_payload :
    ((New.SetMinInterval Second).run
        [⟨clock2026, "p/k1/printer_status", "active", false⟩,
         ⟨clock2026 + 400 * Millisecond, "p/k1/printer_status", "active", false⟩,
         ⟨clock2026 + Second, "p/k1/printer_status", "idle", false⟩]).1 =
      [[{ Topic := "p/k1/printer_status", Payload := "active", Retain := false }], [],
        [{ Topic := "p/k1/printer_status", Payload := "active", Retain := false }]] ∧
    ((New.SetMinInterval Second).run
        [⟨clock2026, "p/k1/printer_status", "active", false⟩,
         ⟨clock2026 + 400 * Millisecond, "p/k1/printer_status", "active", false⟩,
         ⟨clock2026 + Second, "p/k1/printer_status", "idle", false⟩]).2.lastPayload
        "p/k1/printer_status" = none := by
  decide

/-! ## The discovery catalog -/

open discovery

/-- A call of `GenerateDiscoveryMessages` returns the accumulator followed by the catalog. -/
theorem GenerateDiscoveryMessages_append (acc : List MqttMessage) (cfg : Config) :
    (GenerateDiscoveryMessages acc cfg).1 = acc ++ (GenerateDiscoveryMessages [] cfg).1 ∧
      (GenerateDiscoveryMessages acc cfg).2 = (GenerateDiscoveryMessages acc cfg).1 := by
  simp [GenerateDiscoveryMessages, List.append_assoc]

/-- The catalog of one call is never empty. -/
theorem GenerateDiscoveryMessages_length (cfg : Config) :
    13 ≤ (GenerateDiscoveryMessages [] cfg).1.length := by
  simp [GenerateDiscoveryMessages, BuildTemperatureSensors, BuildStatusSensor, BuildFanSensors,
    BuildProgressSensor, BuildFeedStateSensor, BuildPrintingSensor, BuildPartFanSensor,
    BuildLightSwitch]

/-- C1 fails on the code: whatever the accumulator `discoverMessages` holds, the second of two
successive calls returns the result of the first followed by the whole catalog again, so the
two results are not equal as collections; for the test configuration, in a fresh process, the
first call returns 16 messages and the second 32. -/
theorem C1_second_call_repeats_catalog :
    (∀ (acc : List MqttMessage) (cfg : Config),
      (GenerateDiscoveryMessages (GenerateDiscoveryMessages acc cfg).2 cfg).1 =
          (GenerateDiscoveryMessages acc cfg).1 ++ (GenerateDiscoveryMessages [] cfg).1 ∧
        ¬ List.Perm (GenerateDiscoveryMessages acc cfg).1
          (GenerateDiscoveryMessages (GenerateDiscoveryMessages acc cfg).2 cfg).1) ∧
    (GenerateDiscoveryMessages [] testConfig).1.length = 16 ∧
    (GenerateDiscoveryMessages (GenerateDiscoveryMessages [] testConfig).2 testConfig).1.length
      = 32 := by
  refine ⟨?_, by decide, by decide⟩
  intro acc cfg
  have hsecond : (GenerateDiscoveryMessages (GenerateDiscoveryMessages acc cfg).2 cfg).1 =
      (GenerateDiscoveryMessages acc cfg).1 ++ (GenerateDiscoveryMessages [] cfg).1 := by
    rw [(GenerateDiscoveryMessages_append acc cfg).2]
    exact (GenerateDiscoveryMessages_append _ cfg).1
  refine ⟨hsecond, ?_⟩
  intro hperm
  have hlen := hperm.length_eq
  rw [hsecond, List.length_append] at hlen
  have := GenerateDiscoveryMessages_length cfg
  omega

/-! ## The job mapping: coercion, counters and file name -/

/-- A decimal digit character reads back as its value. -/
theorem digitVal_digitChar (k : Nat) (hk : k < 10) : digitVal (Nat.digitChar k) = some k := by
  interval_cases k <;> decide

/-- Reading the digits that `Nat.toDigitsCore` writes in front of `ds` amounts to starting the
reading of `ds` from the number written. -/
theorem foldl_toDigitsCore (fuel : Nat) :
    ∀ (n : Nat) (ds : List Char), n < fuel →
      List.foldl digitStep (some 0) (Nat.toDigitsCore 10 fuel n ds) =
        List.foldl digitStep (some n) ds := by
  induction fuel with
  | zero => intro n ds h; omega
  | succ fuel ih =>
    intro n ds h
    unfold Nat.toDigitsCore
    simp only []
    have hd := digitVal_digitChar (n % 10) (Nat.mod_lt _ (by decide))
    split_ifs with h0
    · have hn : n % 10 = n := Nat.mod_eq_of_lt (by omega)
      simp only [List.foldl_cons, digitStep, hd]
      simp [hn]
    · rw [ih (n / 10) _ (by omega)]
      simp only [List.foldl_cons, digitStep, hd]
      congr 2
      omega

/-- The text written by `Nat.toDigitsCore` starts with a decimal digit. -/
theorem toDigitsCore_head (fuel : Nat) :
    ∀ (n : Nat) (ds : List Char),
      ∃ k tl, k < 10 ∧ Nat.toDigitsCore 10 (fuel + 1) n ds = Nat.digitChar k :: tl := by
  induction fuel with
  | zero =>
    intro n ds
    refine ⟨n % 10, ds, Nat.mod_lt _ (by decide), ?_⟩
    simp [Nat.toDigitsCore]
  | succ fuel ih =>
    intro n ds
    unfold Nat.toDigitsCore
    simp only []
    split_ifs with h0
    · exact ⟨n % 10, ds, Nat.mod_lt _ (by decide), rfl⟩
    · exact ih _ _

/-- On a non-empty text `parseDigits` is the fold of the digit step. -/
theorem parseDigits_eq_foldl (cs : List Char) (h : cs ≠ []) :
    parseDigits cs = List.foldl digitStep (some 0) cs := by
  cases cs with
  | nil => exact absurd rfl h
  | cons c cs => rfl

/-- The decimal text of a natural number in the `int64` range parses back to it. -/
theorem ParseInt_repr (n : Nat) (h : (n : Int) ≤ maxInt64) : ParseInt (Nat.repr n) = some (n : Int) := by
  obtain ⟨k, tl, hk, hd⟩ := toDigitsCore_head n n []
  have hdata : (Nat.repr n).data = Nat.digitChar k :: tl := by
    simp only [Nat.repr, Nat.toDigits, hd]
    rfl
  have hparse : parseDigits (Nat.digitChar k :: tl) = some n := by
    rw [parseDigits_eq_foldl _ (by simp), ← hd, foldl_toDigitsCore (n + 1) n [] (by omega)]
    rfl
  unfold ParseInt
  rw [hdata]
  interval_cases k <;> simp [Nat.digitChar] at hparse ⊢ <;> simp [hparse, h]

/-- A float whose value is an integer truncates to that integer. -/
theorem F64.trunc_of_isInteger (v : F64) (n : Int) (h : F64.IsInteger v n) : v.trunc = some n := by
  cases v with
  | inf neg => exact absurd h (by simp [F64.IsInteger])
  | nan => exact absurd h (by simp [F64.IsInteger])
  | finite neg mant exp =>
    simp only [F64.IsInteger] at h
    simp only [F64.trunc, Option.some.injEq]
    by_cases hexp : 0 ≤ exp
    · have hz : (-exp).toNat = 0 := by omega
      rw [hz, pow_zero, mul_one] at h
      simp only [hexp, if_true]
      rw [← h]
      cases neg <;> simp
    · have hz : exp.toNat = 0 := by omega
      rw [hz, pow_zero, mul_one] at h
      simp only [hexp, if_false]
      have hpos : (0 : Int) < 2 ^ (-exp).toNat := by positivity
      cases neg with
      | false =>
        simp only [Bool.false_eq_true, if_false] at h ⊢
        push_cast
        rw [h, Int.mul_ediv_cancel _ (ne_of_gt hpos)]
      | true =>
        simp only [if_true] at h ⊢
        push_cast
        have h2 : (mant : Int) = (-n) * 2 ^ (-exp).toNat := by linarith
        rw [h2, Int.mul_ediv_cancel _ (ne_of_gt hpos)]
        ring

/-- A binding under another key does not change what `getInt` reads. -/
theorem getInt_cons_ne (k key : String) (x : Value) (rest : Snapshot) (h : k ≠ key) :
    getInt ((k, x) :: rest) key = getInt rest key := by
  simp [getInt, Snapshot.get, h]

/-- The job messages depend on the snapshot only through the fields `BuildJobMessages` reads. -/
theorem BuildJobMessages_congr (m₁ m₂ : Snapshot) (baseTopic : String)
    (h1 : getInt m₁ "printProgress" = getInt m₂ "printProgress")
    (h2 : getInt m₁ "printLeftTime" = getInt m₂ "printLeftTime")
    (h3 : getInt m₁ "printJobTime" = getInt m₂ "printJobTime")
    (h4 : getInt m₁ "layer" = getInt m₂ "layer")
    (h5 : getInt m₁ "TotalLayer" = getInt m₂ "TotalLayer")
    (h6 : m₁.get "printFileName" = m₂.get "printFileName")
    (h7 : getInt m₁ "feedState" = getInt m₂ "feedState") :
    BuildJobMessages m₁ baseTopic = BuildJobMessages m₂ baseTopic := by
  unfold BuildJobMessages
  rw [h1, h2, h3, h4, h5, h6, h7]

/-- Two values of printProgress that `getInt` coerces alike give the same job messages. -/
theorem BuildJobMessages_progress_congr (x y : Value) (rest : Snapshot) (baseTopic : String)
    (h : getInt [("printProgress", x)] "printProgress" = getInt [("printProgress", y)] "printProgress") :
    BuildJobMessages (("printProgress", x) :: rest) baseTopic =
      BuildJobMessages (("printProgress", y) :: rest) baseTopic := by
  apply BuildJobMessages_congr
  · simpa [getInt, Snapshot.get] using h
  · rw [getInt_cons_ne _ _ _ _ (by decide), getInt_cons_ne _ _ _ _ (by decide)]
  · rw [getInt_cons_ne _ _ _ _ (by decide), getInt_cons_ne _ _ _ _ (by decide)]
  · rw [getInt_cons_ne _ _ _ _ (by decide), getInt_cons_ne _ _ _ _ (by decide)]
  · rw [getInt_cons_ne _ _ _ _ (by decide), getInt_cons_ne _ _ _ _ (by decide)]
  · simp [Snapshot.get]
  · rw [getInt_cons_ne _ _ _ _ (by decide), getInt_cons_ne _ _ _ _ (by decide)]

/-- An integer inside the `int64` range is its own two's-complement reduction. -/
theorem wrapInt64_of_range (n : Int) (h1 : minInt64 ≤ n) (h2 : n ≤ maxInt64) : wrapInt64 n = n := by
  unfold wrapInt64
  unfold minInt64 at h1
  unfold maxInt64 at h2
  omega

/-- `ParseInt` reads back what `FormatInt` writes for a non-negative `int64`. -/
theorem ParseInt_FormatInt_pos (n : Int) (h0 : 0 ≤ n) (h : n ≤ maxInt64) :
    ParseInt (FormatInt n) = some n := by
  obtain ⟨m, rfl⟩ := Int.eq_ofNat_of_zero_le h0
  exact ParseInt_repr m h

/-- C11: for every integer n with 0 < n < 2^53 and every snapshot `rest` with a positive
printLeftTime, `BuildJobMessages` returns the same list whether printProgress is the integer
n, the decimal string of n, or a float whose value is n; that list starts with printing =
"true" followed by job/progress = the decimal form of n; and a printProgress string that
`ParseInt` rejects gives printing = "false" and no message on job/progress. -/
theorem C11_progress_coercion (n : Int) (v : F64) (rest : Snapshot) (baseTopic : String)
    (hn : 0 < n) (hn53 : n < 2 ^ 53) (hv : F64.IsInteger v n)
    (hleft : signal rest "printLeftTime") :
    BuildJobMessages (("printProgress", .string (FormatInt n)) :: rest) baseTopic =
        BuildJobMessages (("printProgress", .int n) :: rest) baseTopic ∧
    BuildJobMessages (("printProgress", .float64 v) :: rest) baseTopic =
        BuildJobMessages (("printProgress", .int n) :: rest) baseTopic ∧
    (∃ tail, BuildJobMessages (("printProgress", .int n) :: rest) baseTopic =
        { Topic := baseTopic ++ "/printing", Payload := "true", Retain := false } ::
        { Topic := baseTopic ++ "/job/progress", Payload := FormatInt n, Retain := false } ::
          tail) ∧
    (∀ s, ParseInt s = none →
      ∃ tail, BuildJobMessages (("printProgress", .string s) :: rest) baseTopic =
          { Topic := baseTopic ++ "/printing", Payload := "false", Retain := false } :: tail ∧
        ∀ m ∈ tail, m.Topic ≠ baseTopic ++ "/job/progress") := by
  have hmax : n ≤ maxInt64 := by unfold maxInt64; omega
  have hmin : minInt64 ≤ n := by unfold minInt64; omega
  have hint : getInt [("printProgress", Value.int n)] "printProgress" = some n := by
    simp [getInt, Snapshot.get, wrapInt64_of_range n hmin hmax]
  refine ⟨?_, ?_, ?_, ?_⟩
  · apply BuildJobMessages_progress_congr
    rw [hint]
    simp [getInt, Snapshot.get, ParseInt_FormatInt_pos n (le_of_lt hn) hmax]
  · apply BuildJobMessages_progress_congr
    rw [hint]
    simp [getInt, Snapshot.get, F64.toInt64, F64.trunc_of_isInteger v n hv, hmin, hmax]
  · obtain ⟨l, hl, hl0⟩ := hleft
    have hp : getInt (("printProgress", Value.int n) :: rest) "printProgress" = some n := by
      simp [getInt, Snapshot.get, wrapInt64_of_range n hmin hmax]
    have hl' : getInt (("printProgress", Value.int n) :: rest) "printLeftTime" = some l := by
      rw [getInt_cons_ne _ _ _ _ (by decide), hl]
    have htrue : (decide (n > 0) && decide (l > 0)) = true := by simp [hn, hl0]
    unfold BuildJobMessages
    simp only [hp, hl', htrue, if_true, List.append_assoc, List.singleton_append]
    exact ⟨_, rfl⟩
  · intro s hs
    have hp : getInt (("printProgress", Value.string s) :: rest) "printProgress" = none := by
      simp [getInt, Snapshot.get, hs]
    unfold BuildJobMessages
    simp only [hp, List.append_assoc, List.singleton_append, List.nil_append]
    refine ⟨_, rfl, ?_⟩
    intro m hm
    simp only [List.append_eq, List.mem_append] at hm
    rcases hm with h | h | h | h | h | h <;> (repeat' split at h) <;> simp at h <;>
      (rw [h]; simp [string_append_right_inj])

/-- C11 at n = 50 with printLeftTime 600: the string "50" and the float 25 * 2^1 give the same
messages as the integer 50. -/
theorem C11_progress_coercion_witness :
    BuildJobMessages [("printProgress", .string "50"), ("printLeftTime", .int 600)] "test" =
        BuildJobMessages [("printProgress", .int 50), ("printLeftTime", .int 600)] "test" ∧
    BuildJobMessages [("printProgress", .float64 (.finite false 25 1)),
        ("printLeftTime", .int 600)] "test" =
        BuildJobMessages [("printProgress", .int 50), ("printLeftTime", .int 600)] "test" :=
  have h := C11_progress_coercion 50 (.finite false 25 1) [("printLeftTime", .int 600)] "test"
    (by decide) (by decide) (by simp [F64.IsInteger]) ⟨600, by decide, by decide⟩
  ⟨h.1, h.2.1⟩

/-- C12 fails on the code: a printFileName of three spaces (or of a tab, a newline and a space)
passes the guard `s != ""`, is simplified to the empty string and is emitted on
base/job/file_name with an empty payload; only the empty string itself emits nothing. -/
theorem C12_whitespace_file_name_is_emitted :
    BuildJobMessages [("printProgress", .float64 (.finite false 20 0)),
        ("printLeftTime", .float64 (.finite false 900 0)), ("printFileName", .string "   ")]
        "test" =
      [{ Topic := "test/printing", Payload := "true", Retain := false },
       { Topic := "test/job/progress", Payload := "20", Retain := false },
       { Topic := "test/job/left_time", Payload := "900", Retain := false },
       { Topic := "test/job/file_name", Payload := "", Retain := false }] ∧
    BuildJobMessages [("printFileName", .string "\t\n ")] "test" =
      [{ Topic := "test/printing", Payload := "false", Retain := false },
       { Topic := "test/job/file_name", Payload := "", Retain := false }] ∧
    BuildJobMessages [("printFileName", .string "")] "test" =
      [{ Topic := "test/printing", Payload := "false", Retain := false }] := by
  decide

/-- C14 fails on the code: a TotalLayer of -1 (the JSON number, or the string "-3") coerces to
a nonzero integer, yet no base/job/layer/total message is emitted, because the guard is
`totalLayer > 0`. -/
theorem C14_negative_total_layer_is_dropped :
    getInt [("TotalLayer", .float64 (.finite true 1 0))] "TotalLayer" = some (-1) ∧
    BuildJobMessages [("TotalLayer", .float64 (.finite true 1 0))] "test" =
      [{ Topic := "test/printing", Payload := "false", Retain := false }] ∧
    BuildJobMessages [("TotalLayer", .string "-3")] "test" =
      [{ Topic := "test/printing", Payload := "false", Retain := false }] := by
  decide

/-- C15: the messages of `BuildJobMessages` on the five counter topics are, in this order,
job/progress, job/left_time, job/job_time, job/layer/current and feed_state, each present
exactly when `getInt` coerces printProgress, printLeftTime, printJobTime, layer and feedState
respectively, non-retained, with the base-10 form of that integer as payload; they come after
the printing message; and the float 85.5 is truncated to "85" (test case "float64 values"). -/
theorem C15_counter_messages (msg : Snapshot) (baseTopic : String) :
    (∃ payload rest,
      BuildJobMessages msg baseTopic =
        { Topic := baseTopic ++ "/printing", Payload := payload, Retain := false } :: rest ∧
      rest.filter (isCounterTopic baseTopic) =
        (match getInt msg "printProgress" with
          | some p => [{ Topic := baseTopic ++ "/job/progress", Payload := FormatInt p, Retain := false }]
          | none => []) ++
        (match getInt msg "printLeftTime" with
          | some l => [{ Topic := baseTopic ++ "/job/left_time", Payload := FormatInt l, Retain := false }]
          | none => []) ++
        (match getInt msg "printJobTime" with
          | some j => [{ Topic := baseTopic ++ "/job/job_time", Payload := FormatInt j, Retain := false }]
          | none => []) ++
        (match getInt msg "layer" with
          | some l => [{ Topic := baseTopic ++ "/job/layer/current", Payload := FormatInt l, Retain := false }]
          | none => []) ++
        (match getInt msg "feedState" with
          | some f => [{ Topic := baseTopic ++ "/feed_state", Payload := FormatInt f, Retain := false }]
          | none => [])) ∧
    BuildJobMessages [("printProgress", .float64 (.finite false 171 (-1))),
        ("printLeftTime", .float64 (.finite false 300 0)),
        ("layer", .float64 (.finite false 42 0))] "test" =
      [{ Topic := "test/printing", Payload := "true", Retain := false },
       { Topic := "test/job/progress", Payload := "85", Retain := false },
       { Topic := "test/job/left_time", Payload := "300", Retain := false },
       { Topic := "test/job/layer/current", Payload := "42", Retain := false }] ∧
    getInt [("printProgress", .float64 (.finite true 171 (-1)))] "printProgress" = some (-85) := by
  refine ⟨?_, by decide, by decide⟩
  unfold BuildJobMessages
  simp only [List.append_assoc, List.singleton_append]
  refine ⟨_, _, rfl, ?_⟩
  simp only [List.append_eq, List.filter_append]
  have htotal : List.filter (isCounterTopic baseTopic)
      (match getInt msg "TotalLayer" with
        | some t =>
            if t > 0 then
              [{ Topic := baseTopic ++ "/job/layer/total", Payload := FormatInt t, Retain := false }]
            else []
        | none => []) = [] := by
    split
    · split_ifs <;> simp [isCounterTopic, string_append_right_inj]
    · rfl
  have hfile : List.filter (isCounterTopic baseTopic)
      (match msg.get "printFileName" with
        | some (.string s) =>
            if s ≠ "" then
              [{ Topic := baseTopic ++ "/job/file_name", Payload := simplifyFileName s, Retain := false }]
            else []
        | _ => []) = [] := by
    split
    · split_ifs <;> simp [isCounterTopic, string_append_right_inj]
    · rfl
  erw [htotal, hfile]
  cases getInt msg "printProgress" <;> cases getInt msg "printLeftTime" <;>
    cases getInt msg "printJobTime" <;> cases getInt msg "layer" <;>
    cases getInt msg "feedState" <;>
    simp [isCounterTopic, string_append_right_inj]

/-- Splitting a list that has a separator in the middle splits both sides. -/
theorem splitOnP_append_sep {α : Type} (p : α → Bool) (x y : List α) (sep : α) (hsep : p sep = true) :
    (x ++ sep :: y).splitOnP p = x.splitOnP p ++ y.splitOnP p := by
  induction x with
  | nil => simp [hsep]
  | cons c x ih =>
    simp only [List.cons_append, List.splitOnP_cons, ih]
    split_ifs
    · rfl
    · cases h : List.splitOnP p x with
      | nil => exact absurd h (List.splitOnP_ne_nil p x)
      | cons hd tl => rfl

/-- A list of separators splits into empty segments only. -/
theorem splitOnP_all_sep {α : Type} (p : α → Bool) (l : List α) (h : ∀ c ∈ l, p c = true) :
    ∀ seg ∈ l.splitOnP p, seg = [] := by
  induction l with
  | nil => simp
  | cons c l ih =>
    have hc : p c = true := h c (List.mem_cons_self _ _)
    simp only [List.splitOnP_cons, hc, if_true, List.mem_cons]
    rintro seg (rfl | hseg)
    · rfl
    · exact ih (fun c hc => h c (List.mem_cons_of_mem _ hc)) seg hseg

/-- A non-empty separator-free block that is preceded by nothing or by a separator, and followed
only by separators, is the last non-empty segment. -/
theorem lastNonEmptySegment_of_shape (pre r post : List Char) (hr : r ≠ []) (hrs : '/' ∉ r)
    (hpost : ∀ c ∈ post, c = '/') (hpre : pre = [] ∨ ∃ pre', pre = pre' ++ ['/']) :
    lastNonEmptySegment (pre ++ r ++ post) = some r := by
  have htail : List.filter (fun seg => decide (seg ≠ [])) ((r ++ post).splitOn '/') = [r] := by
    have hrp : ∀ x ∈ r, ¬ (x == '/') = true := by
      intro x hx hxe
      rw [beq_iff_eq] at hxe
      exact hrs (hxe ▸ hx)
    cases post with
    | nil =>
      rw [List.append_nil, List.splitOn, List.splitOnP_eq_single _ _ hrp]
      simp [hr]
    | cons c post =>
      have hc : c = '/' := hpost c (List.mem_cons_self _ _)
      rw [List.splitOn, List.splitOnP_first _ _ hrp c (by simp [hc])]
      have hall := splitOnP_all_sep (fun x => x == '/') post
        (fun x hx => by simp [hpost x (List.mem_cons_of_mem _ hx)])
      rw [List.filter_cons_of_pos (by simp [hr])]
      congr 1
      rw [List.filter_eq_nil_iff]
      intro seg hseg
      simp [hall seg hseg]
  unfold lastNonEmptySegment
  rcases hpre with rfl | ⟨pre', rfl⟩
  · rw [List.nil_append, htail]; rfl
  · have : pre' ++ ['/'] ++ r ++ post = pre' ++ '/' :: (r ++ post) := by simp
    rw [this, List.splitOn, splitOnP_append_sep _ _ _ _ (by simp), List.filter_append]
    change (_ ++ List.filter (fun seg => decide (seg ≠ [])) ((r ++ post).splitOn '/')).getLast? = _
    rw [htail]
    simp

/-- What `dropWhile` leaves starts with an element that fails the test. -/
theorem dropWhile_head_false {α : Type} (p : α → Bool) :
    ∀ (l : List α) (a : α) (l' : List α), l.dropWhile p = a :: l' → p a = false := by
  intro l
  induction l with
  | nil => simp
  | cons x xs ih =>
    intro a l' h
    rw [List.dropWhile_cons] at h
    split_ifs at h with hx
    · exact ih a l' h
    · injection h with h1 h2
      subst h1
      simpa using hx

/-- On a path with a character other than the separator, `filepathBase` returns a non-empty
separator-free block of the path, preceded by nothing or by a separator and followed only by
separators. -/
theorem filepathBase_shape (n : List Char) (h : ∃ c ∈ n, c ≠ '/') :
    ∃ pre post, n = pre ++ filepathBase n ++ post ∧ filepathBase n ≠ [] ∧
      '/' ∉ filepathBase n ∧ (∀ c ∈ post, c = '/') ∧
      (pre = [] ∨ ∃ pre', pre = pre' ++ ['/']) := by
  obtain ⟨c0, hc0, hc0ne⟩ := h
  have hn : n ≠ [] := List.ne_nil_of_mem hc0
  obtain ⟨s, hs⟩ : ∃ s, s = n.reverse.dropWhile (fun c => decide (c = '/')) := ⟨_, rfl⟩
  have hsne : s ≠ [] := by
    intro hnil
    rw [hs, List.dropWhile_eq_nil_iff] at hnil
    have := hnil c0 (List.mem_reverse.mpr hc0)
    simp at this
    exact hc0ne this
  have htw : s.takeWhile (fun c => decide (c ≠ '/')) ≠ [] := by
    cases hsc : s with
    | nil => exact absurd hsc hsne
    | cons a s' =>
      have hhead := dropWhile_head_false _ _ a s' (hs ▸ hsc)
      simp at hhead
      simp [List.takeWhile_cons, hhead]
  have hb : filepathBase n = (s.takeWhile (fun c => decide (c ≠ '/'))).reverse := by
    have hrev : (s.takeWhile (fun c => decide (c ≠ '/'))).reverse ≠ [] :=
      fun h => htw (List.reverse_eq_nil_iff.mp h)
    unfold filepathBase
    rw [if_neg hn]
    simp only [List.reverse_reverse, ← hs]
    rw [if_neg hrev]
  refine ⟨(s.dropWhile (fun c => decide (c ≠ '/'))).reverse,
    (n.reverse.takeWhile (fun c => decide (c = '/'))).reverse, ?_, ?_, ?_, ?_, ?_⟩
  · rw [hb, ← List.reverse_append, ← List.reverse_append,
      List.takeWhile_append_dropWhile, hs, List.takeWhile_append_dropWhile, List.reverse_reverse]
  · rw [hb]; simpa using htw
  · rw [hb]
    intro hmem
    have := List.mem_takeWhile_imp (List.mem_reverse.mp hmem)
    simp at this
  · intro c hc
    have := List.mem_takeWhile_imp (List.mem_reverse.mp hc)
    simpa using this
  · cases hd : s.dropWhile (fun c => decide (c ≠ '/')) with
    | nil => left; rfl
    | cons a d =>
      right
      have hhead := dropWhile_head_false _ _ a d hd
      simp at hhead
      exact ⟨d.reverse, by simp [hhead]⟩

/-- C13, as the code has it: when the trimmed name has a character other than '/' and '\\',
`simplifyFileName` returns the last non-empty '/'-separated segment of the trimmed name with
every backslash replaced by '/', and that payload is non-empty and has neither '/' nor a
backslash; when the trimmed name is non-empty and made of separators only, the payload is "/";
the two examples of the claim hold. -/
theorem C13_simplifyFileName_last_segment (s : String) :
    ((∃ c ∈ TrimSpace s.data, c ≠ '/' ∧ c ≠ '\\') →
      lastNonEmptySegment ((TrimSpace s.data).map (fun c => if c = '\\' then '/' else c)) =
          some (simplifyFileName s).data ∧
        (simplifyFileName s).data ≠ [] ∧ '/' ∉ (simplifyFileName s).data ∧
        '\\' ∉ (simplifyFileName s).data) ∧
    (TrimSpace s.data ≠ [] → (∀ c ∈ TrimSpace s.data, c = '/' ∨ c = '\\') →
      simplifyFileName s = "/") ∧
    simplifyFileName "/a/b/c (1)_x.3mf/final_plate_4.gcode" = "final_plate_4.gcode" ∧
    simplifyFileName "C:\\Users\\Print\\Documents\\file.gcode" = "file.gcode" := by
  refine ⟨?_, ?_, by decide, by decide⟩
  · rintro ⟨c, hc, hc1, hc2⟩
    have htrim : TrimSpace s.data ≠ [] := List.ne_nil_of_mem hc
    have hdata : (simplifyFileName s).data =
        filepathBase ((TrimSpace s.data).map (fun c => if c = '\\' then '/' else c)) := by
      unfold simplifyFileName
      simp only [htrim, if_false]
    have hex : ∃ x ∈ (TrimSpace s.data).map (fun c => if c = '\\' then '/' else c), x ≠ '/' :=
      ⟨c, List.mem_map.mpr ⟨c, hc, by simp [hc2]⟩, hc1⟩
    obtain ⟨pre, post, hn, hne, hslash, hpost, hpre⟩ := filepathBase_shape _ hex
    rw [hdata]
    refine ⟨?_, hne, hslash, ?_⟩
    · conv_lhs => rw [hn]
      exact lastNonEmptySegment_of_shape pre _ post hne hslash hpost hpre
    · intro hmem
      have hin : '\\' ∈ (TrimSpace s.data).map (fun c => if c = '\\' then '/' else c) := by
        rw [hn]
        simp [hmem]
      obtain ⟨x, _, hx⟩ := List.mem_map.mp hin
      by_cases hxb : x = '\\'
      · simp [hxb] at hx
      · simp only [hxb, if_false] at hx
  · intro htrim hall
    have hmap : ∀ x ∈ (TrimSpace s.data).map (fun c => if c = '\\' then '/' else c), x = '/' := by
      intro x hx
      obtain ⟨y, hy, rfl⟩ := List.mem_map.mp hx
      rcases hall y hy with h | h <;> simp [h]
    have hmne : (TrimSpace s.data).map (fun c => if c = '\\' then '/' else c) ≠ [] := by
      simpa using htrim
    unfold simplifyFileName
    simp only [htrim, if_false]
    unfold filepathBase
    rw [if_neg hmne]
    have hdrop : List.dropWhile (fun c => decide (c = '/'))
        ((TrimSpace s.data).map (fun c => if c = '\\' then '/' else c)).reverse = [] := by
      rw [List.dropWhile_eq_nil_iff]
      intro x hx
      simp [hmap x (List.mem_reverse.mp hx)]
    simp only [hdrop]
    rfl

/-- C13 as stated fails on names made of separators: "/" and " \\\\ " have a non-empty trimmed
form, and their payload is "/", which contains '/'. -/
theorem C13_counterexample_only_separators :
    TrimSpace "/".data ≠ [] ∧ simplifyFileName "/" = "/" ∧
    TrimSpace " \\\\ ".data ≠ [] ∧ simplifyFileName " \\\\ " = "/" ∧
    BuildJobMessages [("printFileName", .string "/")] "test" =
      [{ Topic := "test/printing", Payload := "false", Retain := false },
       { Topic := "test/job/file_name", Payload := "/", Retain := false }] := by
  decide

/-! ## Key normalisation -/

/-- The loop of `normaliseKey` computes, character by character, what the words of the
specification say: the lower-case form of the character, with one '_' in front of it at a
boundary from lower to upper case. -/
theorem normaliseKeyLoop_eq_zip (u : UnicodeCase) :
    ∀ (l : List Char) (prev : Option Char),
      normaliseKeyLoop u prev l =
        (List.zipWith
          (fun (before : Option Char) (r : Char) =>
            (if (match before with
                  | some p => unicode.IsUpper u r && unicode.IsLower u p
                  | none => false) then ['_'] else []) ++ [unicode.ToLower u r])
          (prev :: l.map some) l).flatten := by
  intro l
  induction l with
  | nil => intro prev; rfl
  | cons r rest ih =>
    intro prev
    simp only [normaliseKeyLoop, List.map_cons, List.zipWith_cons_cons, List.flatten_cons, ih]
    cases prev <;> simp

/-- A property of the 128 ASCII characters holds for every ASCII character. -/
theorem ascii_cases (P : Char → Prop) (h : ∀ n, n < 128 → P (Char.ofNat n)) (c : Char)
    (hc : c.toNat < 128) : P c := by
  have := h c.toNat hc
  rwa [Char.ofNat_toNat] at this

/-- The lower-case form of an ASCII character other than the space is an ASCII character, is
not an uppercase letter and is not the space. -/
theorem toLower_ascii (u : UnicodeCase) (c : Char) (h : c.toNat < 128) (hsp : c ≠ ' ') :
    (unicode.ToLower u c).toNat < 128 ∧ unicode.IsUpper u (unicode.ToLower u c) = false ∧
      unicode.ToLower u c ≠ ' ' := by
  have key : ∀ n, n < 128 → Char.ofNat n ≠ ' ' →
      (unicode.ToLower UnicodeCase.caseless (Char.ofNat n)).toNat < 128 ∧
      unicode.IsUpper UnicodeCase.caseless (unicode.ToLower UnicodeCase.caseless (Char.ofNat n))
        = false ∧
      unicode.ToLower UnicodeCase.caseless (Char.ofNat n) ≠ ' ' := by
    decide
  have hl : unicode.ToLower u c = unicode.ToLower UnicodeCase.caseless c := by
    simp [unicode.ToLower, h]
  have h3 := ascii_cases (fun c => c ≠ ' ' →
      (unicode.ToLower UnicodeCase.caseless c).toNat < 128 ∧
      unicode.IsUpper UnicodeCase.caseless (unicode.ToLower UnicodeCase.caseless c) = false ∧
      unicode.ToLower UnicodeCase.caseless c ≠ ' ') key c h hsp
  rw [hl]
  refine ⟨h3.1, ?_, h3.2.2⟩
  have := h3.2.1
  simp only [unicode.IsUpper, h3.1, if_true] at this ⊢
  exact this

/-- Every character that the loop of `normaliseKey` writes is '_' or the lower-case form of a
character of its input. -/
theorem mem_normaliseKeyLoop (u : UnicodeCase) :
    ∀ (l : List Char) (prev : Option Char) (c : Char), c ∈ normaliseKeyLoop u prev l →
      c = '_' ∨ ∃ r ∈ l, c = unicode.ToLower u r := by
  intro l
  induction l with
  | nil => intro prev c h; simp [normaliseKeyLoop] at h
  | cons r rest ih =>
    intro prev c h
    simp only [normaliseKeyLoop, List.mem_append, List.mem_singleton] at h
    rcases h with (h | h) | h
    · left
      cases prev with
      | none => simp at h
      | some p =>
        simp only at h
        split_ifs at h
        · simpa using h
        · simp at h
    · right; exact ⟨r, List.mem_cons_self _ _, h⟩
    · rcases ih _ _ h with h | ⟨x, hx, hc⟩
      · left; exact h
      · right; exact ⟨x, List.mem_cons_of_mem _ hx, hc⟩

/-- Trimming keeps only characters of the text. -/
theorem mem_TrimSpace (l : List Char) (c : Char) (h : c ∈ TrimSpace l) : c ∈ l := by
  unfold TrimSpace at h
  rw [List.mem_reverse] at h
  have h1 := (List.dropWhile_suffix isSpace).subset h
  rw [List.mem_reverse] at h1
  exact (List.dropWhile_suffix isSpace).subset h1

/-- C18. `normaliseKey` is the function the words describe (surrounding white space trimmed,
every space replaced by '_', every character written in lower case, with exactly one '_' in
front of an uppercase letter that directly follows a lowercase letter); for a key of ASCII
characters the result is ASCII and has no uppercase letter and no space; nozzleTemp gives
nozzle_temp, bedTemp0 gives bed_temp0, usedMaterialLength gives used_material_length. -/
theorem C18_normaliseKey (u : UnicodeCase) (key : String) :
    normaliseKey u key = normaliseKeySpec u key ∧
    ((∀ c ∈ key.data, c.toNat < 128) →
      ∀ c ∈ (normaliseKey u key).data,
        c.toNat < 128 ∧ unicode.IsUpper u c = false ∧ c ≠ ' ') ∧
    normaliseKey u "nozzleTemp" = "nozzle_temp" ∧
    normaliseKey u "bedTemp0" = "bed_temp0" ∧
    normaliseKey u "usedMaterialLength" = "used_material_length" ∧
    normaliseKey u " cur Position " = "cur_position" := by
  refine ⟨?_, ?_, rfl, rfl, rfl, rfl⟩
  · unfold normaliseKey normaliseKeySpec
    simp only [normaliseKeyLoop_eq_zip]
  · intro hascii c hc
    unfold normaliseKey at hc
    simp only at hc
    rcases mem_normaliseKeyLoop u _ _ _ hc with h | ⟨r, hr, hcr⟩
    · subst h
      exact ⟨by decide, by simp [unicode.IsUpper], by decide⟩
    · obtain ⟨x, hx, hxr⟩ := List.mem_map.mp hr
      have hxa : x.toNat < 128 := hascii x (mem_TrimSpace _ _ hx)
      have hra : r.toNat < 128 := by
        rw [← hxr]; split_ifs
        · decide
        · exact hxa
      have hrs : r ≠ ' ' := by
        rw [← hxr]; split_ifs with hsp
        · decide
        · exact hsp
      rw [hcr]
      exact toLower_ascii u r hra hrs

/-! ## Temperatures -/

/-- Every character that `Nat.toDigitsCore` writes in base 10 is a decimal digit. -/
theorem toDigitsCore_isDigit (fuel : Nat) :
    ∀ (n : Nat) (ds : List Char), (∀ c ∈ ds, c.isDigit = true) →
      ∀ c ∈ Nat.toDigitsCore 10 fuel n ds, c.isDigit = true := by
  induction fuel with
  | zero => intro n ds h c hc; simpa [Nat.toDigitsCore] using h c (by simpa [Nat.toDigitsCore] using hc)
  | succ fuel ih =>
    intro n ds h c hc
    have hd : (Nat.digitChar (n % 10)).isDigit = true := by
      have hk : n % 10 < 10 := Nat.mod_lt _ (by decide)
      generalize n % 10 = k at hk
      interval_cases k <;> decide
    have hds : ∀ c ∈ Nat.digitChar (n % 10) :: ds, c.isDigit = true := by
      intro c hc
      rcases List.mem_cons.mp hc with h1 | h1
      · rw [h1]; exact hd
      · exact h c h1
    unfold Nat.toDigitsCore at hc
    simp only at hc
    split_ifs at hc
    · exact hds c hc
    · exact ih _ _ hds c hc

/-- The decimal text of a number consists of decimal digits. -/
theorem toDigits_isDigit (n : Nat) : ∀ c ∈ Nat.toDigits 10 n, c.isDigit = true :=
  toDigitsCore_isDigit (n + 1) n [] (by simp)

/-- The decimal text of a number is not empty. -/
theorem toDigits_ne_nil (n : Nat) : Nat.toDigits 10 n ≠ [] := by
  obtain ⟨k, tl, _, h⟩ := toDigitsCore_head n n []
  unfold Nat.toDigits
  rw [h]
  exact List.cons_ne_nil _ _

/-- Padding to three characters a number below 1000 gives exactly three digits. -/
theorem padZeros_three (n : Nat) (h : n < 1000) :
    (padZeros 3 n).length = 3 ∧ ∀ c ∈ padZeros 3 n, c.isDigit = true := by
  have hlen : (Nat.toDigits 10 n).length ≤ 3 :=
    Nat.toDigitsCore_length 10 (by decide) (n + 1) n 3 (by simpa using h) (by decide)
  unfold padZeros
  refine ⟨?_, ?_⟩
  · simp only [List.length_append, List.length_replicate]
    omega
  · intro c hc
    simp only [List.mem_append, List.mem_replicate] at hc
    rcases hc with ⟨_, hc⟩ | hc
    · rw [hc]; decide
    · exact toDigits_isDigit n c hc

/-- The text that `%.3f` gives for a finite value: an optional minus sign, at least one digit,
a point, exactly three digits. -/
theorem FormatFixed_three_shape (neg : Bool) (mant : Nat) (exp : Int) :
    ∃ sign whole frac : List Char,
      (FormatFixed 3 (.finite neg mant exp)).data = sign ++ whole ++ '.' :: frac ∧
      (sign = [] ∨ sign = ['-']) ∧ whole ≠ [] ∧ (∀ c ∈ whole, c.isDigit = true) ∧
      frac.length = 3 ∧ ∀ c ∈ frac, c.isDigit = true := by
  unfold FormatFixed
  simp only
  generalize (if 0 ≤ exp then mant * 10 ^ 3 * 2 ^ exp.toNat
      else roundHalfEven (mant * 10 ^ 3) (2 ^ (-exp).toNat)) = scaled
  have hr : scaled % 10 ^ 3 < 1000 := Nat.mod_lt _ (by norm_num)
  obtain ⟨hlen, hdig⟩ := padZeros_three _ hr
  refine ⟨if neg then ['-'] else [], Nat.toDigits 10 (scaled / 10 ^ 3),
    padZeros 3 (scaled % 10 ^ 3), ?_, ?_, toDigits_ne_nil _, toDigits_isDigit _, hlen, hdig⟩
  · simp
  · cases neg <;> simp

/-- C16 (as amended). `BuildTempMessages` returns, in this order, one message for each of
nozzleTemp, targetNozzleTemp, bedTemp0, targetBedTemp0 and boxTemp on which `getFloat` succeeds
and none for the others, on the topics base/temperature/nozzle/current, nozzle/target,
bed0/current, bed0/target and box/current, non-retained, the payload being the value under
`%.3f`.  `getFloat` succeeds on a float64, an int, an int32, an int64 and on a string that
`strconv.ParseFloat` accepts, and fails on a float32, null, a boolean, an object, an array and
any other string.  For a finite value the payload is an optional minus sign, digits, a point and
exactly three digits; zero is a value like any other ("0.000"), and "219.900000" gives
"219.900". -/
theorem C16_temperature_messages (msg : Snapshot) (baseTopic : String) :
    BuildTempMessages msg baseTopic =
      [("nozzleTemp", "/temperature/nozzle/current"),
       ("targetNozzleTemp", "/temperature/nozzle/target"),
       ("bedTemp0", "/temperature/bed0/current"),
       ("targetBedTemp0", "/temperature/bed0/target"),
       ("boxTemp", "/temperature/box/current")].filterMap
        (fun ks => (getFloat msg ks.1).map
          (fun v => { Topic := baseTopic ++ ks.2, Payload := FormatFixed 3 v, Retain := false })) ∧
    (∀ (key : String) (x : Value) (rest : Snapshot),
      getFloat ((key, x) :: rest) key =
        match x with
        | .float64 v => some v
        | .int v => some (F64.ofInt v)
        | .int32 v => some (F64.ofInt v)
        | .int64 v => some (F64.ofInt v)
        | .string s => ParseFloat s
        | _ => none) ∧
    (∀ (key : String), msg.get key = none → getFloat msg key = none) ∧
    (∀ (neg : Bool) (mant : Nat) (exp : Int),
      ∃ sign whole frac : List Char,
        (FormatFixed 3 (.finite neg mant exp)).data = sign ++ whole ++ '.' :: frac ∧
        (sign = [] ∨ sign = ['-']) ∧ whole ≠ [] ∧ (∀ c ∈ whole, c.isDigit = true) ∧
        frac.length = 3 ∧ ∀ c ∈ frac, c.isDigit = true) ∧
    BuildTempMessages [("boxTemp", .int 0)] "p" =
      [{ Topic := "p/temperature/box/current", Payload := "0.000", Retain := false }] ∧
    BuildTempMessages [("nozzleTemp", .string "219.900000"), ("bedTemp0", .float64 (F64.ofInt 60))]
        "p" =
      [{ Topic := "p/temperature/nozzle/current", Payload := "219.900", Retain := false },
       { Topic := "p/temperature/bed0/current", Payload := "60.000", Retain := false }] ∧
    BuildTempMessages [("nozzleTemp", .string "hot"), ("bedTemp0", .null),
        ("boxTemp", .bool true), ("targetBedTemp0", .object []), ("targetNozzleTemp", .array [])]
        "p" = [] := by
  refine ⟨?_, ?_, ?_, FormatFixed_three_shape, by decide, by decide, by decide⟩
  · unfold BuildTempMessages
    simp only [List.filterMap_cons, List.filterMap_nil]
    cases getFloat msg "nozzleTemp" <;> cases getFloat msg "targetNozzleTemp" <;>
      cases getFloat msg "bedTemp0" <;> cases getFloat msg "targetBedTemp0" <;>
      cases getFloat msg "boxTemp" <;> rfl
  · intro key x rest
    cases x <;> simp [getFloat, Snapshot.get]
  · intro key h
    simp [getFloat, h]

/-- C16 (counterexample). The string "NaN" is accepted by `strconv.ParseFloat`, so `getFloat`
succeeds on it, and the message that `BuildTempMessages` emits has the payload "NaN", which has
no decimal point and no digit; likewise "-inf" gives "-Inf". -/
theorem C16_counterexample_nan_payload :
    BuildTempMessages [("nozzleTemp", .string "NaN")] "p" =
      [{ Topic := "p/temperature/nozzle/current", Payload := "NaN", Retain := false }] ∧
    BuildTempMessages [("boxTemp", .string "-inf")] "p" =
      [{ Topic := "p/temperature/box/current", Payload := "-Inf", Retain := false }] := by
  decide

/-! ## The generic mapping, the derived topics and the decoder -/

/-- The generic loop as a filter followed by a map: one message for each binding whose key is not
in the denylist and whose value is not nested. -/
theorem genericMessages_eq_map (u : UnicodeCase) (baseTopic : String) (msg : Snapshot) :
    genericMessages u baseTopic msg =
      (msg.filter (fun kv => !noisyKeys kv.1 && !isNested kv.2)).map
        (fun kv => { Topic := baseTopic ++ "/" ++ normaliseKey u kv.1,
                     Payload := fmt.Sprint (coerceValue kv.2), Retain := false }) := by
  induction msg with
  | nil => rfl
  | cons kv rest ih =>
    obtain ⟨key, raw⟩ := kv
    unfold genericMessages
    by_cases hn : noisyKeys key = true
    · simp [hn, ih]
    · cases raw <;> simp [hn, ih, isNested]

/-- Every topic of `BuildTempMessages` is the base topic followed by one of five fixed names. -/
theorem BuildTempMessages_topics (msg : Snapshot) (baseTopic : String) :
    ∀ m ∈ BuildTempMessages msg baseTopic,
      ∃ s ∈ ["/temperature/nozzle/current", "/temperature/nozzle/target",
        "/temperature/bed0/current", "/temperature/bed0/target", "/temperature/box/current"],
        m.Topic = baseTopic ++ s := by
  intro m hm
  unfold BuildTempMessages at hm
  simp only [List.mem_append] at hm
  rcases hm with (((h | h) | h) | h) | h
  all_goals
    split at h
    · rw [List.mem_singleton] at h; subst h; exact ⟨_, by simp, rfl⟩
    · exact absurd h (List.not_mem_nil _)

/-- Every topic of `BuildJobMessages` is the base topic followed by one of eight fixed names. -/
theorem BuildJobMessages_topics (msg : Snapshot) (baseTopic : String) :
    ∀ m ∈ BuildJobMessages msg baseTopic,
      ∃ s ∈ ["/printing", "/job/progress", "/job/left_time", "/job/job_time",
        "/job/layer/current", "/job/layer/total", "/job/file_name", "/feed_state"],
        m.Topic = baseTopic ++ s := by
  intro m hm
  unfold BuildJobMessages at hm
  simp only [List.mem_append] at hm
  rcases hm with ((((((h | h) | h) | h) | h) | h) | h) | h
  · rw [List.mem_singleton] at h; subst h; exact ⟨_, by simp, rfl⟩
  all_goals
    split at h
    all_goals first
      | exact absurd h (List.not_mem_nil _)
      | (rw [List.mem_singleton] at h; subst h; exact ⟨_, by simp, rfl⟩)
      | (split at h
         · rw [List.mem_singleton] at h; subst h; exact ⟨_, by simp, rfl⟩
         · exact absurd h (List.not_mem_nil _))

/-- Every topic of `BuildStateMessages` is the base topic followed by one of two fixed names. -/
theorem BuildStateMessages_topics (cache : PrinterStatusCache) (now : Int) (msg : Snapshot)
    (baseTopic : String) :
    ∀ m ∈ (BuildStateMessages cache now msg baseTopic).1,
      ∃ s ∈ ["/printer_status", "/tf_card_present"], m.Topic = baseTopic ++ s := by
  intro m hm
  unfold BuildStateMessages at hm
  simp only [List.mem_append] at hm
  rcases hm with h | h
  all_goals
    split at h
    · rw [List.mem_singleton] at h; subst h; exact ⟨_, by simp, rfl⟩
    · exact absurd h (List.not_mem_nil _)

/-- Every topic of `BuildCFSBoxMessages` is the base topic followed by "/cfs/" and more. -/
theorem BuildCFSBoxMessages_topics (msg : Snapshot) (baseTopic : String) :
    ∀ m ∈ BuildCFSBoxMessages msg baseTopic, ∃ t, m.Topic = baseTopic ++ ("/cfs/" ++ t) := by
  intro m hm
  unfold BuildCFSBoxMessages at hm
  split at hm
  · exact absurd hm (List.not_mem_nil _)
  · split at hm
    · split at hm
      · exact absurd hm (List.not_mem_nil _)
      · simp only [List.mem_append] at hm
        rcases hm with (h | h) | h
        all_goals
          split at h
          · rw [List.mem_singleton] at h; subst h
            exact ⟨_, by simp only [String.append_assoc]; rfl⟩
          · exact absurd h (List.not_mem_nil _)
    · exact absurd hm (List.not_mem_nil _)

/-- No name of a derived topic is the name of a denylisted key. -/
theorem derived_names_not_noisy :
    ∀ s ∈ ["/temperature/nozzle/current", "/temperature/nozzle/target",
        "/temperature/bed0/current", "/temperature/bed0/target", "/temperature/box/current",
        "/printing", "/job/progress", "/job/left_time", "/job/job_time",
        "/job/layer/current", "/job/layer/total", "/job/file_name", "/feed_state",
        "/printer_status", "/tf_card_present"],
      ∀ noisy ∈ noisyTopicNames, s ≠ "/" ++ noisy := by
  decide

/-- A name that starts with "/cfs/" is not the name of a denylisted key. -/
theorem cfs_name_not_noisy (t : String) : ∀ noisy ∈ noisyTopicNames, "/cfs/" ++ t ≠ "/" ++ noisy := by
  intro noisy hn h
  have h2 := congrArg (fun s => s.data.take 2) h
  simp only [String.data_append] at h2
  simp only [noisyTopicNames, List.mem_cons, List.mem_singleton, List.not_mem_nil, or_false] at hn
  rcases hn with rfl | rfl | rfl | rfl <;> simp at h2

/-- The topics of the generic part: the base topic, "/" and the normalised key of a binding that
is neither denylisted nor nested. -/
theorem genericMessages_topics (u : UnicodeCase) (baseTopic : String) (msg : Snapshot) :
    ∀ m ∈ genericMessages u baseTopic msg,
      ∃ kv ∈ msg, noisyKeys kv.1 = false ∧ isNested kv.2 = false ∧
        m.Topic = baseTopic ++ "/" ++ normaliseKey u kv.1 := by
  intro m hm
  rw [genericMessages_eq_map] at hm
  obtain ⟨kv, hkv, rfl⟩ := List.mem_map.mp hm
  obtain ⟨hmem, hcond⟩ := List.mem_filter.mp hkv
  simp only [Bool.and_eq_true, Bool.not_eq_true'] at hcond
  exact ⟨kv, hmem, hcond.1, hcond.2, rfl⟩

/-- C19. The generic part of the result of `MapMessageToMqtt` (what its first loop appends; the
four derived parts follow it) has exactly one message for each binding of the snapshot whose key
is not in the denylist and whose value is neither an object nor an array, in the order of the
loop: topic base + "/" + normaliseKey(key), payload `fmt.Sprint(coerceValue(value))`, not
retained.  A binding with a denylisted key or a nested value contributes nothing. -/
theorem C19_generic_part (u : UnicodeCase) (cache : PrinterStatusCache) (now : Int)
    (msg : Snapshot) (baseTopic : String) :
    (MapMessageToMqtt u cache now msg baseTopic).1 =
      genericMessages u baseTopic msg ++
        (BuildTempMessages msg baseTopic ++ BuildJobMessages msg baseTopic ++
          (BuildStateMessages cache now msg baseTopic).1 ++ BuildCFSBoxMessages msg baseTopic) ∧
    genericMessages u baseTopic msg =
      (msg.filter (fun kv => !noisyKeys kv.1 && !isNested kv.2)).map
        (fun kv => { Topic := baseTopic ++ "/" ++ normaliseKey u kv.1,
                     Payload := fmt.Sprint (coerceValue kv.2), Retain := false }) ∧
    (∀ (key : String) (raw : Value) (rest : Snapshot),
      noisyKeys key = true ∨ isNested raw = true →
        genericMessages u baseTopic ((key, raw) :: rest) = genericMessages u baseTopic rest) ∧
    (∀ (key : String) (raw : Value) (rest : Snapshot),
      noisyKeys key = false → isNested raw = false →
        genericMessages u baseTopic ((key, raw) :: rest) =
          { Topic := baseTopic ++ "/" ++ normaliseKey u key,
            Payload := fmt.Sprint (coerceValue raw), Retain := false }
            :: genericMessages u baseTopic rest) ∧
    (∀ key, noisyKeys key = true ↔
      key = "videoElapseFrame" ∨ key = "videoElapseInterval" ∨ key = "video" ∨ key = "video1") ∧
    (genericMessages u "3dprinter/k1se"
        [("nozzleTemp", .string "219.900000"), ("videoElapseFrame", .float64 (F64.ofInt 15)),
         ("err", .object [("errcode", .float64 (F64.ofInt 0))]), ("video", .float64 (F64.ofInt 1)),
         ("hostname", .string "K1 SE-7E0E"), ("printJobTime", .float64 (F64.ofInt 1272))]).map
      (fun m => (m.Topic, m.Payload, m.Retain)) =
      [("3dprinter/k1se/nozzle_temp", "219.900", false),
       ("3dprinter/k1se/hostname", "K1 SE-7E0E", false),
       ("3dprinter/k1se/print_job_time", "1272", false)] := by
  refine ⟨?_, genericMessages_eq_map u baseTopic msg, ?_, ?_, ?_, ?_⟩
  · simp only [MapMessageToMqtt, List.append_assoc]
  · intro key raw rest h
    simp only [genericMessages_eq_map, List.filter_cons]
    rcases h with h | h <;> simp [h]
  · intro key raw rest h1 h2
    simp only [genericMessages_eq_map, List.filter_cons]
    simp [h1, h2]
  · intro key
    simp [noisyKeys]
  · rfl

/-- C20 (as amended). When no binding of the snapshot that the generic loop maps (key not in
the denylist, value not nested) has a key whose normalised form is video, video1,
video_elapse_frame or video_elapse_interval, `MapMessageToMqtt` returns no message on
base/video, base/video1, base/video_elapse_frame or base/video_elapse_interval. -/
theorem C20_no_noisy_topic (u : UnicodeCase) (cache : PrinterStatusCache) (now : Int)
    (msg : Snapshot) (baseTopic : String)
    (h : ∀ kv ∈ msg, noisyKeys kv.1 = false → isNested kv.2 = false →
      normaliseKey u kv.1 ∉ noisyTopicNames) :
    ∀ m ∈ (MapMessageToMqtt u cache now msg baseTopic).1,
      ∀ noisy ∈ noisyTopicNames, m.Topic ≠ baseTopic ++ "/" ++ noisy := by
  intro m hm noisy hn heq
  have hfixed : ∀ s, m.Topic = baseTopic ++ s →
      s ∈ ["/temperature/nozzle/current", "/temperature/nozzle/target",
        "/temperature/bed0/current", "/temperature/bed0/target", "/temperature/box/current",
        "/printing", "/job/progress", "/job/left_time", "/job/job_time",
        "/job/layer/current", "/job/layer/total", "/job/file_name", "/feed_state",
        "/printer_status", "/tf_card_present"] → False := by
    intro s hs hmem
    rw [hs, String.append_assoc, string_append_right_inj] at heq
    exact derived_names_not_noisy s hmem noisy hn heq
  simp only [MapMessageToMqtt, List.mem_append] at hm
  rcases hm with (((hg | ht) | hj) | hs) | hb
  · obtain ⟨kv, hkv, h1, h2, htopic⟩ := genericMessages_topics u baseTopic msg m hg
    rw [htopic, string_append_right_inj] at heq
    exact h kv hkv h1 h2 (heq ▸ hn)
  · obtain ⟨s, hs, htopic⟩ := BuildTempMessages_topics msg baseTopic m ht
    refine hfixed s htopic ?_
    revert hs; simp only [List.mem_cons, List.mem_singleton, List.not_mem_nil, or_false]; tauto
  · obtain ⟨s, hs, htopic⟩ := BuildJobMessages_topics msg baseTopic m hj
    refine hfixed s htopic ?_
    revert hs; simp only [List.mem_cons, List.mem_singleton, List.not_mem_nil, or_false]; tauto
  · obtain ⟨s, hs, htopic⟩ := BuildStateMessages_topics cache now msg baseTopic m hs
    refine hfixed s htopic ?_
    revert hs; simp only [List.mem_cons, List.mem_singleton, List.not_mem_nil, or_false]; tauto
  · obtain ⟨t, htopic⟩ := BuildCFSBoxMessages_topics msg baseTopic m hb
    rw [htopic, String.append_assoc, string_append_right_inj] at heq
    exact cfs_name_not_noisy t noisy hn heq

/-- C20 (witness). A snapshot with the four denylisted keys, the key videoElapse and a
temperature: the hypothesis holds, and every message returned has a topic other than the four. -/
theorem C20_no_noisy_topic_witness :
    (MapMessageToMqtt UnicodeCase.caseless PrinterStatusCache.initial mqttclient.clock2026
        [("video", .float64 (F64.ofInt 1)), ("video1", .float64 (F64.ofInt 0)),
         ("videoElapse", .float64 (F64.ofInt 1)), ("videoElapseFrame", .float64 (F64.ofInt 15)),
         ("videoElapseInterval", .float64 (F64.ofInt 1)), ("nozzleTemp", .string "219.900000")]
        "3dprinter/k1se").1.all
      (fun m => noisyTopicNames.all
        (fun noisy => decide (m.Topic ≠ "3dprinter/k1se" ++ "/" ++ noisy))) = true :=
  List.all_eq_true.mpr (fun m hm => List.all_eq_true.mpr (fun noisy hn => decide_eq_true
    (C20_no_noisy_topic UnicodeCase.caseless PrinterStatusCache.initial mqttclient.clock2026
      [("video", .float64 (F64.ofInt 1)), ("video1", .float64 (F64.ofInt 0)),
       ("videoElapse", .float64 (F64.ofInt 1)), ("videoElapseFrame", .float64 (F64.ofInt 15)),
       ("videoElapseInterval", .float64 (F64.ofInt 1)), ("nozzleTemp", .string "219.900000")]
      "3dprinter/k1se" (by decide) m hm noisy hn)))

/-- C20 (counterexample). The denylist holds the raw keys only: a snapshot with the key "Video",
or with the key "video_elapse_frame", gets a message on base/video, or on
base/video_elapse_frame, whatever the case tables, the cache and the clock. -/
theorem C20_counterexample_other_spelling :
    (∀ (u : UnicodeCase) (cache : PrinterStatusCache) (now : Int),
      { Topic := "3dprinter/k1se/video", Payload := "1", Retain := false } ∈
        (MapMessageToMqtt u cache now [("Video", .float64 (F64.ofInt 1))] "3dprinter/k1se").1) ∧
    (∀ (u : UnicodeCase) (cache : PrinterStatusCache) (now : Int),
      { Topic := "3dprinter/k1se/video_elapse_frame", Payload := "15", Retain := false } ∈
        (MapMessageToMqtt u cache now [("video_elapse_frame", .float64 (F64.ofInt 15))]
          "3dprinter/k1se").1) := by
  refine ⟨?_, ?_⟩ <;>
  · intro u cache now
    simp only [MapMessageToMqtt, List.append_assoc]
    refine List.mem_append_left _ ?_
    exact List.mem_singleton.mpr rfl

/-- C17. `DecodeAndMap` on the snapshot of the example with base topic p/k1 returns no error,
and the messages it returns include p/k1/temperature/nozzle/current = "219.900",
p/k1/printing = "true" and p/k1/tf_card_present = "true", none of them retained; this holds
whatever the status cache holds and whatever the clock reads. -/
theorem C17_decode_and_map_example (u : UnicodeCase) (cache : PrinterStatusCache) (now : Int) :
    ∃ msgs : List MqttMessage,
      (DecodeAndMap u cache now
        "\x7b\"nozzleTemp\":\"219.900000\",\"printProgress\":50,\"printLeftTime\":600,\"tfCard\":1\x7d"
        "p/k1").1 = some msgs ∧
      { Topic := "p/k1/temperature/nozzle/current", Payload := "219.900", Retain := false } ∈ msgs ∧
      { Topic := "p/k1/printing", Payload := "true", Retain := false } ∈ msgs ∧
      { Topic := "p/k1/tf_card_present", Payload := "true", Retain := false } ∈ msgs := by
  have hdec : json.Unmarshal
      "\x7b\"nozzleTemp\":\"219.900000\",\"printProgress\":50,\"printLeftTime\":600,\"tfCard\":1\x7d".data
      = some [("nozzleTemp", .string "219.900000"), ("printProgress", .float64 (F64.ofInt 50)),
              ("printLeftTime", .float64 (F64.ofInt 600)), ("tfCard", .float64 (F64.ofInt 1))] := by
    rfl
  have htemp :
      ({ Topic := "p/k1/temperature/nozzle/current", Payload := "219.900", Retain := false } :
        MqttMessage) ∈ BuildTempMessages
        [("nozzleTemp", .string "219.900000"), ("printProgress", .float64 (F64.ofInt 50)),
         ("printLeftTime", .float64 (F64.ofInt 600)), ("tfCard", .float64 (F64.ofInt 1))]
        "p/k1" := by
    decide
  have hjob : ({ Topic := "p/k1/printing", Payload := "true", Retain := false } : MqttMessage) ∈
      BuildJobMessages
        [("nozzleTemp", .string "219.900000"), ("printProgress", .float64 (F64.ofInt 50)),
         ("printLeftTime", .float64 (F64.ofInt 600)), ("tfCard", .float64 (F64.ofInt 1))]
        "p/k1" := by
    decide
  have hstate :
      ({ Topic := "p/k1/tf_card_present", Payload := "true", Retain := false } : MqttMessage) ∈
      (BuildStateMessages cache now
        [("nozzleTemp", .string "219.900000"), ("printProgress", .float64 (F64.ofInt 50)),
         ("printLeftTime", .float64 (F64.ofInt 600)), ("tfCard", .float64 (F64.ofInt 1))]
        "p/k1").1 := by
    unfold BuildStateMessages
    refine List.mem_append_right _ ?_
    exact List.mem_singleton.mpr rfl
  unfold DecodeAndMap
  rw [hdec]
  refine ⟨_, rfl, ?_, ?_, ?_⟩
  · simp only [MapMessageToMqtt, List.mem_append]
    exact Or.inl (Or.inl (Or.inl (Or.inr htemp)))
  · simp only [MapMessageToMqtt, List.mem_append]
    exact Or.inl (Or.inl (Or.inr hjob))
  · simp only [MapMessageToMqtt, List.mem_append]
    exact Or.inl (Or.inr hstate)

/-! ## String payloads and CFS box readings -/

open cmd

/-- C23. `BuildCFSBoxMessages` returns no message when boxState is absent, when it is not an
object and when the object has no id; otherwise it returns, in this order, one message for each
of the fields humidity, temp and state that the object has and none for the others, on
base/cfs/N/humidity, base/cfs/N/temperature and base/cfs/N/state, none retained, where N is
`toInt` of the id: a float is truncated toward zero, and null, a boolean, a string and a nested
value give 0.  The payload of humidity and of temp is the value as `fmt.Sprint` writes it after
`coerceValue`, that of state the integer `toInt` makes of it.  A null id with humidity 28.0
gives base/cfs/0/humidity = "28". -/
theorem C23_cfs_box_messages (msg : Snapshot) (baseTopic : String) :
    (msg.get "boxState" = none → BuildCFSBoxMessages msg baseTopic = []) ∧
    (∀ raw, msg.get "boxState" = some raw → (∀ fields, raw ≠ .object fields) →
      BuildCFSBoxMessages msg baseTopic = []) ∧
    (∀ m, msg.get "boxState" = some (.object m) → Snapshot.get m "id" = none →
      BuildCFSBoxMessages msg baseTopic = []) ∧
    (∀ m idAny, msg.get "boxState" = some (.object m) → Snapshot.get m "id" = some idAny →
      BuildCFSBoxMessages msg baseTopic =
        [("humidity", "/humidity", fun v => fmt.Sprint (coerceValue v)),
         ("temp", "/temperature", fun v => fmt.Sprint (coerceValue v)),
         ("state", "/state", fun v => FormatInt (toInt v))].filterMap
          (fun (field : String × String × (Value → String)) =>
            (Snapshot.get m field.1).map (fun v =>
              { Topic := baseTopic ++ "/cfs/" ++ FormatInt (toInt idAny) ++ field.2.1,
                Payload := field.2.2 v, Retain := false }))) ∧
    (toInt .null = 0 ∧ (∀ s, toInt (.string s) = 0) ∧ (∀ b, toInt (.bool b) = 0) ∧
      (∀ fields, toInt (.object fields) = 0) ∧ (∀ items, toInt (.array items) = 0) ∧
      (∀ v, toInt (.float64 v) = v.toInt64) ∧
      (ParseFloat "2.99").map (fun v => toInt (.float64 v)) = some 2 ∧
      (ParseFloat "-3.7").map (fun v => toInt (.float64 v)) = some (-3) ∧
      toInt (.int 42) = 42) ∧
    BuildCFSBoxMessages
        [("boxState", .object [("id", .null), ("humidity", .float64 (F64.ofInt 28))])]
        "3dprinter/k1se" =
      [{ Topic := "3dprinter/k1se/cfs/0/humidity", Payload := "28", Retain := false }] ∧
    BuildCFSBoxMessages
        [("boxState", .object [("id", .int 1), ("humidity", .string "invalid"),
          ("temp", .array [.int 1, .int 2]), ("state", .string "not_number")])]
        "3dprinter/k1se" =
      [{ Topic := "3dprinter/k1se/cfs/1/humidity", Payload := "invalid", Retain := false },
       { Topic := "3dprinter/k1se/cfs/1/temperature", Payload := "[1 2]", Retain := false },
       { Topic := "3dprinter/k1se/cfs/1/state", Payload := "0", Retain := false }] ∧
    BuildCFSBoxMessages [("boxState", .string "invalid")] "3dprinter/k1se" = [] := by
  refine ⟨?_, ?_, ?_, ?_, ?_, by decide, by decide, by decide⟩
  · intro h
    simp [BuildCFSBoxMessages, h]
  · intro raw h hno
    unfold BuildCFSBoxMessages
    rw [h]
    cases raw <;> first | rfl | exact absurd rfl (hno _)
  · intro m h hid
    unfold BuildCFSBoxMessages
    simp only [h, hid]
  · intro m idAny h hid
    unfold BuildCFSBoxMessages
    simp only [h, hid, List.filterMap_cons, List.filterMap_nil]
    cases Snapshot.get m "humidity" <;> cases Snapshot.get m "temp" <;>
      cases Snapshot.get m "state" <;> rfl
  · refine ⟨rfl, fun _ => rfl, fun _ => rfl, fun _ => rfl, fun _ => rfl, fun _ => rfl,
      by decide, by decide, by decide⟩

/-- A value rounded to `float64` is finite. -/
theorem round64_finite (neg : Bool) (num den : Nat) (v : F64)
    (hv : F64.round64 neg num den = some v) : ∃ n mant exp, v = .finite n mant exp := by
  unfold F64.round64 F64.roundTo at hv
  simp only at hv
  split_ifs at hv <;> exact ⟨_, _, _, (Option.some.inj hv).symm⟩

/-- The value that `strconv.ParseFloat` gives for a text that is not one of the special names
is finite. -/
theorem ParseFloat_finite_of_not_special (s : String) (h : special s.data = none) (v : F64)
    (hv : ParseFloat s = some v) : ∃ neg mant exp, v = .finite neg mant exp := by
  unfold ParseFloat at hv
  rw [h] at hv
  simp only at hv
  split at hv
  · exact absurd hv (by simp)
  · split_ifs at hv
    · exact ⟨_, _, _, (Option.some.inj hv).symm⟩
    all_goals exact round64_finite _ _ _ _ hv

/-- C21 (as amended). The generic message of a string value under a key outside the denylist
has the string itself as payload when `strconv.ParseFloat` rejects it, and otherwise the value
it parses to under `%.3f`: for a finite value an optional minus sign, digits, a point and
exactly three digits; a text other than the special names parses to a finite value or not at
all.  "219.900000" gives "219.900", "0.044000" gives "0.044", "X:1 Y:1 Z:1" and "K1 SE" are
unchanged. -/
theorem C21_string_payload (u : UnicodeCase) (baseTopic key s : String) (rest : Snapshot) :
    (noisyKeys key = false →
      genericMessages u baseTopic ((key, .string s) :: rest) =
        { Topic := baseTopic ++ "/" ++ normaliseKey u key,
          Payload := (match ParseFloat s with
            | some f => FormatFixed 3 f
            | none => s),
          Retain := false } :: genericMessages u baseTopic rest) ∧
    (∀ neg mant exp, ParseFloat s = some (.finite neg mant exp) →
      ∃ sign whole frac : List Char,
        (FormatFixed 3 (.finite neg mant exp)).data = sign ++ whole ++ '.' :: frac ∧
        (sign = [] ∨ sign = ['-']) ∧ whole ≠ [] ∧ (∀ c ∈ whole, c.isDigit = true) ∧
        frac.length = 3 ∧ ∀ c ∈ frac, c.isDigit = true) ∧
    (special s.data = none → ∀ v, ParseFloat s = some v → ∃ neg mant exp, v = .finite neg mant exp) ∧
    (genericMessages u "3dprinter/k1se"
        [("nozzleTemp", .string "219.900000"), ("pressureAdvance", .string "0.044000"),
         ("autohome", .string "X:1 Y:1 Z:1"), ("model", .string "K1 SE")]).map
      (fun m => (m.Topic, m.Payload)) =
      [("3dprinter/k1se/nozzle_temp", "219.900"), ("3dprinter/k1se/pressure_advance", "0.044"),
       ("3dprinter/k1se/autohome", "X:1 Y:1 Z:1"), ("3dprinter/k1se/model", "K1 SE")] := by
  refine ⟨?_, ?_, ParseFloat_finite_of_not_special s, rfl⟩
  · intro hn
    rw [genericMessages_eq_map, genericMessages_eq_map]
    simp only [List.filter_cons, hn, isNested, Bool.not_false, Bool.and_self, if_true,
      List.map_cons, List.cons.injEq, and_true]
    have hs : fmt.Sprint (coerceValue (.string s)) =
        (match ParseFloat s with
          | some f => FormatFixed 3 f
          | none => s) := by
      cases hp : ParseFloat s with
      | none => simp only [coerceValue, hp]; rfl
      | some f => simp only [coerceValue, hp]; rfl
    rw [hs]
  · intro neg mant exp _
    exact FormatFixed_three_shape neg mant exp

/-- C21 (counterexample). The texts "nan", "Infinity" and "-inf" are accepted by
`strconv.ParseFloat`; the payload is then "NaN", "+Inf" or "-Inf", which is neither the string
itself nor a number with three decimals. -/
theorem C21_counterexample_special_names :
    ParseFloat "nan" = some .nan ∧ ParseFloat "Infinity" = some (.inf false) ∧
    ParseFloat "-inf" = some (.inf true) ∧
    noisyKeys "hostname" = false ∧ noisyKeys "state" = false ∧ noisyKeys "err" = false ∧
    (genericMessages UnicodeCase.caseless "3dprinter/k1se"
        [("hostname", .string "nan"), ("state", .string "Infinity"),
         ("err", .string "-inf")]).map (fun m => (m.Topic, m.Payload)) =
      [("3dprinter/k1se/hostname", "NaN"), ("3dprinter/k1se/state", "+Inf"),
       ("3dprinter/k1se/err", "-Inf")] :=
  ⟨rfl, rfl, rfl, rfl, rfl, rfl, rfl⟩

/-! ## The shortest form of a float whose value is an integer -/

/-- What `Nat.toDigitsCore` writes goes in front of the text it is given. -/
theorem toDigitsCore_append (fuel : Nat) :
    ∀ (n : Nat) (ds : List Char),
      Nat.toDigitsCore 10 fuel n ds = Nat.toDigitsCore 10 fuel n [] ++ ds := by
  induction fuel with
  | zero => intro n ds; simp [Nat.toDigitsCore]
  | succ fuel ih =>
    intro n ds
    unfold Nat.toDigitsCore
    simp only []
    split_ifs with h0
    · rfl
    · rw [ih (n / 10) (Nat.digitChar (n % 10) :: ds), ih (n / 10) [Nat.digitChar (n % 10)]]
      simp

/-- With enough fuel `Nat.toDigitsCore` does not depend on the fuel. -/
theorem toDigitsCore_fuel (f₁ : Nat) :
    ∀ (f₂ n : Nat), n < f₁ → n < f₂ →
      Nat.toDigitsCore 10 f₁ n [] = Nat.toDigitsCore 10 f₂ n [] := by
  induction f₁ with
  | zero => intro f₂ n h; omega
  | succ f₁ ih =>
    intro f₂ n h1 h2
    cases f₂ with
    | zero => omega
    | succ f₂ =>
      unfold Nat.toDigitsCore
      simp only []
      split_ifs with h0
      · rfl
      · rw [toDigitsCore_append f₁, toDigitsCore_append f₂,
          ih f₂ (n / 10) (by omega) (by omega)]

/-- The decimal text of a number of several digits: the text of its tenth part, then its last
digit. -/
theorem toDigits_step (n : Nat) (h : 10 ≤ n) :
    Nat.toDigits 10 n = Nat.toDigits 10 (n / 10) ++ [Nat.digitChar (n % 10)] := by
  unfold Nat.toDigits
  conv_lhs => unfold Nat.toDigitsCore
  simp only []
  have h0 : ¬ n / 10 = 0 := by omega
  rw [if_neg h0, toDigitsCore_append n,
    toDigitsCore_fuel n (n / 10 + 1) (n / 10) (by omega) (by omega)]

/-- The decimal text of a positive number times a power of ten: the text of the number, then
the zeros. -/
theorem toDigits_mul_pow (c : Nat) (hc : 0 < c) (j : Nat) :
    Nat.toDigits 10 (c * 10 ^ j) = Nat.toDigits 10 c ++ List.replicate j '0' := by
  induction j with
  | zero => simp
  | succ j ih =>
    have hpos : 0 < c * 10 ^ j := Nat.mul_pos hc (by positivity)
    have hten : c * 10 ^ (j + 1) = c * 10 ^ j * 10 := by ring
    have hstep := toDigits_step (c * 10 ^ (j + 1)) (by omega)
    have hdiv : c * 10 ^ (j + 1) / 10 = c * 10 ^ j := by
      rw [pow_succ, ← Nat.mul_assoc]; exact Nat.mul_div_cancel _ (by decide)
    have hmod : c * 10 ^ (j + 1) % 10 = 0 := by
      rw [pow_succ, ← Nat.mul_assoc]; exact Nat.mul_mod_left _ _
    rw [hstep, hdiv, hmod, ih, List.append_assoc]
    congr 1
    rw [List.replicate_succ']
    rfl

/-- A text is what is left after its trailing zeros are removed, followed by zeros. -/
theorem stripTrailingZeros_spec (ds : List Char) :
    ∃ z, ds = stripTrailingZeros ds ++ List.replicate z '0' := by
  unfold stripTrailingZeros
  refine ⟨(ds.reverse.takeWhile (fun c => decide (c = '0'))).length, ?_⟩
  have h := List.takeWhile_append_dropWhile (fun c => decide (c = '0')) ds.reverse
  have hrep : (ds.reverse.takeWhile (fun c => decide (c = '0'))).reverse =
      List.replicate (ds.reverse.takeWhile (fun c => decide (c = '0'))).length '0' := by
    rw [List.eq_replicate_iff]
    refine ⟨List.length_reverse _, ?_⟩
    intro b hb
    have := List.mem_takeWhile_imp (List.mem_reverse.mp hb)
    simpa using this
  have h2 := congrArg List.reverse h
  rw [List.reverse_append, List.reverse_reverse] at h2
  rw [← hrep]
  exact h2.symm

/-- Reading the first `m` places of a text, with a filler beyond its end. -/
theorem range_getD (l : List Char) (x : Char) :
    ∀ t : Nat, (List.range (l.length + t)).map (fun i => l.getD i x) = l ++ List.replicate t x := by
  intro t
  apply List.ext_getElem
  · simp
  · intro i h1 h2
    simp only [List.getElem_map, List.getElem_range]
    by_cases hi : i < l.length
    · rw [List.getElem_append_left hi, List.getD_eq_getElem _ _ hi]
    · rw [List.getElem_append_right (by omega), List.getElem_replicate,
        List.getD_eq_default _ _ (by omega)]

/-- Mapping to one-element lists and joining them is mapping. -/
theorem flatMap_singleton_eq_map {α β : Type} (f : α → β) (l : List α) :
    l.flatMap (fun a => [f a]) = l.map f := by
  induction l with
  | nil => rfl
  | cons a l ih => simp only [List.flatMap_cons, List.map_cons, ih, List.singleton_append]

/-- The `%f` layout of the decimal of an integer, found as `c` followed by `j` zeros, is the
decimal text of the integer; its decimal point is the length of that text. -/
theorem fmtF_integer (c j : Nat) (hc : 0 < c) :
    (Decimal.mk (stripTrailingZeros (Nat.toDigits 10 c))
      ((j : Int) + ((Nat.toDigits 10 c).length : Int))).fmtF =
      Nat.toDigits 10 (c * 10 ^ j) ∧
    (j : Int) + ((Nat.toDigits 10 c).length : Int) =
      ((Nat.toDigits 10 (c * 10 ^ j)).length : Int) := by
  obtain ⟨z, hz⟩ := stripTrailingZeros_spec (Nat.toDigits 10 c)
  have hlen : (Nat.toDigits 10 c).length =
      (stripTrailingZeros (Nat.toDigits 10 c)).length + z := by
    conv_lhs => rw [hz]
    simp
  have hpos : 0 < (Nat.toDigits 10 c).length :=
    List.length_pos.mpr (toDigits_ne_nil c)
  refine ⟨?_, ?_⟩
  · unfold Decimal.fmtF
    simp only
    have h1 : (0 : Int) < (j : Int) + ((Nat.toDigits 10 c).length : Int) := by omega
    have h2 : (((stripTrailingZeros (Nat.toDigits 10 c)).length : Int) -
        ((j : Int) + ((Nat.toDigits 10 c).length : Int))).toNat = 0 := by omega
    have h3 : ((j : Int) + ((Nat.toDigits 10 c).length : Int)).toNat =
        (stripTrailingZeros (Nat.toDigits 10 c)).length + (z + j) := by omega
    rw [if_pos h1, h2, if_pos rfl, List.append_nil, h3]
    have hmap : ∀ m : Nat, (List.map
        (fun i => (Decimal.mk (stripTrailingZeros (Nat.toDigits 10 c))
          ((j : Int) + ((Nat.toDigits 10 c).length : Int))).digitAt i)
        (do let a ← List.range m; pure (a : Int))) =
        (List.range m).map (fun i => (stripTrailingZeros (Nat.toDigits 10 c)).getD i '0') := by
      intro m
      simp only [Decimal.digitAt, List.bind_eq_flatMap, List.pure_def, List.map_flatMap,
        List.map_cons, List.map_nil, Int.ofNat_zero_le, if_true, Int.toNat_ofNat]
      exact flatMap_singleton_eq_map _ _
    rw [hmap, range_getD, toDigits_mul_pow c hc j]
    conv_rhs => rw [hz]
    rw [List.append_assoc, ← List.replicate_add]
  · rw [toDigits_mul_pow c hc j]
    simp
    omega

/-- Two multiples of `d` that differ by at most 2 are equal when `d` is at least 4. -/
theorem eq_of_mul_near (x n d : Nat) (hd : 4 ≤ d) (h1 : n * d ≤ x * d + 2)
    (h2 : x * d ≤ n * d + 2) : x = n := by
  rcases Nat.lt_trichotomy x n with h | h | h
  · exfalso
    have : (x + 1) * d ≤ n * d := Nat.mul_le_mul_right d h
    rw [Nat.add_mul] at this
    omega
  · exact h
  · exfalso
    have : (n + 1) * d ≤ x * d := Nat.mul_le_mul_right d h
    rw [Nat.add_mul] at this
    omega

/-- With enough fuel the halving loop counts the binary digits: a positive `n` lies between
`2 ^ (b - 1)` and `2 ^ b` for the count `b`. -/
theorem bitLengthAux_spec (fuel : Nat) :
    ∀ n : Nat, n ≤ fuel → 0 < n →
      2 ^ bitLengthAux fuel n ≤ 2 * n ∧ n < 2 ^ bitLengthAux fuel n := by
  induction fuel with
  | zero => intro n h1 h2; omega
  | succ fuel ih =>
    intro n h1 h2
    unfold bitLengthAux
    rw [if_neg (by omega)]
    by_cases h : n / 2 = 0
    · have hn : n = 1 := by omega
      subst hn
      cases fuel <;> simp [bitLengthAux]
    · obtain ⟨ha, hb⟩ := ih (n / 2) (by omega) (by omega)
      rw [pow_succ]
      constructor <;> omega

/-- The binary digit count of a positive number brackets it between two powers of two. -/
theorem bitLength_spec (n : Nat) (h : 0 < n) :
    2 ^ bitLength n ≤ 2 * n ∧ n < 2 ^ bitLength n :=
  bitLengthAux_spec n n (le_refl n) h

/-- The binary logarithm of a fraction whose value is the integer `n`. -/
theorem floorLog2_integer (n den L : Nat) (hden : 0 < den) (h1 : 2 ^ L ≤ n)
    (h2 : n < 2 ^ (L + 1)) : floorLog2 (n * den) den = (L : Int) := by
  have hn : 0 < n := lt_of_lt_of_le (by positivity) h1
  obtain ⟨a1, a2⟩ := bitLength_spec (n * den) (Nat.mul_pos hn hden)
  obtain ⟨b1, b2⟩ := bitLength_spec den hden
  -- the digit count of the numerator is that of the denominator plus L or L + 1
  have hlo : L + bitLength den ≤ bitLength (n * den) := by
    by_contra hc
    have hc2 : bitLength (n * den) + 1 ≤ L + bitLength den := by omega
    have hp : 2 ^ (bitLength (n * den) + 1) ≤ 2 ^ (L + bitLength den) :=
      Nat.pow_le_pow_right (by decide) hc2
    have hq : 2 ^ (L + bitLength den) ≤ n * (2 * den) := by
      rw [pow_add]; exact Nat.mul_le_mul h1 b1
    have hr : n * (2 * den) = 2 * (n * den) := by ring
    rw [pow_succ] at hp
    omega
  have hhi : bitLength (n * den) ≤ L + bitLength den + 1 := by
    by_contra hc
    have hc2 : L + 1 + bitLength den + 1 ≤ bitLength (n * den) := by omega
    have hp : 2 ^ (L + 1 + bitLength den + 1) ≤ 2 ^ bitLength (n * den) :=
      Nat.pow_le_pow_right (by decide) hc2
    have hq : n * den < 2 ^ (L + 1) * 2 ^ bitLength den :=
      Nat.mul_lt_mul'' h2 b2
    rw [← pow_add] at hq
    rw [pow_succ] at hp
    omega
  unfold floorLog2 geTwoPow
  simp only []
  rcases Nat.lt_or_ge (L + bitLength den) (bitLength (n * den)) with hcase | hcase
  · have hl : ((bitLength (n * den) : Int) - (bitLength den : Int)) = ((L + 1 : Nat) : Int) := by
      push_cast; omega
    rw [hl, if_pos (Int.ofNat_nonneg _), Int.toNat_ofNat]
    have hfalse : ¬ den * 2 ^ (L + 1) ≤ n * den := by
      intro hle
      have : n * den < 2 ^ (L + 1) * den := Nat.mul_lt_mul_of_pos_right h2 hden
      rw [Nat.mul_comm den] at hle
      omega
    rw [decide_eq_false hfalse]
    simp
  · have hl : ((bitLength (n * den) : Int) - (bitLength den : Int)) = ((L : Nat) : Int) := by
      omega
    rw [hl, if_pos (Int.ofNat_nonneg _), Int.toNat_ofNat]
    have htrue : den * 2 ^ L ≤ n * den := by
      rw [Nat.mul_comm den]; exact Nat.mul_le_mul_right den h1
    rw [decide_eq_true htrue]
    simp

/-- A fraction whose value is an integer rounds to that integer. -/
theorem roundHalfEven_integer (x den : Nat) (hden : 0 < den) :
    roundHalfEven (x * den) den = x := by
  unfold roundHalfEven
  simp only [Nat.mul_div_cancel _ hden, Nat.mul_mod_left]
  rw [if_neg]
  rintro (h | ⟨h, _⟩) <;> omega

/-- An integer below `2 ^ 52`, given as a fraction, is a `float64`: rounding is exact and gives
the normalised mantissa. -/
theorem roundTo_integer (neg : Bool) (n den L : Nat) (hden : 0 < den) (h1 : 2 ^ L ≤ n)
    (h2 : n < 2 ^ (L + 1)) (hL : L ≤ 51) :
    F64.roundTo 53 (-1074) 971 neg (n * den) den =
      some (.finite neg (n * 2 ^ (52 - L)) ((L : Int) - 52)) := by
  have hn : 0 < n := lt_of_lt_of_le (by positivity) h1
  have hnum : ¬ n * den = 0 := Nat.pos_iff_ne_zero.mp (Nat.mul_pos hn hden)
  unfold F64.roundTo
  rw [if_neg hnum]
  simp only [floorLog2_integer n den L hden h1 h2]
  have he : max ((L : Int) - (((53 : Nat) : Int) - 1)) (-1074) = (L : Int) - 52 := by
    push_cast; omega
  rw [he]
  have hneg : ¬ (0 : Int) ≤ (L : Int) - 52 := by omega
  have hto : (-((L : Int) - 52)).toNat = 52 - L := by omega
  rw [if_neg hneg, hto]
  have hm : n * den * 2 ^ (52 - L) = n * 2 ^ (52 - L) * den := by ring
  rw [hm, roundHalfEven_integer _ _ hden]
  have hlt : n * 2 ^ (52 - L) < 2 ^ 53 := by
    have : n * 2 ^ (52 - L) < 2 ^ (L + 1) * 2 ^ (52 - L) :=
      Nat.mul_lt_mul_of_pos_right h2 (by positivity)
    rw [← pow_add] at this
    have h53 : L + 1 + (52 - L) = 53 := by omega
    rw [h53] at this
    exact this
  rw [if_neg (by omega), if_neg (by omega), if_neg (by omega)]

/-- The decimal point search ends between its start and its start plus the fuel, and above zero
when no power of ten with an exponent up to zero is above the value. -/
theorem decimalPoint_bounds (a b : Nat) (hfalse : ∀ k : Int, k ≤ 0 → ltTenPow a b k = false)
    (fuel : Nat) : ∀ dp : Int, 1 ≤ dp + fuel →
      1 ≤ decimalPoint fuel a b dp ∧ dp ≤ decimalPoint fuel a b dp ∧
        decimalPoint fuel a b dp ≤ dp + fuel := by
  induction fuel with
  | zero =>
    intro dp h
    simp only [decimalPoint]
    omega
  | succ fuel ih =>
    intro dp h
    simp only [decimalPoint]
    by_cases hlt : ltTenPow a b dp = true
    · rw [if_pos hlt]
      have hdp : ¬ dp ≤ 0 := by
        intro hle
        rw [hfalse dp hle] at hlt
        exact Bool.noConfusion hlt
      push_cast
      omega
    · rw [if_neg hlt]
      obtain ⟨i1, i2, i3⟩ := ih (dp + 1) (by push_cast at h; omega)
      push_cast
      omega

/-- No power of ten with an exponent up to zero is above a positive integer. -/
theorem ltTenPow_integer_false (n d : Nat) (hn : 0 < n) (k : Int) (hk : k ≤ 0) :
    ltTenPow (n * d) d k = false := by
  unfold ltTenPow
  by_cases h0 : 0 ≤ k
  · have hk0 : k = 0 := by omega
    subst hk0
    simp
    exact Nat.le_mul_of_pos_left d hn
  · rw [if_neg h0]
    simp
    calc d ≤ n * d := Nat.le_mul_of_pos_left d hn
    _ ≤ n * d * 10 ^ (-k).toNat := Nat.le_mul_of_pos_right _ (by positivity)

/-- The search for the shortest decimal of a positive integer `n` (given as `n * d / d`, with
bounds no further than `2 / d` from it) ends with a candidate `c` and a power of ten whose
product is `n`. -/
theorem shortestSearch_integer (n d lo hi : Nat) (incl : Bool) (dp0 : Int) (hn : 0 < n)
    (hd : 4 ≤ d) (hlo : lo < n * d) (hlo2 : n * d ≤ lo + 2) (hhi : n * d < hi)
    (hhi2 : hi ≤ n * d + 2) (fuel : Nat) :
    ∀ i : Nat, 0 ≤ dp0 - (i : Int) → (dp0 - (i : Int)).toNat < fuel →
      ∃ c j : Nat, c * 10 ^ j = n ∧ 0 < c ∧
        shortestSearch fuel i (n * d) lo hi d incl dp0 =
          Decimal.mk (stripTrailingZeros (Nat.toDigits 10 c))
            ((j : Int) + ((Nat.toDigits 10 c).length : Int)) := by
  induction fuel with
  | zero => intro i _ h; omega
  | succ fuel ih =>
    intro i hk hfuel
    obtain ⟨K, hK⟩ : ∃ K : Nat, dp0 - (i : Int) = (K : Int) := ⟨(dp0 - (i : Int)).toNat, by omega⟩
    -- a candidate inside the bounds spells `n`
    have hinside : ∀ c : Nat, lo ≤ c * d * 10 ^ K ∧ c * d * 10 ^ K ≤ hi →
        c * 10 ^ K = n ∧ 0 < c := by
      intro c hb
      have he : c * d * 10 ^ K = c * 10 ^ K * d := by ring
      rw [he] at hb
      have hcn := eq_of_mul_near (c * 10 ^ K) n d hd (by omega) (by omega)
      refine ⟨hcn, ?_⟩
      rcases Nat.eq_zero_or_pos c with h0 | h0
      · subst h0; simp at hcn; omega
      · exact h0
    have hpick : ∀ c : Nat, c * 10 ^ K = n ∧ 0 < c →
        ∃ c' j : Nat, c' * 10 ^ j = n ∧ 0 < c' ∧
          Decimal.mk (stripTrailingZeros (Nat.toDigits 10 c))
            (dp0 - (i : Int) + ((Nat.toDigits 10 c).length : Int)) =
          Decimal.mk (stripTrailingZeros (Nat.toDigits 10 c'))
            ((j : Int) + ((Nat.toDigits 10 c').length : Int)) := by
      intro c hc
      exact ⟨c, K, hc.1, hc.2, by rw [hK]⟩
    have hrec := ih (i + 1)
    cases incl
    all_goals
      unfold shortestSearch
      simp only [if_pos hk, hK, Int.toNat_ofNat, Bool.false_eq_true, if_false, if_true,
        Nat.mul_one, Bool.and_eq_true, decide_eq_true_eq]
      rw [← hK]
      split_ifs with hab hpref ha hb
      · exact hpick _ (hinside _ (by omega))
      · exact hpick _ (hinside _ (by omega))
      · exact hpick _ (hinside _ (by omega))
      · exact hpick _ (hinside _ (by omega))
      · -- no candidate of this length: the length is not yet that of the text of `n`
        have hKpos : 0 < K := by
          rcases Nat.eq_zero_or_pos K with h0 | h0
          · exfalso
            apply ha
            have hdpos : 0 < d := by omega
            rw [h0]
            simp only [pow_zero, mul_one, Nat.mul_div_cancel _ hdpos]
            omega
          · exact h0
        refine hrec ?_ ?_
        all_goals
          clear hrec ih hinside hpick hab ha hb
          push_cast
          omega

/-- A float with the normalised mantissa of a positive integer below `2 ^ 52` is in canonical
form. -/
theorem canonical_integer (neg : Bool) (n L : Nat) (h1 : 2 ^ L ≤ n) (h2 : n < 2 ^ (L + 1))
    (hL : L ≤ 51) :
    F64.canonical 53 (-1074) 971 (.finite neg (n * 2 ^ (52 - L)) ((L : Int) - 52)) =
      .finite neg (n * 2 ^ (52 - L)) ((L : Int) - 52) := by
  have hn : 0 < n := lt_of_lt_of_le (by positivity) h1
  have hneg : ¬ (0 : Int) ≤ (L : Int) - 52 := by omega
  have hto : (-((L : Int) - 52)).toNat = 52 - L := by omega
  have hM : 0 < n * 2 ^ (52 - L) := Nat.mul_pos hn (by positivity)
  unfold F64.canonical
  simp only [if_neg hneg, hto]
  rw [roundTo_integer neg n (2 ^ (52 - L)) L (by positivity) h1 h2 hL]
  obtain ⟨M, hMs⟩ : ∃ M, n * 2 ^ (52 - L) = M + 1 := ⟨n * 2 ^ (52 - L) - 1, by omega⟩
  rw [hMs]
  rfl

/-- The binary exponent of a positive integer. -/
theorem exists_log2 (n : Nat) (hn : 0 < n) : ∃ L : Nat, 2 ^ L ≤ n ∧ n < 2 ^ (L + 1) := by
  obtain ⟨a, b⟩ := bitLength_spec n hn
  have hpos : 0 < bitLength n := by
    rcases Nat.eq_zero_or_pos (bitLength n) with h0 | h0
    · rw [h0] at b; simp at b; omega
    · exact h0
  refine ⟨bitLength n - 1, ?_, ?_⟩
  · have : bitLength n = (bitLength n - 1) + 1 := by omega
    rw [this, pow_succ] at a
    omega
  · have : bitLength n - 1 + 1 = bitLength n := by omega
    rw [this]
    exact b

/-- The shortest decimal of the float of a positive integer below `2 ^ 20` spells the
integer: its digits are those of some `c`, and `c` followed by the zeros up to the decimal
point is the integer. -/
theorem shortestDecimal_integer (n L : Nat) (h1 : 2 ^ L ≤ n) (h2 : n < 2 ^ (L + 1))
    (hL : L ≤ 19) :
    ∃ c j : Nat, c * 10 ^ j = n ∧ 0 < c ∧
      shortestDecimal 53 (-1074) (n * 2 ^ (52 - L)) ((L : Int) - 52) =
        Decimal.mk (stripTrailingZeros (Nat.toDigits 10 c))
          ((j : Int) + ((Nat.toDigits 10 c).length : Int)) := by
  have hn : 0 < n := lt_of_lt_of_le (by positivity) h1
  have hneg : ¬ (0 : Int) ≤ (L : Int) - 52 - 2 := by omega
  have hto : (-((L : Int) - 52 - 2)).toNat = 54 - L := by omega
  have hv : 4 * (n * 2 ^ (52 - L)) * 1 = n * 2 ^ (54 - L) := by
    have : 54 - L = (52 - L) + 2 := by omega
    rw [this, pow_add]
    ring
  have hd : 4 ≤ 2 ^ (54 - L) := by
    have : 2 ^ 2 ≤ 2 ^ (54 - L) := Nat.pow_le_pow_right (by decide) (by omega)
    simpa using this
  have hdpos : 0 < 2 ^ (54 - L) := by positivity
  have hfl := floorLog2_integer n (2 ^ (54 - L)) L hdpos h1 h2
  have hbounds := decimalPoint_bounds (n * 2 ^ (54 - L)) (2 ^ (54 - L))
    (ltTenPow_integer_false n (2 ^ (54 - L)) hn) 5 ((L : Int) * 30103 / 100000 - 1)
    (by push_cast; omega)
  have hnd : 4 ≤ n * 2 ^ (54 - L) :=
    le_trans hd (Nat.le_mul_of_pos_left _ hn)
  unfold shortestDecimal
  simp only [if_neg hneg, hto, hv, hfl]
  refine shortestSearch_integer n (2 ^ (54 - L)) _ _ _ _ hn hd ?_ ?_ ?_ ?_ 17 1 ?_ ?_
  · rw [← hv]; split_ifs <;> omega
  · rw [← hv]; split_ifs <;> omega
  · rw [← hv]; omega
  · rw [← hv]; omega
  · push_cast at hbounds ⊢; omega
  · push_cast at hbounds ⊢; omega

/-- Go `%v` of the float of a positive integer below a million, with either sign: the decimal
text of the integer. -/
theorem FormatShortest_integer (neg : Bool) (n L : Nat) (h1 : 2 ^ L ≤ n)
    (h2 : n < 2 ^ (L + 1)) (hn6 : n < 1000000) :
    FormatShortest 53 (-1074) 971 (.finite neg (n * 2 ^ (52 - L)) ((L : Int) - 52)) =
      String.mk ((if neg then ['-'] else []) ++ Nat.toDigits 10 n) := by
  have hn : 0 < n := lt_of_lt_of_le (by positivity) h1
  have hL : L ≤ 19 := by
    by_contra hc
    have : 2 ^ 20 ≤ 2 ^ L := Nat.pow_le_pow_right (by decide) (by omega)
    have h20 : (2 : Nat) ^ 20 = 1048576 := by norm_num
    omega
  have hM : ¬ n * 2 ^ (52 - L) = 0 :=
    Nat.pos_iff_ne_zero.mp (Nat.mul_pos hn (by positivity))
  obtain ⟨c, j, hcj, hc, hdec⟩ := shortestDecimal_integer n L h1 h2 hL
  obtain ⟨hf, hdp⟩ := fmtF_integer c j hc
  rw [hcj] at hf hdp
  have hlen : (Nat.toDigits 10 n).length ≤ 6 :=
    Nat.toDigitsCore_length 10 (by decide) (n + 1) n 6 (by omega) (by decide)
  have hlen0 : 0 < (Nat.toDigits 10 n).length := List.length_pos.mpr (toDigits_ne_nil n)
  unfold FormatShortest
  rw [canonical_integer neg n L h1 h2 (by omega)]
  simp only [if_neg hM, hdec, hf]
  rw [if_neg (by omega)]

/-- The float that a fraction whose value is an integer between -999999 and 999999 rounds to
is written by `%v` as the integer in base 10. -/
theorem FormatShortest_round64_integer (n : Int) (den : Nat) (f : F64) (hlo : -1000000 < n)
    (hhi : n < 1000000) (hden : 0 < den)
    (hf : F64.round64 (decide (n < 0)) (n.natAbs * den) den = some f) :
    FormatShortest 53 (-1074) 971 f = FormatInt n := by
  rcases Nat.eq_zero_or_pos n.natAbs with h0 | hpos
  · have hn0 : n = 0 := Int.natAbs_eq_zero.mp h0
    subst hn0
    have : f = .finite false 0 0 := by
      simp only [Int.natAbs_zero, Nat.zero_mul, F64.round64, F64.roundTo, if_true] at hf
      exact (Option.some.inj hf).symm
    subst this
    rfl
  · obtain ⟨L, h1, h2⟩ := exists_log2 n.natAbs hpos
    have h6 : n.natAbs < 1000000 := by omega
    have hL : L ≤ 51 := by
      by_contra hc
      have : 2 ^ 20 ≤ 2 ^ L := Nat.pow_le_pow_right (by decide) (by omega)
      have h20 : (2 : Nat) ^ 20 = 1048576 := by norm_num
      omega
    unfold F64.round64 at hf
    rw [roundTo_integer _ n.natAbs den L hden h1 h2 hL] at hf
    rw [← Option.some.inj hf, FormatShortest_integer _ n.natAbs L h1 h2 h6]
    cases n with
    | ofNat m =>
      have : ¬ (Int.ofNat m < 0) := Int.not_lt.mpr (Int.ofNat_nonneg m)
      simp only [decide_eq_false this, Bool.false_eq_true, if_false, List.nil_append]
      rfl
    | negSucc m =>
      have : Int.negSucc m < 0 := Int.negSucc_lt_zero m
      simp only [decide_eq_true this, if_true]
      rfl

/-- The fraction `m * den / den` of a positive integer below a million rounds to a `float64`
that `%v` writes as the decimal text of `m`, with the minus sign of the rounding. -/
theorem FormatShortest_round64_nat (neg : Bool) (m den : Nat) (hm : 0 < m)
    (h6 : m < 1000000) (hden : 0 < den) :
    ∃ f, F64.round64 neg (m * den) den = some f ∧
      FormatShortest 53 (-1074) 971 f = (if neg then "-" else "") ++ Nat.repr m := by
  obtain ⟨L, h1, h2⟩ := exists_log2 m hm
  have hL : L ≤ 51 := by
    by_contra hc
    have : 2 ^ 20 ≤ 2 ^ L := Nat.pow_le_pow_right (by decide) (by omega)
    have h20 : (2 : Nat) ^ 20 = 1048576 := by norm_num
    omega
  refine ⟨_, roundTo_integer neg m den L hden h1 h2 hL, ?_⟩
  rw [FormatShortest_integer neg m L h1 h2 h6]
  cases neg <;> rfl

/-- A decimal text that `strconv.ParseFloat` reads as a number whose value is an integer below
a million: the float it returns is written by `%v` as the decimal text of that integer, with a
minus sign exactly when the text has one (also for zero). -/
theorem ParseFloat_integer_literal (text : String) (t : FloatText) (m : Nat)
    (hspecial : special text.data = none) (hread : readFloat text.data = some t)
    (hhex : t.hex = false)
    (hval : (t.mant : ℚ) * (10 : ℚ) ^ (t.exp - (t.frac : Int)) = (m : ℚ))
    (hm : m < 1000000) :
    ∃ f, ParseFloat text = some f ∧
      FormatShortest 53 (-1074) 971 f = (if t.neg then "-" else "") ++ Nat.repr m := by
  have hparse : ParseFloat text =
      (if t.mant = 0 then some (.finite t.neg 0 0)
       else
        F64.round64 t.neg
          (if 0 ≤ t.exp - (t.frac : Int) then t.mant * 10 ^ (t.exp - (t.frac : Int)).toNat
            else t.mant)
          (if 0 ≤ t.exp - (t.frac : Int) then 1
            else 10 ^ (-(t.exp - (t.frac : Int))).toNat)) := by
    unfold ParseFloat
    rw [hspecial, hread]
    simp only [hhex, Bool.false_eq_true, if_false]
  rw [hparse]
  have hten : ((10 : ℚ) ^ (t.exp - (t.frac : Int))) ≠ 0 := zpow_ne_zero _ (by norm_num)
  rcases Nat.eq_zero_or_pos m with h0 | hpos
  · subst h0
    have hmant : t.mant = 0 := by
      have hz : (t.mant : ℚ) * (10 : ℚ) ^ (t.exp - (t.frac : Int)) = 0 := by
        rw [hval]; exact Nat.cast_zero
      have : (t.mant : ℚ) = 0 := by
        rcases mul_eq_zero.mp hz with h | h
        · exact h
        · exact absurd h hten
      exact_mod_cast this
    rw [if_pos hmant]
    refine ⟨_, rfl, ?_⟩
    cases t.neg <;> rfl
  · have hmant : t.mant ≠ 0 := by
      intro h
      rw [h] at hval
      simp only [Nat.cast_zero, zero_mul] at hval
      have : (m : ℚ) = 0 := hval.symm
      have : m = 0 := by exact_mod_cast this
      omega
    rw [if_neg hmant]
    by_cases hs : 0 ≤ t.exp - (t.frac : Int)
    · obtain ⟨k, hk⟩ : ∃ k : Nat, t.exp - (t.frac : Int) = (k : Int) :=
        ⟨(t.exp - (t.frac : Int)).toNat, (Int.toNat_of_nonneg hs).symm⟩
      rw [hk] at hval
      rw [if_pos hs, if_pos hs, hk, Int.toNat_ofNat]
      have hnat : t.mant * 10 ^ k = m := by
        rw [zpow_natCast] at hval
        exact_mod_cast hval
      rw [hnat]
      have := FormatShortest_round64_nat t.neg m 1 hpos hm (by decide)
      rwa [Nat.mul_one] at this
    · obtain ⟨k, hk⟩ : ∃ k : Nat, t.exp - (t.frac : Int) = -(k : Int) :=
        ⟨(-(t.exp - (t.frac : Int))).toNat, by omega⟩
      rw [hk] at hval
      rw [if_neg hs, if_neg hs, hk, neg_neg, Int.toNat_ofNat]
      have hnat : t.mant = m * 10 ^ k := by
        rw [zpow_neg, zpow_natCast] at hval
        have hk10 : ((10 : ℚ) ^ k) ≠ 0 := pow_ne_zero _ (by norm_num)
        have h2 : (t.mant : ℚ) = (m : ℚ) * (10 : ℚ) ^ k := by
          field_simp at hval
          exact hval
        exact_mod_cast h2
      rw [hnat]
      exact FormatShortest_round64_nat t.neg m (10 ^ k) hpos hm (by positivity)

/-- A text that starts with a JSON number does not start like another JSON value. -/
theorem scanNumber_head (c : Char) (cs : List Char) (p : List Char × List Char)
    (h : json.scanNumber (c :: cs) = some p) :
    c ≠ '\x7b' ∧ c ≠ '[' ∧ c ≠ '\x22' ∧ c ≠ 't' ∧ c ≠ 'f' ∧ c ≠ 'n' := by
  refine ⟨?_, ?_, ?_, ?_, ?_, ?_⟩ <;>
  · intro hc
    subst hc
    exact Option.noConfusion h

/-- The decoder reads a number by handing its text to `strconv.ParseFloat`: where a text
starts with a JSON number that `ParseFloat` reads as `f`, the decoder delivers the `float64`
value `f`. -/
theorem decodeValue_number (fuel depth : Nat) (s text rest : List Char) (f : F64)
    (hscan : json.scanNumber s = some (text, rest))
    (hparse : ParseFloat (String.mk text) = some f) :
    json.decodeValue (fuel + 1) depth s = some (.float64 f, rest) := by
  cases s with
  | nil => exact Option.noConfusion hscan
  | cons c cs =>
    obtain ⟨h1, h2, h3, h4, h5, h6⟩ := scanNumber_head c cs _ hscan
    unfold json.decodeValue
    simp only [h1, h2, h3, h4, h5, h6, if_false, hscan, hparse]

/-- The text of a JSON number, as the decoder cuts it out: an optional minus sign, then either
a digit from 1 to 9 and more, or a single zero, or a zero followed by a point or an exponent
mark. -/
theorem scanNumber_shape (s text rest : List Char)
    (h : json.scanNumber s = some (text, rest)) :
    ∃ sign body : List Char, text = sign ++ body ∧ (sign = [] ∨ sign = ['-']) ∧
      ((∃ d tl, body = d :: tl ∧ '1' ≤ d ∧ d ≤ '9') ∨ body = ['0'] ∨
        (∃ c tl, body = '0' :: c :: tl ∧ (c = '.' ∨ c = 'e' ∨ c = 'E'))) := by
  unfold json.scanNumber at h
  simp only [] at h
  split at h
  · exact Option.noConfusion h
  · rename_i ds s2 hint
    split at h
    · exact Option.noConfusion h
    · rename_i fs s3 hfrac
      split at h
      · exact Option.noConfusion h
      · rename_i es s4 hexp
        have hds : ds = ['0'] ∨ ∃ d tl, ds = d :: tl ∧ '1' ≤ d ∧ d ≤ '9' := by
          split at hint
          · exact Option.noConfusion hint
          · rename_i c r hdrop
            split_ifs at hint with h0 h19
            · left
              simp only [Option.some.injEq, Prod.mk.injEq] at hint
              exact hint.1.symm
            · right
              rw [hdrop] at hint
              simp only [Option.some.injEq] at hint
              have hspan : (json.spanDigits (c :: r)).1 =
                  c :: (r.takeWhile (fun c => decide ('0' ≤ c ∧ c ≤ '9'))) := by
                unfold json.spanDigits
                rw [List.span_eq_take_drop]
                have hc : decide ('0' ≤ c ∧ c ≤ '9') = true := by
                  have h01 : ('0' : Char) ≤ '1' := by decide
                  exact decide_eq_true ⟨le_trans h01 h19.1, h19.2⟩
                simp only [List.takeWhile_cons, hc, if_true]
              refine ⟨c, r.takeWhile (fun c => decide ('0' ≤ c ∧ c ≤ '9')), ?_, h19.1, h19.2⟩
              rw [← hspan, hint]
        have hfs : fs = [] ∨ ∃ tl, fs = '.' :: tl := by
          split at hfrac
          · split_ifs at hfrac
            simp only [Option.some.injEq, Prod.mk.injEq] at hfrac
            exact Or.inr ⟨_, hfrac.1.symm⟩
          · simp only [Option.some.injEq, Prod.mk.injEq] at hfrac
            exact Or.inl hfrac.1.symm
        have hes : es = [] ∨ ∃ e tl, es = e :: tl ∧ (e = 'e' ∨ e = 'E') := by
          split at hexp
          · rename_i e r
            split_ifs at hexp with he hempty
            · simp only [Option.some.injEq, Prod.mk.injEq] at hexp
              exact Or.inr ⟨e, _, by rw [← hexp.1]; rfl, he⟩
            · simp only [Option.some.injEq, Prod.mk.injEq] at hexp
              exact Or.inl hexp.1.symm
          · simp only [Option.some.injEq, Prod.mk.injEq] at hexp
            exact Or.inl hexp.1.symm
        simp only [Option.some.injEq, Prod.mk.injEq] at h
        refine ⟨?sg, ds ++ (fs ++ es), ?h1, ?h2, ?h3⟩
        case h1 =>
          rw [← h.1, List.append_assoc, List.append_assoc]
          exact rfl
        case h2 =>
          split
          · exact Or.inr rfl
          · exact Or.inl rfl
        case h3 =>
          rcases hds with hds | ⟨d, tl, hds, hd1, hd9⟩
          · subst hds
            rcases hfs with hfs | ⟨tl, hfs⟩
            · subst hfs
              rcases hes with hes | ⟨e, tl, hes, he⟩
              · subst hes
                exact Or.inr (Or.inl rfl)
              · subst hes
                exact Or.inr (Or.inr ⟨e, tl, rfl, Or.inr he⟩)
            · subst hfs
              exact Or.inr (Or.inr ⟨'.', tl ++ es, rfl, Or.inl rfl⟩)
          · subst hds
            exact Or.inl ⟨d, tl ++ (fs ++ es), rfl, hd1, hd9⟩

/-- A finite float whose value is a positive integer below a million has the normalised
mantissa of that integer as its canonical form, whatever mantissa and exponent it is given
with. -/
theorem canonical_of_integer_value (neg : Bool) (mant : Nat) (exp : Int) (m L : Nat)
    (h1 : 2 ^ L ≤ m) (h2 : m < 2 ^ (L + 1)) (hL : L ≤ 51)
    (hval : (mant : ℚ) * (2 : ℚ) ^ exp = (m : ℚ)) :
    F64.canonical 53 (-1074) 971 (.finite neg mant exp) =
      .finite neg (m * 2 ^ (52 - L)) ((L : Int) - 52) := by
  have hm : 0 < m := lt_of_lt_of_le (by positivity) h1
  have hnum : (if 0 ≤ exp then mant * 2 ^ exp.toNat else mant) =
      m * (if 0 ≤ exp then 1 else 2 ^ (-exp).toNat) := by
    by_cases hs : 0 ≤ exp
    · obtain ⟨k, hk⟩ : ∃ k : Nat, exp = (k : Int) := ⟨exp.toNat, (Int.toNat_of_nonneg hs).symm⟩
      subst hk
      rw [if_pos hs, if_pos hs, Int.toNat_ofNat, Nat.mul_one]
      rw [zpow_natCast] at hval
      exact_mod_cast hval
    · obtain ⟨k, hk⟩ : ∃ k : Nat, exp = -(k : Int) := ⟨(-exp).toNat, by omega⟩
      subst hk
      rw [if_neg hs, if_neg hs, neg_neg, Int.toNat_ofNat]
      rw [zpow_neg, zpow_natCast] at hval
      have hk2 : ((2 : ℚ) ^ k) ≠ 0 := pow_ne_zero _ (by norm_num)
      have h3 : (mant : ℚ) = (m : ℚ) * (2 : ℚ) ^ k := by
        field_simp at hval
        exact hval
      exact_mod_cast h3
  have hden : 0 < (if 0 ≤ exp then 1 else 2 ^ (-exp).toNat) := by
    split_ifs
    · exact Nat.one_pos
    · positivity
  unfold F64.canonical
  simp only []
  rw [hnum, roundTo_integer neg m _ L hden h1 h2 hL]
  obtain ⟨M, hMs⟩ : ∃ M, m * 2 ^ (52 - L) = M + 1 :=
    ⟨m * 2 ^ (52 - L) - 1, by
      have : 0 < m * 2 ^ (52 - L) := Nat.mul_pos hm (by positivity)
      omega⟩
  rw [hMs]
  rfl

/-- Go `%v` of a finite `float64` whose value is an integer of absolute value below a million:
the decimal text of the absolute value, after a minus sign when the float is negative (also
for the negative zero). -/
theorem FormatShortest_integer_value (neg : Bool) (mant : Nat) (exp : Int) (m : Nat)
    (hval : (mant : ℚ) * (2 : ℚ) ^ exp = (m : ℚ)) (h6 : m < 1000000) :
    FormatShortest 53 (-1074) 971 (.finite neg mant exp) =
      (if neg then "-" else "") ++ Nat.repr m := by
  rcases Nat.eq_zero_or_pos m with h0 | hpos
  · subst h0
    have hmant : mant = 0 := by
      have hz : (mant : ℚ) * (2 : ℚ) ^ exp = 0 := by rw [hval]; exact Nat.cast_zero
      have hten : ((2 : ℚ) ^ exp) ≠ 0 := zpow_ne_zero _ (by norm_num)
      have : (mant : ℚ) = 0 := by
        rcases mul_eq_zero.mp hz with h | h
        · exact h
        · exact absurd h hten
      exact_mod_cast this
    subst hmant
    have hcanon : F64.canonical 53 (-1074) 971 (.finite neg 0 exp) = .finite neg 0 0 := by
      unfold F64.canonical
      simp [F64.roundTo]
    unfold FormatShortest
    rw [hcanon]
    cases neg <;> rfl
  · obtain ⟨L, h1, h2⟩ := exists_log2 m hpos
    have hL : L ≤ 51 := by
      by_contra hc
      have : 2 ^ 20 ≤ 2 ^ L := Nat.pow_le_pow_right (by decide) (by omega)
      have h20 : (2 : Nat) ^ 20 = 1048576 := by norm_num
      omega
    have hsame : FormatShortest 53 (-1074) 971 (.finite neg mant exp) =
        FormatShortest 53 (-1074) 971 (.finite neg (m * 2 ^ (52 - L)) ((L : Int) - 52)) := by
      unfold FormatShortest
      rw [canonical_of_integer_value neg mant exp m L h1 h2 hL hval,
        canonical_integer neg m L h1 h2 hL]
    rw [hsame, FormatShortest_integer neg m L h1 h2 h6]
    cases neg <;> rfl

/-- A decimal text that `strconv.ParseFloat` reads as a number whose value is an integer of
absolute value below a million: the float it returns is finite, has the sign of the text and
the value of the text. -/
theorem ParseFloat_integer_value (text : String) (t : FloatText) (m : Nat)
    (hspecial : special text.data = none) (hread : readFloat text.data = some t)
    (hhex : t.hex = false)
    (hval : (t.mant : ℚ) * (10 : ℚ) ^ (t.exp - (t.frac : Int)) = (m : ℚ))
    (hm : m < 1000000) :
    ∃ (mant : Nat) (exp : Int), ParseFloat text = some (.finite t.neg mant exp) ∧
      (mant : ℚ) * (2 : ℚ) ^ exp = (m : ℚ) := by
  have hparse : ParseFloat text =
      (if t.mant = 0 then some (.finite t.neg 0 0)
       else
        F64.round64 t.neg
          (if 0 ≤ t.exp - (t.frac : Int) then t.mant * 10 ^ (t.exp - (t.frac : Int)).toNat
            else t.mant)
          (if 0 ≤ t.exp - (t.frac : Int) then 1
            else 10 ^ (-(t.exp - (t.frac : Int))).toNat)) := by
    unfold ParseFloat
    rw [hspecial, hread]
    simp only [hhex, Bool.false_eq_true, if_false]
  rw [hparse]
  have hten : ((10 : ℚ) ^ (t.exp - (t.frac : Int))) ≠ 0 := zpow_ne_zero _ (by norm_num)
  rcases Nat.eq_zero_or_pos m with h0 | hpos
  · subst h0
    have hmant : t.mant = 0 := by
      have hz : (t.mant : ℚ) * (10 : ℚ) ^ (t.exp - (t.frac : Int)) = 0 := by
        rw [hval]; exact Nat.cast_zero
      have : (t.mant : ℚ) = 0 := by
        rcases mul_eq_zero.mp hz with h | h
        · exact h
        · exact absurd h hten
      exact_mod_cast this
    rw [if_pos hmant]
    exact ⟨0, 0, rfl, by simp⟩
  · have hmant : t.mant ≠ 0 := by
      intro h
      rw [h] at hval
      simp only [Nat.cast_zero, zero_mul] at hval
      have : (m : ℚ) = 0 := hval.symm
      have : m = 0 := by exact_mod_cast this
      omega
    rw [if_neg hmant]
    obtain ⟨L, h1, h2⟩ := exists_log2 m hpos
    have hL : L ≤ 51 := by
      by_contra hc
      have : 2 ^ 20 ≤ 2 ^ L := Nat.pow_le_pow_right (by decide) (by omega)
      have h20 : (2 : Nat) ^ 20 = 1048576 := by norm_num
      omega
    have hnum : (if 0 ≤ t.exp - (t.frac : Int) then
          t.mant * 10 ^ (t.exp - (t.frac : Int)).toNat else t.mant) =
        m * (if 0 ≤ t.exp - (t.frac : Int) then 1
          else 10 ^ (-(t.exp - (t.frac : Int))).toNat) := by
      by_cases hs : 0 ≤ t.exp - (t.frac : Int)
      · obtain ⟨k, hk⟩ : ∃ k : Nat, t.exp - (t.frac : Int) = (k : Int) :=
          ⟨(t.exp - (t.frac : Int)).toNat, (Int.toNat_of_nonneg hs).symm⟩
        rw [hk] at hval
        rw [if_pos hs, if_pos hs, hk, Int.toNat_ofNat, Nat.mul_one]
        rw [zpow_natCast] at hval
        exact_mod_cast hval
      · obtain ⟨k, hk⟩ : ∃ k : Nat, t.exp - (t.frac : Int) = -(k : Int) :=
          ⟨(-(t.exp - (t.frac : Int))).toNat, by omega⟩
        rw [hk] at hval
        rw [if_neg hs, if_neg hs, hk, neg_neg, Int.toNat_ofNat]
        rw [zpow_neg, zpow_natCast] at hval
        have hk10 : ((10 : ℚ) ^ k) ≠ 0 := pow_ne_zero _ (by norm_num)
        have h3 : (t.mant : ℚ) = (m : ℚ) * (10 : ℚ) ^ k := by
          field_simp at hval
          exact hval
        exact_mod_cast h3
    have hden : 0 < (if 0 ≤ t.exp - (t.frac : Int) then 1
        else 10 ^ (-(t.exp - (t.frac : Int))).toNat) := by
      split_ifs
      · exact Nat.one_pos
      · positivity
    rw [hnum]
    refine ⟨m * 2 ^ (52 - L), (L : Int) - 52, roundTo_integer t.neg m _ L hden h1 h2 hL, ?_⟩
    have hexp : (L : Int) - 52 = -((52 - L : Nat) : Int) := by omega
    rw [hexp, zpow_neg, zpow_natCast]
    have h2ne : ((2 : ℚ) ^ (52 - L)) ≠ 0 := pow_ne_zero _ (by norm_num)
    push_cast
    field_simp

/-- The characters from '1' to '9'. -/
theorem digit_cases (d : Char) (h1 : '1' ≤ d) (h9 : d ≤ '9') :
    d ∈ ['1', '2', '3', '4', '5', '6', '7', '8', '9'] := by
  have hlt : d.toNat < 128 := by
    have : d.toNat ≤ 57 := h9
    omega
  have key : ∀ n, n < 128 → '1' ≤ Char.ofNat n → Char.ofNat n ≤ '9' →
      Char.ofNat n ∈ ['1', '2', '3', '4', '5', '6', '7', '8', '9'] := by
    decide
  exact ascii_cases (fun c => '1' ≤ c → c ≤ '9' →
    c ∈ ['1', '2', '3', '4', '5', '6', '7', '8', '9']) key d hlt h1 h9

/-- The base that `readFloat` reports is the one it reads off the start of the text. -/
theorem readFloat_hex (c : Char) (afterSign : List Char) (t : FloatText)
    (h : readFloat (c :: afterSign) = some t) :
    t.hex = (match (if c = '+' ∨ c = '-' then afterSign else c :: afterSign) with
      | c0 :: c1 :: _ :: _ => decide (c0 = '0' ∧ (c1.toNat ||| 32) = 120)
      | _ => false) := by
  unfold readFloat at h
  simp -zeta only [] at h
  lift_lets at h
  extract_lets neg body hex digits r st at h
  simp only [] at h
  repeat' first
    | exact Option.noConfusion h
    | (cases h; rfl)
    | split_ifs at h
    | split at h

/-- The text of a JSON number is not one of the special names of `strconv.ParseFloat`, and
`readFloat` reads it in base ten. -/
theorem number_text_decimal (s text rest : List Char)
    (hscan : json.scanNumber s = some (text, rest)) :
    special text = none ∧ ∀ t, readFloat text = some t → t.hex = false := by
  obtain ⟨sign, body, rfl, hsign, hbody⟩ := scanNumber_shape s text rest hscan
  have hfin : ∀ (c : Char) (afterSign : List Char),
      (∀ tl, (if c = '+' ∨ c = '-' then afterSign else c :: afterSign) ≠ '0' :: 'x' :: tl) →
      (∀ tl, (if c = '+' ∨ c = '-' then afterSign else c :: afterSign) ≠ '0' :: 'X' :: tl) →
      ∀ t, readFloat (c :: afterSign) = some t → t.hex = false := by
    intro c afterSign hx hX t ht
    rw [readFloat_hex c afterSign t ht]
    split
    · rename_i c0 c1 hd tl heq
      rw [decide_eq_false_iff_not]
      rintro ⟨h0, h1⟩
      subst h0
      have hc1 : c1 = 'x' ∨ c1 = 'X' := by
        have hlt : c1.toNat < 128 := by
          by_contra hge
          have h2 : c1.toNat ≤ c1.toNat ||| 32 :=
            Nat.le_of_testBit (fun i hi => by rw [Nat.testBit_or, hi]; rfl)
          omega
        have key : ∀ n, n < 128 → (Char.ofNat n).toNat ||| 32 = 120 →
            Char.ofNat n = 'x' ∨ Char.ofNat n = 'X' := by
          decide
        exact ascii_cases (fun c => c.toNat ||| 32 = 120 → c = 'x' ∨ c = 'X') key c1 hlt h1
      rcases hc1 with rfl | rfl
      · exact hx _ heq
      · exact hX _ heq
    · rfl
  rcases hsign with rfl | rfl
  · rcases hbody with ⟨d, tl, rfl, h1, h9⟩ | rfl | ⟨c, tl, rfl, hc⟩
    · have hd := digit_cases d h1 h9
      simp only [List.mem_cons, List.mem_singleton, List.not_mem_nil, or_false] at hd
      refine ⟨?_, ?_⟩
      · rcases hd with rfl | rfl | rfl | rfl | rfl | rfl | rfl | rfl | rfl <;> rfl
      · apply hfin <;>
        · intro tl2 h
          rcases hd with rfl | rfl | rfl | rfl | rfl | rfl | rfl | rfl | rfl <;>
            simp at h
    · refine ⟨rfl, ?_⟩
      apply hfin <;>
      · intro tl2 h
        simp at h
    · refine ⟨rfl, ?_⟩
      apply hfin <;>
      · intro tl2 h
        rcases hc with rfl | rfl | rfl <;> simp at h
  · rcases hbody with ⟨d, tl, rfl, h1, h9⟩ | rfl | ⟨c, tl, rfl, hc⟩
    · have hd := digit_cases d h1 h9
      simp only [List.mem_cons, List.mem_singleton, List.not_mem_nil, or_false] at hd
      refine ⟨?_, ?_⟩
      · rcases hd with rfl | rfl | rfl | rfl | rfl | rfl | rfl | rfl | rfl <;> rfl
      · apply hfin <;>
        · intro tl2 h
          rcases hd with rfl | rfl | rfl | rfl | rfl | rfl | rfl | rfl | rfl <;>
            simp at h
    · refine ⟨rfl, ?_⟩
      apply hfin <;>
      · intro tl2 h
        simp at h
    · refine ⟨rfl, ?_⟩
      apply hfin <;>
      · intro tl2 h
        rcases hc with rfl | rfl | rfl <;> simp at h

/-- What the member loop of the decoder returns is an object. -/
theorem decodeMembers_object (fuel : Nat) :
    ∀ (depth : Nat) (s : List Char) (acc : List (String × Value)) (v : Value) (r : List Char),
      json.decodeMembers fuel depth s acc = some (v, r) → ∃ m, v = .object m := by
  induction fuel with
  | zero =>
    intro depth s acc v r h
    unfold json.decodeMembers at h
    exact Option.noConfusion h
  | succ fuel ih =>
    intro depth s acc v r h
    unfold json.decodeMembers at h
    split at h
    · split at h
      · exact Option.noConfusion h
      · split at h
        · split at h
          · exact Option.noConfusion h
          · split at h
            · exact ih _ _ _ _ _ h
            · simp only [Option.some.injEq, Prod.mk.injEq] at h
              exact ⟨_, h.1.symm⟩
            · exact Option.noConfusion h
        · exact Option.noConfusion h
    · exact Option.noConfusion h

/-- What the element loop of the decoder returns is an array. -/
theorem decodeElements_array (fuel : Nat) :
    ∀ (depth : Nat) (s : List Char) (acc : List Value) (v : Value) (r : List Char),
      json.decodeElements fuel depth s acc = some (v, r) → ∃ items, v = .array items := by
  induction fuel with
  | zero =>
    intro depth s acc v r h
    unfold json.decodeElements at h
    exact Option.noConfusion h
  | succ fuel ih =>
    intro depth s acc v r h
    unfold json.decodeElements at h
    split at h
    · exact Option.noConfusion h
    · split at h
      · exact ih _ _ _ _ _ h
      · simp only [Option.some.injEq, Prod.mk.injEq] at h
        exact ⟨_, h.1.symm⟩
      · exact Option.noConfusion h

/-- The value that the decoder reads is told by the start of the text: an object is read from
an opening brace only, null from the text "null" only, and a number is the float that
`strconv.ParseFloat` makes of the number literal at the start of the text. -/
theorem decodeValue_cases (fuel depth : Nat) (s : List Char) (v : Value) (r : List Char)
    (h : json.decodeValue fuel depth s = some (v, r)) :
    (∃ m tail, v = .object m ∧ s = '\x7b' :: tail) ∨
    (∃ items, v = .array items) ∨
    (∃ str, v = .string str) ∨
    (∃ b, v = .bool b) ∨
    (v = .null ∧ s = 'n' :: 'u' :: 'l' :: 'l' :: r) ∨
    (∃ text f, v = .float64 f ∧ json.scanNumber s = some (text, r) ∧
      ParseFloat (String.mk text) = some f) := by
  cases fuel with
  | zero =>
    unfold json.decodeValue at h
    exact Option.noConfusion h
  | succ fuel =>
    unfold json.decodeValue at h
    split at h
    · exact Option.noConfusion h
    · rename_i c rest
      by_cases h1 : c = '\x7b'
      · rw [if_pos h1] at h
        left
        subst h1
        split_ifs at h
        split at h
        · simp only [Option.some.injEq, Prod.mk.injEq] at h
          exact ⟨_, _, h.1.symm, rfl⟩
        · obtain ⟨m, hm⟩ := decodeMembers_object fuel _ _ _ _ _ h
          exact ⟨m, _, hm, rfl⟩
      rw [if_neg h1] at h
      by_cases h2 : c = '['
      · rw [if_pos h2] at h
        right; left
        split_ifs at h
        split at h
        · simp only [Option.some.injEq, Prod.mk.injEq] at h
          exact ⟨_, h.1.symm⟩
        · exact decodeElements_array fuel _ _ _ _ _ h
      rw [if_neg h2] at h
      by_cases h3 : c = '\x22'
      · rw [if_pos h3] at h
        right; right; left
        split at h
        · simp only [Option.some.injEq, Prod.mk.injEq] at h
          exact ⟨_, h.1.symm⟩
        · exact Option.noConfusion h
      rw [if_neg h3] at h
      by_cases h4 : c = 't'
      · rw [if_pos h4] at h
        right; right; right; left
        split_ifs at h
        simp only [Option.some.injEq, Prod.mk.injEq] at h
        exact ⟨_, h.1.symm⟩
      rw [if_neg h4] at h
      by_cases h5 : c = 'f'
      · rw [if_pos h5] at h
        right; right; right; left
        split_ifs at h
        simp only [Option.some.injEq, Prod.mk.injEq] at h
        exact ⟨_, h.1.symm⟩
      rw [if_neg h5] at h
      by_cases h6 : c = 'n'
      · rw [if_pos h6] at h
        right; right; right; right; left
        split_ifs at h with hn
        simp only [Option.some.injEq, Prod.mk.injEq] at h
        refine ⟨h.1.symm, ?_⟩
        subst h6
        have := List.take_append_drop 3 rest
        rw [hn, h.2] at this
        rw [← this]
        rfl
      rw [if_neg h6] at h
      right; right; right; right; right
      split at h
      · rename_i text rest1 hscan
        split at h
        · rename_i f hparse
          simp only [Option.some.injEq, Prod.mk.injEq] at h
          refine ⟨text, f, h.1.symm, ?_, hparse⟩
          rw [hscan, h.2]
        · exact Option.noConfusion h
      · exact Option.noConfusion h

/-- The text of a JSON number starts with the first character of the text it is cut from. -/
theorem scanNumber_first (c : Char) (cs text rest : List Char)
    (h : json.scanNumber (c :: cs) = some (text, rest)) : ∃ tl, text = c :: tl := by
  by_cases hc : c = '-'
  · subst hc
    unfold json.scanNumber at h
    simp only [] at h
    split at h
    · exact Option.noConfusion h
    · split at h
      · exact Option.noConfusion h
      · split at h
        · exact Option.noConfusion h
        · simp only [Option.some.injEq, Prod.mk.injEq] at h
          exact ⟨_, by rw [← h.1]; rfl⟩
  · unfold json.scanNumber at h
    lift_lets at h
    extract_lets sign s1 intPart at h
    have hsign : sign = [] := by
      show (match c :: cs with
          | '-' :: _ => ['-']
          | _ => ([] : List Char)) = []
      split
      · rename_i heq
        exact absurd (List.cons.inj heq).1 hc
      · rfl
    have hs1 : s1 = c :: cs := by
      show List.drop sign.length (c :: cs) = c :: cs
      rw [hsign]
      rfl
    have hint : ∀ ds s2, intPart = some (ds, s2) → ∃ tl, ds = c :: tl := by
      intro ds s2 hint
      have hi : intPart = (if c = '0' then some (['0'], cs)
          else if '1' ≤ c ∧ c ≤ '9' then some (json.spanDigits (c :: cs)) else none) := by
        show (match s1 with
          | [] => none
          | c :: r => if c = '0' then some (['0'], r)
                      else if '1' ≤ c ∧ c ≤ '9' then some (json.spanDigits s1)
                      else none) = _
        rw [hs1]
      rw [hi] at hint
      split_ifs at hint with h0 h19
      · simp only [Option.some.injEq, Prod.mk.injEq] at hint
        exact ⟨[], by rw [← hint.1, h0]⟩
      · simp only [Option.some.injEq] at hint
        have hspan : (json.spanDigits (c :: cs)).1 =
            c :: (cs.takeWhile (fun c => decide ('0' ≤ c ∧ c ≤ '9'))) := by
          unfold json.spanDigits
          rw [List.span_eq_take_drop]
          have hcd : decide ('0' ≤ c ∧ c ≤ '9') = true := by
            have h01 : ('0' : Char) ≤ '1' := by decide
            exact decide_eq_true ⟨le_trans h01 h19.1, h19.2⟩
          simp only [List.takeWhile_cons, hcd, if_true]
        exact ⟨_, by rw [← hspan, hint]⟩
    clear_value intPart s1 sign
    split at h
    · exact Option.noConfusion h
    · rename_i ds s2
      obtain ⟨tl, rfl⟩ := hint ds s2 rfl
      simp only [] at h
      split at h
      · exact Option.noConfusion h
      · split at h
        · exact Option.noConfusion h
        · simp only [Option.some.injEq, Prod.mk.injEq] at h
          exact ⟨_, by rw [← h.1, hsign]; rfl⟩

/-- The sign that `readFloat` reports is the minus sign at the start of the text. -/
theorem readFloat_neg (c : Char) (afterSign : List Char) (t : FloatText)
    (h : readFloat (c :: afterSign) = some t) : t.neg = decide (c = '-') := by
  unfold readFloat at h
  simp -zeta only [] at h
  lift_lets at h
  extract_lets neg body hex digits r st at h
  simp only [] at h
  repeat' first
    | exact Option.noConfusion h
    | (cases h; rfl)
    | split_ifs at h
    | split at h

/-- What the rounding returns is a finite float with the sign it was given. -/
theorem roundTo_finite (mantBits : Nat) (minExp maxExp : Int) (neg : Bool) (num den : Nat)
    (f : F64) (h : F64.roundTo mantBits minExp maxExp neg num den = some f) :
    ∃ mant exp, f = .finite neg mant exp := by
  unfold F64.roundTo at h
  simp only [] at h
  split_ifs at h
  all_goals
    simp only [Option.some.injEq] at h
    exact ⟨_, _, h.symm⟩

/-- The float that `strconv.ParseFloat` makes of the text of a JSON number is finite, and it
is negative exactly when the number starts with a minus sign (also when its value is zero). -/
theorem ParseFloat_number (c : Char) (cs text rest : List Char) (f : F64)
    (hscan : json.scanNumber (c :: cs) = some (text, rest))
    (hparse : ParseFloat (String.mk text) = some f) :
    ∃ mant exp, f = .finite (decide (c = '-')) mant exp := by
  obtain ⟨hspecial, -⟩ := number_text_decimal _ _ _ hscan
  obtain ⟨tl, rfl⟩ := scanNumber_first c cs text rest hscan
  unfold ParseFloat at hparse
  simp only [hspecial] at hparse
  split at hparse
  · exact Option.noConfusion hparse
  · rename_i t hread
    have hneg := readFloat_neg c tl t hread
    by_cases h0 : t.mant = 0
    · rw [if_pos h0] at hparse
      simp only [Option.some.injEq] at hparse
      exact ⟨0, 0, by rw [← hparse, hneg]⟩
    · rw [if_neg h0] at hparse
      obtain ⟨mant, exp, hf⟩ := roundTo_finite _ _ _ _ _ _ _ hparse
      exact ⟨mant, exp, by rw [hf, hneg]⟩

/-- The value of a finite float that is an integer, as a fraction: the mantissa times the power
of two is the absolute value of the integer, and unless the integer is zero the float is
negative exactly when the integer is. -/
theorem IsInteger_value (neg : Bool) (mant : Nat) (exp : Int) (n : Int)
    (h : F64.IsInteger (.finite neg mant exp) n) :
    (mant : ℚ) * (2 : ℚ) ^ exp = (n.natAbs : ℚ) ∧ (n ≠ 0 → neg = decide (n < 0)) := by
  unfold F64.IsInteger at h
  simp only [] at h
  have habs : mant * 2 ^ exp.toNat = n.natAbs * 2 ^ (-exp).toNat := by
    have := congrArg Int.natAbs h
    rw [Int.natAbs_mul, Int.natAbs_mul, Int.natAbs_pow, Int.natAbs_pow] at this
    have h2 : (2 : Int).natAbs = 2 := rfl
    rw [h2] at this
    cases neg
    · simpa using this
    · simpa using this
  constructor
  · by_cases hs : 0 ≤ exp
    · obtain ⟨k, hk⟩ : ∃ k : Nat, exp = (k : Int) := ⟨exp.toNat, (Int.toNat_of_nonneg hs).symm⟩
      subst hk
      have h0 : (-(k : Int)).toNat = 0 := by omega
      rw [Int.toNat_ofNat, h0, pow_zero, Nat.mul_one] at habs
      rw [zpow_natCast]
      exact_mod_cast habs
    · obtain ⟨k, hk⟩ : ∃ k : Nat, exp = -(k : Int) := ⟨(-exp).toNat, by omega⟩
      subst hk
      have h0 : (-(k : Int)).toNat = 0 := by omega
      rw [h0, pow_zero, Nat.mul_one, neg_neg, Int.toNat_ofNat] at habs
      rw [zpow_neg, zpow_natCast, habs]
      have hk2 : ((2 : ℚ) ^ k) ≠ 0 := pow_ne_zero _ (by norm_num)
      push_cast
      field_simp
  · intro hn
    have hpos : (0 : Int) < 2 ^ (-exp).toNat := by positivity
    have hpos2 : (0 : Int) < 2 ^ exp.toNat := by positivity
    cases neg
    · simp only [Bool.false_eq_true, if_false] at h
      have hge : (0 : Int) ≤ n * 2 ^ (-exp).toNat := by
        rw [← h]; positivity
      have : 0 ≤ n := by
        by_contra hc
        have : n * 2 ^ (-exp).toNat < 0 := mul_neg_of_neg_of_pos (by omega) hpos
        omega
      exact (decide_eq_false (by omega)).symm
    · simp only [if_true] at h
      have hle : n * 2 ^ (-exp).toNat ≤ 0 := by
        rw [← h]
        have : (0 : Int) ≤ (mant : Int) * 2 ^ exp.toNat := by positivity
        rw [neg_mul]
        omega
      have : n ≤ 0 := by
        by_contra hc
        have : 0 < n * 2 ^ (-exp).toNat := mul_pos (by omega) hpos
        omega
      exact (decide_eq_true (by omega)).symm

/-- The minus sign and the decimal text of the absolute value of an integer other than zero
are the base 10 text of the integer. -/
theorem sign_repr_eq_FormatInt (n : Int) (hn : n ≠ 0) :
    (if decide (n < 0) = true then "-" else "") ++ Nat.repr n.natAbs = FormatInt n := by
  cases n with
  | ofNat m =>
    have : ¬ (Int.ofNat m < 0) := Int.not_lt.mpr (Int.ofNat_nonneg m)
    simp only [decide_eq_false this, Bool.false_eq_true, if_false]
    show "" ++ Nat.repr m = Nat.repr m
    exact String.empty_append _
  | negSucc m =>
    have : Int.negSucc m < 0 := Int.negSucc_lt_zero m
    simp only [decide_eq_true this, if_true]
    rfl

/-- C22 (as amended). Let the JSON decoder read the number at the start of the text `s` and
deliver the `float64` value `f` for it, and let `f` be an integer `n` with
`-1000000 < n < 1000000`.  Then under every key outside the denylist the generic message has as
payload the base 10 text of the absolute value of `n`, after a minus sign exactly when the
number literal starts with one: that is the base 10 text of `n` unless `n` is zero, and "0" or
"-0" when it is.  The message is among those of `MapMessageToMqtt` for every snapshot that
binds the key to `f`.  The float is the one `strconv.ParseFloat` makes of the literal, and
when the literal itself spells an integer below a million that integer is `|n|`. -/
theorem C22_integer_payload (u : UnicodeCase) (baseTopic key : String) (fuel depth : Nat)
    (s rest : List Char) (f : F64) (n : Int)
    (hkey : noisyKeys key = false)
    (hdec : json.decodeValue fuel depth s = some (.float64 f, rest))
    (hint : F64.IsInteger f n) (hlo : -1000000 < n) (hhi : n < 1000000) :
    (∀ fields : Snapshot,
      genericMessages u baseTopic ((key, .float64 f) :: fields) =
        { Topic := baseTopic ++ "/" ++ normaliseKey u key,
          Payload := (if s.head? = some '-' then "-" else "") ++ Nat.repr n.natAbs,
          Retain := false } :: genericMessages u baseTopic fields) ∧
    (∀ (msg : Snapshot) (cache : PrinterStatusCache) (now : Int), (key, .float64 f) ∈ msg →
      { Topic := baseTopic ++ "/" ++ normaliseKey u key,
        Payload := (if s.head? = some '-' then "-" else "") ++ Nat.repr n.natAbs,
        Retain := false } ∈ (MapMessageToMqtt u cache now msg baseTopic).1) ∧
    (n ≠ 0 → (if s.head? = some '-' then "-" else "") ++ Nat.repr n.natAbs = FormatInt n) ∧
    (∃ text, json.scanNumber s = some (text, rest) ∧ ParseFloat (String.mk text) = some f ∧
      ∀ (t : FloatText) (m : Nat), readFloat text = some t →
        (t.mant : ℚ) * (10 : ℚ) ^ (t.exp - (t.frac : Int)) = (m : ℚ) → m < 1000000 →
        n.natAbs = m) := by
  -- the value is a number: the float that ParseFloat makes of the literal
  obtain ⟨text, hscan, hparse⟩ : ∃ text, json.scanNumber s = some (text, rest) ∧
      ParseFloat (String.mk text) = some f := by
    rcases decodeValue_cases fuel depth s _ rest hdec with
      ⟨m, tail, hv, -⟩ | ⟨items, hv⟩ | ⟨str, hv⟩ | ⟨b, hv⟩ | ⟨hv, -⟩ | ⟨text, f2, hv, h1, h2⟩
    · exact Value.noConfusion hv
    · exact Value.noConfusion hv
    · exact Value.noConfusion hv
    · exact Value.noConfusion hv
    · exact Value.noConfusion hv
    · rw [Value.float64.inj hv]
      exact ⟨text, h1, h2⟩
  cases s with
  | nil => exact Option.noConfusion hscan
  | cons c cs =>
    obtain ⟨mant, exp, hf⟩ := ParseFloat_number c cs text rest f hscan hparse
    subst hf
    obtain ⟨hval, hsign⟩ := IsInteger_value _ mant exp n hint
    have h6 : n.natAbs < 1000000 := by omega
    have hhead : ((c :: cs).head? = some '-') ↔ (decide (c = '-') = true) := by
      simp only [List.head?_cons, Option.some.injEq, decide_eq_true_eq]
    have hpay : fmt.Sprint (coerceValue (.float64 (.finite (decide (c = '-')) mant exp))) =
        (if (c :: cs).head? = some '-' then "-" else "") ++ Nat.repr n.natAbs := by
      have hs : fmt.Sprint (coerceValue (.float64 (.finite (decide (c = '-')) mant exp))) =
          FormatShortest 53 (-1074) 971 (.finite (decide (c = '-')) mant exp) := rfl
      rw [hs, FormatShortest_integer_value _ mant exp n.natAbs hval h6]
      simp only [hhead]
    have hgen : ∀ fields : Snapshot,
        genericMessages u baseTopic
          ((key, .float64 (.finite (decide (c = '-')) mant exp)) :: fields) =
        { Topic := baseTopic ++ "/" ++ normaliseKey u key,
          Payload := (if (c :: cs).head? = some '-' then "-" else "") ++ Nat.repr n.natAbs,
          Retain := false } :: genericMessages u baseTopic fields := by
      intro fields
      rw [genericMessages_eq_map, genericMessages_eq_map]
      simp only [List.filter_cons, hkey, isNested, Bool.not_false, Bool.and_self, if_true,
        List.map_cons, List.cons.injEq, and_true]
      rw [hpay]
    refine ⟨hgen, ?_, ?_, ?_⟩
    · intro msg cache now hmem
      unfold MapMessageToMqtt
      simp only [List.mem_append]
      left; left; left; left
      rw [genericMessages_eq_map, List.mem_map]
      refine ⟨(key, .float64 (.finite (decide (c = '-')) mant exp)), ?_, ?_⟩
      · rw [List.mem_filter]
        exact ⟨hmem, by simp [hkey, isNested]⟩
      · simp only []
        rw [hpay]
    · intro hn
      rw [← sign_repr_eq_FormatInt n hn, ← hsign hn]
      simp only [hhead]
    · refine ⟨text, hscan, hparse, ?_⟩
      intro t m hread hlit hm
      obtain ⟨hspecial, hhex⟩ := number_text_decimal _ _ _ hscan
      obtain ⟨mant2, exp2, hp2, hv2⟩ :=
        ParseFloat_integer_value (String.mk text) t m hspecial hread (hhex t hread) hlit hm
      rw [hparse] at hp2
      have heq := Option.some.inj hp2
      injection heq with e1 e2 e3
      subst e2
      subst e3
      rw [hval] at hv2
      exact_mod_cast hv2

/-- C22 (witness). The number 1272 of the test snapshot, as the decoder delivers it under the
key "printJobTime", gives the payload "1272"; the literal -0 is delivered as the negative zero
and gives "-0". -/
theorem C22_integer_payload_witness :
    json.Unmarshal "\x7b\"printJobTime\":1272,\"printProgress\":58\x7d".data =
      some [("printJobTime", .float64 (F64.ofInt 1272)),
            ("printProgress", .float64 (F64.ofInt 58))] ∧
    genericMessages UnicodeCase.caseless "3dprinter/k1se"
        [("printJobTime", .float64 (F64.ofInt 1272)),
         ("printProgress", .float64 (F64.ofInt 58))] =
      { Topic := "3dprinter/k1se" ++ "/" ++ normaliseKey UnicodeCase.caseless "printJobTime",
        Payload := (if "1272,\"printProgress\":58\x7d".data.head? = some '-' then "-" else "")
          ++ Nat.repr (1272 : Int).natAbs,
        Retain := false } ::
        genericMessages UnicodeCase.caseless "3dprinter/k1se"
          [("printProgress", .float64 (F64.ofInt 58))] ∧
    (if "1272,\"printProgress\":58\x7d".data.head? = some '-' then "-" else "")
      ++ Nat.repr (1272 : Int).natAbs = "1272" ∧
    genericMessages UnicodeCase.caseless "3dprinter/k1se"
        [("a", .float64 (.finite true 0 0))] =
      { Topic := "3dprinter/k1se" ++ "/" ++ normaliseKey UnicodeCase.caseless "a",
        Payload := (if "-0\x7d".data.head? = some '-' then "-" else "")
          ++ Nat.repr (0 : Int).natAbs,
        Retain := false } :: genericMessages UnicodeCase.caseless "3dprinter/k1se" [] ∧
    (if "-0\x7d".data.head? = some '-' then "-" else "") ++ Nat.repr (0 : Int).natAbs = "-0" :=
  ⟨rfl,
   (C22_integer_payload UnicodeCase.caseless "3dprinter/k1se" "printJobTime" 3 1
      "1272,\"printProgress\":58\x7d".data ",\"printProgress\":58\x7d".data (F64.ofInt 1272)
      1272 (by decide) rfl
      (by rw [show F64.ofInt 1272 = F64.finite false (1272 * 2 ^ 42) (-42) from by decide]
          simp [F64.IsInteger])
      (by decide) (by decide)).1
      [("printProgress", .float64 (F64.ofInt 58))],
   by decide,
   (C22_integer_payload UnicodeCase.caseless "3dprinter/k1se" "a" 3 1
      "-0\x7d".data "\x7d".data (.finite true 0 0) 0 (by decide) rfl
      (by simp [F64.IsInteger]) (by decide) (by decide)).1 [],
   by decide⟩

/-- C22 (counterexample). From a million on `%v` writes a float in exponent form: the start
time 1764623088 of the test snapshot gives "1.764623088e+09", and 1000000 gives "1e+06",
neither of which is the base 10 text of the integer.  The number -0 is an integer-valued JSON
number too, the integer zero, and it gives "-0", not "0". -/
theorem C22_counterexample_exponent_form :
    json.Unmarshal "\x7b\"printStartTime\":1764623088,\"count\":1000000\x7d".data =
      some [("printStartTime", .float64 (F64.ofInt 1764623088)),
            ("count", .float64 (F64.ofInt 1000000))] ∧
    noisyKeys "printStartTime" = false ∧ noisyKeys "count" = false ∧
    (∀ u : UnicodeCase,
      (genericMessages u "3dprinter/k1se"
        [("printStartTime", .float64 (F64.ofInt 1764623088)),
         ("count", .float64 (F64.ofInt 1000000))]).map (fun m => m.Payload) =
        ["1.764623088e+09", "1e+06"]) ∧
    FormatInt 1764623088 = "1764623088" ∧ FormatInt 1000000 = "1000000" ∧
    json.Unmarshal "\x7b\"a\":-0\x7d".data = some [("a", .float64 (.finite true 0 0))] ∧
    noisyKeys "a" = false ∧ F64.IsInteger (.finite true 0 0) 0 ∧
    (∀ u : UnicodeCase,
      (genericMessages u "3dprinter/k1se"
        [("a", .float64 (.finite true 0 0))]).map (fun m => m.Payload) = ["-0"]) ∧
    FormatInt 0 = "0" := by
  refine ⟨rfl, by decide, by decide, fun u => rfl, by decide, by decide, rfl, by decide,
    by simp [F64.IsInteger], fun u => rfl, by decide⟩

/-! ## The catalog of descriptors and the cleanup messages -/

/-- Appending a common end part is injective. -/
theorem string_append_left_inj (a b c : String) : a ++ c = b ++ c ↔ a = b := by
  constructor
  · intro h
    have h2 := congrArg String.data h
    simp only [String.data_append] at h2
    exact String.ext (List.append_cancel_right h2)
  · intro h; rw [h]

/-- A discovery topic determines its component, among the four components in use, and its
entity id. -/
theorem Discovery_inj (tb : TopicBuilder) (deviceID c₁ c₂ i₁ i₂ : String)
    (h₁ : c₁ ∈ ["sensor", "binary_sensor", "switch", "camera"])
    (h₂ : c₂ ∈ ["sensor", "binary_sensor", "switch", "camera"])
    (h : tb.Discovery c₁ deviceID i₁ = tb.Discovery c₂ deviceID i₂) : c₁ = c₂ ∧ i₁ = i₂ := by
  have h2 := congrArg String.data h
  simp only [TopicBuilder.Discovery, String.data_append, List.append_assoc] at h2
  have h3 := List.append_cancel_left h2
  simp only [List.mem_cons, List.mem_singleton, List.not_mem_nil, or_false] at h₁ h₂
  rcases h₁ with rfl | rfl | rfl | rfl <;> rcases h₂ with rfl | rfl | rfl | rfl <;>
    simp at h3 <;> exact ⟨rfl, String.ext h3⟩

/-- The messages of the catalog: the thirteen fixed descriptors, then, when a printer address is
configured, the camera stream descriptor, the stream address and the video descriptor. -/
theorem catalog_topics (cfg : Config) :
    (GenerateDiscoveryMessages [] cfg).1.map (fun m => (m.Topic, m.Retain)) =
      catalogEntities.map (fun ce => (cfg.discoveryTopic ce, true)) ++
        (if cfg.PrinterIP = "" then []
         else [(cfg.discoveryTopic ("sensor", "camera_stream_url"), true),
               (cfg.BaseTopic ++ "/camera_stream_url", true),
               (cfg.discoveryTopic ("binary_sensor", "video_stream"), true)]) := by
  by_cases hip : cfg.PrinterIP = ""
  · simp only [GenerateDiscoveryMessages, BuildTemperatureSensors, BuildStatusSensor,
      BuildFanSensors, BuildProgressSensor, BuildFeedStateSensor, BuildPrintingSensor,
      BuildPartFanSensor, BuildLightSwitch, BuildCameraSensors, hip, if_true, catalogEntities,
      Config.discoveryTopic, TopicBuilder.Discovery, NewTopicBuilder, List.map, List.nil_append,
      List.cons_append, List.append_nil, String.append_assoc]
    rfl
  · simp only [GenerateDiscoveryMessages, BuildTemperatureSensors, BuildStatusSensor,
      BuildFanSensors, BuildProgressSensor, BuildFeedStateSensor, BuildPrintingSensor,
      BuildPartFanSensor, BuildLightSwitch, BuildCameraSensors, hip, if_false, catalogEntities,
      Config.discoveryTopic, TopicBuilder.Discovery, TopicBuilder.CameraStreamURL,
      NewTopicBuilder, List.map, List.nil_append,
      List.cons_append, List.append_nil, String.append_assoc]
    rfl

/-- The topic of the camera stream address does not end like a discovery topic. -/
theorem stream_topic_ne_discovery (baseTopic : String) (tb : TopicBuilder)
    (component deviceID entityID : String) :
    baseTopic ++ "/camera_stream_url" ≠ tb.Discovery component deviceID entityID := by
  intro h
  have h2 := congrArg (fun s => s.data.reverse.head?) h
  simp [TopicBuilder.Discovery, String.data_append] at h2

/-- The fifteen descriptors of the catalog have pairwise distinct topics. -/
theorem descriptor_topics_nodup (cfg : Config) :
    ((catalogEntities ++ cameraEntities).map cfg.discoveryTopic).Nodup := by
  refine List.Nodup.map_on ?_ (by decide)
  intro x hx y hy hxy
  have hall : ∀ z ∈ catalogEntities ++ cameraEntities,
      z.1 ∈ ["sensor", "binary_sensor", "switch", "camera"] := by decide
  obtain ⟨h1, h2⟩ := Discovery_inj _ _ _ _ _ _ (hall x hx) (hall y hy) hxy
  exact Prod.ext h1 h2

/-- C26. In a fresh process `GenerateDiscoveryMessages` returns, when a printer address is
configured, 16 messages: the descriptors of the four temperature sensors, the printer status,
the three fans, the print progress, the feed state, printing, the part fan, the light switch and
the camera stream address, then the camera stream address itself on base/camera_stream_url,
then the descriptor of the video activity; without a printer address it returns the first 13.
Every message is retained and the topics are pairwise distinct. -/
theorem C26_catalog (cfg : Config) :
    (cfg.PrinterIP ≠ "" →
      (GenerateDiscoveryMessages [] cfg).1.length = 16 ∧
      (GenerateDiscoveryMessages [] cfg).1.map (fun m => m.Topic) =
        [("sensor", "nozzle_temp_current"), ("sensor", "nozzle_temp_target"),
         ("sensor", "bed_temp_current"), ("sensor", "bed_temp_target"),
         ("sensor", "printer_status"),
         ("sensor", "model_fan_pct"), ("sensor", "auxiliary_fan_pct"), ("sensor", "case_fan_pct"),
         ("sensor", "print_progress"), ("sensor", "feed_state"),
         ("binary_sensor", "printing"), ("binary_sensor", "part_fan"),
         ("switch", "light")].map cfg.discoveryTopic ++
        [cfg.discoveryTopic ("sensor", "camera_stream_url"),
         cfg.BaseTopic ++ "/camera_stream_url",
         cfg.discoveryTopic ("binary_sensor", "video_stream")]) ∧
    (cfg.PrinterIP = "" →
      (GenerateDiscoveryMessages [] cfg).1.length = 13 ∧
      (GenerateDiscoveryMessages [] cfg).1.map (fun m => m.Topic) =
        [("sensor", "nozzle_temp_current"), ("sensor", "nozzle_temp_target"),
         ("sensor", "bed_temp_current"), ("sensor", "bed_temp_target"),
         ("sensor", "printer_status"),
         ("sensor", "model_fan_pct"), ("sensor", "auxiliary_fan_pct"), ("sensor", "case_fan_pct"),
         ("sensor", "print_progress"), ("sensor", "feed_state"),
         ("binary_sensor", "printing"), ("binary_sensor", "part_fan"),
         ("switch", "light")].map cfg.discoveryTopic) ∧
    (∀ m ∈ (GenerateDiscoveryMessages [] cfg).1, m.Retain = true) ∧
    ((GenerateDiscoveryMessages [] cfg).1.map (fun m => m.Topic)).Nodup ∧
    (∀ ce : String × String, cfg.discoveryTopic ce =
      cfg.DiscoveryPrefix ++ "/" ++ ce.1 ++ "/" ++ cfg.DeviceID ++ "/" ++ ce.2 ++ "/config") := by
  have hcat := catalog_topics cfg
  have htopics : (GenerateDiscoveryMessages [] cfg).1.map (fun m => m.Topic) =
      catalogEntities.map cfg.discoveryTopic ++
        (if cfg.PrinterIP = "" then []
         else [cfg.discoveryTopic ("sensor", "camera_stream_url"),
               cfg.BaseTopic ++ "/camera_stream_url",
               cfg.discoveryTopic ("binary_sensor", "video_stream")]) := by
    have := congrArg (List.map Prod.fst) hcat
    simp only [List.map_map, List.map_append] at this
    rw [show (Prod.fst ∘ fun m : MqttMessage => (m.Topic, m.Retain)) = fun m => m.Topic from rfl]
      at this
    rw [this]
    split_ifs <;> rfl
  have hlen := congrArg List.length htopics
  simp only [List.length_map, List.length_append] at hlen
  refine ⟨?_, ?_, ?_, ?_, fun ce => rfl⟩
  · intro hip
    rw [if_neg hip] at htopics hlen
    exact ⟨by simpa [catalogEntities] using hlen, htopics⟩
  · intro hip
    rw [if_pos hip] at htopics hlen
    exact ⟨by simpa [catalogEntities] using hlen, by simpa using htopics⟩
  · intro m hm
    have hmem : (m.Topic, m.Retain) ∈
        (GenerateDiscoveryMessages [] cfg).1.map (fun m => (m.Topic, m.Retain)) :=
      List.mem_map.mpr ⟨m, hm, rfl⟩
    rw [hcat] at hmem
    rcases List.mem_append.mp hmem with h | h
    · obtain ⟨ce, _, hce⟩ := List.mem_map.mp h
      exact (congrArg Prod.snd hce).symm
    · split_ifs at h
      · exact absurd h (List.not_mem_nil _)
      · simp only [List.mem_cons, List.mem_singleton, List.not_mem_nil, or_false] at h
        rcases h with h | h | h <;> exact congrArg Prod.snd h
  · rw [htopics]
    by_cases hip : cfg.PrinterIP = ""
    · rw [if_pos hip, List.append_nil]
      have := descriptor_topics_nodup cfg
      rw [List.map_append] at this
      exact (List.nodup_append.mp this).1
    · rw [if_neg hip]
      have hn := descriptor_topics_nodup cfg
      have hshape : catalogEntities.map cfg.discoveryTopic ++
          [cfg.discoveryTopic ("sensor", "camera_stream_url"),
           cfg.BaseTopic ++ "/camera_stream_url",
           cfg.discoveryTopic ("binary_sensor", "video_stream")] =
          (catalogEntities.map cfg.discoveryTopic ++
            [cfg.discoveryTopic ("sensor", "camera_stream_url")]) ++
          (cfg.BaseTopic ++ "/camera_stream_url") ::
            [cfg.discoveryTopic ("binary_sensor", "video_stream")] := by simp
      rw [hshape, List.nodup_middle, List.nodup_cons]
      refine ⟨?_, ?_⟩
      · intro hmem
        have hmem2 : cfg.BaseTopic ++ "/camera_stream_url" ∈
            (catalogEntities ++ cameraEntities).map cfg.discoveryTopic := by
          simpa [cameraEntities, List.map_append] using hmem
        obtain ⟨ce, _, hce⟩ := List.mem_map.mp hmem2
        exact stream_topic_ne_discovery _ _ _ _ _ hce.symm
      · simpa [cameraEntities, List.map_append] using hn

/-- C29. `CleanupOldEntities` returns eleven messages, each with an empty payload and
retained: the discovery topics under the component sensor of the five listed old sensor ids,
followed by the discovery topics under the component binary_sensor of the six listed old
binary sensor ids (the list of old cameras is empty). -/
theorem C29_cleanup_messages (cfg : Config) :
    CleanupOldEntities cfg ≠ [] ∧
    (CleanupOldEntities cfg).length = 11 ∧
    (∀ m ∈ CleanupOldEntities cfg, m.Payload = "" ∧ m.Retain = true) ∧
    (CleanupOldEntities cfg).map (fun m => m.Topic) =
      ["printer_online", "old_temp_sensor", "camera_stream", "camera_stream_url",
       "last_seen"].map (fun id => cfg.discoveryTopic ("sensor", id)) ++
      ["light", "online", "connected", "camera_stream", "printer_connected",
       "printer_connected_2"].map (fun id => cfg.discoveryTopic ("binary_sensor", id)) ∧
    (∀ ce : String × String, cfg.discoveryTopic ce =
      cfg.DiscoveryPrefix ++ "/" ++ ce.1 ++ "/" ++ cfg.DeviceID ++ "/" ++ ce.2 ++ "/config") ∧
    (CleanupOldEntities
        { DiscoveryPrefix := "ha", BaseTopic := "", DeviceID := "dev",
          DeviceName := "", DeviceModel := "", PrinterIP := "" }).map (fun m => m.Topic) =
      ["ha/sensor/dev/printer_online/config", "ha/sensor/dev/old_temp_sensor/config",
       "ha/sensor/dev/camera_stream/config", "ha/sensor/dev/camera_stream_url/config",
       "ha/sensor/dev/last_seen/config", "ha/binary_sensor/dev/light/config",
       "ha/binary_sensor/dev/online/config", "ha/binary_sensor/dev/connected/config",
       "ha/binary_sensor/dev/camera_stream/config",
       "ha/binary_sensor/dev/printer_connected/config",
       "ha/binary_sensor/dev/printer_connected_2/config"] := by
  refine ⟨?_, ?_, ?_, ?_, fun ce => rfl, by decide⟩
  · simp [CleanupOldEntities, oldSensors]
  · simp [CleanupOldEntities, oldSensors, oldBinarySensors, oldCameras]
  · intro m hm
    simp only [CleanupOldEntities, oldCameras, List.map_nil, List.append_nil, List.mem_append,
      List.mem_map] at hm
    rcases hm with ⟨_, _, rfl⟩ | ⟨_, _, rfl⟩ <;> exact ⟨rfl, rfl⟩
  · simp only [CleanupOldEntities, oldSensors, oldBinarySensors, oldCameras, List.map,
      List.append_nil, List.cons_append, List.nil_append, Config.discoveryTopic,
      TopicBuilder.Discovery, NewTopicBuilder, String.append_assoc]
    rfl

/-! ## CFS box descriptors in the snapshot handler -/

/-- The decimal text of a natural number determines the number. -/
theorem Nat_repr_injective (m n : Nat) (h : Nat.repr m = Nat.repr n) : m = n := by
  have hd : Nat.toDigits 10 m = Nat.toDigits 10 n := by
    have := congrArg String.data h
    simpa [Nat.repr] using this
  have hm := foldl_toDigitsCore (m + 1) m [] (by omega)
  have hn := foldl_toDigitsCore (n + 1) n [] (by omega)
  simp only [List.foldl_nil] at hm hn
  have hd2 : Nat.toDigitsCore 10 (m + 1) m [] = Nat.toDigitsCore 10 (n + 1) n [] := hd
  rw [hd2, hn] at hm
  exact (Option.some.inj hm).symm

/-- The decimal text of a natural number does not start with a minus sign. -/
theorem Nat_repr_ne_minus (a : Nat) (t : String) : Nat.repr a ≠ "-" ++ t := by
  intro h
  obtain ⟨k, tl, hk, hd⟩ := toDigitsCore_head a a []
  have hdata : (Nat.repr a).data = Nat.digitChar k :: tl := by
    simp only [Nat.repr, Nat.toDigits, hd]
    rfl
  have h2 := congrArg (fun s => s.data.head?) h
  simp only [hdata, String.data_append, List.head?_cons] at h2
  have h3 : ("-".data ++ t.data).head? = some '-' := rfl
  rw [h3] at h2
  interval_cases k <;> simp [Nat.digitChar] at h2

/-- The decimal text of an integer determines the integer. -/
theorem FormatInt_injective (m n : Int) (h : FormatInt m = FormatInt n) : m = n := by
  cases m with
  | ofNat a =>
    cases n with
    | ofNat b => exact congrArg Int.ofNat (Nat_repr_injective a b h)
    | negSucc b => exact absurd h (Nat_repr_ne_minus a _)
  | negSucc a =>
    cases n with
    | ofNat b => exact absurd h.symm (Nat_repr_ne_minus b _)
    | negSucc b =>
      simp only [FormatInt] at h
      rw [string_append_right_inj] at h
      have := Nat_repr_injective _ _ h
      have hab : a = b := by omega
      rw [hab]

/-- The descriptors of two CFS boxes with distinct ids differ. -/
theorem BuildCFSBoxSensors_injective (cfg : Config) (device : Device) (availTopic : String)
    (m n : Int)
    (h : BuildCFSBoxSensors cfg device availTopic m = BuildCFSBoxSensors cfg device availTopic n) :
    m = n := by
  have h1 := congrArg (fun l => l.head?.map (fun x => x.Topic)) h
  simp only [BuildCFSBoxSensors, List.head?_cons, Option.map_some', Option.some.injEq] at h1
  rw [string_append_left_inj, string_append_right_inj, string_append_left_inj,
    string_append_right_inj] at h1
  exact FormatInt_injective m n h1

/-- One run of the handler once the identity of the device is established: the block under
`discoveryOnce.Do` is skipped and the configuration is kept; the CFS block publishes the
descriptors of the box id that the snapshot reveals when that id is positive and has not been
published before, and records it; otherwise it publishes nothing and records nothing. -/
theorem handler_established (u : UnicodeCase) (flags : Flags) (st : HandlerState) (now : Int)
    (data : String) (cfg : Config) (honce : st.discoveryOnce = true)
    (hcfg : st.discoCfg = some cfg) :
    (handler u flags st now data).2.discoveryOnce = true ∧
    (handler u flags st now data).2.discoCfg = some cfg ∧
    (handler u flags st now data).1.discovery = [] ∧
    ((∃ id, revealedBoxID data = some id ∧ 0 < id ∧ st.publishedCFS id = false ∧
        (handler u flags st now data).1.cfs =
          BuildCFSBoxSensors cfg (deviceOf cfg) (cfg.BaseTopic ++ "/status") id ∧
        (handler u flags st now data).2.publishedCFS =
          fun k => if k = id then true else st.publishedCFS k) ∨
     ((∀ id, revealedBoxID data = some id → ¬ (0 < id ∧ st.publishedCFS id = false)) ∧
        (handler u flags st now data).1.cfs = [] ∧
        (handler u flags st now data).2.publishedCFS = st.publishedCFS)) := by
  unfold handler revealedBoxID
  cases hdec : json.Unmarshal data.data with
  | none => simp [honce, hcfg]
  | some rawMsg =>
    simp only [honce, if_true, hcfg]
    refine ⟨trivial, trivial, trivial, ?_⟩
    unfold publishCFS
    simp only
    split
    · rename_i bs hbs
      split
      · rename_i idAny hid
        by_cases hpos : boxID idAny > 0
        · by_cases hpub : st.publishedCFS (boxID idAny) = true
          · right
            simp [hpos, hpub]
          · left
            simp only [Bool.not_eq_true] at hpub
            exact ⟨boxID idAny, rfl, hpos, hpub, by simp [hpos, hpub]; rfl, by simp [hpos, hpub]⟩
        · right
          simp [hpos]
      · right
        simp
    · right
      simp

/-- In every run of the handler after the identity of the device is established, the CFS block
publishes nothing or the descriptors of a positive box id. -/
theorem runHandler_cfs_shape (u : UnicodeCase) (flags : Flags) (cfg : Config) :
    ∀ (inputs : List (Int × String)) (st : HandlerState),
      st.discoveryOnce = true → st.discoCfg = some cfg →
      ∀ o ∈ (runHandler u flags st inputs).1,
        o.discovery = [] ∧
        (o.cfs = [] ∨ ∃ k, 0 < k ∧
          o.cfs = BuildCFSBoxSensors cfg (deviceOf cfg) (cfg.BaseTopic ++ "/status") k) := by
  intro inputs
  induction inputs with
  | nil => intro st _ _ o ho; simp [runHandler] at ho
  | cons d rest ih =>
    intro st honce hcfg o ho
    obtain ⟨now, data⟩ := d
    obtain ⟨h1, h2, h3, h4⟩ := handler_established u flags st now data cfg honce hcfg
    simp only [runHandler, List.mem_cons] at ho
    rcases ho with rfl | ho
    · refine ⟨h3, ?_⟩
      rcases h4 with ⟨id, _, hpos, _, hc, _⟩ | ⟨_, hc, _⟩
      · exact Or.inr ⟨id, hpos, hc⟩
      · exact Or.inl hc
    · exact ih _ h1 h2 o ho

/-- The descriptors of a CFS box are two messages. -/
theorem BuildCFSBoxSensors_ne_nil (cfg : Config) (device : Device) (availTopic : String)
    (id : Int) : BuildCFSBoxSensors cfg device availTopic id ≠ [] := by
  simp [BuildCFSBoxSensors]

/-- The runs of the handler in which the CFS block publishes the descriptors of a positive box
id: the first run that reveals the id when it has not been published before, none otherwise;
and the set of published ids only grows. -/
theorem runHandler_cfs_flags (u : UnicodeCase) (flags : Flags) (cfg : Config) (n : Int)
    (hn : 0 < n) :
    ∀ (inputs : List (Int × String)) (st : HandlerState),
      st.discoveryOnce = true → st.discoCfg = some cfg →
      (runHandler u flags st inputs).1.map (fun o => decide (o.cfs =
          BuildCFSBoxSensors cfg (deviceOf cfg) (cfg.BaseTopic ++ "/status") n)) =
        (if st.publishedCFS n = true then inputs.map (fun _ => false)
         else firstOnly (inputs.map (fun d => decide (revealedBoxID d.2 = some n)))) ∧
      (∀ k, st.publishedCFS k = true → (runHandler u flags st inputs).2.publishedCFS k = true) := by
  intro inputs
  induction inputs with
  | nil => intro st _ _; simp [runHandler, firstOnly]
  | cons d rest ih =>
    intro st honce hcfg
    obtain ⟨now, data⟩ := d
    obtain ⟨h1, h2, _, h4⟩ := handler_established u flags st now data cfg honce hcfg
    obtain ⟨ihflags, ihmono⟩ := ih (handler u flags st now data).2 h1 h2
    simp only [runHandler, List.map_cons]
    rcases h4 with ⟨id, hrev, hpos, hpub, hc, hset⟩ | ⟨hnone, hc, hset⟩
    · refine ⟨?_, ?_⟩
      · rw [ihflags, hc, hset, hrev]
        by_cases hid : id = n
        · subst hid
          simp [hpub, firstOnly]
        · have hne : BuildCFSBoxSensors cfg (deviceOf cfg) (cfg.BaseTopic ++ "/status") id ≠
              BuildCFSBoxSensors cfg (deviceOf cfg) (cfg.BaseTopic ++ "/status") n :=
            fun h => hid (BuildCFSBoxSensors_injective _ _ _ _ _ h)
          have hne2 : n ≠ id := fun h => hid h.symm
          by_cases hp : st.publishedCFS n = true
          · simp [hne, hne2, hp]
          · simp [hne, hne2, hp, hid, firstOnly]
      · intro k hk
        apply ihmono
        rw [hset]
        simp [hk]
    · refine ⟨?_, ?_⟩
      · rw [ihflags, hc, hset]
        have hne : ([] : List MqttMessage) ≠
            BuildCFSBoxSensors cfg (deviceOf cfg) (cfg.BaseTopic ++ "/status") n :=
          fun h => BuildCFSBoxSensors_ne_nil _ _ _ _ h.symm
        by_cases hp : st.publishedCFS n = true
        · simp [hne, hp]
        · have hrev : revealedBoxID data ≠ some n := by
            intro h
            exact hnone n h ⟨hn, by simpa using hp⟩
          simp [hne, hp, hrev, firstOnly]
      · intro k hk
        apply ihmono
        rw [hset]
        exact hk

/-- C24. Once the identity of the device is established (the `sync.Once` has run and
`discoCfg` is set), for every box id n > 0 and every sequence of handler runs: the runs in which
the CFS block publishes the descriptors of n (`BuildCFSBoxSensors` for n) are, when n is not in
`publishedCFS` at the start, exactly the first run whose snapshot reveals n, and none when n is
already in `publishedCFS`; an id in `publishedCFS` stays in it.  From the state in which the
bridge starts, two consecutive snapshots with box id 3 publish the two descriptors of box 3 in
the first run and nothing in the second. -/
theorem C24_cfs_descriptors_once (u : UnicodeCase) (flags : Flags) (cfg : Config) (n : Int)
    (inputs : List (Int × String)) (st : HandlerState) (hn : 0 < n)
    (honce : st.discoveryOnce = true) (hcfg : st.discoCfg = some cfg) :
    (runHandler u flags st inputs).1.map (fun o => decide (o.cfs =
        BuildCFSBoxSensors cfg (deviceOf cfg) (cfg.BaseTopic ++ "/status") n)) =
      (if st.publishedCFS n = true then inputs.map (fun _ => false)
       else firstOnly (inputs.map (fun d => decide (revealedBoxID d.2 = some n)))) ∧
    (∀ k, st.publishedCFS k = true → (runHandler u flags st inputs).2.publishedCFS k = true) ∧
    (runHandler UnicodeCase.caseless
        { baseTopic := "printer/test", discoveryPrefix := "homeassistant", deviceName := "",
          printerIP := "" }
        HandlerState.initial
        [(1, "\x7b\"boxState\":\x7b\"id\":3,\"humidity\":28.0\x7d\x7d"),
         (2, "\x7b\"boxState\":\x7b\"id\":3,\"humidity\":28.0\x7d\x7d")]).1.map
      (fun o => o.cfs.map (fun m => m.Topic)) =
      [["homeassistant/sensor/creality_printer/cfs_3_humidity/config",
        "homeassistant/sensor/creality_printer/cfs_3_temperature/config"], []] := by
  obtain ⟨h1, h2⟩ := runHandler_cfs_flags u flags cfg n hn inputs st honce hcfg
  exact ⟨h1, h2, by decide⟩

/-- C24 (witness). With the identity established for the test configuration and no box
published, two snapshots with box id 3 around one with box id 2: only the first run publishes
the descriptors of box 3. -/
theorem C24_cfs_descriptors_once_witness :
    (runHandler UnicodeCase.caseless
        { baseTopic := "printer/test", discoveryPrefix := "homeassistant", deviceName := "",
          printerIP := "" }
        { HandlerState.initial with discoveryOnce := true, discoCfg := some testConfig }
        [(1, "\x7b\"boxState\":\x7b\"id\":3,\"humidity\":28.0\x7d\x7d"),
         (2, "\x7b\"boxState\":\x7b\"id\":2\x7d\x7d"),
         (3, "\x7b\"boxState\":\x7b\"id\":3.0\x7d\x7d")]).1.map
      (fun o => decide (o.cfs =
        BuildCFSBoxSensors testConfig (deviceOf testConfig) (testConfig.BaseTopic ++ "/status") 3))
      = [true, false, false] :=
  (C24_cfs_descriptors_once UnicodeCase.caseless
      { baseTopic := "printer/test", discoveryPrefix := "homeassistant", deviceName := "",
        printerIP := "" }
      testConfig 3
      [(1, "\x7b\"boxState\":\x7b\"id\":3,\"humidity\":28.0\x7d\x7d"),
       (2, "\x7b\"boxState\":\x7b\"id\":2\x7d\x7d"),
       (3, "\x7b\"boxState\":\x7b\"id\":3.0\x7d\x7d")]
      { HandlerState.initial with discoveryOnce := true, discoCfg := some testConfig }
      (by decide) rfl rfl).1.trans (by decide)

/-- C25 fails on the code: the CFS block of the handler publishes descriptors only for an id
above zero, whereas `BuildCFSBoxMessages` emits the state topics of every id, zero included.  On
the snapshot with a null id and humidity 28.0 the handler publishes base/cfs/0/humidity = "28"
and no descriptor, whatever its state; and once the identity is established no run of the
handler ever publishes the descriptors of box 0 or of a box with a negative id. -/
theorem C25_no_descriptors_for_box_zero :
    (∀ (u : UnicodeCase) (flags : Flags) (st : HandlerState) (now : Int),
      (handler u flags st now
          "\x7b\"boxState\":\x7b\"id\":null,\"humidity\":28.0\x7d\x7d").1.cfs = [] ∧
      { Topic := flags.baseTopic ++ "/cfs/0/humidity", Payload := "28", Retain := false } ∈
        (handler u flags st now
          "\x7b\"boxState\":\x7b\"id\":null,\"humidity\":28.0\x7d\x7d").1.mapped) ∧
    (∀ (u : UnicodeCase) (flags : Flags) (cfg : Config) (inputs : List (Int × String))
        (st : HandlerState), st.discoveryOnce = true → st.discoCfg = some cfg →
      ∀ o ∈ (runHandler u flags st inputs).1, ∀ k : Int, k ≤ 0 →
        o.cfs ≠ BuildCFSBoxSensors cfg (deviceOf cfg) (cfg.BaseTopic ++ "/status") k) ∧
    revealedBoxID "\x7b\"boxState\":\x7b\"id\":null,\"humidity\":28.0\x7d\x7d" = some 0 ∧
    revealedBoxID "\x7b\"boxState\":\x7b\"id\":0,\"humidity\":0.0\x7d\x7d" = some 0 := by
  refine ⟨?_, ?_, by decide, by decide⟩
  · intro u flags st now
    have hdec : json.Unmarshal
        "\x7b\"boxState\":\x7b\"id\":null,\"humidity\":28.0\x7d\x7d".data =
        some [("boxState", .object [("id", .null), ("humidity", .float64 (F64.ofInt 28))])] := by
      rfl
    refine ⟨?_, ?_⟩
    · unfold handler
      rw [hdec]
      simp only
      unfold publishCFS
      split
      · rfl
      · rfl
    · unfold handler DecodeAndMap
      rw [hdec]
      simp only [Option.getD_some, MapMessageToMqtt]
      refine List.mem_append_right _ ?_
      have htopic : flags.baseTopic ++ "/cfs/0/humidity" =
          flags.baseTopic ++ "/cfs/" ++ FormatInt 0 ++ "/humidity" := by
        simp only [String.append_assoc]; rfl
      rw [htopic]
      exact List.mem_singleton.mpr rfl
  · intro u flags cfg inputs st honce hcfg o ho k hk heq
    rcases (runHandler_cfs_shape u flags cfg inputs st honce hcfg o ho).2 with h | ⟨j, hj, h⟩
    · rw [h] at heq
      exact BuildCFSBoxSensors_ne_nil _ _ _ _ heq.symm
    · rw [h] at heq
      have := BuildCFSBoxSensors_injective _ _ _ _ _ heq
      omega

/-! ## The payload of a descriptor -/

/-- The availability topic is never the empty string, so its `omitempty` field is written. -/
theorem omitempty_availability (baseTopic : String) :
    json.omitempty "availability_topic" (baseTopic ++ "/status") =
      json.field "availability_topic" (json.string (baseTopic ++ "/status")) := by
  have hne : baseTopic ++ "/status" ≠ "" := by
    intro h
    have := congrArg String.length h
    simp only [String.length_append] at this
    have h2 : "/status".length = 7 := by decide
    have h3 : "".length = 0 := by decide
    omega
  simp [json.omitempty, json.field, hne]

/-- A marshalled `SensorConfig` with the common fields of the catalog is a descriptor. -/
theorem SensorConfig_isDescriptor (cfg : Config) (ce : String × String) (sc : SensorConfig)
    (topic : String) (retain : Bool) (ht : topic = cfg.discoveryTopic ce)
    (hu : sc.UniqueID = cfg.DeviceID ++ "_" ++ ce.2)
    (ha : sc.AvailabilityTopic = cfg.BaseTopic ++ "/status")
    (hon : sc.PayloadAvailable = "online") (hoff : sc.PayloadNotAvail = "offline")
    (hd : sc.Device = deviceOf cfg) :
    IsDescriptor cfg ce { Topic := topic, Payload := sc.marshal, Retain := retain } := by
  refine ⟨ht, sc.Name, sc.StateTopic, _, rfl, ?_, ?_, ?_, ?_, ?_⟩
  · simp [hu]
  · simp [ha, omitempty_availability]
  · simp [hon, json.omitempty, json.field]
  · simp [hoff, json.omitempty, json.field]
  · simp [hd, deviceOf, Device.marshal]

/-- A marshalled `BinarySensorConfig` with the common fields of the catalog is a descriptor. -/
theorem BinarySensorConfig_isDescriptor (cfg : Config) (ce : String × String)
    (sc : BinarySensorConfig)
    (topic : String) (retain : Bool) (ht : topic = cfg.discoveryTopic ce)
    (hu : sc.UniqueID = cfg.DeviceID ++ "_" ++ ce.2)
    (ha : sc.AvailabilityTopic = cfg.BaseTopic ++ "/status")
    (hon : sc.PayloadAvailable = "online") (hoff : sc.PayloadNotAvail = "offline")
    (hd : sc.Device = deviceOf cfg) :
    IsDescriptor cfg ce { Topic := topic, Payload := sc.marshal, Retain := retain } := by
  refine ⟨ht, sc.Name, sc.StateTopic, _, rfl, ?_, ?_, ?_, ?_, ?_⟩
  · simp [hu]
  · simp [ha, omitempty_availability]
  · simp [hon, json.omitempty, json.field]
  · simp [hoff, json.omitempty, json.field]
  · simp [hd, deviceOf, Device.marshal]

/-- A marshalled `SwitchConfig` with the common fields of the catalog is a descriptor. -/
theorem SwitchConfig_isDescriptor (cfg : Config) (ce : String × String) (sc : SwitchConfig)
    (topic : String) (retain : Bool) (ht : topic = cfg.discoveryTopic ce)
    (hu : sc.UniqueID = cfg.DeviceID ++ "_" ++ ce.2)
    (ha : sc.AvailabilityTopic = cfg.BaseTopic ++ "/status")
    (hon : sc.PayloadAvailable = "online") (hoff : sc.PayloadNotAvail = "offline")
    (hd : sc.Device = deviceOf cfg) :
    IsDescriptor cfg ce { Topic := topic, Payload := sc.marshal, Retain := retain } := by
  refine ⟨ht, sc.Name, sc.StateTopic, _, rfl, ?_, ?_, ?_, ?_, ?_⟩
  · simp [hu]
  · simp [ha]
  · simp [hon]
  · simp [hoff]
  · simp [hd, deviceOf, Device.marshal]

/-- The discovery topic written with the component inside a literal. -/
theorem discoveryTopic_sensor (cfg : Config) (id : String) :
    cfg.DiscoveryPrefix ++ "/sensor/" ++ cfg.DeviceID ++ "/" ++ id ++ "/config" =
      cfg.discoveryTopic ("sensor", id) := by
  simp only [Config.discoveryTopic, TopicBuilder.Discovery, NewTopicBuilder, String.append_assoc]
  rfl

/-- The discovery topic of a sensor written with the entity id inside a literal. -/
theorem discoveryTopic_sensor_lit (cfg : Config) (id tail : String)
    (h : tail = "/" ++ id ++ "/config") :
    cfg.DiscoveryPrefix ++ "/sensor/" ++ cfg.DeviceID ++ tail =
      cfg.discoveryTopic ("sensor", id) := by
  subst h
  simp only [Config.discoveryTopic, TopicBuilder.Discovery, NewTopicBuilder, String.append_assoc]
  rfl

/-- The discovery topic of a binary sensor written with the entity id inside a literal. -/
theorem discoveryTopic_binary_lit (cfg : Config) (id tail : String)
    (h : tail = "/" ++ id ++ "/config") :
    cfg.DiscoveryPrefix ++ "/binary_sensor/" ++ cfg.DeviceID ++ tail =
      cfg.discoveryTopic ("binary_sensor", id) := by
  subst h
  simp only [Config.discoveryTopic, TopicBuilder.Discovery, NewTopicBuilder, String.append_assoc]
  rfl

/-- The unique id written with the entity id inside a literal. -/
theorem uniqueID_lit (deviceID id tail : String) (h : tail = "_" ++ id) :
    deviceID ++ tail = deviceID ++ "_" ++ id := by
  subst h
  simp only [String.append_assoc]

/-- Every message of the catalog is the camera stream address or a descriptor of one of the
fifteen entities. -/
theorem catalog_descriptors (cfg : Config) :
    ∀ m ∈ (GenerateDiscoveryMessages [] cfg).1,
      (cfg.PrinterIP ≠ "" ∧ m.Topic = cfg.BaseTopic ++ "/camera_stream_url" ∧
        m.Payload = "http://" ++ cfg.PrinterIP ++ ":8080/?action=stream") ∨
      ∃ ce ∈ catalogEntities ++ cameraEntities, IsDescriptor cfg ce m := by
  intro m hm
  have hdev : Device.mk [cfg.DeviceID] cfg.DeviceName "Creality" cfg.DeviceModel =
      deviceOf cfg := rfl
  simp only [GenerateDiscoveryMessages, List.nil_append, List.mem_append, hdev,
    NewTopicBuilder, TopicBuilder.Availability] at hm
  rcases hm with (((((((hm | hm) | hm) | hm) | hm) | hm) | hm) | hm) | hm
  · simp only [BuildTemperatureSensors, List.map, List.mem_cons, List.mem_singleton,
      List.not_mem_nil, or_false] at hm
    right
    rcases hm with rfl | rfl | rfl | rfl
    · exact ⟨("sensor", "nozzle_temp_current"), by decide,
        SensorConfig_isDescriptor cfg _ _ _ _ (discoveryTopic_sensor cfg _) rfl rfl rfl rfl rfl⟩
    · exact ⟨("sensor", "nozzle_temp_target"), by decide,
        SensorConfig_isDescriptor cfg _ _ _ _ (discoveryTopic_sensor cfg _) rfl rfl rfl rfl rfl⟩
    · exact ⟨("sensor", "bed_temp_current"), by decide,
        SensorConfig_isDescriptor cfg _ _ _ _ (discoveryTopic_sensor cfg _) rfl rfl rfl rfl rfl⟩
    · exact ⟨("sensor", "bed_temp_target"), by decide,
        SensorConfig_isDescriptor cfg _ _ _ _ (discoveryTopic_sensor cfg _) rfl rfl rfl rfl rfl⟩
  · simp only [BuildStatusSensor, List.mem_singleton] at hm
    subst hm
    exact Or.inr ⟨("sensor", "printer_status"), by decide,
      SensorConfig_isDescriptor cfg _ _ _ _ (discoveryTopic_sensor_lit cfg _ _ rfl)
        (uniqueID_lit _ _ _ rfl) rfl rfl rfl rfl⟩
  · simp only [BuildFanSensors, List.map, List.mem_cons, List.mem_singleton,
      List.not_mem_nil, or_false] at hm
    right
    rcases hm with rfl | rfl | rfl
    · exact ⟨("sensor", "model_fan_pct"), by decide,
        SensorConfig_isDescriptor cfg _ _ _ _ (discoveryTopic_sensor cfg _) rfl rfl rfl rfl rfl⟩
    · exact ⟨("sensor", "auxiliary_fan_pct"), by decide,
        SensorConfig_isDescriptor cfg _ _ _ _ (discoveryTopic_sensor cfg _) rfl rfl rfl rfl rfl⟩
    · exact ⟨("sensor", "case_fan_pct"), by decide,
        SensorConfig_isDescriptor cfg _ _ _ _ (discoveryTopic_sensor cfg _) rfl rfl rfl rfl rfl⟩
  · simp only [BuildProgressSensor, List.mem_singleton] at hm
    subst hm
    exact Or.inr ⟨("sensor", "print_progress"), by decide,
      SensorConfig_isDescriptor cfg _ _ _ _ (discoveryTopic_sensor_lit cfg _ _ rfl)
        (uniqueID_lit _ _ _ rfl) rfl rfl rfl rfl⟩
  · simp only [BuildFeedStateSensor, List.mem_singleton] at hm
    subst hm
    exact Or.inr ⟨("sensor", "feed_state"), by decide,
      SensorConfig_isDescriptor cfg _ _ _ _ (discoveryTopic_sensor_lit cfg _ _ rfl)
        (uniqueID_lit _ _ _ rfl) rfl rfl rfl rfl⟩
  · simp only [BuildPrintingSensor, List.mem_singleton] at hm
    subst hm
    exact Or.inr ⟨("binary_sensor", "printing"), by decide,
      BinarySensorConfig_isDescriptor cfg _ _ _ _ (discoveryTopic_binary_lit cfg _ _ rfl)
        (uniqueID_lit _ _ _ rfl) rfl rfl rfl rfl⟩
  · simp only [BuildPartFanSensor, List.mem_singleton] at hm
    subst hm
    exact Or.inr ⟨("binary_sensor", "part_fan"), by decide,
      BinarySensorConfig_isDescriptor cfg _ _ _ _ (discoveryTopic_binary_lit cfg _ _ rfl)
        (uniqueID_lit _ _ _ rfl) rfl rfl rfl rfl⟩
  · simp only [BuildLightSwitch, List.mem_singleton] at hm
    subst hm
    exact Or.inr ⟨("switch", "light"), by decide,
      SwitchConfig_isDescriptor cfg _ _ _ _ rfl (uniqueID_lit _ _ _ rfl) rfl rfl rfl rfl⟩
  · unfold BuildCameraSensors at hm
    split_ifs at hm with hip
    · exact absurd hm (List.not_mem_nil _)
    · simp only [List.mem_cons, List.mem_singleton, List.not_mem_nil, or_false] at hm
      rcases hm with rfl | rfl | rfl
      · exact Or.inr ⟨("sensor", "camera_stream_url"), by decide,
          SensorConfig_isDescriptor cfg _ _ _ _ rfl (uniqueID_lit _ _ _ rfl) rfl rfl rfl rfl⟩
      · exact Or.inl ⟨hip, rfl, rfl⟩
      · exact Or.inr ⟨("binary_sensor", "video_stream"), by decide,
          BinarySensorConfig_isDescriptor cfg _ _ _ _ (discoveryTopic_binary_lit cfg _ _ rfl)
            (uniqueID_lit _ _ _ rfl) rfl rfl rfl rfl⟩

/-- C27 (as amended). In a fresh process every message of `GenerateDiscoveryMessages` other
than the camera stream address on base/camera_stream_url is the descriptor of one of the fifteen
entities of the catalog: it is on the discovery topic prefix/component/deviceId/entityId/config,
and its payload is a JSON object that starts with name, unique_id = deviceId + "_" + entityId
and state_topic, has availability_topic = base/status, payload_available = "online" and
payload_not_available = "offline", and ends with the device block, whose fields are named
identifiers, name, mf and mdl.  In particular every message on a discovery topic is such a
descriptor. -/
theorem C27_descriptor_payloads (cfg : Config) :
    (∀ m ∈ (GenerateDiscoveryMessages [] cfg).1,
      (cfg.PrinterIP ≠ "" ∧ m.Topic = cfg.BaseTopic ++ "/camera_stream_url" ∧
        m.Payload = "http://" ++ cfg.PrinterIP ++ ":8080/?action=stream") ∨
      ∃ ce ∈ catalogEntities ++ cameraEntities, IsDescriptor cfg ce m) ∧
    (∀ m ∈ (GenerateDiscoveryMessages [] cfg).1,
      (∃ component entityID, m.Topic = cfg.discoveryTopic (component, entityID)) →
        ∃ ce ∈ catalogEntities ++ cameraEntities, IsDescriptor cfg ce m) ∧
    (∀ ce ∈ catalogEntities ++ cameraEntities,
      cfg.PrinterIP ≠ "" ∨ ce ∈ catalogEntities →
        ∃ m ∈ (GenerateDiscoveryMessages [] cfg).1, m.Topic = cfg.discoveryTopic ce) := by
  refine ⟨catalog_descriptors cfg, ?_, ?_⟩
  · intro m hm ⟨component, entityID, ht⟩
    rcases catalog_descriptors cfg m hm with ⟨_, h, _⟩ | h
    · rw [h] at ht
      exact absurd ht (stream_topic_ne_discovery _ _ _ _ _)
    · exact h
  · intro ce hce hcase
    have hmem : cfg.discoveryTopic ce ∈
        (GenerateDiscoveryMessages [] cfg).1.map (fun m => m.Topic) := by
      have hcat := congrArg (List.map Prod.fst) (catalog_topics cfg)
      simp only [List.map_map, List.map_append] at hcat
      rw [show (Prod.fst ∘ fun m : MqttMessage => (m.Topic, m.Retain)) = fun m => m.Topic
        from rfl] at hcat
      rw [hcat]
      rcases List.mem_append.mp hce with h | h
      · exact List.mem_append_left _ (List.mem_map.mpr ⟨ce, h, rfl⟩)
      · rcases hcase with hip | hc
        · refine List.mem_append_right _ ?_
          rw [if_neg hip]
          simp only [cameraEntities, List.mem_cons, List.mem_singleton, List.not_mem_nil,
            or_false] at h
          rcases h with rfl | rfl <;> simp
        · exact List.mem_append_left _ (List.mem_map.mpr ⟨ce, hc, rfl⟩)
    obtain ⟨m, hm, ht⟩ := List.mem_map.mp hmem
    exact ⟨m, hm, ht⟩

set_option maxRecDepth 100000 in
/-- C27 (counterexample). For the configuration of `TestGenerateDiscoveryMessages` the
descriptor of the printer status is the text below: its device block has the fields
identifiers, name, mf and mdl, and none named manufacturer or model. -/
theorem C27_counterexample_device_block :
    ((GenerateDiscoveryMessages [] testConfig).1.map (fun m => (m.Topic, m.Payload))).get? 4 =
      some ("homeassistant/sensor/dev1/printer_status/config",
        "\x7b\"name\":\"Printer Status\",\"unique_id\":\"dev1_printer_status\",\"state_topic\":\"printer/test/printer_status\",\"availability_topic\":\"printer/test/status\",\"payload_available\":\"online\",\"payload_not_available\":\"offline\",\"icon\":\"mdi:printer-3d\",\"device\":\x7b\"identifiers\":[\"dev1\"],\"name\":\"Test Printer\",\"mf\":\"Creality\",\"mdl\":\"K1 SE\"\x7d\x7d") ∧
    (deviceOf testConfig).marshal =
      "\x7b\"identifiers\":[\"dev1\"],\"name\":\"Test Printer\",\"mf\":\"Creality\",\"mdl\":\"K1 SE\"\x7d" := by
  decide

/-! ## What the cleanup removes -/

/-- The topics of `CleanupOldEntities` are discovery topics of old sensors and old binary
sensors. -/
theorem cleanup_topics (cfg : Config) :
    (CleanupOldEntities cfg).map (fun m => m.Topic) =
      (oldSensors.map (fun id => ("sensor", id)) ++
        oldBinarySensors.map (fun id => ("binary_sensor", id))).map cfg.discoveryTopic := by
  simp only [CleanupOldEntities, oldSensors, oldBinarySensors, oldCameras, List.map,
    List.append_nil, List.cons_append, List.nil_append, Config.discoveryTopic,
    TopicBuilder.Discovery, NewTopicBuilder, String.append_assoc]
  rfl

/-- The topics of the catalog, without the retain flags. -/
theorem catalog_topic_list (cfg : Config) :
    (GenerateDiscoveryMessages [] cfg).1.map (fun m => m.Topic) =
      catalogEntities.map cfg.discoveryTopic ++
        (if cfg.PrinterIP = "" then []
         else [cfg.discoveryTopic ("sensor", "camera_stream_url"),
               cfg.BaseTopic ++ "/camera_stream_url",
               cfg.discoveryTopic ("binary_sensor", "video_stream")]) := by
  have := congrArg (List.map Prod.fst) (catalog_topics cfg)
  simp only [List.map_map, List.map_append] at this
  rw [show (Prod.fst ∘ fun m : MqttMessage => (m.Topic, m.Retain)) = fun m => m.Topic from rfl]
    at this
  rw [this]
  split_ifs <;> rfl

/-- C28 fails on the code: the list of old sensors holds camera_stream_url, which is the entity
id of the camera stream descriptor of the current catalog.  With a printer address configured,
the topic prefix/sensor/deviceId/camera_stream_url/config is a topic of `CleanupOldEntities` and
the topic of a descriptor of `GenerateDiscoveryMessages`; it is the only topic the two lists
share, and without a printer address they share none. -/
theorem C28_cleanup_removes_current_descriptor :
    (∀ cfg : Config, cfg.PrinterIP ≠ "" →
      cfg.discoveryTopic ("sensor", "camera_stream_url") ∈
        (CleanupOldEntities cfg).map (fun m => m.Topic) ∧
      cfg.discoveryTopic ("sensor", "camera_stream_url") ∈
        (GenerateDiscoveryMessages [] cfg).1.map (fun m => m.Topic)) ∧
    (∀ (cfg : Config) (t : String),
      t ∈ (CleanupOldEntities cfg).map (fun m => m.Topic) →
      t ∈ (GenerateDiscoveryMessages [] cfg).1.map (fun m => m.Topic) →
        cfg.PrinterIP ≠ "" ∧ t = cfg.discoveryTopic ("sensor", "camera_stream_url")) ∧
    "homeassistant/sensor/dev1/camera_stream_url/config" ∈
      (CleanupOldEntities testConfig).map (fun m => m.Topic) ∧
    "homeassistant/sensor/dev1/camera_stream_url/config" ∈
      (GenerateDiscoveryMessages [] testConfig).1.map (fun m => m.Topic) := by
  refine ⟨?_, ?_, by decide, by decide⟩
  · intro cfg hip
    rw [cleanup_topics, catalog_topic_list, if_neg hip]
    refine ⟨List.mem_map.mpr ⟨("sensor", "camera_stream_url"), by decide, rfl⟩, ?_⟩
    exact List.mem_append_right _ (List.mem_cons_self _ _)
  · intro cfg t h1 h2
    rw [cleanup_topics] at h1
    rw [catalog_topic_list] at h2
    obtain ⟨x, hx, rfl⟩ := List.mem_map.mp h1
    have hallx : ∀ z ∈ oldSensors.map (fun id => ("sensor", id)) ++
        oldBinarySensors.map (fun id => ("binary_sensor", id)),
        z.1 ∈ ["sensor", "binary_sensor", "switch", "camera"] := by decide
    have hally : ∀ z ∈ catalogEntities ++ cameraEntities,
        z.1 ∈ ["sensor", "binary_sensor", "switch", "camera"] := by decide
    have hdisj : ∀ z ∈ oldSensors.map (fun id => ("sensor", id)) ++
        oldBinarySensors.map (fun id => ("binary_sensor", id)),
        z ∈ catalogEntities ++ cameraEntities → z = ("sensor", "camera_stream_url") := by
      decide
    have hcat : ∀ z ∈ oldSensors.map (fun id => ("sensor", id)) ++
        oldBinarySensors.map (fun id => ("binary_sensor", id)), z ∉ catalogEntities := by
      decide
    have key : ∀ y ∈ catalogEntities ++ cameraEntities,
        cfg.discoveryTopic x = cfg.discoveryTopic y → x = y := by
      intro y hy hxy
      obtain ⟨e1, e2⟩ := Discovery_inj _ _ _ _ _ _ (hallx x hx) (hally y hy) hxy
      exact Prod.ext e1 e2
    rcases List.mem_append.mp h2 with h | h
    · obtain ⟨y, hy, hxy⟩ := List.mem_map.mp h
      have := key y (List.mem_append_left _ hy) hxy.symm
      exact absurd (this ▸ hy) (hcat x hx)
    · split_ifs at h with hip
      · exact absurd h (List.not_mem_nil _)
      · refine ⟨hip, ?_⟩
        simp only [List.mem_cons, List.mem_singleton, List.not_mem_nil, or_false] at h
        rcases h with h | h | h
        · exact h
        · exact absurd h.symm (stream_topic_ne_discovery _ _ _ _ _)
        · have := key ("binary_sensor", "video_stream") (by decide) h
          have h3 := hdisj x hx (this ▸ (by decide))
          rw [h3]

/-- The topics of the cleanup command: the discovery topic of every component and every listed
entity id. -/
theorem cleanupCmd_topics (discoveryPrefix deviceID : String) (msgs : List MqttMessage)
    (h : cleanupCmd discoveryPrefix deviceID = some msgs) (t : String) :
    t ∈ msgs.map (fun m => m.Topic) ↔
      ∃ c ∈ components, ∃ i ∈ entityIDs,
        t = (NewTopicBuilder "" discoveryPrefix).Discovery c deviceID i := by
  unfold cleanupCmd at h
  split_ifs at h
  simp only [Option.some.injEq] at h
  subst h
  simp only [List.mem_map, List.mem_flatten]
  constructor
  · rintro ⟨m, ⟨l, ⟨c, hc, rfl⟩, hm⟩, rfl⟩
    obtain ⟨i, hi, rfl⟩ := List.mem_map.mp hm
    exact ⟨c, hc, i, hi, rfl⟩
  · rintro ⟨c, hc, i, hi, rfl⟩
    exact ⟨_, ⟨_, ⟨c, hc, rfl⟩, List.mem_map.mpr ⟨i, hi, rfl⟩⟩, rfl⟩

/-- C30 fails on the code: the cleanup command publishes an empty retained payload on the topic
of every descriptor of the catalog, but on no topic of `BuildCFSBoxSensors`: for every prefix,
device id and box id, the topics prefix/sensor/deviceId/cfs_N_humidity/config and
prefix/sensor/deviceId/cfs_N_temperature/config are not among its topics, because the list
`entityIDs` has no entry for the CFS boxes. -/
theorem C30_cleanup_command_misses_cfs :
    (∀ (cfg : Config) (msgs : List MqttMessage),
      cleanupCmd cfg.DiscoveryPrefix cfg.DeviceID = some msgs →
      (∀ m ∈ msgs, m.Payload = "" ∧ m.Retain = true) ∧
      (∀ ce ∈ catalogEntities ++ cameraEntities,
        cfg.discoveryTopic ce ∈ msgs.map (fun m => m.Topic)) ∧
      (∀ (device : Device) (availTopic : String) (id : Int),
        ∀ d ∈ BuildCFSBoxSensors cfg device availTopic id,
          d.Topic ∉ msgs.map (fun m => m.Topic))) ∧
    (∀ cfg : Config, cfg.DeviceID ≠ "" →
      ∃ msgs, cleanupCmd cfg.DiscoveryPrefix cfg.DeviceID = some msgs) ∧
    ((cleanupCmd "homeassistant" "dev1").map
      (fun msgs => decide ("homeassistant/sensor/dev1/cfs_1_humidity/config" ∈
        msgs.map (fun m => m.Topic)))) = some false ∧
    (BuildCFSBoxSensors testConfig (deviceOf testConfig) "printer/test/status" 1).map
      (fun m => m.Topic) =
      ["homeassistant/sensor/dev1/cfs_1_humidity/config",
       "homeassistant/sensor/dev1/cfs_1_temperature/config"] := by
  refine ⟨?_, ?_, by decide, by decide⟩
  · intro cfg msgs h
    refine ⟨?_, ?_, ?_⟩
    · intro m hm
      unfold cleanupCmd at h
      split_ifs at h
      simp only [Option.some.injEq] at h
      subst h
      simp only [List.mem_flatten, List.mem_map] at hm
      obtain ⟨l, ⟨c, _, rfl⟩, hm⟩ := hm
      obtain ⟨i, _, rfl⟩ := List.mem_map.mp hm
      exact ⟨rfl, rfl⟩
    · intro ce hce
      rw [cleanupCmd_topics _ _ _ h]
      have hall : ∀ z ∈ catalogEntities ++ cameraEntities,
          z.1 ∈ components ∧ z.2 ∈ entityIDs := by decide
      exact ⟨ce.1, (hall ce hce).1, ce.2, (hall ce hce).2, rfl⟩
    · intro device availTopic id d hd hmem
      rw [cleanupCmd_topics _ _ _ h] at hmem
      obtain ⟨c, hc, i, hi, heq⟩ := hmem
      have hnone : ∀ z ∈ entityIDs, z.data.take 4 ≠ ['c', 'f', 's', '_'] := by decide
      simp only [BuildCFSBoxSensors, List.mem_cons, List.mem_singleton, List.not_mem_nil,
        or_false] at hd
      have hform : ∃ kind : String, d.Topic =
          (NewTopicBuilder "" cfg.DiscoveryPrefix).Discovery "sensor" cfg.DeviceID
            ("cfs_" ++ FormatInt id ++ kind) := by
        rcases hd with rfl | rfl
        · exact ⟨"_humidity", by
            simp only [TopicBuilder.Discovery, NewTopicBuilder, String.append_assoc]; rfl⟩
        · exact ⟨"_temperature", by
            simp only [TopicBuilder.Discovery, NewTopicBuilder, String.append_assoc]; rfl⟩
      obtain ⟨kind, hk⟩ := hform
      rw [hk] at heq
      obtain ⟨_, e2⟩ := Discovery_inj _ _ _ _ _ _ (by decide) hc heq
      have := hnone i hi
      rw [← e2] at this
      simp [String.data_append] at this
  · intro cfg hne
    exact ⟨_, by unfold cleanupCmd; rw [if_neg hne]⟩

/-! ## The connection loop and the light command -/

section

open wsclient

/-- The loop of `Run` returns only when the context is done, with its error. -/
theorem retryLoop_returned (later : List Attempt) :
    ∀ (o : Outcome) (e : Error), (retryLoop later o).returned = some e →
      o.returned = some e ∨ ∃ ce, e = .context ce := by
  induction later with
  | nil => intro o e h; exact Or.inl h
  | cons a rest ih =>
    intro o e h
    unfold retryLoop at h
    split at h
    · rcases ih _ e h with h1 | h1
      · exact Or.inl h1
      · exact Or.inr h1
    · split at h
      · rcases ih _ e h with h1 | h1
        · exact Or.inl h1
        · exact Or.inr h1
      · rename_i ce _
        right
        exact ⟨ce, (Option.some.inj h).symm⟩

/-- The loop of `Run` only adds to the calls of `runOnce` already made. -/
theorem retryLoop_calls (later : List Attempt) :
    ∀ o : Outcome, o.calls ≤ (retryLoop later o).calls := by
  induction later with
  | nil => intro o; exact le_refl _
  | cons a rest ih =>
    intro o
    unfold retryLoop
    split
    · have := ih { o with calls := o.calls + 1 }
      exact le_trans (Nat.le_succ _) this
    · split
      · have := ih { o with calls := o.calls + 1, delays := o.delays + 1,
                            warnings := o.warnings ++ ["WebSocket connection lost"] }
        exact le_trans (Nat.le_succ _) this
      · exact Nat.le_succ _

/-- C31 fails on the code: a first call of `runOnce` that fails with an error other than the
two context errors does not make `Run` return.  `Run` logs "Initial WebSocket connection
failed, retrying" and enters the same loop as after a successful first connection; its next
call of `runOnce` comes without any delay; and whatever it meets, `Run` never returns an error
that is not a context error.  With a refused first dial, a refused second dial, one retry
delay and then a cancellation during the third wait, `Run` calls `runOnce` three times and
returns `context.Canceled`. -/
theorem C31_initial_failure_is_retried :
    (∀ (text : String) (later : List Attempt),
      Client.Run (some (.other text)) later =
        retryLoop later
          { calls := 1, delays := 0,
            warnings := ["Initial WebSocket connection failed, retrying"], returned := none }) ∧
    (∀ (text : String) (later : List Attempt),
      (Client.Run (some (.other text)) later).returned ≠ some (.other text)) ∧
    (∀ (text : String) (a : Attempt) (later : List Attempt),
      2 ≤ (Client.Run (some (.other text)) (a :: later)).calls) ∧
    (∀ (first : Option Error) (later : List Attempt) (e : Error),
      (Client.Run first later).returned = some e → ∃ ce, e = .context ce) ∧
    (∀ ce : ContextError, ∀ later : List Attempt,
      Client.Run (some (.context ce)) later =
        { calls := 1, delays := 0, warnings := [], returned := some (.context ce) }) ∧
    Client.Run (some (.other "dial tcp 192.168.1.10:9999: connect: connection refused"))
        [{ result := none, ctxDone := none }] =
      { calls := 2, delays := 0,
        warnings := ["Initial WebSocket connection failed, retrying"], returned := none } ∧
    Client.Run (some (.other "dial tcp 192.168.1.10:9999: connect: connection refused"))
        [{ result := some (.other "dial tcp 192.168.1.10:9999: connect: connection refused"),
           ctxDone := none },
         { result := some (.other "dial tcp 192.168.1.10:9999: connect: connection refused"),
           ctxDone := some .Canceled }] =
      { calls := 3, delays := 1,
        warnings := ["Initial WebSocket connection failed, retrying",
          "WebSocket connection lost", "WebSocket connection lost"],
        returned := some (.context .Canceled) } := by
  have hrun : ∀ (text : String) (later : List Attempt),
      Client.Run (some (.other text)) later =
        retryLoop later
          { calls := 1, delays := 0,
            warnings := ["Initial WebSocket connection failed, retrying"],
            returned := none } := by
    intro text later
    unfold Client.Run
    simp
  refine ⟨hrun, ?_, ?_, ?_, ?_, by decide, by decide⟩
  · intro text later h
    rw [hrun] at h
    rcases retryLoop_returned later _ _ h with h1 | ⟨ce, h1⟩
    · simp at h1
    · simp at h1
  · intro text a later
    rw [hrun]
    unfold retryLoop
    split
    · exact retryLoop_calls later
        { calls := 2, delays := 0,
          warnings := ["Initial WebSocket connection failed, retrying"], returned := none }
    · split
      · exact retryLoop_calls later
          { calls := 2, delays := 1,
            warnings := ["Initial WebSocket connection failed, retrying",
              "WebSocket connection lost"], returned := none }
      · exact le_refl _
  · intro first later e h
    unfold Client.Run at h
    split at h
    · split_ifs at h with hc
      · simp only [Option.some.injEq] at h
        subst h
        rcases hc with hc | hc
        · exact ⟨_, hc⟩
        · exact ⟨_, hc⟩
      · rcases retryLoop_returned later _ _ h with h1 | h1
        · simp at h1
        · exact h1
    · rcases retryLoop_returned later _ _ h with h1 | h1
      · simp at h1
      · exact h1
  · intro ce later
    unfold Client.Run
    cases ce <;> simp

/-- C38. The light command closure calls `ws.SendMessage` exactly when the payload is "ON",
"1", "OFF" or "0", with the text that sets lightSw to 1 for "ON" and "1" and to 0 for "OFF" and
"0"; for every other payload it makes no call.  On a session with a connection the text of the
call is the one message written on it, and without a connection nothing is written.  The
payloads "1" and "0" that the descriptor of the light switch declares (`payload_on`,
`payload_off`) are accepted; "on" and "off" in lower case are not. -/
theorem C38_light_command (payload : String) :
    ((∃ wsCmd, lightCommand payload = some wsCmd) ↔
      (payload = "ON" ∨ payload = "1" ∨ payload = "OFF" ∨ payload = "0")) ∧
    (payload = "ON" ∨ payload = "1" →
      lightCommand payload =
        some "\x7b\"method\":\"set\",\"params\":\x7b\"lightSw\":1\x7d\x7d") ∧
    (payload = "OFF" ∨ payload = "0" →
      lightCommand payload =
        some "\x7b\"method\":\"set\",\"params\":\x7b\"lightSw\":0\x7d\x7d") ∧
    (¬ (payload = "ON" ∨ payload = "1" ∨ payload = "OFF" ∨ payload = "0") →
      lightCommand payload = none ∧ ∀ connected, lightHandler connected payload = []) ∧
    lightHandler true payload = (lightCommand payload).toList ∧
    lightHandler false payload = [] ∧
    (∀ (cfg : Config) (device : Device) (availTopic : String),
      ∃ sw : SwitchConfig,
        BuildLightSwitch cfg device availTopic =
          [{ Topic := (NewTopicBuilder cfg.BaseTopic cfg.DiscoveryPrefix).Discovery "switch"
               cfg.DeviceID "light",
             Payload := sw.marshal, Retain := true }] ∧
        sw.CommandTopic = (NewTopicBuilder cfg.BaseTopic cfg.DiscoveryPrefix).LightCommand ∧
        lightCommand sw.PayloadOn =
          some "\x7b\"method\":\"set\",\"params\":\x7b\"lightSw\":1\x7d\x7d" ∧
        lightCommand sw.PayloadOff =
          some "\x7b\"method\":\"set\",\"params\":\x7b\"lightSw\":0\x7d\x7d") ∧
    lightCommand "on" = none ∧ lightCommand "off" = none ∧ lightCommand "" = none ∧
    lightCommand "ON " = none := by
  have hon : payload = "ON" ∨ payload = "1" →
      lightCommand payload =
        some "\x7b\"method\":\"set\",\"params\":\x7b\"lightSw\":1\x7d\x7d" := by
    intro h
    unfold lightCommand
    simp only [if_pos h]
    rfl
  have hoff : payload = "OFF" ∨ payload = "0" →
      lightCommand payload =
        some "\x7b\"method\":\"set\",\"params\":\x7b\"lightSw\":0\x7d\x7d" := by
    intro h
    have hn : ¬ (payload = "ON" ∨ payload = "1") := by
      rcases h with h | h <;> subst h <;> decide
    unfold lightCommand
    simp only [if_neg hn, if_pos h]
    rfl
  have hnone : ¬ (payload = "ON" ∨ payload = "1" ∨ payload = "OFF" ∨ payload = "0") →
      lightCommand payload = none := by
    intro h
    have h1 : ¬ (payload = "ON" ∨ payload = "1") := fun h' =>
      h (h'.elim Or.inl (fun x => Or.inr (Or.inl x)))
    have h2 : ¬ (payload = "OFF" ∨ payload = "0") := fun h' =>
      h (h'.elim (fun x => Or.inr (Or.inr (Or.inl x))) (fun x => Or.inr (Or.inr (Or.inr x))))
    unfold lightCommand
    simp only [if_neg h1, if_neg h2]
  refine ⟨?_, hon, hoff, ?_, ?_, ?_, ?_, by decide, by decide, by decide, by decide⟩
  · constructor
    · rintro ⟨wsCmd, h⟩
      by_contra hc
      rw [hnone hc] at h
      exact Option.noConfusion h
    · rintro (h | h | h | h)
      · exact ⟨_, hon (Or.inl h)⟩
      · exact ⟨_, hon (Or.inr h)⟩
      · exact ⟨_, hoff (Or.inl h)⟩
      · exact ⟨_, hoff (Or.inr h)⟩
  · intro h
    refine ⟨hnone h, ?_⟩
    intro connected
    unfold lightHandler
    rw [hnone h]
  · unfold lightHandler Client.SendMessage
    cases lightCommand payload <;> rfl
  · unfold lightHandler Client.SendMessage
    cases lightCommand payload <;> rfl
  · intro cfg device availTopic
    exact ⟨_, rfl, rfl, rfl, rfl⟩

end

/-! ## Dropped publishes, the status cache and the two activity signals -/

/-- C33. When the client is not connected (the broker library answers that it is not, and the
test hook is off), `Publish` transmits nothing and leaves the client as it was, so neither
`lastPublished` nor `lastPayload` changes and the payload is not kept as pending: whatever the
time, topic, payload, retain flag and minimum interval. -/
theorem C33_disconnected_drop (c : Client) (now : Int) (topic payload : String) (retain : Bool)
    (h : (c.testBypassConnection || c.clientIsConnected) = false) :
    c.Publish now topic payload retain = ([], c) ∧
    (c.Publish now topic payload retain).1 = [] ∧
    (c.Publish now topic payload retain).2.lastPublished = c.lastPublished ∧
    (c.Publish now topic payload retain).2.lastPayload = c.lastPayload ∧
    (c.Publish now topic payload retain).2.lastPayload topic = c.lastPayload topic := by
  have hp : c.Publish now topic payload retain = ([], c) := by
    unfold Client.Publish
    simp only [h, Bool.false_eq_true, not_false_eq_true, if_true]
  rw [hp]
  exact ⟨rfl, rfl, rfl, rfl, rfl⟩

/-- C33 (witness). The disconnected client of the test case "Publish with disconnected
client", and the same client throttled to one second, drop "test payload" on test/topic. -/
theorem C33_disconnected_drop_witness :
    ({ New with clientIsConnected := false } : Client).Publish clock2026 "test/topic"
        "test payload" false =
      ([], { New with clientIsConnected := false }) ∧
    (({ New with clientIsConnected := false } : Client).Publish clock2026 "test/topic"
        "test payload" false).1 = [] ∧
    (({ New with clientIsConnected := false } : Client).Publish clock2026 "test/topic"
        "test payload" false).2.lastPublished =
      ({ New with clientIsConnected := false } : Client).lastPublished ∧
    (({ New with clientIsConnected := false } : Client).Publish clock2026 "test/topic"
        "test payload" false).2.lastPayload =
      ({ New with clientIsConnected := false } : Client).lastPayload ∧
    (({ New with clientIsConnected := false } : Client).Publish clock2026 "test/topic"
        "test payload" false).2.lastPayload "test/topic" =
      ({ New with clientIsConnected := false } : Client).lastPayload "test/topic" :=
  C33_disconnected_drop { New with clientIsConnected := false } clock2026 "test/topic"
    "test payload" false rfl

/-- A change of the returned status against the cached one is published. -/
theorem getRateLimitedPrinterStatus_change (cache : PrinterStatusCache) (now : Int)
    (msg : Snapshot)
    (h : (getRateLimitedPrinterStatus cache now msg).1.1 ≠ cache.lastStatus) :
    (getRateLimitedPrinterStatus cache now msg).1.2 = true := by
  unfold getRateLimitedPrinterStatus at h ⊢
  simp only [] at h ⊢
  split_ifs at h ⊢ <;> simp_all

/-- C36. After every call of `getRateLimitedPrinterStatus` the cached `lastStatus` is the
status that the call returned.  Hence a call whose status differs from the cached one, and so
a call whose status differs from that of the call before it, has shouldPublish = true; in a run
of calls every result whose status differs from the one before it (the cached status, for the
first) has shouldPublish = true. -/
theorem C36_status_change_is_published (cache : PrinterStatusCache) (now : Int)
    (msg : Snapshot) :
    (getRateLimitedPrinterStatus cache now msg).2.lastStatus =
      (getRateLimitedPrinterStatus cache now msg).1.1 ∧
    ((getRateLimitedPrinterStatus cache now msg).1.1 ≠ cache.lastStatus →
      (getRateLimitedPrinterStatus cache now msg).1.2 = true) ∧
    (∀ (now2 : Int) (msg2 : Snapshot),
      (getRateLimitedPrinterStatus (getRateLimitedPrinterStatus cache now msg).2 now2 msg2).1.1 ≠
          (getRateLimitedPrinterStatus cache now msg).1.1 →
      (getRateLimitedPrinterStatus (getRateLimitedPrinterStatus cache now msg).2 now2 msg2).1.2
        = true) ∧
    (∀ calls : List (Int × Snapshot),
      List.Chain (fun before after => after.1 ≠ before.1 → after.2 = true)
        (cache.lastStatus, true) (runStatus cache calls).1) := by
  refine ⟨getRateLimitedPrinterStatus_lastStatus cache now msg,
    getRateLimitedPrinterStatus_change cache now msg, ?_, ?_⟩
  · intro now2 msg2 h
    apply getRateLimitedPrinterStatus_change
    rw [getRateLimitedPrinterStatus_lastStatus]
    exact h
  · intro calls
    clear now msg
    induction calls generalizing cache with
    | nil => exact List.Chain.nil
    | cons call rest ih =>
      obtain ⟨now, msg⟩ := call
      unfold runStatus
      simp only []
      refine List.Chain.cons (getRateLimitedPrinterStatus_change cache now msg) ?_
      have := ih (getRateLimitedPrinterStatus cache now msg).2
      rw [getRateLimitedPrinterStatus_lastStatus] at this
      generalize (runStatus (getRateLimitedPrinterStatus cache now msg).2 rest).1 = l at this ⊢
      cases this with
      | nil => exact List.Chain.nil
      | cons h t => exact List.Chain.cons h t

/-- The message on base/printing is the first message of `BuildJobMessages`: a message of
that topic with payload "true" shows that progress and time left are both positive. -/
theorem printing_true_signals (msg : Snapshot) (baseTopic : String) (m : MqttMessage)
    (hm : m ∈ BuildJobMessages msg baseTopic) (ht : m.Topic = baseTopic ++ "/printing")
    (hp : m.Payload = "true") :
    signal msg "printProgress" ∧ signal msg "printLeftTime" := by
  unfold BuildJobMessages at hm
  simp only [List.append_assoc, List.singleton_append, List.cons_append, List.mem_cons] at hm
  rcases hm with h | hm
  · subst h
    simp only at hp
    unfold signal
    cases h1 : getInt msg "printProgress" with
    | none => simp [h1] at hp
    | some p =>
      cases h2 : getInt msg "printLeftTime" with
      | none => simp [h1, h2] at hp
      | some l =>
        simp only [h1, h2, Bool.and_eq_true, decide_eq_true_eq] at hp
        by_cases hpos : p > 0 ∧ l > 0
        · exact ⟨⟨p, rfl, hpos.1⟩, ⟨l, rfl, hpos.2⟩⟩
        · rw [if_neg hpos] at hp
          exact absurd hp (by decide)
  · exfalso
    simp only [List.append_eq, List.mem_append] at hm
    rcases hm with h | h | h | h | h | h | h <;> (repeat' split at h) <;> simp at h <;>
      first
        | (rw [h] at ht; simp [string_append_right_inj] at ht)
        | (rcases h with h | h <;> (rw [h] at ht; simp [string_append_right_inj] at ht))

/-- C39. Whenever `BuildJobMessages` emits printing = "true" for a snapshot (a message on
base/printing with payload "true"), `derivePrinterStatus` classifies the same snapshot as
"active". -/
theorem C39_printing_implies_active (msg : Snapshot) (baseTopic : String) (m : MqttMessage)
    (hm : m ∈ BuildJobMessages msg baseTopic) (ht : m.Topic = baseTopic ++ "/printing")
    (hp : m.Payload = "true") :
    derivePrinterStatus msg = "active" := by
  rw [derivePrinterStatus_eq_active_iff]
  exact Or.inr (Or.inr (Or.inl (printing_true_signals msg baseTopic m hm ht hp).2))

/-- C39 (witness). Progress 50 with 600 seconds left: printing is "true" and the status is
"active". -/
theorem C39_printing_implies_active_witness :
    ({ Topic := "p/k1/printing", Payload := "true", Retain := false } : MqttMessage) ∈
      BuildJobMessages [("printProgress", .float64 (F64.ofInt 50)),
        ("printLeftTime", .float64 (F64.ofInt 600))] "p/k1" ∧
    derivePrinterStatus [("printProgress", .float64 (F64.ofInt 50)),
      ("printLeftTime", .float64 (F64.ofInt 600))] = "active" :=
  ⟨by decide,
   C39_printing_implies_active [("printProgress", .float64 (F64.ofInt 50)),
      ("printLeftTime", .float64 (F64.ofInt 600))] "p/k1"
     { Topic := "p/k1/printing", Payload := "true", Retain := false } (by decide) rfl rfl⟩

/-! ## The spacing of throttled transmissions -/

/-- An elapsed time of at least a positive interval is a true difference of at least that
interval: the saturation of `Sub` does not hide a shorter one. -/
theorem sub_ge_interval (t u W : Int) (hW : 0 < W) (h : ¬ Time.Sub t u < W) : u + W ≤ t := by
  unfold Time.Sub maxInt64 minInt64 at h
  split_ifs at h <;> omega

/-- What `Publish` does to the table `lastPublished`: nothing, or, on the throttled path with
the window open, it records the time of the call for the topic. -/
theorem Publish_shape (c : Client) (now : Int) (topic payload : String) (retain : Bool) :
    (c.Publish now topic payload retain).2.minInterval = c.minInterval ∧
    (((c.Publish now topic payload retain).2.lastPublished = c.lastPublished ∧
        (0 < c.minInterval → retain = false → (c.Publish now topic payload retain).1 = [])) ∨
      (¬ Time.Sub now (c.lastPublished.index topic) < c.minInterval ∧
        (c.Publish now topic payload retain).2.lastPublished =
          c.lastPublished.set topic now)) := by
  by_cases hconn : (c.testBypassConnection || c.clientIsConnected) = true
  · by_cases hr : retain = true ∨ c.minInterval ≤ 0
    · have hp : c.Publish now topic payload retain =
          ([{ Topic := topic, Payload := payload, Retain := retain }], c) := by
        unfold Client.Publish
        simp only [hconn, not_true_eq_false, if_false, hr, if_true]
      rw [hp]
      refine ⟨rfl, Or.inl ⟨rfl, ?_⟩⟩
      intro hW hret
      rcases hr with hr | hr
      · rw [hret] at hr; exact absurd hr (by decide)
      · omega
    · have hret : retain = false := by
        cases retain
        · rfl
        · exact absurd (Or.inl rfl) hr
      have hW : 0 < c.minInterval := by
        by_contra hc
        exact hr (Or.inr (by omega))
      subst hret
      by_cases hin : Time.Sub now (c.lastPublished.index topic) < c.minInterval
      · rw [Publish_inside_window c now topic payload hconn hW hin]
        exact ⟨rfl, Or.inl ⟨rfl, fun _ _ => rfl⟩⟩
      · have hout : Time.Sub now (c.lastPublished.index topic) ≥ c.minInterval := not_lt.mp hin
        cases hpend : c.lastPayload topic with
        | none =>
          rw [Publish_window_open_plain c now topic payload hconn hW hout (Or.inl hpend)]
          exact ⟨rfl, Or.inr ⟨hin, rfl⟩⟩
        | some pending =>
          by_cases hne : pending = ""
          · rw [Publish_window_open_plain c now topic payload hconn hW hout
              (Or.inr (by rw [hpend, hne]))]
            exact ⟨rfl, Or.inr ⟨hin, rfl⟩⟩
          · rw [Publish_window_open_pending c now topic payload pending hconn hW hout hpend hne]
            exact ⟨rfl, Or.inr ⟨hin, rfl⟩⟩
  · have hp : c.Publish now topic payload retain = ([], c) := by
      unfold Client.Publish
      simp [hconn]
    rw [hp]
    exact ⟨rfl, Or.inl ⟨rfl, fun _ _ => rfl⟩⟩

/-- `Publish` does not change the minimum interval. -/
theorem Publish_minInterval (c : Client) (now : Int) (topic payload : String) (retain : Bool) :
    (c.Publish now topic payload retain).2.minInterval = c.minInterval :=
  (Publish_shape c now topic payload retain).1

/-- A throttled, non-retained call that transmits records its time for its topic, and comes at
least the minimum interval after the time recorded before. -/
theorem Publish_records_time (c : Client) (now : Int) (topic payload : String)
    (hW : 0 < c.minInterval) (h : (c.Publish now topic payload false).1 ≠ []) :
    (c.Publish now topic payload false).2.lastPublished topic = some now ∧
      c.lastPublished.index topic + c.minInterval ≤ now := by
  rcases (Publish_shape c now topic payload false).2 with ⟨_, h2⟩ | ⟨h1, h2⟩
  · exact absurd (h2 hW rfl) h
  · rw [h2]
    exact ⟨by simp [GoMap.set], sub_ge_interval _ _ _ hW h1⟩

/-- Once a time not before `T` is recorded for a topic, every later call keeps such a time
recorded for it. -/
theorem Publish_keeps_bound (c : Client) (now : Int) (topic payload : String) (retain : Bool)
    (key : String) (T : Int) (hW : 0 < c.minInterval)
    (h : ∃ t0, c.lastPublished key = some t0 ∧ T ≤ t0) :
    ∃ t1, (c.Publish now topic payload retain).2.lastPublished key = some t1 ∧ T ≤ t1 := by
  obtain ⟨t0, ht0, hT⟩ := h
  rcases (Publish_shape c now topic payload retain).2 with ⟨h1, _⟩ | ⟨h1, h2⟩
  · rw [h1]
    exact ⟨t0, ht0, hT⟩
  · rw [h2]
    have hge := sub_ge_interval _ _ _ hW h1
    unfold GoMap.set
    by_cases hk : key = topic
    · subst hk
      refine ⟨now, by simp, ?_⟩
      have : c.lastPublished.index key = t0 := by simp [GoMap.index, ht0]
      omega
    · exact ⟨t0, by simp [hk, ht0], hT⟩

/-- After a time not before `T` is recorded for a topic, every throttled non-retained
transmission on that topic comes at least the minimum interval after `T`. -/
theorem run_spacing_after (calls : List Call) :
    ∀ (c : Client) (key : String) (T : Int), 0 < c.minInterval →
      (∃ t0, c.lastPublished key = some t0 ∧ T ≤ t0) →
      ∀ (j : Nat) (b : Call), calls.get? j = some b → b.topic = key → b.retain = false →
        (c.run calls).1.getD j [] ≠ [] → T + c.minInterval ≤ b.now := by
  induction calls with
  | nil => intro c key T _ _ j b hb; simp at hb
  | cons a rest ih =>
    intro c key T hW hrec j b hb hkey hret htx
    unfold Client.run at htx
    simp only [] at htx
    cases j with
    | zero =>
      simp only [List.get?_cons_zero, Option.some.injEq] at hb
      subst hb
      simp only [List.getD_cons_zero] at htx
      rw [hret] at htx
      obtain ⟨_, hge⟩ := Publish_records_time c a.now a.topic a.payload hW htx
      obtain ⟨t0, ht0, hT⟩ := hrec
      have : c.lastPublished.index a.topic = t0 := by
        rw [hkey]; simp [GoMap.index, ht0]
      omega
    | succ j =>
      simp only [List.get?_cons_succ] at hb
      simp only [List.getD_cons_succ] at htx
      have hmin := Publish_minInterval c a.now a.topic a.payload a.retain
      have := ih (c.Publish a.now a.topic a.payload a.retain).2 key T (by rw [hmin]; exact hW)
        (Publish_keeps_bound c a.now a.topic a.payload a.retain key T hW hrec) j b hb hkey hret
        htx
      rw [hmin] at this
      exact this

/-- C35. For a client with minimum interval W > 0, whatever its state and whatever the calls
of `Publish` (on any topics, retained or not, at any times): two calls that both transmit a
non-retained message on the same topic are at least W apart, the later call coming at least W
after the earlier one.  So at most one non-retained message per topic is transmitted in any
interval shorter than W. -/
theorem C35_min_spacing (c : Client) (calls : List Call) (hW : 0 < c.minInterval) :
    ∀ (i j : Nat) (a b : Call), i < j → calls.get? i = some a → calls.get? j = some b →
      a.topic = b.topic → a.retain = false → b.retain = false →
      (c.run calls).1.getD i [] ≠ [] → (c.run calls).1.getD j [] ≠ [] →
        a.now + c.minInterval ≤ b.now := by
  induction calls generalizing c with
  | nil => intro i j a b _ ha; simp at ha
  | cons x rest ih =>
    intro i j a b hij ha hb htopic hra hrb hta htb
    unfold Client.run at hta htb
    simp only [] at hta htb
    have hmin := Publish_minInterval c x.now x.topic x.payload x.retain
    cases j with
    | zero => omega
    | succ j =>
      simp only [List.get?_cons_succ] at hb
      simp only [List.getD_cons_succ] at htb
      cases i with
      | zero =>
        simp only [List.get?_cons_zero, Option.some.injEq] at ha
        subst ha
        simp only [List.getD_cons_zero] at hta
        rw [hra] at hta
        obtain ⟨hrec, _⟩ := Publish_records_time c x.now x.topic x.payload hW hta
        have := run_spacing_after rest (c.Publish x.now x.topic x.payload false).2 x.topic
          x.now (by rw [← hra, hmin]; exact hW) ⟨x.now, hrec, le_refl _⟩ j b hb htopic.symm hrb
          (by rw [← hra]; exact htb)
        rw [← hra, hmin] at this
        exact this
      | succ i =>
        simp only [List.get?_cons_succ] at ha
        simp only [List.getD_cons_succ] at hta
        have := ih (c.Publish x.now x.topic x.payload x.retain).2 (by rw [hmin]; exact hW)
          i j a b (by omega) ha hb htopic hra hrb hta htb
        rw [hmin] at this
        exact this

/-- C35 (witness). Throttled to one second, with calls on test/a at 0 ms, 400 ms, 1000 ms and
1500 ms and calls on test/b in between: the calls at 0 ms and at 1000 ms transmit on test/a,
one second apart. -/
theorem C35_min_spacing_witness :
    ((New.SetMinInterval Second).run
        [⟨clock2026, "test/a", "1", false⟩,
         ⟨clock2026 + 100 * Millisecond, "test/b", "x", false⟩,
         ⟨clock2026 + 400 * Millisecond, "test/a", "2", false⟩,
         ⟨clock2026 + 1000 * Millisecond, "test/a", "3", false⟩,
         ⟨clock2026 + 1200 * Millisecond, "test/b", "y", false⟩,
         ⟨clock2026 + 1500 * Millisecond, "test/a", "4", false⟩]).1 =
      [[⟨"test/a", "1", false⟩], [⟨"test/b", "x", false⟩], [], [⟨"test/a", "2", false⟩],
       [⟨"test/b", "y", false⟩], []] ∧
    clock2026 + (New.SetMinInterval Second).minInterval ≤ clock2026 + 1000 * Millisecond :=
  ⟨by decide,
   C35_min_spacing (New.SetMinInterval Second)
     [⟨clock2026, "test/a", "1", false⟩,
      ⟨clock2026 + 100 * Millisecond, "test/b", "x", false⟩,
      ⟨clock2026 + 400 * Millisecond, "test/a", "2", false⟩,
      ⟨clock2026 + 1000 * Millisecond, "test/a", "3", false⟩,
      ⟨clock2026 + 1200 * Millisecond, "test/b", "y", false⟩,
      ⟨clock2026 + 1500 * Millisecond, "test/a", "4", false⟩]
     (by decide) 0 3 ⟨clock2026, "test/a", "1", false⟩
     ⟨clock2026 + 1000 * Millisecond, "test/a", "3", false⟩ (by decide) rfl rfl rfl rfl rfl
     (by decide) (by decide)⟩

/-! ## The payload of a throttled transmission -/

/-- `Publish` changes neither the connection flags nor the minimum interval. -/
theorem Publish_flags (c : Client) (now : Int) (topic payload : String) (retain : Bool) :
    ((c.Publish now topic payload retain).2.testBypassConnection ||
        (c.Publish now topic payload retain).2.clientIsConnected) =
      (c.testBypassConnection || c.clientIsConnected) ∧
    (c.Publish now topic payload retain).2.minInterval = c.minInterval := by
  refine ⟨?_, Publish_minInterval c now topic payload retain⟩
  unfold Client.Publish
  simp only []
  split_ifs
  all_goals first
    | rfl
    | (cases c.lastPayload topic with
        | none => rfl
        | some pending => simp only []; split_ifs <;> rfl)

/-- Two calls in a row on one topic: what the second call transmits, if anything, is the
payload of the first call when that call was deferred with a payload that is not empty, and
its own payload otherwise. -/
theorem Publish_pair (c : Client) (now1 now2 : Int) (topic p1 p2 : String)
    (hconn : (c.testBypassConnection || c.clientIsConnected) = true)
    (hW : 0 < c.minInterval) :
    ((c.Publish now1 topic p1 false).2.Publish now2 topic p2 false).1 = [] ∨
    ((c.Publish now1 topic p1 false).2.Publish now2 topic p2 false).1 =
      [{ Topic := topic,
         Payload := if (c.Publish now1 topic p1 false).1 = [] ∧ p1 ≠ "" then p1 else p2,
         Retain := false }] := by
  have hf := Publish_flags c now1 topic p1 false
  have hconn1 := hf.1.trans hconn
  have hW1 : 0 < (c.Publish now1 topic p1 false).2.minInterval := by rw [hf.2]; exact hW
  -- the pending payload that the second call finds
  have hpend : ((c.Publish now1 topic p1 false).1 = [] ∧
        (c.Publish now1 topic p1 false).2.lastPayload topic = some p1) ∨
      ((c.Publish now1 topic p1 false).1 ≠ [] ∧
        ((c.Publish now1 topic p1 false).2.lastPayload topic = none ∨
          (c.Publish now1 topic p1 false).2.lastPayload topic = some "")) := by
    by_cases hin : Time.Sub now1 (c.lastPublished.index topic) < c.minInterval
    · rw [Publish_inside_window c now1 topic p1 hconn hW hin]
      exact Or.inl ⟨rfl, by simp [GoMap.set]⟩
    · have hout : Time.Sub now1 (c.lastPublished.index topic) ≥ c.minInterval := not_lt.mp hin
      right
      cases hp : c.lastPayload topic with
      | none =>
        rw [Publish_window_open_plain c now1 topic p1 hconn hW hout (Or.inl hp)]
        exact ⟨by simp, Or.inl hp⟩
      | some pending =>
        by_cases hne : pending = ""
        · rw [Publish_window_open_plain c now1 topic p1 hconn hW hout
            (Or.inr (by rw [hp, hne]))]
          exact ⟨by simp, Or.inr (by rw [hp, hne])⟩
        · rw [Publish_window_open_pending c now1 topic p1 pending hconn hW hout hp hne]
          exact ⟨by simp, Or.inl (by simp [GoMap.delete])⟩
  by_cases hin2 : Time.Sub now2 ((c.Publish now1 topic p1 false).2.lastPublished.index topic) <
      (c.Publish now1 topic p1 false).2.minInterval
  · left
    rw [Publish_inside_window _ now2 topic p2 hconn1 hW1 hin2]
  · right
    have hout2 := not_lt.mp hin2
    rcases hpend with ⟨h1, h2⟩ | ⟨h1, h2⟩
    · by_cases hne : p1 = ""
      · rw [Publish_window_open_plain _ now2 topic p2 hconn1 hW1 hout2
          (Or.inr (by rw [h2, hne]))]
        simp [hne]
      · rw [Publish_window_open_pending _ now2 topic p2 p1 hconn1 hW1 hout2 h2 hne]
        simp [h1, hne]
    · rw [Publish_window_open_plain _ now2 topic p2 hconn1 hW1 hout2 h2]
      simp [h1]

/-- C5 (as amended). For a connected client with a positive minimum interval and every
sequence of non-retained `Publish` calls on one topic: the first call transmits nothing or one
message, whose payload is the non-empty pending payload stored for the topic, if there is one,
and its own payload otherwise; every later call transmits nothing or one message, whose payload
is that of the call just before it when that call was deferred with a payload that is not
empty (the pending payload, not the payload of the call that transmits), and its own payload
otherwise. -/
theorem C5_pending_supersedes (c : Client) (calls : List Call) (topic : String)
    (hconn : (c.testBypassConnection || c.clientIsConnected) = true)
    (hW : 0 < c.minInterval)
    (hcalls : ∀ x ∈ calls, x.topic = topic ∧ x.retain = false) :
    (∀ a, calls.get? 0 = some a →
      (c.run calls).1.getD 0 [] = [] ∨
      (c.run calls).1.getD 0 [] =
        [{ Topic := topic,
           Payload := (match c.lastPayload topic with
             | some pending => if pending ≠ "" then pending else a.payload
             | none => a.payload),
           Retain := false }]) ∧
    (∀ (j : Nat) (a b : Call), calls.get? j = some a → calls.get? (j + 1) = some b →
      (c.run calls).1.getD (j + 1) [] = [] ∨
      (c.run calls).1.getD (j + 1) [] =
        [{ Topic := topic,
           Payload := if (c.run calls).1.getD j [] = [] ∧ a.payload ≠ "" then a.payload
             else b.payload,
           Retain := false }]) := by
  constructor
  · intro a ha
    cases calls with
    | nil => simp at ha
    | cons x rest =>
      simp only [List.get?_cons_zero, Option.some.injEq] at ha
      subst ha
      obtain ⟨ht, hr⟩ := hcalls x (List.mem_cons_self _ _)
      unfold Client.run
      simp only [List.getD_cons_zero]
      rw [ht, hr]
      by_cases hin : Time.Sub x.now (c.lastPublished.index topic) < c.minInterval
      · left
        rw [Publish_inside_window c x.now topic x.payload hconn hW hin]
      · right
        have hout : Time.Sub x.now (c.lastPublished.index topic) ≥ c.minInterval :=
          not_lt.mp hin
        cases hp : c.lastPayload topic with
        | none =>
          rw [Publish_window_open_plain c x.now topic x.payload hconn hW hout (Or.inl hp)]
        | some pending =>
          by_cases hne : pending = ""
          · rw [Publish_window_open_plain c x.now topic x.payload hconn hW hout
              (Or.inr (by rw [hp, hne]))]
            simp [hne]
          · rw [Publish_window_open_pending c x.now topic x.payload pending hconn hW hout hp
              hne]
            simp [hne]
  · intro j
    induction calls generalizing c j with
    | nil => intro a b ha; simp at ha
    | cons x rest ih =>
      intro a b ha hb
      obtain ⟨ht, hr⟩ := hcalls x (List.mem_cons_self _ _)
      have hf := Publish_flags c x.now x.topic x.payload x.retain
      cases j with
      | zero =>
        simp only [List.get?_cons_zero, Option.some.injEq] at ha
        subst ha
        cases rest with
        | nil => simp at hb
        | cons y rest2 =>
          simp only [List.get?_cons_succ, List.get?_cons_zero, Option.some.injEq,
            zero_add] at hb
          subst hb
          obtain ⟨ht2, hr2⟩ := hcalls y (List.mem_cons_of_mem _ (List.mem_cons_self _ _))
          unfold Client.run
          simp only []
          unfold Client.run
          simp only [List.getD_cons_zero, List.getD_cons_succ, zero_add]
          rw [ht, hr, ht2, hr2]
          exact Publish_pair c x.now y.now topic x.payload y.payload hconn hW
      | succ j =>
        simp only [List.get?_cons_succ] at ha hb
        have := ih (c.Publish x.now x.topic x.payload x.retain).2 (hf.1.trans hconn)
          (by rw [hf.2]; exact hW) (fun z hz => hcalls z (List.mem_cons_of_mem _ hz)) j a b ha hb
        unfold Client.run
        simp only [List.getD_cons_succ]
        exact this

/-- C5 (witness). On a fresh client throttled to one second: "a" is sent, "b" is deferred
400 ms later, the call with "c" one second after the first send transmits "b", and the call
with "d" two seconds after it transmits "d". -/
theorem C5_pending_supersedes_witness :
    ((New.SetMinInterval Second).run
        [⟨clock2026, "p/k1/x", "a", false⟩,
         ⟨clock2026 + 400 * Millisecond, "p/k1/x", "b", false⟩,
         ⟨clock2026 + Second, "p/k1/x", "c", false⟩,
         ⟨clock2026 + 2 * Second, "p/k1/x", "d", false⟩]).1 =
      [[⟨"p/k1/x", "a", false⟩], [], [⟨"p/k1/x", "b", false⟩], [⟨"p/k1/x", "d", false⟩]] ∧
    (((New.SetMinInterval Second).run
        [⟨clock2026, "p/k1/x", "a", false⟩,
         ⟨clock2026 + 400 * Millisecond, "p/k1/x", "b", false⟩,
         ⟨clock2026 + Second, "p/k1/x", "c", false⟩,
         ⟨clock2026 + 2 * Second, "p/k1/x", "d", false⟩]).1.getD (1 + 1) [] = [] ∨
     ((New.SetMinInterval Second).run
        [⟨clock2026, "p/k1/x", "a", false⟩,
         ⟨clock2026 + 400 * Millisecond, "p/k1/x", "b", false⟩,
         ⟨clock2026 + Second, "p/k1/x", "c", false⟩,
         ⟨clock2026 + 2 * Second, "p/k1/x", "d", false⟩]).1.getD (1 + 1) [] =
      [{ Topic := "p/k1/x",
         Payload := if ((New.SetMinInterval Second).run
              [⟨clock2026, "p/k1/x", "a", false⟩,
               ⟨clock2026 + 400 * Millisecond, "p/k1/x", "b", false⟩,
               ⟨clock2026 + Second, "p/k1/x", "c", false⟩,
               ⟨clock2026 + 2 * Second, "p/k1/x", "d", false⟩]).1.getD 1 [] = [] ∧
              (⟨clock2026 + 400 * Millisecond, "p/k1/x", "b", false⟩ : Call).payload ≠ ""
            then (⟨clock2026 + 400 * Millisecond, "p/k1/x", "b", false⟩ : Call).payload
            else (⟨clock2026 + Second, "p/k1/x", "c", false⟩ : Call).payload,
         Retain := false }]) :=
  ⟨by decide,
   (C5_pending_supersedes (New.SetMinInterval Second)
      [⟨clock2026, "p/k1/x", "a", false⟩,
       ⟨clock2026 + 400 * Millisecond, "p/k1/x", "b", false⟩,
       ⟨clock2026 + Second, "p/k1/x", "c", false⟩,
       ⟨clock2026 + 2 * Second, "p/k1/x", "d", false⟩] "p/k1/x" rfl (by decide)
      (by decide)).2 1 ⟨clock2026 + 400 * Millisecond, "p/k1/x", "b", false⟩
      ⟨clock2026 + Second, "p/k1/x", "c", false⟩ rfl rfl⟩

/-! ## The identity of the device -/

/-- The field that `ExtractDeviceInfo` reads, with its fallback, is the one the words
describe. -/
theorem identityField_chosen (msg : Snapshot) (camel snake fallback : String) :
    (if identityField msg camel snake = "" then fallback else identityField msg camel snake) =
      chosenField msg camel snake fallback := by
  unfold identityField chosenField
  cases stringAt msg camel with
  | none =>
    cases stringAt msg snake with
    | none => simp
    | some b => by_cases hb : b = "" <;> simp [hb]
  | some a =>
    cases stringAt msg snake with
    | none => by_cases ha : a = "" <;> simp [ha]
    | some b => by_cases ha : a = "" <;> by_cases hb : b = "" <;> simp [ha, hb]

/-- The chosen field is not empty when the fallback is not. -/
theorem chosenField_ne_empty (msg : Snapshot) (camel snake fallback : String)
    (h : fallback ≠ "") : chosenField msg camel snake fallback ≠ "" := by
  unfold chosenField
  simp only
  split_ifs with h1 h2
  · exact h1
  · exact h2
  · exact h

/-- The lower-case form of a character is not an uppercase ASCII letter, provided the case
tables send no character above U+007F to one. -/
theorem toLower_not_ascii_upper (u : UnicodeCase)
    (hu : ∀ c : Char, 128 ≤ c.toNat → ¬ ('A' ≤ u.toLower c ∧ u.toLower c ≤ 'Z')) (c : Char) :
    ¬ ('A' ≤ unicode.ToLower u c ∧ unicode.ToLower u c ≤ 'Z') := by
  by_cases h : c.toNat < 128
  · have key : ∀ n, n < 128 →
        ¬ ('A' ≤ unicode.ToLower UnicodeCase.caseless (Char.ofNat n) ∧
          unicode.ToLower UnicodeCase.caseless (Char.ofNat n) ≤ 'Z') := by
      decide
    have hl : unicode.ToLower u c = unicode.ToLower UnicodeCase.caseless c := by
      simp [unicode.ToLower, h]
    rw [hl]
    exact ascii_cases (fun c => ¬ ('A' ≤ unicode.ToLower UnicodeCase.caseless c ∧
      unicode.ToLower UnicodeCase.caseless c ≤ 'Z')) key c h
  · have hl : unicode.ToLower u c = u.toLower c := by
      simp [unicode.ToLower, h]
    rw [hl]
    exact hu c (by omega)

/-- C34. For every snapshot `ExtractDeviceInfo` returns three non-empty strings.  The name and
the model are the string under the camelCase key when it is a non-empty string, else the string
under the snake_case key when it is a non-empty string, else "Creality Printer" and
"K1/K1 SE/K1 Max"; the device id is chosen the same way, with the fallback "creality_printer",
then written in lower case with every space and every hyphen replaced by an underscore.  The
device id has no space and no hyphen, and no uppercase ASCII letter (the case tables of
package `unicode` send no character above U+007F to an uppercase ASCII letter).  The device id
"K1-SE 01" gives "k1_se_01". -/
theorem C34_ExtractDeviceInfo (u : UnicodeCase) (msg : Snapshot) :
    (ExtractDeviceInfo u msg).1 ≠ "" ∧ (ExtractDeviceInfo u msg).2.1 ≠ "" ∧
    (ExtractDeviceInfo u msg).2.2 ≠ "" ∧
    (ExtractDeviceInfo u msg).2.1 =
      chosenField msg "deviceName" "device_name" "Creality Printer" ∧
    (ExtractDeviceInfo u msg).2.2 =
      chosenField msg "deviceModel" "device_model" "K1/K1 SE/K1 Max" ∧
    (ExtractDeviceInfo u msg).1 =
      String.mk ((((chosenField msg "deviceId" "device_id" "creality_printer").data.map
        (unicode.ToLower u)).map (fun c => if c = ' ' then '_' else c)).map
        (fun c => if c = '-' then '_' else c)) ∧
    ((stringAt msg "deviceName").getD "" = "" → (stringAt msg "device_name").getD "" = "" →
      (ExtractDeviceInfo u msg).2.1 = "Creality Printer") ∧
    ((stringAt msg "deviceModel").getD "" = "" → (stringAt msg "device_model").getD "" = "" →
      (ExtractDeviceInfo u msg).2.2 = "K1/K1 SE/K1 Max") ∧
    ((stringAt msg "deviceId").getD "" = "" → (stringAt msg "device_id").getD "" = "" →
      (ExtractDeviceInfo u msg).1 = "creality_printer") ∧
    (∀ c ∈ (ExtractDeviceInfo u msg).1.data, c ≠ ' ' ∧ c ≠ '-') ∧
    ((∀ c : Char, 128 ≤ c.toNat → ¬ ('A' ≤ u.toLower c ∧ u.toLower c ≤ 'Z')) →
      ∀ c ∈ (ExtractDeviceInfo u msg).1.data, ¬ ('A' ≤ c ∧ c ≤ 'Z')) ∧
    ExtractDeviceInfo u
        [("deviceName", .string "K1 SE"), ("deviceModel", .string "K1 SE"),
         ("deviceId", .string "K1-SE 01")] = ("k1_se_01", "K1 SE", "K1 SE") ∧
    ExtractDeviceInfo u
        [("deviceName", .string ""), ("device_model", .float64 (F64.ofInt 1)),
         ("device_id", .string "Box A")] = ("box_a", "Creality Printer", "K1/K1 SE/K1 Max") := by
  have hname : (ExtractDeviceInfo u msg).2.1 =
      chosenField msg "deviceName" "device_name" "Creality Printer" :=
    identityField_chosen msg "deviceName" "device_name" "Creality Printer"
  have hmodel : (ExtractDeviceInfo u msg).2.2 =
      chosenField msg "deviceModel" "device_model" "K1/K1 SE/K1 Max" :=
    identityField_chosen msg "deviceModel" "device_model" "K1/K1 SE/K1 Max"
  have hid : (ExtractDeviceInfo u msg).1 =
      String.mk ((((chosenField msg "deviceId" "device_id" "creality_printer").data.map
        (unicode.ToLower u)).map (fun c => if c = ' ' then '_' else c)).map
        (fun c => if c = '-' then '_' else c)) := by
    rw [← identityField_chosen msg "deviceId" "device_id" "creality_printer"]
    rfl
  have hfallback : ∀ camel snake fallback : String,
      (stringAt msg camel).getD "" = "" → (stringAt msg snake).getD "" = "" →
        chosenField msg camel snake fallback = fallback := by
    intro camel snake fallback h1 h2
    unfold chosenField
    simp only [h1, h2, ne_eq, not_true_eq_false, if_false]
  refine ⟨?_, ?_, ?_, hname, hmodel, hid, ?_, ?_, ?_, ?_, ?_, rfl, rfl⟩
  · rw [hid]
    intro h
    have hlen := congrArg String.length h
    have hne := chosenField_ne_empty msg "deviceId" "device_id" "creality_printer" (by decide)
    simp only [String.length, List.length_map] at hlen
    apply hne
    have hd : (chosenField msg "deviceId" "device_id" "creality_printer").data = [] :=
      List.length_eq_zero.mp hlen
    exact String.ext hd
  · rw [hname]
    exact chosenField_ne_empty _ _ _ _ (by decide)
  · rw [hmodel]
    exact chosenField_ne_empty _ _ _ _ (by decide)
  · intro h1 h2
    rw [hname, hfallback _ _ _ h1 h2]
  · intro h1 h2
    rw [hmodel, hfallback _ _ _ h1 h2]
  · intro h1 h2
    rw [hid, hfallback _ _ _ h1 h2]
    rfl
  · intro c hc
    rw [hid] at hc
    simp only [List.map_map, List.mem_map, Function.comp_apply] at hc
    obtain ⟨c0, _, rfl⟩ := hc
    by_cases h1 : unicode.ToLower u c0 = ' '
    · simp [h1]
    · by_cases h2 : unicode.ToLower u c0 = '-'
      · simp [h2]
      · simp [h1, h2]
  · intro hu c hc
    rw [hid] at hc
    simp only [List.map_map, List.mem_map, Function.comp_apply] at hc
    obtain ⟨c0, _, rfl⟩ := hc
    have hlow := toLower_not_ascii_upper u hu c0
    by_cases h1 : unicode.ToLower u c0 = ' '
    · simp [h1]
    · by_cases h2 : unicode.ToLower u c0 = '-'
      · simp [h2]
      · simpa [h1, h2] using hlow

/-! ## The state topic of the video sensor and the errors of the decoder -/

/-- When "video" is the only key of a snapshot that is normalised to "video", the mapper emits
nothing on base/video. -/
theorem no_video_topic (u : UnicodeCase) (cache : PrinterStatusCache) (now : Int)
    (msg : Snapshot) (baseTopic : String)
    (h : ∀ kv ∈ msg, normaliseKey u kv.1 = "video" → kv.1 = "video") :
    ∀ m ∈ (MapMessageToMqtt u cache now msg baseTopic).1, m.Topic ≠ baseTopic ++ "/video" := by
  intro m hm heq
  have hfixed : ∀ s, m.Topic = baseTopic ++ s →
      s ∈ ["/temperature/nozzle/current", "/temperature/nozzle/target",
        "/temperature/bed0/current", "/temperature/bed0/target", "/temperature/box/current",
        "/printing", "/job/progress", "/job/left_time", "/job/job_time",
        "/job/layer/current", "/job/layer/total", "/job/file_name", "/feed_state",
        "/printer_status", "/tf_card_present"] → False := by
    intro s hs hmem
    rw [hs, string_append_right_inj] at heq
    exact derived_names_not_noisy s hmem "video" (by decide) heq
  have hsplit : (MapMessageToMqtt u cache now msg baseTopic).1 =
      genericMessages u baseTopic msg ++ BuildTempMessages msg baseTopic ++
        BuildJobMessages msg baseTopic ++ (BuildStateMessages cache now msg baseTopic).1 ++
        BuildCFSBoxMessages msg baseTopic := rfl
  rw [hsplit] at hm
  simp only [List.mem_append] at hm
  rcases hm with (((hm | hm) | hm) | hm) | hm
  · obtain ⟨kv, hkv, hnoisy, _, ht⟩ := genericMessages_topics u baseTopic msg m hm
    rw [ht, String.append_assoc, string_append_right_inj] at heq
    have hnorm : normaliseKey u kv.1 = "video" := by
      have h2 := congrArg (fun s => String.mk (s.data.drop 1)) heq
      simpa using h2
    rw [h kv hkv hnorm] at hnoisy
    exact absurd hnoisy (by decide)
  · obtain ⟨s, hs, ht⟩ := BuildTempMessages_topics msg baseTopic m hm
    exact hfixed s ht (by
      simp only [List.mem_cons, List.mem_singleton, List.not_mem_nil, or_false] at hs ⊢
      tauto)
  · obtain ⟨s, hs, ht⟩ := BuildJobMessages_topics msg baseTopic m hm
    exact hfixed s ht (by
      simp only [List.mem_cons, List.mem_singleton, List.not_mem_nil, or_false] at hs ⊢
      tauto)
  · obtain ⟨s, hs, ht⟩ := BuildStateMessages_topics cache now msg baseTopic m hm
    exact hfixed s ht (by
      simp only [List.mem_cons, List.mem_singleton, List.not_mem_nil, or_false] at hs ⊢
      tauto)
  · obtain ⟨t, ht⟩ := BuildCFSBoxMessages_topics msg baseTopic m hm
    rw [ht, string_append_right_inj] at heq
    exact cfs_name_not_noisy t "video" (by decide) heq

/-- C37 fails on the code: the descriptor "Camera Stream Active" declares base/video as its
state topic, but "video" is in the denylist of the mapper, so a snapshot with the field video
gives no message on base/video (unless it also has another key that is normalised to "video",
such as "Video").  For the snapshot with video = 1 and video1 = 0 the mapper emits
base/printing and base/printer_status only. -/
theorem C37_video_topic_is_not_fed :
    (∀ (cfg : Config) (device : Device) (availTopic : String), cfg.PrinterIP ≠ "" →
      ∃ sensor : BinarySensorConfig,
        (BuildCameraSensors cfg device availTopic).getLast? =
          some { Topic := cfg.DiscoveryPrefix ++ "/binary_sensor/" ++ cfg.DeviceID ++
                   "/video_stream/config",
                 Payload := sensor.marshal, Retain := true } ∧
        sensor.Name = "Camera Stream Active" ∧
        sensor.StateTopic = cfg.BaseTopic ++ "/video") ∧
    (∀ (u : UnicodeCase) (cache : PrinterStatusCache) (now : Int) (msg : Snapshot)
        (baseTopic : String),
      (∀ kv ∈ msg, normaliseKey u kv.1 = "video" → kv.1 = "video") →
      ∀ m ∈ (MapMessageToMqtt u cache now msg baseTopic).1, m.Topic ≠ baseTopic ++ "/video") ∧
    (∀ (u : UnicodeCase) (cache : PrinterStatusCache) (now : Int) (v : Value)
        (baseTopic : String),
      ∀ m ∈ (MapMessageToMqtt u cache now [("video", v)] baseTopic).1,
        m.Topic ≠ baseTopic ++ "/video") ∧
    json.Unmarshal "\x7b\"video\":1,\"video1\":0\x7d".data =
      some [("video", .float64 (F64.ofInt 1)), ("video1", .float64 (F64.ofInt 0))] ∧
    (MapMessageToMqtt UnicodeCase.caseless PrinterStatusCache.initial clock2026
        [("video", .float64 (F64.ofInt 1)), ("video1", .float64 (F64.ofInt 0))]
        "printer/test").1 =
      [{ Topic := "printer/test/printing", Payload := "false", Retain := false },
       { Topic := "printer/test/printer_status", Payload := "idle", Retain := false }] := by
  refine ⟨?_, no_video_topic, ?_, rfl, by decide⟩
  · intro cfg device availTopic hip
    unfold BuildCameraSensors
    rw [if_neg hip]
    exact ⟨_, rfl, rfl, rfl⟩
  · intro u cache now v baseTopic
    apply no_video_topic
    intro kv hkv _
    rw [List.mem_singleton] at hkv
    rw [hkv]

/-- The decoder accepts a text exactly when it reads one value from it, with white space
around it at most, and that value is an object or null. -/
theorem Unmarshal_eq_some_iff (data : List Char) (msg : Snapshot) :
    json.Unmarshal data = some msg ↔
      ∃ v rest, json.decodeValue (data.length + 1) 0 (json.skipWhite data) = some (v, rest) ∧
        json.skipWhite rest = [] ∧ (v = .object msg ∨ (v = .null ∧ msg = [])) := by
  unfold json.Unmarshal
  constructor
  · intro h
    split at h
    · exact Option.noConfusion h
    · rename_i v rest hdec
      split_ifs at h with hrest
      have hrest' : json.skipWhite rest = [] := by
        by_contra hc; exact hrest hc
      refine ⟨v, rest, hdec, hrest', ?_⟩
      split at h
      · left; rw [Option.some.inj h]
      · right; exact ⟨rfl, (Option.some.inj h).symm⟩
      · exact Option.noConfusion h
  · rintro ⟨v, rest, hdec, hrest, hv⟩
    rw [hdec]
    simp only [hrest, ne_eq, not_true_eq_false, if_false]
    rcases hv with hv | ⟨hv, hmsg⟩
    · rw [hv]
    · rw [hv, hmsg]

/-- A text that the decoder accepts starts, after white space, with an opening brace, or it is
the word null with white space around it at most, and then the mapping is empty. -/
theorem Unmarshal_accepts (data : List Char) (msg : Snapshot)
    (h : json.Unmarshal data = some msg) :
    (∃ tail, json.skipWhite data = '\x7b' :: tail) ∨
    (msg = [] ∧ ∃ ws, json.skipWhite data = 'n' :: 'u' :: 'l' :: 'l' :: ws ∧
      json.skipWhite ws = []) := by
  obtain ⟨v, rest, hdec, hrest, hv⟩ := (Unmarshal_eq_some_iff data msg).mp h
  rcases decodeValue_cases _ _ _ v rest hdec with
    ⟨m, tail, -, hs⟩ | ⟨items, hi⟩ | ⟨str, hi⟩ | ⟨b, hi⟩ | ⟨hn, hs⟩ | ⟨text, f, hi, -, -⟩
  · exact Or.inl ⟨tail, hs⟩
  · rcases hv with hv | ⟨hv, -⟩ <;> rw [hi] at hv <;> exact Value.noConfusion hv
  · rcases hv with hv | ⟨hv, -⟩ <;> rw [hi] at hv <;> exact Value.noConfusion hv
  · rcases hv with hv | ⟨hv, -⟩ <;> rw [hi] at hv <;> exact Value.noConfusion hv
  · rcases hv with hv | ⟨-, hmsg⟩
    · rw [hn] at hv
      exact Value.noConfusion hv
    · exact Or.inr ⟨hmsg, rest, hs, hrest⟩
  · rcases hv with hv | ⟨hv, -⟩ <;> rw [hi] at hv <;> exact Value.noConfusion hv

set_option maxRecDepth 100000 in
set_option exponentiation.threshold 2000 in
/-- C32 (as amended). `DecodeAndMap` returns an error and no messages exactly when
`json.Unmarshal` returns an error for the text; the cache of the printer status is then
unchanged, and the snapshot handler publishes nothing and keeps its state.  In every other case
it returns `MapMessageToMqtt` of the decoded mapping.  A text that is not rejected starts,
after white space, with an opening brace, or it is the JSON value null with white space around
it at most, and then the mapping is empty: every other text is an error, among them texts that
are not JSON, a truncated object, an array, a number and a string.  A JSON object can be an
error too: one with a number outside the range of `float64` is, while the same object with a
number inside the range is decoded. -/
theorem C32_decode_errors (u : UnicodeCase) (cache : PrinterStatusCache) (now : Int)
    (data baseTopic : String) :
    ((DecodeAndMap u cache now data baseTopic).1 = none ↔ json.Unmarshal data.data = none) ∧
    (json.Unmarshal data.data = none → DecodeAndMap u cache now data baseTopic = (none, cache)) ∧
    (∀ msg, json.Unmarshal data.data = some msg →
      DecodeAndMap u cache now data baseTopic =
        (some (MapMessageToMqtt u cache now msg baseTopic).1,
         (MapMessageToMqtt u cache now msg baseTopic).2)) ∧
    (∀ msg, json.Unmarshal data.data = some msg ↔
      ∃ v rest,
        json.decodeValue (data.data.length + 1) 0 (json.skipWhite data.data) = some (v, rest) ∧
        json.skipWhite rest = [] ∧ (v = .object msg ∨ (v = .null ∧ msg = []))) ∧
    (∀ (flags : Flags) (st : HandlerState), json.Unmarshal data.data = none →
      (handler u flags st now data).1.calls = [] ∧ (handler u flags st now data).2 = st) ∧
    (∀ text ∈ ["", "not json", "\x7b\"nozzleTemp\":", "[1,2]", "42", "\"text\"", "true",
        "\x7b\"a\":1\x7d trailing", "\x7bnozzleTemp:1\x7d"],
      DecodeAndMap u cache now text baseTopic = (none, cache)) ∧
    json.Unmarshal " \x7b\"a\":1,\"b\":\x7b\"c\":[]\x7d\x7d\n".data =
      some [("a", .float64 (F64.ofInt 1)), ("b", .object [("c", .array [])])] ∧
    ((∀ tail, json.skipWhite data.data ≠ '\x7b' :: tail) →
      (DecodeAndMap u cache now data baseTopic = (none, cache) ∨
       ((∃ ws, json.skipWhite data.data = 'n' :: 'u' :: 'l' :: 'l' :: ws ∧
          json.skipWhite ws = []) ∧
        DecodeAndMap u cache now data baseTopic =
          (some (MapMessageToMqtt u cache now [] baseTopic).1,
           (MapMessageToMqtt u cache now [] baseTopic).2)))) ∧
    DecodeAndMap u cache now "\x7b\"a\":1e310\x7d" baseTopic = (none, cache) ∧
    (∃ f, json.Unmarshal "\x7b\"a\":1e308\x7d".data = some [("a", .float64 f)]) := by
  refine ⟨?_, ?_, ?_, fun msg => Unmarshal_eq_some_iff data.data msg, ?_, ?_, rfl, ?_, ?_,
    ⟨_, rfl⟩⟩
  · unfold DecodeAndMap
    cases json.Unmarshal data.data <;> simp
  · intro h
    unfold DecodeAndMap
    rw [h]
  · intro msg h
    unfold DecodeAndMap
    rw [h]
  · intro flags st h
    unfold handler DecodeAndMap
    rw [h]
    exact ⟨rfl, rfl⟩
  · intro text ht
    simp only [List.mem_cons, List.mem_singleton, List.not_mem_nil, or_false] at ht
    have herr : json.Unmarshal text.data = none := by
      rcases ht with rfl | rfl | rfl | rfl | rfl | rfl | rfl | rfl | rfl <;> rfl
    unfold DecodeAndMap
    rw [herr]
  · intro hbrace
    cases hU : json.Unmarshal data.data with
    | none =>
      left
      unfold DecodeAndMap
      rw [hU]
    | some msg =>
      right
      rcases Unmarshal_accepts data.data msg hU with ⟨tail, ht⟩ | ⟨hmsg, hnull⟩
      · exact absurd ht (hbrace tail)
      · refine ⟨hnull, ?_⟩
        unfold DecodeAndMap
        rw [hU, hmsg]
  · have herr : json.Unmarshal "\x7b\"a\":1e310\x7d".data = none := rfl
    unfold DecodeAndMap
    rw [herr]

set_option maxRecDepth 100000 in
set_option exponentiation.threshold 2000 in
/-- C32 (counterexample). The text "null" is not the JSON encoding of an object, yet
`DecodeAndMap` returns no error for it: it returns the messages of the empty snapshot and
updates the cache of the printer status.  The text of the object with the one member "a" whose
value is the number 1e310 is the JSON encoding of an object, yet `DecodeAndMap` returns an
error for it, since the number is outside the range of `float64`. -/
theorem C32_counterexample_null :
    json.Unmarshal "null".data = some [] ∧
    DecodeAndMap UnicodeCase.caseless PrinterStatusCache.initial clock2026 "null" "p/k1" =
      (some [{ Topic := "p/k1/printing", Payload := "false", Retain := false },
             { Topic := "p/k1/printer_status", Payload := "idle", Retain := false }],
       { lastStatus := "idle", lastPublished := clock2026, lastUpdate := 0 }) ∧
    (DecodeAndMap UnicodeCase.caseless PrinterStatusCache.initial clock2026 "null" "p/k1").2 ≠
      PrinterStatusCache.initial ∧
    json.scanNumber "1e310\x7d".data = some ("1e310".data, "\x7d".data) ∧
    ParseFloat "1e310" = none ∧
    json.Unmarshal "\x7b\"a\":1e310\x7d".data = none ∧
    DecodeAndMap UnicodeCase.caseless PrinterStatusCache.initial clock2026
        "\x7b\"a\":1e310\x7d" "p/k1" = (none, PrinterStatusCache.initial) := by
  refine ⟨rfl, by decide, by decide, rfl, rfl, rfl, rfl⟩

/-! ## Idempotence of the key normalisation -/

/-- A non-empty end part of a list has the last element of the list. -/
theorem getLast?_of_suffix {α : Type} (e l : List α) (h : e <:+ l) (a : α)
    (ha : e.getLast? = some a) : l.getLast? = some a := by
  obtain ⟨s, rfl⟩ := h
  rw [List.getLast?_append, ha]
  rfl

/-- What is left after dropping from both ends the elements that satisfy `p` neither starts nor
ends with such an element. -/
theorem trim_ends {α : Type} (p : α → Bool) (l : List α) :
    (∀ a, ((l.dropWhile p).reverse.dropWhile p).reverse.head? = some a → p a = false) ∧
    (∀ a, ((l.dropWhile p).reverse.dropWhile p).reverse.getLast? = some a → p a = false) := by
  constructor
  · intro a ha
    rw [List.head?_reverse] at ha
    have h1 := getLast?_of_suffix _ _ (List.dropWhile_suffix p) a ha
    rw [List.getLast?_reverse] at h1
    have h2 := List.head?_dropWhile_not p l
    rw [h1] at h2
    exact h2
  · intro a ha
    rw [List.getLast?_reverse] at ha
    have h2 := List.head?_dropWhile_not p (l.dropWhile p).reverse
    rw [ha] at h2
    exact h2

/-- Dropping from both ends the elements that satisfy `p` changes nothing when the list neither
starts nor ends with such an element. -/
theorem trim_id {α : Type} (p : α → Bool) (l : List α)
    (h1 : ∀ a, l.head? = some a → p a = false)
    (h2 : ∀ a, l.getLast? = some a → p a = false) :
    ((l.dropWhile p).reverse.dropWhile p).reverse = l := by
  cases l with
  | nil => rfl
  | cons a t =>
    have ha : ¬ p a = true := by
      rw [h1 a rfl]; exact Bool.false_ne_true
    rw [List.dropWhile_cons_of_neg ha]
    cases hR : (a :: t).reverse with
    | nil => simp at hR
    | cons z R =>
      have hz : (a :: t).getLast? = some z := by
        rw [← List.head?_reverse, hR]; rfl
      have hpz : ¬ p z = true := by
        rw [h2 z hz]; exact Bool.false_ne_true
      rw [List.dropWhile_cons_of_neg hpz, ← hR, List.reverse_reverse]

/-- The first character that `normaliseKey` writes is the lower-case form of the first
character it reads. -/
theorem normaliseKeyLoop_head (u : UnicodeCase) (l : List Char) :
    (normaliseKeyLoop u none l).head? = l.head?.map (unicode.ToLower u) := by
  cases l with
  | nil => rfl
  | cons x rest => simp [normaliseKeyLoop]

/-- The last character that `normaliseKey` writes is the lower-case form of the last
character it reads. -/
theorem normaliseKeyLoop_last (u : UnicodeCase) :
    ∀ (l : List Char) (prev : Option Char),
      (normaliseKeyLoop u prev l).getLast? = l.getLast?.map (unicode.ToLower u) := by
  intro l
  induction l with
  | nil => intro prev; rfl
  | cons x rest ih =>
    intro prev
    unfold normaliseKeyLoop
    rw [List.getLast?_append, ih (some x), List.getLast?_append]
    have hx : (x :: rest).getLast? = rest.getLast?.or (some x) := by
      have : x :: rest = [x] ++ rest := rfl
      rw [this, List.getLast?_append]
      rfl
    rw [hx]
    cases rest.getLast? <;> simp

/-- An ASCII character that is not an uppercase letter is its own lower-case form. -/
theorem toLower_of_not_upper (u : UnicodeCase) (c : Char) (h : c.toNat < 128)
    (hup : unicode.IsUpper u c = false) : unicode.ToLower u c = c := by
  unfold unicode.IsUpper at hup
  unfold unicode.ToLower
  simp only [h, if_true, decide_eq_false_iff_not] at hup ⊢
  rw [if_neg hup]

/-- The loop of `normaliseKey` leaves a text of ASCII characters without uppercase letter as
it is. -/
theorem normaliseKeyLoop_fixed (u : UnicodeCase) :
    ∀ (l : List Char) (prev : Option Char),
      (∀ c ∈ l, c.toNat < 128 ∧ unicode.IsUpper u c = false) →
        normaliseKeyLoop u prev l = l := by
  intro l
  induction l with
  | nil => intro prev _; rfl
  | cons x rest ih =>
    intro prev h
    obtain ⟨hx1, hx2⟩ := h x (List.mem_cons_self _ _)
    unfold normaliseKeyLoop
    rw [ih (some x) (fun c hc => h c (List.mem_cons_of_mem _ hc)),
      toLower_of_not_upper u x hx1 hx2]
    cases prev <;> simp [hx2]

/-- The lower-case form of an ASCII character that is not white space is not white space. -/
theorem toLower_not_space (u : UnicodeCase) (c : Char) (h : c.toNat < 128)
    (hsp : isSpace c = false) : isSpace (unicode.ToLower u c) = false := by
  have key : ∀ n, n < 128 → isSpace (Char.ofNat n) = false →
      isSpace (unicode.ToLower UnicodeCase.caseless (Char.ofNat n)) = false := by
    decide
  have hl : unicode.ToLower u c = unicode.ToLower UnicodeCase.caseless c := by
    simp [unicode.ToLower, h]
  rw [hl]
  exact ascii_cases (fun c => isSpace c = false →
      isSpace (unicode.ToLower UnicodeCase.caseless c) = false) key c h hsp

/-- The characters that `normaliseKey` writes for an ASCII key are ASCII characters other than
the uppercase letters and the space. -/
theorem normaliseKey_chars (u : UnicodeCase) (key : String)
    (hascii : ∀ c ∈ key.data, c.toNat < 128) :
    ∀ c ∈ (normaliseKey u key).data,
      c.toNat < 128 ∧ unicode.IsUpper u c = false ∧ c ≠ ' ' := by
  intro c hc
  unfold normaliseKey at hc
  simp only at hc
  rcases mem_normaliseKeyLoop u _ none c hc with h | ⟨r, hr, h⟩
  · subst h
    refine ⟨by decide, ?_, by decide⟩
    simp [unicode.IsUpper]
  · subst h
    obtain ⟨c0, hc0, rfl⟩ := List.mem_map.mp hr
    have h0 : c0.toNat < 128 := hascii c0 (mem_TrimSpace _ _ hc0)
    by_cases hsp : c0 = ' '
    · subst hsp
      rw [if_pos rfl]
      exact toLower_ascii u '_' (by decide) (by decide)
    · rw [if_neg hsp]
      exact toLower_ascii u c0 h0 hsp

/-- C40. `normaliseKey` is idempotent on ASCII keys: normalising the normalised key gives the
normalised key. -/
theorem C40_normaliseKey_idempotent (u : UnicodeCase) (k : String)
    (hascii : ∀ c ∈ k.data, c.toNat < 128) :
    normaliseKey u (normaliseKey u k) = normaliseKey u k := by
  have hchars := normaliseKey_chars u k hascii
  have hkey : normaliseKey u k = String.mk (normaliseKeyLoop u none
      ((TrimSpace k.data).map (fun c => if c = ' ' then '_' else c))) := rfl
  -- the normalised key neither starts nor ends with white space
  have hends := trim_ends isSpace k.data
  have hsrc : ∀ c, c ∈ TrimSpace k.data → isSpace c = false →
      isSpace (unicode.ToLower u (if c = ' ' then '_' else c)) = false := by
    intro c hc hsp
    have hne : c ≠ ' ' := by
      intro h; subst h; exact absurd hsp (by decide)
    rw [if_neg hne]
    exact toLower_not_space u c (hascii c (mem_TrimSpace _ _ hc)) hsp
  have hhead : ∀ a, (normaliseKey u k).data.head? = some a → isSpace a = false := by
    intro a ha
    rw [hkey] at ha
    simp only [normaliseKeyLoop_head, List.head?_map, Option.map_eq_some'] at ha
    obtain ⟨b, ⟨c, hc, rfl⟩, rfl⟩ := ha
    exact hsrc c (List.mem_of_mem_head? hc) (hends.1 c hc)
  have hlast : ∀ a, (normaliseKey u k).data.getLast? = some a → isSpace a = false := by
    intro a ha
    rw [hkey] at ha
    simp only [normaliseKeyLoop_last, List.getLast?_map, Option.map_eq_some'] at ha
    obtain ⟨b, ⟨c, hc, rfl⟩, rfl⟩ := ha
    exact hsrc c (List.mem_of_mem_getLast? hc) (hends.2 c hc)
  have htrim : TrimSpace (normaliseKey u k).data = (normaliseKey u k).data :=
    trim_id isSpace _ hhead hlast
  have hmap : (normaliseKey u k).data.map (fun c => if c = ' ' then '_' else c) =
      (normaliseKey u k).data := by
    conv_rhs => rw [← List.map_id (normaliseKey u k).data]
    apply List.map_congr_left
    intro c hc
    rw [if_neg (hchars c hc).2.2]
    rfl
  have hloop : normaliseKeyLoop u none (normaliseKey u k).data = (normaliseKey u k).data :=
    normaliseKeyLoop_fixed u _ none (fun c hc => ⟨(hchars c hc).1, (hchars c hc).2.1⟩)
  have hagain : normaliseKey u (normaliseKey u k) = String.mk (normaliseKeyLoop u none
      ((TrimSpace (normaliseKey u k).data).map (fun c => if c = ' ' then '_' else c))) := rfl
  rw [hagain, htrim, hmap, hloop]

/-- C40 (witness). The key "  cur PositionXY " is normalised to "cur_position_xy", which is
normalised to itself. -/
theorem C40_normaliseKey_idempotent_witness :
    normaliseKey UnicodeCase.caseless (normaliseKey UnicodeCase.caseless "  cur PositionXY ") =
      normaliseKey UnicodeCase.caseless "  cur PositionXY " :=
  C40_normaliseKey_idempotent UnicodeCase.caseless "  cur PositionXY " (by decide)

end Creality
